import Mathlib

/-!
The record processors and the extractors of go-csvParse.

A shallow embedding of `processor.go` (the six record processors and the
factory `getProcessor`), of the extractors (`dataTypes.go`, `cell.go`,
`concatCell.go`, `timefield.go`, `table.go` and `Csv.ParseRecords` of `csv.go`)
with the constructors `NewCellLocation` and `NewTableLocation`, of the file-name
fields (`fileName.go`, `Csv.ParseFileNames`) and of the identifiers
(`idField.go`), together with the small part of the Go run time they rely on: slices with bounds-checked indexing, `make`, `copy`, three-clause `for`
loops, maps, `strings.Join`, `strings.TrimSpace`, `strings.ReplaceAll`,
`strconv.ParseInt` and `strconv.ParseBool`.

Modelling conventions.

* A Go `[]string` is a `List String`, a `[][]string` a list of rows.  Every slice
  the repository builds (`make`, slice literals, the tokenizer's records) has its
  capacity equal to its length, so a slice expression is in range exactly when
  its bounds are within the length.  Rows are values: two rows of one record
  array never share a backing array.
* A Go `string` is a `String`, a sequence of Unicode code points (byte sequences
  that are not valid UTF-8 are not represented).
* Go `int` is `Int`.  Every arithmetic expression of the processors is bounded by
  the lengths involved once the guards have passed, so no wrap-around occurs.
* A call either returns a value, returns a Go `error`, or panics at run time;
  the three outcomes are kept apart (`Fault.error` versus `Fault.panic`).
* A Go map with string keys is an association list with distinct keys, read
  with `mapGet` and written with `mapSet`; the order of the list is not
  observable in Go.  The dynamic values held in an `any` are the types `Value`,
  `TableData`, `DocValue` and `Output`.
* `strconv.ParseFloat`, `time.ParseInLocation` and `Time.Format` are not
  modelled: they are the fields of a parameter `StdLib`.  In the same way
  `strconv.FormatFloat`, `json.Unmarshal`, the package `regexp` and
  `fmt.Sprintf("%v", v)` are the parameters `FormatFloat`, `Unmarshal`,
  `RegexpLib` and `Sprint` of the functions that call them.
* The documents `IdField.Process` reads are values of `Any`: a scalar, a
  mapping with string keys, or a sequence; an element of a `Mapping` is a
  `PathParam`.
* A slice expression shares the cells of its operand.  The only place where the
  extractors write through such a slice is the renaming loop of
  `parseTableHeader`; its effect on the record array and on `HeaderNames` is
  part of the value of the model (`TableHeader.records`, `TableParse.records`).
-/

namespace CsvParse

/-! ## Outcomes -/

/-- The error values the processors and the extractors build with `fmt.Errorf`
or receive from the standard library, one constructor per call site (the
formatted text is not modelled, the position is).  `wrapped context inner` is an
error built with the verb `%w` around `inner`; `context` is the format string.
`invalidArgument text` is an error of `NewCellLocation` or `NewTableLocation`,
whose texts have no arguments. -/
inductive ProcError
  | negativeStart
  | endRowBeforeStart
  | endColumnBeforeStart
  | startRowBeyondRecords
  | endRowBeyondRecords
  | endColumnBeyondRow (n : Int)
  | rowLengthMismatch (n : Int)
  | negativeCell
  | cellRowBeyondRecords
  | cellColumnBeyondRow
  | rowOutOfBounds (maxRow requestedRow : Int)
  | columnOutOfBounds (maxColumn requestedColumn : Int)
  | csvShorter (length start : Int)
  | parseInt (value : String)
  | parseFloat (value : String)
  | parseTime (layout value : String)
  | notANumber (value : String)
  | unknownDataType (dt : Int)
  | duplicateCell (name : String)
  | duplicateConcatCell (name : String)
  | duplicateTable (name : String)
  | duplicateTimestamp (name : String)
  | invalidOptions (name : String)
  | wrongTableType
  | invalidType (processorType : Int)
  | unmarshalFailed (processorType : Int)
  | dataEmpty
  | parametersEmpty
  | emptyMap
  | keyKindMismatch
  | keyNotFound (key : String)
  | indexKindMismatch
  | indexOutOfBounds (index : Int)
  | unexpectedType
  | pathTooShort (endLocation length : Int)
  | regexpCompile (pattern : String)
  | noMatch
  | invalidArgument (text : String)
  | wrapped (context : String) (inner : ProcError)
deriving DecidableEq, Repr

/-- How a call can end without a value: a returned `error`, or a run-time panic
(index or slice bounds out of range, `make` with a negative length). -/
inductive Fault
  | error (e : ProcError)
  | panic
deriving DecidableEq, Repr

instance instDecidableEqExcept {ε α : Type} [DecidableEq ε] [DecidableEq α] :
    DecidableEq (Except ε α)
  | .ok a, .ok b =>
    if h : a = b then isTrue (by rw [h]) else isFalse (fun h' => h (by cases h'; rfl))
  | .error a, .error b =>
    if h : a = b then isTrue (by rw [h]) else isFalse (fun h' => h (by cases h'; rfl))
  | .ok _, .error _ => isFalse (fun h => by cases h)
  | .error _, .ok _ => isFalse (fun h => by cases h)

/-- The outcome of a Go call: `.ok v`, `.error (.error e)` or `.error .panic`. -/
abbrev Exec (α : Type) : Type := Except Fault α

/-! ## Go slices -/

/-- The `len` builtin. -/
def goLen {α : Type} (xs : List α) : Int := (xs.length : Int)

/-- The index expression `xs[i]` as an r-value. -/
def index {α : Type} (xs : List α) (i : Int) : Exec α :=
  if i < 0 then .error .panic
  else match xs[i.toNat]? with
    | some v => .ok v
    | none => .error .panic

/-- The assignment `xs[i] = v`. -/
def setIndex {α : Type} (xs : List α) (i : Int) (v : α) : Exec (List α) :=
  if 0 ≤ i ∧ i < goLen xs then .ok (xs.set i.toNat v) else .error .panic

/-- The slice expression `xs[:hi]`. -/
def sliceTo {α : Type} (xs : List α) (hi : Int) : Exec (List α) :=
  if 0 ≤ hi ∧ hi ≤ goLen xs then .ok (xs.take hi.toNat) else .error .panic

/-- The slice expression `xs[lo:]`. -/
def sliceFrom {α : Type} (xs : List α) (lo : Int) : Exec (List α) :=
  if 0 ≤ lo ∧ lo ≤ goLen xs then .ok (xs.drop lo.toNat) else .error .panic

/-- The slice expression `xs[lo:hi]`. -/
def slice {α : Type} (xs : List α) (lo hi : Int) : Exec (List α) :=
  if 0 ≤ lo ∧ lo ≤ hi ∧ hi ≤ goLen xs then .ok ((xs.drop lo.toNat).take (hi - lo).toNat)
  else .error .panic

/-- The builtin `make([]T, n)`: `n` zero values (`zero` is `""` for strings and the
nil row for rows).  A negative length panics.  The other panic of `makeslice`,
for a length beyond what can be allocated, is not modelled: here every
non-negative length gives a slice, so a statement that a call returns is about
the program only where the lengths it allocates are bounded by its input. -/
def make {α : Type} (zero : α) (n : Int) : Exec (List α) :=
  if n < 0 then .error .panic else .ok (List.replicate n.toNat zero)

/-- The builtin `copy(dst, src)`: the first `min (len dst) (len src)` elements of
`dst` are overwritten; the value is `dst` after the call. -/
def copy {α : Type} (dst src : List α) : List α :=
  src.take dst.length ++ dst.drop src.length

/-- The statement `copy(dst[off:], src)`; the value is `dst` after the call. -/
def copyFrom {α : Type} (dst : List α) (off : Int) (src : List α) : Exec (List α) := do
  let tail ← sliceFrom dst off
  pure (dst.take off.toNat ++ copy tail src)

/-- The r-value `m[r][c]`. -/
def index2 {α : Type} (m : List (List α)) (r c : Int) : Exec α := do
  let row ← index m r
  index row c

/-- The assignment `m[r][c] = v`. -/
def setIndex2 {α : Type} (m : List (List α)) (r c : Int) (v : α) : Exec (List (List α)) := do
  let row ← index m r
  let row ← setIndex row c v
  setIndex m r row

/-- Runs `k` iterations `body n; body (n+1); ...`, stopping at the first fault. -/
def forLoopAux {σ : Type} (body : Int → σ → Exec σ) : Nat → Int → σ → Exec σ
  | 0, _, s => .ok s
  | k + 1, n, s =>
    match body n s with
    | .ok s' => forLoopAux body k (n + 1) s'
    | .error f => .error f

/-- The loop `for n := lo; n < hi; n++ { body }` over a state `s` (neither bound is
assigned in any loop body of the processors). -/
def forLoop {σ : Type} (lo hi : Int) (body : Int → σ → Exec σ) (s : σ) : Exec σ :=
  forLoopAux body (hi - lo).toNat lo s

/-! ## Go strings -/

/-- The function `strings.Join(elems, sep)`. -/
def stringsJoin : List String → String → String
  | [], _ => ""
  | e :: rest, sep => rest.foldl (fun b s => b ++ sep ++ s) e

/-- The predicate `unicode.IsSpace`: the code points with the Unicode property
White_Space (tab to carriage return, space, U+0085, U+00A0, U+1680, U+2000 to
U+200A, U+2028, U+2029, U+202F, U+205F, U+3000). -/
def isSpace (c : Char) : Bool :=
  let n := c.toNat
  (0x09 ≤ n && n ≤ 0x0D) || n == 0x20 || n == 0x85 || n == 0xA0 || n == 0x1680 ||
  (0x2000 ≤ n && n ≤ 0x200A) || n == 0x2028 || n == 0x2029 || n == 0x202F ||
  n == 0x205F || n == 0x3000

/-- The function `strings.TrimSpace`: leading and trailing white space removed. -/
def TrimSpace (s : String) : String :=
  ⟨(s.data.dropWhile isSpace).rdropWhile isSpace⟩

/-! ## Data model (`cell.go`, `processor.go`) -/

/-- A cell coordinate; negative components are sentinels. -/
structure Cell where
  Row : Int
  Column : Int
deriving DecidableEq, Repr

/-- A record array: rows of strings, possibly ragged. -/
abbrev Records : Type := List (List String)

/-- The enum `ProcessorType`, `ProcessorTypeEnd` being its sentinel. -/
inductive ProcessorType
  | MergeColumns
  | MergeRows
  | FillRight
  | ReplaceCell
  | TransposeRow
  | RemoveCellLeft
  | End
deriving DecidableEq, Repr

structure ProcessorMergeColumns where
  Name : String := ""
  Start : Cell
  End : Cell
  Delimiter : String := ""
deriving DecidableEq, Repr

structure ProcessorMergeRows where
  Name : String := ""
  StartRow : Int
  EndRow : Int
  Delimiter : String := ""
  TrimWhitespace : Bool := false
deriving DecidableEq, Repr

structure ProcessorFillRight where
  Name : String := ""
  Start : Cell
  End : Cell
deriving DecidableEq, Repr

structure ProcessorReplaceCell where
  Name : String := ""
  Cell : Cell
  Value : String := ""
deriving DecidableEq, Repr

structure ProcessorTransposeRow where
  Name : String := ""
  StartRow : Int
  EndRow : Int
deriving DecidableEq, Repr

structure ProcessorRemoveCellLeft where
  Name : String := ""
  Cell : Cell
deriving DecidableEq, Repr

/-! ## `ProcessorMergeColumns.Execute` -/

/-- The first and the last loop of `Execute`: `new[n] = records[n]`. -/
def copyRowBody (records : Records) (n : Int) (new : Records) : Exec Records := do
  let row ← index records n
  setIndex new n row

/-- The body of the band loop of `ProcessorMergeColumns.Execute`; the state is
`new` together with the variable `endColumn`, which outlives the iteration.  The
row `new[n]` is allocated, filled through the local `newRow`, and stored again. -/
def mergeColumnsBody (a : ProcessorMergeColumns) (records : Records) (n : Int)
    (st : Records × Int) : Exec (Records × Int) := do
  let row ← index records n
  let endColumn := if a.End.Column < 0 then goLen row else st.2
  if endColumn > goLen row then
    .error (.error (.endColumnBeyondRow n))
  else do
    let newRow ← make "" (goLen row - (endColumn - a.Start.Column) + 1)
    let new ← setIndex st.1 n newRow
    let newRow ←
      (if a.Start.Column ≠ 0 then do
        let src ← sliceTo row a.Start.Column
        pure (copy newRow src)
      else pure newRow)
    let part ← slice row a.Start.Column endColumn
    let newRow ← setIndex newRow a.Start.Column (stringsJoin part a.Delimiter)
    let newRow ←
      (if endColumn < goLen row then do
        let src ← sliceFrom row endColumn
        copyFrom newRow (a.Start.Column + 1) src
      else pure newRow)
    let new ← setIndex new n newRow
    pure (new, endColumn)

def ProcessorMergeColumns.Execute (a : ProcessorMergeColumns) (records : Records) :
    Exec Records :=
  if a.Start.Row < 0 ∨ a.Start.Column < 0 then
    .error (.error .negativeStart)
  else if a.End.Row < a.Start.Row ∧ ¬ (a.End.Row < 0) then
    .error (.error .endRowBeforeStart)
  else if a.End.Column < a.Start.Column ∧ ¬ (a.End.Column < 0) then
    .error (.error .endColumnBeforeStart)
  else if a.Start.Row > goLen records then
    .error (.error .startRowBeyondRecords)
  else if a.End.Row > goLen records then
    .error (.error .endRowBeyondRecords)
  else do
    let endRow := if a.End.Row < 0 then goLen records else a.End.Row
    let endColumn := a.End.Column
    let new ← make ([] : List String) (goLen records)
    let new ← forLoop 0 a.Start.Row (copyRowBody records) new
    let st ← forLoop a.Start.Row endRow (mergeColumnsBody a records) (new, endColumn)
    forLoop endRow (goLen records) (copyRowBody records) st.1

/-! ## `ProcessorMergeRows.Execute` -/

/-- The inner loop body of the `TrimWhitespace` branch. -/
def mergeRowsTrimCell (a : ProcessorMergeRows) (records : Records) (n i : Int)
    (new : Records) : Exec Records := do
  let cur ← index2 new a.StartRow i
  let nxt ← index2 records n i
  setIndex2 new a.StartRow i
    (TrimSpace (stringsJoin [TrimSpace cur, TrimSpace nxt] a.Delimiter))

/-- The inner loop body of the branch without trimming. -/
def mergeRowsPlainCell (a : ProcessorMergeRows) (records : Records) (n i : Int)
    (new : Records) : Exec Records := do
  let cur ← index2 new a.StartRow i
  let nxt ← index2 records n i
  setIndex2 new a.StartRow i (stringsJoin [cur, nxt] a.Delimiter)

/-- The body of the band loop of `ProcessorMergeRows.Execute`. -/
def mergeRowsBody (a : ProcessorMergeRows) (records : Records) (n : Int)
    (new : Records) : Exec Records := do
  let acc ← index new a.StartRow
  let row ← index records n
  if goLen acc ≠ goLen row then
    .error (.error (.rowLengthMismatch n))
  else if a.TrimWhitespace then
    forLoop 0 (goLen row) (mergeRowsTrimCell a records n) new
  else
    forLoop 0 (goLen row) (mergeRowsPlainCell a records n) new

/-- The body of the last loop: `new[a.StartRow+(n-endRow+1)] = records[n]`. -/
def mergeRowsTailBody (a : ProcessorMergeRows) (records : Records) (endRow n : Int)
    (new : Records) : Exec Records := do
  let row ← index records n
  setIndex new (a.StartRow + (n - endRow + 1)) row

def ProcessorMergeRows.Execute (a : ProcessorMergeRows) (records : Records) :
    Exec Records :=
  if a.StartRow < 0 then
    .error (.error .negativeStart)
  else if a.EndRow < a.StartRow ∧ ¬ (a.EndRow < 0) then
    .error (.error .endRowBeforeStart)
  else if a.StartRow > goLen records then
    .error (.error .startRowBeyondRecords)
  else if a.EndRow > goLen records then
    .error (.error .endRowBeyondRecords)
  else do
    let endRow := if a.EndRow < 0 then goLen records else a.EndRow
    let length :=
      if a.EndRow < 0 then 1 + a.StartRow
      else goLen records - (a.EndRow - a.StartRow) + 1
    let new ← make ([] : List String) length
    let new ← forLoop 0 a.StartRow (copyRowBody records) new
    let first ← index records a.StartRow
    let merged ← make "" (goLen first)
    let new ← setIndex new a.StartRow merged
    let new ← setIndex new a.StartRow (copy merged first)
    let new ← forLoop (a.StartRow + 1) endRow (mergeRowsBody a records) new
    forLoop endRow (goLen records) (mergeRowsTailBody a records endRow) new

/-! ## `ProcessorFillRight.Execute` -/

/-- The body of the column loop; `records` is updated in place. -/
def fillRightCell (n i : Int) (records : Records) : Exec Records := do
  let v ← index2 records n i
  if TrimSpace v ≠ "" then
    .ok records
  else if i = 0 then
    .ok records
  else do
    let prev ← index2 records n (i - 1)
    setIndex2 records n i prev

/-- The body of the band loop; the state is `records` together with `endColumn`. -/
def fillRightBody (a : ProcessorFillRight) (n : Int) (st : Records × Int) :
    Exec (Records × Int) := do
  let row ← index st.1 n
  let endColumn := if a.End.Column < 0 then goLen row else st.2
  if endColumn > goLen row then
    .error (.error (.endColumnBeyondRow n))
  else do
    let records ← forLoop a.Start.Column endColumn (fillRightCell n) st.1
    pure (records, endColumn)

def ProcessorFillRight.Execute (a : ProcessorFillRight) (records : Records) :
    Exec Records :=
  if a.Start.Row < 0 ∨ a.Start.Column < 0 then
    .error (.error .negativeStart)
  else if a.End.Row < a.Start.Row ∧ ¬ (a.End.Row < 0) then
    .error (.error .endRowBeforeStart)
  else if a.End.Column < a.Start.Column ∧ ¬ (a.End.Column < 0) then
    .error (.error .endColumnBeforeStart)
  else if a.Start.Row > goLen records then
    .error (.error .startRowBeyondRecords)
  else if a.End.Row > goLen records then
    .error (.error .endRowBeyondRecords)
  else do
    let endRow := if a.End.Row < 0 then goLen records else a.End.Row
    let endColumn := a.End.Column
    let st ← forLoop a.Start.Row endRow (fillRightBody a) (records, endColumn)
    pure st.1

/-! ## `ProcessorReplaceCell.Execute` -/

def ProcessorReplaceCell.Execute (a : ProcessorReplaceCell) (records : Records) :
    Exec Records :=
  if a.Cell.Row < 0 ∨ a.Cell.Column < 0 then
    .error (.error .negativeCell)
  else if a.Cell.Row > goLen records then
    .error (.error .cellRowBeyondRecords)
  else do
    let row ← index records a.Cell.Row
    if a.Cell.Column > goLen row then
      .error (.error .cellColumnBeyondRow)
    else
      setIndex2 records a.Cell.Row a.Cell.Column a.Value

/-! ## `ProcessorTransposeRow.Execute` -/

/-- The body of the column loop; `first` is the flag of the enclosing loop. -/
def transposeCell (a : ProcessorTransposeRow) (records : Records) (endRow n : Int)
    (first : Bool) (i : Int) (new : Records) : Exec Records := do
  let new ←
    (if first then do
      let line ← make "" (endRow - a.StartRow)
      setIndex new (n + i) line
    else pure new)
  let v ← index2 records n i
  setIndex2 new (a.StartRow + i) (n - a.StartRow) v

/-- The body of the band loop; the state is `new` together with `first`. -/
def transposeBody (a : ProcessorTransposeRow) (records : Records) (endRow n : Int)
    (st : Records × Bool) : Exec (Records × Bool) := do
  let firstRow ← index records a.StartRow
  let row ← index records n
  if goLen firstRow ≠ goLen row then
    -- the error text is built from `len(new[a.StartRow])`
    match index st.1 a.StartRow with
    | .ok _ => .error (.error (.rowLengthMismatch n))
    | .error f => .error f
  else do
    let new ← forLoop 0 (goLen row) (transposeCell a records endRow n st.2) st.1
    pure (new, false)

/-- The body of the last loop:
`new[a.StartRow+len(records[a.StartRow])+n-endRow] = records[n]`. -/
def transposeTailBody (a : ProcessorTransposeRow) (records : Records) (endRow n : Int)
    (new : Records) : Exec Records := do
  let firstRow ← index records a.StartRow
  let row ← index records n
  setIndex new (a.StartRow + goLen firstRow + n - endRow) row

def ProcessorTransposeRow.Execute (a : ProcessorTransposeRow) (records : Records) :
    Exec Records :=
  if a.StartRow < 0 then
    .error (.error .negativeStart)
  else if a.EndRow < a.StartRow ∧ ¬ (a.EndRow < 0) then
    .error (.error .endRowBeforeStart)
  else if a.StartRow > goLen records then
    .error (.error .startRowBeyondRecords)
  else if a.EndRow > goLen records then
    .error (.error .endRowBeyondRecords)
  else do
    let endRow := if a.EndRow < 0 then goLen records else a.EndRow
    let firstRow ← index records a.StartRow
    let length := a.StartRow + goLen firstRow
    let length := if a.EndRow > 0 then length + (goLen records - a.EndRow) else length
    let new ← make ([] : List String) length
    let new ← forLoop 0 a.StartRow (copyRowBody records) new
    let st ← forLoop a.StartRow endRow (transposeBody a records endRow) (new, true)
    forLoop endRow (goLen records) (transposeTailBody a records endRow) st.1

/-! ## `ProcessorRemoveCellLeft.Execute` -/

/-- The body of the loop; the state is `newRow` together with `deleted`. -/
def removeCellBody (a : ProcessorRemoveCellLeft) (row : List String) (i : Int)
    (st : List String × Int) : Exec (List String × Int) := do
  let deleted := if i = a.Cell.Column then 1 else st.2
  let v ← index row (i + deleted)
  let newRow ← setIndex st.1 i v
  pure (newRow, deleted)

def ProcessorRemoveCellLeft.Execute (a : ProcessorRemoveCellLeft) (records : Records) :
    Exec Records :=
  if a.Cell.Row < 0 ∨ a.Cell.Column < 0 then
    .error (.error .negativeCell)
  else if a.Cell.Row > goLen records then
    .error (.error .cellRowBeyondRecords)
  else do
    let row ← index records a.Cell.Row
    if a.Cell.Column > goLen row then
      .error (.error .cellColumnBeyondRow)
    else do
      let newRow ← make "" (goLen row - 1)
      let st ← forLoop 0 (goLen row - 1) (removeCellBody a row) (newRow, 0)
      setIndex records a.Cell.Row st.1

/-! ## The `Processor` interface -/

/-- The interface `Processor`: one variant per implementing type. -/
inductive Processor
  | mergeColumns (a : ProcessorMergeColumns)
  | mergeRows (a : ProcessorMergeRows)
  | fillRight (a : ProcessorFillRight)
  | replaceCell (a : ProcessorReplaceCell)
  | transposeRow (a : ProcessorTransposeRow)
  | removeCellLeft (a : ProcessorRemoveCellLeft)
deriving DecidableEq, Repr

def Processor.Execute : Processor → Records → Exec Records
  | .mergeColumns a, records => a.Execute records
  | .mergeRows a, records => a.Execute records
  | .fillRight a, records => a.Execute records
  | .replaceCell a, records => a.Execute records
  | .transposeRow a, records => a.Execute records
  | .removeCellLeft a, records => a.Execute records

def Processor.GetType : Processor → ProcessorType
  | .mergeColumns _ => .MergeColumns
  | .mergeRows _ => .MergeRows
  | .fillRight _ => .FillRight
  | .replaceCell _ => .ReplaceCell
  | .transposeRow _ => .TransposeRow
  | .removeCellLeft _ => .RemoveCellLeft

/-! ## Specification-side definitions -/

/-- The row `MergeColumns` produces from `row`, in closed form: the cells before
`sc`, the joined range `[sc, ec)`, the cells from `ec` on. -/
def mergedColumns (sc ec : Nat) (d : String) (row : List String) : List String :=
  row.take sc ++ [stringsJoin ((row.drop sc).take (ec - sc)) d] ++ row.drop ec

/-- The end column of a band in `row`: the row's length for the negative
sentinel, the configured column otherwise. -/
def resolveEndColumn (endColumn : Int) (row : List String) : Nat :=
  if endColumn < 0 then row.length else endColumn.toNat

/-- The end row of a band in `records`: the number of rows for the negative
sentinel, the configured row otherwise. -/
def resolveEndRow (endRow : Int) (records : Records) : Nat :=
  if endRow < 0 then records.length else endRow.toNat

/-- How `MergeRows` combines the accumulated cell with the cell of the next row. -/
def mergeCell (a : ProcessorMergeRows) (cur nxt : String) : String :=
  if a.TrimWhitespace then
    TrimSpace (stringsJoin [TrimSpace cur, TrimSpace nxt] a.Delimiter)
  else stringsJoin [cur, nxt] a.Delimiter

/-- The merged row after the rows `rest` have been folded into `first`. -/
def mergeRowsFold (a : ProcessorMergeRows) (first : List String)
    (rest : List (List String)) : List String :=
  rest.foldl (fun acc row => List.zipWith (mergeCell a) acc row) first

/-- A character list that neither starts nor ends with white space. -/
def Clean (l : List Char) : Prop :=
  (∀ c ∈ l.head?, isSpace c = false) ∧ (∀ c ∈ l.getLast?, isSpace c = false)

/-- The relation between a row and its filled version over the columns
`[sc, ec)`: same length, cells outside the range kept, a blank cell right of
column 0 takes the (already filled) cell to its left, any other cell is kept. -/
def FilledRow (sc ec : Nat) (row m : List String) : Prop :=
  m.length = row.length ∧
  (∀ i, ¬ (sc ≤ i ∧ i < ec) → m[i]? = row[i]?) ∧
  (∀ i v, sc ≤ i → i < ec → row[i]? = some v →
    (0 < i ∧ TrimSpace v = "" → m[i]? = m[i - 1]?) ∧
    (¬ (0 < i ∧ TrimSpace v = "") → m[i]? = some v))

/-- The state of the output lines `s .. s+w` while band row `n` is processed and
its cells `< c` are done: a line `i` is "written up to" `n+1-s` cells when
`i < c` and up to `n-s` cells otherwise. -/
def TransposedUpTo (R : Records) (s e w n c : Nat) (st : Records) : Prop :=
  ∀ i, i < w → (s < n ∨ i < c) →
    ∃ t, st[s + i]? = some t ∧ t.length = e - s ∧
      ∀ col rowc, col < (if i < c then n + 1 - s else n - s) → R[s + col]? = some rowc →
        t[col]? = rowc[i]?

/-- A string that is empty or consists of white space only. -/
def isBlank (s : String) : Bool := s.data.all isSpace

/-- The rows `[s, e)` of a record array. -/
def bandRows (R : Records) (s e : Nat) : List (List String) := (R.drop s).take (e - s)

/-- The first row a processor may rewrite: its start row, or the row of its
target cell. -/
def Processor.bandStart : Processor → Nat
  | .mergeColumns a => a.Start.Row.toNat
  | .mergeRows a => a.StartRow.toNat
  | .fillRight a => a.Start.Row.toNat
  | .replaceCell a => a.Cell.Row.toNat
  | .transposeRow a => a.StartRow.toNat
  | .removeCellLeft a => a.Cell.Row.toNat

/-- The row after the last one a processor may rewrite: its resolved end row, or
the row after its target cell. -/
def Processor.bandEnd : Processor → Records → Nat
  | .mergeColumns a, R => resolveEndRow a.End.Row R
  | .mergeRows a, R => resolveEndRow a.EndRow R
  | .fillRight a, R => resolveEndRow a.End.Row R
  | .replaceCell a, _ => a.Cell.Row.toNat + 1
  | .transposeRow a, R => resolveEndRow a.EndRow R
  | .removeCellLeft a, _ => a.Cell.Row.toNat + 1

/-- The configured start row of a processor: the start of its band, or the row of
its target cell. -/
def Processor.startRow : Processor → Int
  | .mergeColumns a => a.Start.Row
  | .mergeRows a => a.StartRow
  | .fillRight a => a.Start.Row
  | .replaceCell a => a.Cell.Row
  | .transposeRow a => a.StartRow
  | .removeCellLeft a => a.Cell.Row

/-! ## Go strings and maps used by the extractors -/

/-- The call `strings.ReplaceAll(s, " ", "_")`: both strings are one character
long, so the call maps every space to an underscore. -/
def replaceSpaces (s : String) : String :=
  ⟨s.data.map (fun c => if c = ' ' then '_' else c)⟩

/-- The function `unicode.ToLower` on the code points whose lower case is an
ASCII letter: `A` to `Z`, the Kelvin sign (to `k`) and the dotted capital `I`
(to `i`).  No other code point has an ASCII lower case, and the callers only
compare the folded text with ASCII literals, so the other code points are left
as they are. -/
def toLowerRune (c : Char) : Char :=
  if 'A' ≤ c ∧ c ≤ 'Z' then Char.ofNat (c.toNat + 32)
  else if c.toNat = 0x212A then 'k'
  else if c.toNat = 0x0130 then 'i'
  else c

/-- The function `strings.ToLower`, through `toLowerRune`. -/
def ToLower (s : String) : String := ⟨s.data.map toLowerRune⟩

/-- The value of a string of decimal digits. -/
def digitsValue (ds : List Char) : Nat :=
  ds.foldl (fun acc d => 10 * acc + (d.toNat - '0'.toNat)) 0

/-- The call `strconv.ParseInt(s, 10, 64)`, `none` standing for a returned error:
an optional sign followed by at least one decimal digit and nothing else, the
value being within the range of `int64`. -/
def ParseInt (s : String) : Option Int :=
  match s.data with
  | [] => none
  | c :: cs =>
    let neg := c = '-'
    let ds := if c = '+' ∨ c = '-' then cs else c :: cs
    if ds = [] ∨ ds.all Char.isDigit = false then none
    else if neg then
      (if digitsValue ds ≤ 2 ^ 63 then some (-(digitsValue ds : Int)) else none)
    else
      (if digitsValue ds < 2 ^ 63 then some (digitsValue ds : Int) else none)

/-- The function `strconv.ParseBool`, `none` standing for a returned error. -/
def ParseBool (s : String) : Option Bool :=
  if s = "1" ∨ s = "t" ∨ s = "T" ∨ s = "TRUE" ∨ s = "true" ∨ s = "True" then some true
  else if s = "0" ∨ s = "f" ∨ s = "F" ∨ s = "FALSE" ∨ s = "false" ∨ s = "False" then
    some false
  else none

/-- The r-value `m[k]` of a Go map together with its presence flag.  A map is an
association list with distinct keys; Go does not expose an order of the
keys. -/
def mapGet {β : Type} : List (String × β) → String → Option β
  | [], _ => none
  | (k', v) :: rest, k => if k' = k then some v else mapGet rest k

/-- The assignment `m[k] = v` of a Go map. -/
def mapSet {β : Type} : List (String × β) → String → β → List (String × β)
  | [], k, v => [(k, v)]
  | (k', v') :: rest, k, v =>
    if k' = k then (k, v) :: rest else (k', v') :: mapSet rest k v

/-- The statement `if err != nil { return ..., fmt.Errorf(context, ..., err) }`
after a call: a returned error is wrapped, a panic goes on unwinding. -/
def wrapErr {α : Type} (context : String) : Exec α → Exec α
  | .ok v => .ok v
  | .error (.error e) => .error (.error (.wrapped context e))
  | .error .panic => .error .panic

/-! ## Values and data types (`dataTypes.go`) -/

/-- The type `Float64`, kept as the bit pattern of its `float64`. -/
structure Float64 where
  bits : Nat
deriving DecidableEq, Repr

/-- A `time.Time` instant. -/
structure Time where
  unixNano : Int
deriving DecidableEq, Repr

/-- The standard-library functions whose results the extractors pass on and
which are not defined here; every definition that calls one of them takes the
library as a parameter, `none` standing for a returned error. -/
structure StdLib where
  /-- The call `strconv.ParseFloat(s, 64)`. -/
  ParseFloat : String → Option Float64
  /-- The call `time.ParseInLocation(layout, value, time.Local)`. -/
  ParseInLocation : String → String → Option Time
  /-- The call `t.Format(time.RFC3339)`. -/
  FormatRFC3339 : Time → String

/-- The dynamic values `DataType.Read` returns in an `any`; `null` is `nil`. -/
inductive Value
  | null
  | int64 (n : Int)
  | float64 (f : Float64)
  | bool (b : Bool)
  | string (s : String)
deriving DecidableEq, Repr

/-- The text the verb `%T` prints for a value. -/
def typeName : Value → String
  | .null => "<nil>"
  | .int64 _ => "int64"
  | .float64 _ => "csvParse.Float64"
  | .bool _ => "bool"
  | .string _ => "string"

/-- The type `DataType`, an `int`. -/
structure DataType where
  code : Int
deriving DecidableEq, Repr

def DataTypeAuto : DataType := ⟨0⟩
def DataTypeSplit : DataType := ⟨1⟩
def DataTypeString : DataType := ⟨2⟩
def DataTypeInt64 : DataType := ⟨3⟩
def DataTypeFloat64 : DataType := ⟨4⟩
def DataTypeBool : DataType := ⟨5⟩
def DataTypeDateTimeStyle0 : DataType := ⟨6⟩
def DataTypeDateTimeStyle1 : DataType := ⟨7⟩

/-- The method `DataType.String`. -/
def dataTypeString (dt : DataType) : String :=
  if dt = DataTypeSplit then "split"
  else if dt = DataTypeString then "string"
  else if dt = DataTypeInt64 then "int64"
  else if dt = DataTypeFloat64 then "Float64"
  else if dt = DataTypeBool then "bool"
  else if dt = DataTypeAuto then "auto"
  else if dt = DataTypeDateTimeStyle0 then "2006-01-02 15:04:05"
  else if dt = DataTypeDateTimeStyle1 then "2006/01/02 15:04:05"
  else "unknown"

/-- The method `readDate`. -/
def DataType.readDate (std : StdLib) (dt : DataType) (value : String) : Exec Value :=
  match std.ParseInLocation (dataTypeString dt) value with
  | none =>
    .error (.error (.wrapped "failed to parse date: %w"
      (.parseTime (dataTypeString dt) value)))
  | some data => .ok (.string (std.FormatRFC3339 data))

/-- The method `readNumber`. -/
def DataType.readNumber (std : StdLib) (value : String) (defaultToFloat : Bool) :
    Exec Value :=
  match (if defaultToFloat then none else ParseInt value) with
  | some result => .ok (.int64 result)
  | none =>
    match std.ParseFloat value with
    | some result => .ok (.float64 result)
    | none => .error (.error (.notANumber value))

/-- The method `readAuto`. -/
def DataType.readAuto (std : StdLib) (value : String) : Value :=
  if value = "" then .null
  else
    match DataType.readNumber std value true with
    | .ok result => result
    | .error _ =>
      match ParseBool value with
      | some result => .bool result
      | none => .string value

/-- The method `DataType.Read`. -/
def DataType.Read (std : StdLib) (dt : DataType) (value : String) : Exec Value :=
  if dt = DataTypeAuto then .ok (DataType.readAuto std value)
  else if dt = DataTypeSplit then .ok (DataType.readAuto std value)
  else if dt = DataTypeString then .ok (.string value)
  else if dt = DataTypeInt64 then
    match ParseInt value with
    | some n => .ok (.int64 n)
    | none => .error (.error (.parseInt value))
  else if dt = DataTypeFloat64 then
    match std.ParseFloat value with
    | some val => .ok (.float64 val)
    | none => .error (.error (.parseFloat value))
  else if dt = DataTypeBool then
    match ParseBool value with
    | some data => .ok (.bool data)
    | none =>
      if ToLower value = "ok" then .ok (.bool true)
      else if ToLower value = "ng" then .ok (.bool false)
      else .ok .null
  else if dt = DataTypeDateTimeStyle0 then DataType.readDate std dt value
  else if dt = DataTypeDateTimeStyle1 then DataType.readDate std dt value
  else .error (.error (.unknownDataType dt.code))

/-! ## Cells (`csv.go`, `cell.go`, `concatCell.go`, `timefield.go`) -/

/-- The function `findValue`. -/
def findValue (cell : Cell) (records : Records) : Exec String :=
  if cell.Row ≥ goLen records then
    .error (.error (.rowOutOfBounds (goLen records) cell.Row))
  else do
    let row ← index records cell.Row
    if cell.Column ≥ goLen row then
      .error (.error (.columnOutOfBounds (goLen row) cell.Column))
    else index row cell.Column

structure CellLocation where
  Location : Cell
  DataType : DataType
  Name : String := ""
  NameCell : Cell := ⟨0, 0⟩
deriving DecidableEq, Repr

/-- The method `CellLocation.Parse`. -/
def CellLocation.Parse (std : StdLib) (c : CellLocation) (records : Records) :
    Exec (String × Value) := do
  let cellName ←
    (if c.Name = "" then wrapErr "error finding name for cell: %w" (findValue c.NameCell records)
     else pure c.Name)
  let value ← wrapErr "error finding value for cell: %w" (findValue c.Location records)
  let cellData ← wrapErr "error converting value to data type: %w" (c.DataType.Read std value)
  pure (cellName, cellData)

structure ConcatCellLocation where
  Cells : List Cell
  Delimiter : String := ""
  Name : String := ""
  NameCell : Cell := ⟨0, 0⟩
  DataType : DataType := DataTypeAuto
deriving DecidableEq, Repr

/-- The method `ConcatCellLocation.Parse`. -/
def ConcatCellLocation.Parse (std : StdLib) (c : ConcatCellLocation) (records : Records) :
    Exec (String × Value) := do
  let name ←
    (if c.Name = "" then wrapErr "error finding name for cell: %w" (findValue c.NameCell records)
     else pure c.Name)
  let values ← c.Cells.mapM (fun cell =>
    wrapErr "error finding value for cell (%d, %d): %w" (findValue cell records))
  let value := stringsJoin values c.Delimiter
  let data ← wrapErr "error converting value to data type; %w" (c.DataType.Read std value)
  pure (name, data)

structure TimeField where
  Cells : List Cell
  Layout : String
  Name : String := ""
deriving DecidableEq, Repr

/-- The method `TimeField.Parse`. -/
def TimeField.Parse (std : StdLib) (t : TimeField) (records : Records) : Exec Time := do
  let values ← t.Cells.mapM (fun cell =>
    wrapErr "error finding value for cell (%d, %d): %w" (findValue cell records))
  let timeStr := values.foldl (fun b v => b ++ v) ""
  match std.ParseInLocation t.Layout timeStr with
  | none =>
    .error (.error (.wrapped
      "error converting value (%s) to the specified layout (%s): %w"
      (.parseTime t.Layout timeStr)))
  | some timestamp => pure timestamp

/-- The method `TimeField.IsBlank`. -/
def TimeField.IsBlank (t : TimeField) : Bool :=
  if t.Layout.length = 0 then true
  else if goLen t.Cells = 0 then true
  else false

/-! ## Tables (`table.go`) -/

structure TableLocation where
  Name : String := ""
  NameLocation : Cell := ⟨0, 0⟩
  StartCell : Cell
  EndCell : Cell
  HeaderNames : List String := []
  ColumnDataTypes : List DataType := []
  TableHasHeader : Bool := false
  AutoColumnDataTypes : Bool := false
  SkipBlankData : Bool := false
  ParseAsArray : Bool := false
  ParseSingleRow : Bool := false
  ParseSeparated : Bool := false
  IgnoreNesting : Bool := false
deriving DecidableEq, Repr

structure tableDimensions where
  startRow : Int
  endRow : Int
  startColumn : Int
  endColumn : Int
deriving DecidableEq, Repr

/-- The three shapes `TableLocation.Parse` returns in an `any`: a
`[]map[string]any`, a `map[string][]any` or a `map[string]any`. -/
inductive TableData
  | rows (data : List (List (String × Value)))
  | columns (data : List (String × List Value))
  | single (data : List (String × Value))
deriving DecidableEq, Repr

/-- The effect on `xs` of assigning the elements of `ys` to the slice
`xs[lo : lo + len(ys)]`, which shares the backing array of `xs`. -/
def writeSlice {α : Type} (xs : List α) (lo : Int) (ys : List α) : List α :=
  xs.take lo.toNat ++ ys ++ xs.drop (lo.toNat + ys.length)

/-- What `parseTableHeader` returns on success, together with what it leaves
behind: with an in-band header `headers` is a slice of the header row of
`records`, otherwise it is the slice `t.HeaderNames` itself, and the renaming
loop assigns to its elements. -/
structure TableHeader where
  tableName : String
  headers : List String
  tableDims : tableDimensions
  /-- The record array after the call. -/
  records : Records
  /-- The slice `t.HeaderNames` after the call. -/
  headerNames : List String
deriving DecidableEq, Repr

/-- The method `parseTableHeader`.  Every exit that fails comes before the
renaming loop, so a failing call leaves `records` and `t.HeaderNames` as they
were. -/
def TableLocation.parseTableHeader (t : TableLocation) (records : Records)
    (keepSpaces : Bool) : Exec TableHeader := do
  let tableName ←
    (if t.Name = "" then do
      let found ← wrapErr "error finding name for table: %w" (findValue t.NameLocation records)
      pure (if keepSpaces then found else replaceSpaces found)
     else pure t.Name)
  let startRow := t.StartCell.Row
  let endRow := if t.EndCell.Row > 0 then t.EndCell.Row else goLen records - 1
  let startColumn := t.StartCell.Column
  let endColumn ←
    (if t.EndCell.Column > 0 then pure t.EndCell.Column
     else if goLen records ≤ t.StartCell.Row then
       .error (.error (.csvShorter (goLen records) t.StartCell.Row))
     else do
       let row ← index records t.StartCell.Row
       pure (goLen row - 1))
  if t.TableHasHeader then do
    let row ← index records t.StartCell.Row
    let headers ← slice row startColumn (endColumn + 1)
    if keepSpaces then
      pure ⟨tableName, headers, ⟨startRow + 1, endRow, startColumn, endColumn⟩, records,
        t.HeaderNames⟩
    else do
      let renamed := headers.map replaceSpaces
      let records' ← setIndex records t.StartCell.Row (writeSlice row startColumn renamed)
      pure ⟨tableName, renamed, ⟨startRow + 1, endRow, startColumn, endColumn⟩, records',
        t.HeaderNames⟩
  else if keepSpaces then
    pure ⟨tableName, t.HeaderNames, ⟨startRow, endRow, startColumn, endColumn⟩, records,
      t.HeaderNames⟩
  else
    let renamed := t.HeaderNames.map replaceSpaces
    pure ⟨tableName, renamed, ⟨startRow, endRow, startColumn, endColumn⟩, records, renamed⟩

/-- The body of the column loop of `parseTableData`; `n` counts the iterations,
so it is `column - startColumn`. -/
def tableCellBody (std : StdLib) (t : TableLocation) (tableDims : tableDimensions)
    (records : Records) (headers : List String) (row column : Int)
    (rowData : List (String × Value)) : Exec (List (String × Value)) := do
  let n := column - tableDims.startColumn
  let header ← index headers n
  let rawData ←
    wrapErr "error finding value for cell (%d, %d) with header (%v): %w"
      (findValue ⟨row, column⟩ records)
  let dataType ←
    (if t.AutoColumnDataTypes then pure DataTypeAuto else index t.ColumnDataTypes n)
  let data ←
    wrapErr "error parsing data for cell (%d, %d) with header (%v): %w"
      (dataType.Read std rawData)
  if data = .null ∧ t.SkipBlankData then pure rowData
  else
    let header := if dataType = DataTypeSplit then header ++ "_" ++ typeName data else header
    pure (mapSet rowData header data)

/-- The body of the row loop of `parseTableData`. -/
def tableRowBody (std : StdLib) (t : TableLocation) (tableDims : tableDimensions)
    (records : Records) (headers : List String) (row : Int)
    (tableData : List (List (String × Value))) : Exec (List (List (String × Value))) := do
  let rowData ← forLoop tableDims.startColumn (tableDims.endColumn + 1)
    (tableCellBody std t tableDims records headers row) []
  setIndex tableData (row - tableDims.startRow) rowData

/-- The method `parseTableData`. -/
def TableLocation.parseTableData (std : StdLib) (t : TableLocation)
    (tableDims : tableDimensions) (records : Records) (headers : List String) :
    Exec (List (List (String × Value))) := do
  let tableData ← make ([] : List (String × Value)) (tableDims.endRow - tableDims.startRow + 1)
  forLoop tableDims.startRow (tableDims.endRow + 1)
    (tableRowBody std t tableDims records headers) tableData

/-- The body of the row loop of `parseTableDataArray`; the error text is built
from `headers[column]`. -/
def arrayCellBody (std : StdLib) (t : TableLocation) (tableDims : tableDimensions)
    (records : Records) (headers : List String) (dataType : DataType) (column row : Int)
    (columnData : List Value) : Exec (List Value) := do
  let cell ← index2 records row column
  match dataType.Read std cell with
  | .error f => do
    let _ ← index headers column
    wrapErr "error parsing data for cell (%d, %d) with header (%s): %w" (.error f)
  | .ok data =>
    if data = .null ∧ t.SkipBlankData then pure columnData
    else setIndex columnData (row - tableDims.startRow) data

/-- The body of the column loop of `parseTableDataArray`. -/
def arrayColumnBody (std : StdLib) (t : TableLocation) (tableDims : tableDimensions)
    (records : Records) (headers : List String) (column : Int)
    (tableData : List (String × List Value)) : Exec (List (String × List Value)) := do
  let columnData ← make Value.null (tableDims.endRow - tableDims.startRow + 1)
  let dataType ←
    (if t.AutoColumnDataTypes then pure DataTypeAuto else index t.ColumnDataTypes column)
  let columnData ← forLoop tableDims.startRow (tableDims.endRow + 1)
    (arrayCellBody std t tableDims records headers dataType column) columnData
  let header ← index headers column
  pure (mapSet tableData header columnData)

/-- The method `parseTableDataArray`. -/
def TableLocation.parseTableDataArray (std : StdLib) (t : TableLocation)
    (tableDims : tableDimensions) (records : Records) (headers : List String) :
    Exec (List (String × List Value)) :=
  forLoop tableDims.startColumn (tableDims.endColumn + 1)
    (arrayColumnBody std t tableDims records headers) []

/-- The body of the loop of `parseTableSingleRow`. -/
def singleRowBody (std : StdLib) (t : TableLocation) (tableDims : tableDimensions)
    (records : Records) (headers : List String) (column : Int)
    (tableData : List (String × Value)) : Exec (List (String × Value)) := do
  let dataType ←
    (if t.AutoColumnDataTypes then pure DataTypeAuto else index t.ColumnDataTypes column)
  let cell ← index2 records tableDims.startRow column
  match dataType.Read std cell with
  | .error f => do
    let _ ← index headers column
    wrapErr "error parsing data for cell (%d, %d) with header (%s): %w" (.error f)
  | .ok data =>
    if data = .null ∧ t.SkipBlankData then pure tableData
    else do
      let header ← index headers column
      pure (mapSet tableData header data)

/-- The method `parseTableSingleRow`. -/
def TableLocation.parseTableSingleRow (std : StdLib) (t : TableLocation)
    (tableDims : tableDimensions) (records : Records) (headers : List String) :
    Exec (List (String × Value)) :=
  forLoop tableDims.startColumn (tableDims.endColumn + 1)
    (singleRowBody std t tableDims records headers) []

/-- The three results of `TableLocation.Parse` (`name`, then `data` for the
`any` and the `error`), together with what the call leaves behind. -/
structure TableParse where
  name : String
  data : Exec TableData
  /-- The record array after the call. -/
  records : Records
  /-- The slice `t.HeaderNames` after the call. -/
  headerNames : List String
deriving DecidableEq, Repr

/-- The method `TableLocation.Parse`. -/
def TableLocation.Parse (std : StdLib) (t : TableLocation) (records : Records)
    (keepSpaces : Bool) : TableParse :=
  match t.parseTableHeader records keepSpaces with
  | .error f => ⟨"", wrapErr "error parsing table header: %w" (.error f), records, t.HeaderNames⟩
  | .ok h =>
    let tableData : Exec TableData :=
      if t.ParseAsArray then
        (t.parseTableDataArray std h.tableDims h.records h.headers).map TableData.columns
      else if t.ParseSingleRow then
        (t.parseTableSingleRow std h.tableDims h.records h.headers).map TableData.single
      else
        (t.parseTableData std h.tableDims h.records h.headers).map TableData.rows
    ⟨h.tableName, wrapErr "error parsing table %s: %w" tableData, h.records, h.headerNames⟩

/-! ## `Csv.ParseRecords` (`csv.go`) -/

/-- The values of an output document: what `DataType.Read` returned, the
formatted time stamp (a string), a table, or one row of a separated table (a
`map[string]any`, the shape `TableData.single`). -/
inductive DocValue
  | scalar (v : Value)
  | table (t : TableData)
deriving DecidableEq, Repr

/-- An output document, a `map[string]any`. -/
abbrev Doc : Type := List (String × DocValue)

/-- The two shapes `ParseRecords` returns in an `any`. -/
inductive Output
  | document (d : Doc)
  | documents (ds : List Doc)
deriving DecidableEq, Repr

/-- The type `FilePathData` (`fileName.go`); the two locations are `uint16`
values, and the unexported field `regex`, a cache of the compiled
`CaptureRegex`, is left out: it is nil wherever `ParseFileNames` calls `Parse`,
which it does on a copy of the element. -/
structure FilePathData where
  Name : String := ""
  StartLocation : Nat := 0
  EndLocation : Nat := 0
  CaptureRegex : String := ""
deriving DecidableEq, Repr

/-- The fields of `Csv` that `ParseFileNames` and `ParseRecords` read. -/
structure Csv where
  FilePathData : List FilePathData := []
  CellLocations : List CellLocation := []
  ConcatCellLocations : List ConcatCellLocation := []
  TableLocations : List TableLocation := []
  TimeFields : List TimeField := []
  FaultOnDuplicate : Bool := false
  KeepSpaces : Bool := false
deriving DecidableEq, Repr

/-- The body of the loop over `c.CellLocations`. -/
def cellStep (std : StdLib) (c : Csv) (records : Records) (baseData : Doc)
    (cellLocation : CellLocation) : Exec Doc := do
  let (name, data) ← cellLocation.Parse std records
  let name := if c.KeepSpaces then name else replaceSpaces name
  if c.FaultOnDuplicate ∧ (mapGet baseData name).isSome then
    .error (.error (.duplicateCell name))
  else pure (mapSet baseData name (.scalar data))

/-- The body of the loop over `c.ConcatCellLocations`. -/
def concatCellStep (std : StdLib) (c : Csv) (records : Records) (baseData : Doc)
    (concatCellLocation : ConcatCellLocation) : Exec Doc := do
  let (name, data) ← concatCellLocation.Parse std records
  let name := if c.KeepSpaces then name else replaceSpaces name
  if c.FaultOnDuplicate ∧ (mapGet baseData name).isSome then
    .error (.error (.duplicateConcatCell name))
  else pure (mapSet baseData name (.scalar data))

/-- The body of the first loop over `c.TableLocations` (the tables that are not
separated); the state is `baseData` and the record array. -/
def tableStep (std : StdLib) (c : Csv) (st : Doc × Records) (tableLocation : TableLocation) :
    Exec (Doc × Records) :=
  if tableLocation.ParseSeparated then pure st
  else
    let parsed := tableLocation.Parse std st.2 c.KeepSpaces
    match wrapErr "error parsing table (%s): %w" parsed.data with
    | .error f => .error f
    | .ok tableData =>
      if c.FaultOnDuplicate ∧ (mapGet st.1 parsed.name).isSome then
        .error (.error (.duplicateTable parsed.name))
      else pure (mapSet st.1 parsed.name (.table tableData), parsed.records)

/-- The body of the loop over `c.TimeFields`. -/
def timeFieldStep (std : StdLib) (c : Csv) (records : Records) (baseData : Doc)
    (timeField : TimeField) : Exec Doc :=
  if ¬ timeField.IsBlank then pure baseData
  else do
    let timestamp ← timeField.Parse std records
    if c.FaultOnDuplicate ∧ (mapGet baseData timeField.Name).isSome then
      .error (.error (.duplicateTimestamp timeField.Name))
    else pure (mapSet baseData timeField.Name (.scalar (.string (std.FormatRFC3339 timestamp))))

/-- The document built for one row of a separated table. -/
def rowInstance (tableLocation : TableLocation) (baseData : Doc)
    (row : List (String × Value)) : Doc :=
  if tableLocation.IgnoreNesting then
    row.foldl (fun inst kv => mapSet inst kv.1 (.scalar kv.2)) baseData
  else mapSet baseData tableLocation.Name (.table (.single row))

/-- The body of the second loop over `c.TableLocations` (the separated tables);
the state is `csvData` and the record array. -/
def separatedStep (std : StdLib) (c : Csv) (baseData : Doc) (st : List Doc × Records)
    (tableLocation : TableLocation) : Exec (List Doc × Records) :=
  if ¬ tableLocation.ParseSeparated then pure st
  else if tableLocation.ParseAsArray ∨ tableLocation.ParseSingleRow then
    .error (.error (.invalidOptions tableLocation.Name))
  else
    let parsed := tableLocation.Parse std st.2 c.KeepSpaces
    match wrapErr "error parsing table (%s): %w" parsed.data with
    | .error f => .error f
    | .ok tableData =>
      if c.FaultOnDuplicate ∧ (mapGet baseData parsed.name).isSome then
        .error (.error (.duplicateTable parsed.name))
      else
        match tableData with
        | .rows data =>
          pure (st.1 ++ data.map (rowInstance tableLocation baseData), parsed.records)
        | _ => .error (.error .wrongTableType)

/-- The scalar part of `ParseRecords`: cells, concat-cells, the tables that are
not separated and the time fields; the value is `baseData` with the record
array as the separated tables will see it. -/
def Csv.parseBase (std : StdLib) (c : Csv) (records : Records) : Exec (Doc × Records) := do
  let baseData ← c.CellLocations.foldlM (cellStep std c records) ([] : Doc)
  let baseData ← c.ConcatCellLocations.foldlM (concatCellStep std c records) baseData
  let st ← c.TableLocations.foldlM (tableStep std c) (baseData, records)
  let baseData ← c.TimeFields.foldlM (timeFieldStep std c st.2) st.1
  pure (baseData, st.2)

/-- The method `Csv.ParseRecords`. -/
def Csv.ParseRecords (std : StdLib) (c : Csv) (records : Records) : Exec Output := do
  let base ← c.parseBase std records
  let st ← c.TableLocations.foldlM (separatedStep std c base.1) (([] : List Doc), base.2)
  if goLen st.1 = 0 then pure (.document base.1) else pure (.documents st.1)

/-- A library whose `ParseFloat` and `ParseInLocation` reject every text; it
stands in where a concrete library is needed and neither function decides the
outcome. -/
def rejectingLib : StdLib := ⟨fun _ => none, fun _ _ => none, fun _ => ""⟩

/-! ## Auxiliary definitions for the extractors -/

/-- The first part of `parseTableHeader`: the name of the table. -/
def headerTableName (t : TableLocation) (records : Records) (keepSpaces : Bool) :
    Exec String :=
  if t.Name = "" then do
    let found ← wrapErr "error finding name for table: %w" (findValue t.NameLocation records)
    pure (if keepSpaces then found else replaceSpaces found)
  else pure t.Name

/-- The second part of `parseTableHeader`: the end column. -/
def headerEndColumn (t : TableLocation) (records : Records) : Exec Int :=
  if t.EndCell.Column > 0 then pure t.EndCell.Column
  else if goLen records ≤ t.StartCell.Row then
    .error (.error (.csvShorter (goLen records) t.StartCell.Row))
  else do
    let row ← index records t.StartCell.Row
    pure (goLen row - 1)

/-- The end row `parseTableHeader` computes. -/
def headerEndRow (t : TableLocation) (records : Records) : Int :=
  if t.EndCell.Row > 0 then t.EndCell.Row else goLen records - 1

/-- The last part of `parseTableHeader`: the headers and their renaming. -/
def headerRest (t : TableLocation) (records : Records) (keepSpaces : Bool)
    (tableName : String) (endColumn : Int) : Exec TableHeader :=
  if t.TableHasHeader then do
    let row ← index records t.StartCell.Row
    let headers ← slice row t.StartCell.Column (endColumn + 1)
    if keepSpaces then
      pure ⟨tableName, headers,
        ⟨t.StartCell.Row + 1, headerEndRow t records, t.StartCell.Column, endColumn⟩, records,
        t.HeaderNames⟩
    else do
      let renamed := headers.map replaceSpaces
      let records' ← setIndex records t.StartCell.Row
        (writeSlice row t.StartCell.Column renamed)
      pure ⟨tableName, renamed,
        ⟨t.StartCell.Row + 1, headerEndRow t records, t.StartCell.Column, endColumn⟩, records',
        t.HeaderNames⟩
  else if keepSpaces then
    pure ⟨tableName, t.HeaderNames,
      ⟨t.StartCell.Row, headerEndRow t records, t.StartCell.Column, endColumn⟩, records,
      t.HeaderNames⟩
  else
    pure ⟨tableName, t.HeaderNames.map replaceSpaces,
      ⟨t.StartCell.Row, headerEndRow t records, t.StartCell.Column, endColumn⟩, records,
      t.HeaderNames.map replaceSpaces⟩

/-- The second part of `TableLocation.Parse`: the data of the table, by mode. -/
def tableDataOf (std : StdLib) (t : TableLocation) (h : TableHeader) : Exec TableData :=
  if t.ParseAsArray then
    (t.parseTableDataArray std h.tableDims h.records h.headers).map TableData.columns
  else if t.ParseSingleRow then
    (t.parseTableSingleRow std h.tableDims h.records h.headers).map TableData.single
  else
    (t.parseTableData std h.tableDims h.records h.headers).map TableData.rows

/-! ## Specification-side definitions for the table extractor -/

/-- The text of the cell at row `r` and column `c`. -/
def cellText (R : Records) (r c : Nat) : String := (R.getD r []).getD c ""

/-- The resolved inclusive end row of a table: `EndCell.Row` when it is positive,
the last row of the records otherwise. -/
def TableLocation.resolvedEndRow (t : TableLocation) (R : Records) : Int :=
  if t.EndCell.Row > 0 then t.EndCell.Row else (R.length : Int) - 1

/-- The resolved inclusive end column of a table: `EndCell.Column` when it is
positive, the last column of the start row otherwise. -/
def TableLocation.resolvedEndColumn (t : TableLocation) (R : Records) : Int :=
  if t.EndCell.Column > 0 then t.EndCell.Column
  else ((R.getD t.StartCell.Row.toNat []).length : Int) - 1

/-- The type `type_j` of the `j`-th column of the range: `Auto` when
`AutoColumnDataTypes` is set, `ColumnDataTypes[j]` otherwise. -/
def TableLocation.columnType (t : TableLocation) (j : Nat) : DataType :=
  if t.AutoColumnDataTypes then DataTypeAuto else t.ColumnDataTypes.getD j DataTypeAuto

/-- The header `header_j` of a table with an in-band header: the text of the
header row at column `s + j`, spaces replaced unless `keepSpaces`. -/
def TableLocation.headerAt (t : TableLocation) (R : Records) (keepSpaces : Bool) (j : Nat) :
    String :=
  if keepSpaces then cellText R t.StartCell.Row.toNat (t.StartCell.Column.toNat + j)
  else replaceSpaces (cellText R t.StartCell.Row.toNat (t.StartCell.Column.toNat + j))

/-- The value of `Read` where it succeeds. -/
def readValue (std : StdLib) (dataType : DataType) (text : String) : Value :=
  match dataType.Read std text with
  | .ok v => v
  | .error _ => .null

/-- The value `Read(type_j, cell text)` of the `j`-th column of the `k`-th data
row of a table with an in-band header. -/
def TableLocation.cellValue (std : StdLib) (t : TableLocation) (R : Records) (k j : Nat) :
    Value :=
  readValue std (t.columnType j)
    (cellText R (t.StartCell.Row.toNat + 1 + k) (t.StartCell.Column.toNat + j))

/-- The key of that value: `header_j`, followed by `_` and the type name of the
value for a `Split` column. -/
def TableLocation.entryKey (std : StdLib) (t : TableLocation) (R : Records)
    (keepSpaces : Bool) (k j : Nat) : String :=
  if t.columnType j = DataTypeSplit then
    t.headerAt R keepSpaces j ++ "_" ++ typeName (t.cellValue std R k j)
  else t.headerAt R keepSpaces j

/-- The mapping of the `k`-th data row after the entry of its `j`-th column: the
value under its key, and no entry for a null value when `SkipBlankData` is set. -/
def TableLocation.rowEntry (std : StdLib) (t : TableLocation) (R : Records)
    (keepSpaces : Bool) (k : Nat) (m : List (String × Value)) (j : Nat) :
    List (String × Value) :=
  if t.cellValue std R k j = .null ∧ t.SkipBlankData then m
  else mapSet m (t.entryKey std R keepSpaces k j) (t.cellValue std R k j)

/-- The mapping of the `k`-th data row of a table of `w` columns with an in-band
header: the entries of the columns `0 .. w-1`, in column order. -/
def TableLocation.rowMapping (std : StdLib) (t : TableLocation) (R : Records)
    (keepSpaces : Bool) (w k : Nat) : List (String × Value) :=
  (List.range w).foldl (t.rowEntry std R keepSpaces k) []

/-! ## `Float64.MarshalJSON` (`dataTypes.go`) -/

/-- The method `Float64.MarshalJSON`; `FormatFloat f` stands for the call
`strconv.FormatFloat(float64(f), 'f', -1, 64)` and the value is the text of the
returned bytes. -/
def Float64.MarshalJSON (FormatFloat : Float64 → String) (f : Float64) : Exec String :=
  let str := FormatFloat f
  let str := if '.' ∉ str.data then str ++ ".0" else str
  .ok str

/-! ## The processor factory (`processor.go`) -/

/-- The value of a `ProcessorType` constant. -/
def ProcessorType.code : ProcessorType → Int
  | .MergeColumns => 0
  | .MergeRows => 1
  | .FillRight => 2
  | .ReplaceCell => 3
  | .TransposeRow => 4
  | .RemoveCellLeft => 5
  | .End => 6

/-- The function `getProcessor`; `processorType` is any `int`, and
`Unmarshal data p` stands for the call `json.Unmarshal(data, &processor)` on the
freshly made processor `p`, `none` standing for a returned error. -/
def getProcessor (Unmarshal : String → Processor → Option Processor) (processorType : Int)
    (data : String) : Exec Processor := do
  let processor ←
    (if processorType = ProcessorType.MergeColumns.code then
      pure (Processor.mergeColumns { Start := ⟨0, 0⟩, End := ⟨0, 0⟩ })
    else if processorType = ProcessorType.MergeRows.code then
      pure (Processor.mergeRows { StartRow := 0, EndRow := 0 })
    else if processorType = ProcessorType.FillRight.code then
      pure (Processor.fillRight { Start := ⟨0, 0⟩, End := ⟨0, 0⟩ })
    else if processorType = ProcessorType.ReplaceCell.code then
      pure (Processor.replaceCell { Cell := ⟨0, 0⟩ })
    else if processorType = ProcessorType.TransposeRow.code then
      pure (Processor.transposeRow { StartRow := 0, EndRow := 0 })
    else if processorType = ProcessorType.RemoveCellLeft.code then
      pure (Processor.removeCellLeft { Cell := ⟨0, 0⟩ })
    else .error (.error (.invalidType processorType)))
  match Unmarshal data processor with
  | none =>
    .error (.error (.wrapped "unable to unmarshal processorType %d: %w"
      (.unmarshalFailed processor.GetType.code)))
  | some processor => pure processor

/-! ## File names (`fileName.go`, `Csv.ParseFileNames`) -/

/-- The functions of package `regexp` that `FilePathData.Parse` calls; a compiled
expression is identified by its pattern. -/
structure RegexpLib where
  /-- Whether `regexp.Compile(pattern)` returns without an error. -/
  Compiles : String → Bool
  /-- The call `regex.FindStringSubmatch(text)` of the compiled `pattern`. -/
  FindStringSubmatch : String → String → List String
  /-- The call `regex.SubexpNames()` of the compiled `pattern`. -/
  SubexpNames : String → List String

/-- The slice expression `s[lo:hi]` of a string, by byte offsets (`len(s)` is the
number of bytes of `s`); the bounds check is the one of Go.  The value is the
Go value when both offsets fall between two characters, which is always so for
an ASCII string.  Where an offset falls inside a character the Go value, the
bytes from `lo` up to `hi`, is not valid UTF-8 and has no counterpart among the
values of `String`; the value given here is then not the Go value. -/
def stringSlice (s : String) (lo hi : Nat) : Exec String :=
  if lo ≤ hi ∧ hi ≤ s.utf8ByteSize then .ok (s.extract ⟨lo⟩ ⟨hi⟩) else .error .panic

/-- The body of the loop over `f.regex.SubexpNames()`. -/
def captureStep (found : List String) (output : List (String × String))
    (entry : Nat × String) : Exec (List (String × String)) :=
  if entry.1 ≠ 0 ∧ entry.2 ≠ "" then do
    let value ← index found (entry.1 : Int)
    pure (mapSet output entry.2 value)
  else pure output

/-- The method `FilePathData.Parse`. -/
def FilePathData.Parse (re : RegexpLib) (f : FilePathData) (filePath : String) :
    Exec (List (String × String)) := do
  let output ←
    (if f.EndLocation > 0 then
      if filePath.utf8ByteSize ≤ f.EndLocation then
        .error (.error (.pathTooShort f.EndLocation filePath.utf8ByteSize))
      else do
        let part ← stringSlice filePath f.StartLocation f.EndLocation
        pure (mapSet ([] : List (String × String)) f.Name part)
    else pure [])
  if f.CaptureRegex ≠ "" then
    if re.Compiles f.CaptureRegex = false then
      .error (.error (.wrapped "error compiling regexp: %w" (.regexpCompile f.CaptureRegex)))
    else
      let found := re.FindStringSubmatch f.CaptureRegex filePath
      if goLen found > 0 then
        (re.SubexpNames f.CaptureRegex).enum.foldlM (captureStep found) output
      else .error (.error .noMatch)
  else pure output

/-- The call `strings.ReplaceAll(filePath, "\\", "/")`. -/
def replaceBackslashes (s : String) : String :=
  ⟨s.data.map (fun c => if c = '\\' then '/' else c)⟩

/-- The body of the loop of `ParseFileNames`. -/
def fileNameStep (re : RegexpLib) (filePath : String) (output : List (String × String))
    (filePathData : FilePathData) : Exec (List (String × String)) := do
  let data ← wrapErr "error parsing %s: %w" (filePathData.Parse re filePath)
  pure (data.foldl (fun out kv => mapSet out kv.1 kv.2) output)

/-- The method `Csv.ParseFileNames`. -/
def Csv.ParseFileNames (re : RegexpLib) (c : Csv) (filePath : String) :
    Exec (List (String × String)) :=
  c.FilePathData.foldlM (fileNameStep re (replaceBackslashes filePath)) []

/-! ## Identifiers (`idField.go`) -/

/-- The values reflection finds in a document: a scalar (also `nil`), a map with
string keys, or a slice. -/
inductive Any
  | scalar (v : Value)
  | map (entries : List (String × Any))
  | seq (items : List Any)

/-- An element of a `Mapping`, a `[]any`: a `string`, an `int`, or a value of any
other kind (a `float64` of a decoded configuration, `nil`). -/
inductive PathParam
  | key (s : String)
  | index (i : Int)
  | other
deriving DecidableEq, Repr

structure IdFieldParameter where
  Mapping : List PathParam
deriving DecidableEq, Repr

structure IdField where
  Parameters : List IdFieldParameter
  Delimiter : String := ""
deriving DecidableEq, Repr

/-- The body of the loop of `getParameter`: one step of the path from
`current`. -/
def getParameterStep (current : Any) (param : PathParam) : Exec Any :=
  match current with
  | .map entries =>
    if goLen entries = 0 then .error (.error .emptyMap)
    else
      match param with
      | .key k =>
        match mapGet entries k with
        | some v => .ok v
        | none => .error (.error (.keyNotFound k))
      | _ => .error (.error .keyKindMismatch)
  | .seq items =>
    match param with
    | .index i =>
      if i < 0 ∨ i ≥ goLen items then .error (.error (.indexOutOfBounds i))
      else index items i
    | _ => .error (.error .indexKindMismatch)
  | .scalar _ => .error (.error .unexpectedType)

/-- The function `getParameter`; `Sprint v` stands for `fmt.Sprintf("%v", v)`.
After the loop `current` is always valid, so the last error of the source is
never returned. -/
def getParameter (Sprint : Any → String) (data : List (String × Any))
    (targetMapping : List PathParam) : Exec String := do
  let current ← targetMapping.foldlM getParameterStep (.map data)
  pure (Sprint current)

/-- The body of the loop over `i.Parameters`; the state is the text of the
builder `idField` and the flag `first`. -/
def idFieldStep (Sprint : Any → String) (i : IdField) (doc : List (String × Any))
    (st : String × Bool) (parameter : IdFieldParameter) : Exec (String × Bool) := do
  let idField := if st.2 then st.1 else st.1 ++ i.Delimiter
  let result ← wrapErr "error finding result for mapping %s: %w"
    (getParameter Sprint doc parameter.Mapping)
  pure (idField ++ result, false)

/-- The body of the loop over `data`. -/
def idFieldBody (Sprint : Any → String) (i : IdField) (data : List (List (String × Any)))
    (n : Int) (ids : List String) : Exec (List String) := do
  let doc ← index data n
  let st ← i.Parameters.foldlM (idFieldStep Sprint i doc) ("", true)
  setIndex ids n st.1

/-- The method `IdField.Process`. -/
def IdField.Process (Sprint : Any → String) (i : IdField)
    (data : List (List (String × Any))) : Exec (List String) :=
  if goLen data = 0 then .error (.error .dataEmpty)
  else if goLen i.Parameters = 0 then .error (.error .parametersEmpty)
  else do
    let ids ← make "" (goLen data)
    forLoop 0 (goLen data) (idFieldBody Sprint i data) ids

/-! ## Specification-side definitions for the assembler and the identifiers -/

/-- The numbers of data rows of the separated tables of a configuration, in
configuration order, each table being parsed on the records its predecessors
left. -/
def separatedRowCounts (std : StdLib) (keepSpaces : Bool) :
    List TableLocation → Records → List Nat
  | [], _ => []
  | t :: ts, records =>
    if t.ParseSeparated then
      (match (t.Parse std records keepSpaces).data with
        | .ok (.rows rows) => rows.length
        | _ => 0) ::
        separatedRowCounts std keepSpaces ts (t.Parse std records keepSpaces).records
    else separatedRowCounts std keepSpaces ts records

/-- The texts `strconv.ParseBool` reads as true. -/
def trueLiterals : List String := ["1", "t", "T", "TRUE", "true", "True"]

/-- The texts `strconv.ParseBool` reads as false. -/
def falseLiterals : List String := ["0", "f", "F", "FALSE", "false", "False"]

/-- The text `ok` in any letter case; the Kelvin sign is a capital letter whose
lower case is `k`. -/
def okSpellings : List String := ["ok", "oK", "Ok", "OK", "o\u212A", "O\u212A"]

/-- The text `ng` in any letter case. -/
def ngSpellings : List String := ["ng", "nG", "Ng", "NG"]

/-- One step of a parameter path: a string key descends into a mapping, an
integer index into a sequence. -/
def resolveStep : Any → PathParam → Option Any
  | .map entries, .key k => mapGet entries k
  | .seq items, .index i => if 0 ≤ i then items[i.toNat]? else none
  | _, _ => none

/-- A parameter path resolved in a document. -/
def resolvePath (doc : List (String × Any)) (path : List PathParam) : Option Any :=
  path.foldlM resolveStep (.map doc)

/-- The id of a document: the delimiter-join, in parameter order, of the
formatted values of the parameter paths. -/
def idOf (Sprint : Any → String) (i : IdField) (doc : List (String × Any)) : Option String :=
  (i.Parameters.mapM (fun p => resolvePath doc p.Mapping)).map
    (fun values => stringsJoin (values.map Sprint) i.Delimiter)


/-- A formatter for closed examples: a string is printed as it is, which is how
`fmt.Sprintf("%v", v)` prints it, and every other value as `?`. -/
def stringsOnly : Any → String
  | .scalar (.string s) => s
  | _ => "?"

/-! ## The constructors `NewCellLocation` and `NewTableLocation` (`cell.go`, `table.go`) -/

/-- The function `NewCellLocation`; `Cell{}` is the cell `(0, 0)`. -/
def NewCellLocation (location : Cell) (dataType : DataType) (name : String) (nameCell : Cell) :
    Exec CellLocation :=
  if name = "" ∧ nameCell = ⟨0, 0⟩ then
    .error (.error (.invalidArgument "either name or nameCell must be provided"))
  else .ok { Location := location, DataType := dataType, Name := name, NameCell := nameCell }

/-- The function `NewTableLocation`. -/
def NewTableLocation (name : String) (nameLocation startCell endCell : Cell)
    (tableHasHeader : Bool) (headerNames : List String) (autoColumnDataTypes : Bool)
    (columnDataTypes : List DataType) (skipBlankData : Bool) : Exec TableLocation :=
  if name ≠ "" ∧ nameLocation ≠ ⟨0, 0⟩ then
    .error (.error (.invalidArgument "only one of name or nameLocation should be provided"))
  else if name = "" ∧ nameLocation = ⟨0, 0⟩ then
    .error (.error (.invalidArgument "either name or nameLocation must be provided"))
  else if startCell = endCell then
    .error (.error (.invalidArgument "startCell should not be equal to endCell"))
  else if endCell.Column > 0 ∧ endCell.Row > 0 ∧
      (startCell.Column > endCell.Column ∨ startCell.Row > endCell.Row) then
    .error (.error (.invalidArgument "startCell should be less than or equal to endCell"))
  else if tableHasHeader = true ∧ goLen headerNames > 0 then
    .error (.error (.invalidArgument
      "headerRowNames should not be provided if TableHasHeader is true"))
  else if goLen headerNames > 0 ∧ endCell.Column - startCell.Column ≠ goLen headerNames then
    .error (.error (.invalidArgument
      "headerRowNames should have the same number of columns as the table"))
  else if autoColumnDataTypes = true ∧ goLen columnDataTypes > 0 then
    .error (.error (.invalidArgument
      "only one of autoColumnDataTypes or manualColumnDataTypes should be provided"))
  else if autoColumnDataTypes = false ∧ goLen columnDataTypes = 0 then
    .error (.error (.invalidArgument
      "either autoColumnDataTypes or manualColumnDataTypes should be provided"))
  else if tableHasHeader = false ∧ autoColumnDataTypes = false ∧
      goLen headerNames ≠ goLen columnDataTypes then
    .error (.error (.invalidArgument
      ("manualColumnDataTypes should have the same number of columns as the table " ++
        "if TableHasHeader is false and autoColumnDataTypes is false")))
  else
    .ok { Name := name, NameLocation := nameLocation, StartCell := startCell,
          EndCell := endCell, TableHasHeader := tableHasHeader, HeaderNames := headerNames,
          AutoColumnDataTypes := autoColumnDataTypes, ColumnDataTypes := columnDataTypes,
          SkipBlankData := skipBlankData }

/-! ## Specification-side definitions for the cells and the empty separated tables -/

/-- The text of the cell at non-negative coordinates, when the record array has
one there. -/
def cellAt (records : Records) (cell : Cell) : Option String :=
  (records[cell.Row.toNat]?).bind (fun row => row[cell.Column.toNat]?)

/-- Whether every separated table of the list, parsed on the records its
predecessors left, yields a row list without any row. -/
def separatedAllEmpty (std : StdLib) (keepSpaces : Bool) :
    List TableLocation → Records → Bool
  | [], _ => true
  | t :: ts, records =>
    if t.ParseSeparated then
      decide ((t.Parse std records keepSpaces).data = .ok (.rows [])) &&
        separatedAllEmpty std keepSpaces ts (t.Parse std records keepSpaces).records
    else separatedAllEmpty std keepSpaces ts records

/-- Whether no separated table of the list, parsed on the records its
predecessors left, resolves to a name that is a key of `baseData`. -/
def separatedNamesFresh (std : StdLib) (keepSpaces : Bool) (baseData : Doc) :
    List TableLocation → Records → Bool
  | [], _ => true
  | t :: ts, records =>
    if t.ParseSeparated then
      (mapGet baseData (t.Parse std records keepSpaces).name).isNone &&
        separatedNamesFresh std keepSpaces baseData ts (t.Parse std records keepSpaces).records
    else separatedNamesFresh std keepSpaces baseData ts records

/-- The configuration without its separated tables. -/
def Csv.withoutSeparated (c : Csv) : Csv :=
  { c with TableLocations := c.TableLocations.filter (fun t => !t.ParseSeparated) }

/-- The number of slots of a column vector of the array mode: the number of data
rows of the table dimensions. -/
def tableDimensions.dataRows (d : tableDimensions) : Int := d.endRow - d.startRow + 1

/-- The slots of a column vector of the array mode: slot `k` holds what `Read`
returns for the cell of data row `k`. -/
def ColumnSlots (std : StdLib) (tableDims : tableDimensions) (records : Records)
    (vector : List Value) : Prop :=
  (vector.length : Int) = tableDims.dataRows ∧
  ∃ (column : Int) (dataType : DataType), ∀ k : Nat, (k : Int) < tableDims.dataRows →
    ∃ text v, index2 records (tableDims.startRow + k) column = .ok text ∧
      dataType.Read std text = .ok v ∧ vector[k]? = some v

/-! ## Basic facts about the run-time model -/

section Basics
variable {α β σ : Type}

theorem bind_eq_ok {x : Exec α} {f : α → Exec β} {b : β} :
    (x >>= f) = .ok b ↔ ∃ a, x = .ok a ∧ f a = .ok b := by
  cases x <;> simp [bind, Except.bind]

theorem index_natCast (xs : List α) (k : Nat) :
    index xs (k : Int) = match xs[k]? with
      | some v => .ok v
      | none => .error .panic := by
  simp [index]

theorem index_eq_ok {xs : List α} {k : Nat} {v : α} :
    index xs (k : Int) = .ok v ↔ xs[k]? = some v := by
  rw [index_natCast]
  cases h : xs[k]? <;> simp

theorem index_of_lt {xs : List α} {k : Nat} (h : k < xs.length) :
    index xs (k : Int) = .ok xs[k] := by
  rw [index_eq_ok]; exact List.getElem?_eq_getElem h

theorem index_panic_of_le {xs : List α} {k : Nat} (h : xs.length ≤ k) :
    index xs (k : Int) = .error .panic := by
  rw [index_natCast, List.getElem?_eq_none h]

theorem setIndex_eq_ok {xs ys : List α} {k : Nat} {v : α} :
    setIndex xs (k : Int) v = .ok ys ↔ k < xs.length ∧ ys = xs.set k v := by
  unfold setIndex goLen
  by_cases h : k < xs.length
  · simp [h]; exact eq_comm
  · simp [h]

theorem setIndex_of_lt {xs : List α} {k : Nat} (v : α) (h : k < xs.length) :
    setIndex xs (k : Int) v = .ok (xs.set k v) :=
  setIndex_eq_ok.2 ⟨h, rfl⟩

theorem make_natCast (zero : α) (k : Nat) :
    make zero (k : Int) = .ok (List.replicate k zero) := by
  simp [make]

theorem forLoopAux_succ_ok {body : Int → σ → Exec σ} {k : Nat} {n : Int} {s s' : σ} :
    forLoopAux body (k + 1) n s = .ok s' ↔
      ∃ t, body n s = .ok t ∧ forLoopAux body k (n + 1) t = .ok s' := by
  simp only [forLoopAux]
  cases body n s <;> simp

/-- Hoare rule for a loop that ended normally: an invariant established at `lo`
and preserved by every normal iteration holds at `hi`. -/
theorem forLoop_inv {f : Int → σ → Exec σ} (I : Nat → σ → Prop) {l u : Nat}
    {s s' : σ} (hle : l ≤ u) (h0 : I l s)
    (hstep : ∀ n st st', l ≤ n → n < u → I n st → f (n : Int) st = .ok st' →
      I (n + 1) st')
    (hrun : forLoop (l : Int) (u : Int) f s = .ok s') : I u s' := by
  unfold forLoop at hrun
  have hk : ((u : Int) - (l : Int)).toNat = u - l := by omega
  rw [hk] at hrun
  obtain ⟨k, rfl⟩ : ∃ k, u = l + k := ⟨u - l, by omega⟩
  simp only [Nat.add_sub_cancel_left] at hrun
  clear hk hle
  induction k generalizing l s with
  | zero =>
    simp only [forLoopAux, Except.ok.injEq] at hrun
    subst hrun; simpa using h0
  | succ k ih =>
    rw [forLoopAux_succ_ok] at hrun
    obtain ⟨t, ht, hrest⟩ := hrun
    have h1 : I (l + 1) t := hstep l s t (le_refl _) (by omega) h0 ht
    have := @ih (l + 1) t h1 (fun n st st' hn hn' => hstep n st st' (by omega) (by omega))
      (by simpa [Nat.cast_add] using hrest)
    simpa [Nat.add_assoc, Nat.add_comm 1 k] using this

/-- A loop whose range is empty leaves the state alone. -/
theorem forLoop_empty {body : Int → σ → Exec σ} {lo hi : Int} (s : σ) (h : hi ≤ lo) :
    forLoop lo hi body s = .ok s := by
  unfold forLoop
  have : (hi - lo).toNat = 0 := by omega
  rw [this]; rfl

/-- Total-correctness rule: when every iteration ends normally under the
invariant, so does the loop, and the invariant holds at the end. -/
theorem forLoop_total {f : Int → σ → Exec σ} (I : Nat → σ → Prop) {l u : Nat}
    {s : σ} (hle : l ≤ u) (h0 : I l s)
    (hstep : ∀ n st, l ≤ n → n < u → I n st →
      ∃ st', f (n : Int) st = .ok st' ∧ I (n + 1) st') :
    ∃ s', forLoop (l : Int) (u : Int) f s = .ok s' ∧ I u s' := by
  unfold forLoop
  have hk : ((u : Int) - (l : Int)).toNat = u - l := by omega
  rw [hk]
  obtain ⟨k, rfl⟩ : ∃ k, u = l + k := ⟨u - l, by omega⟩
  simp only [Nat.add_sub_cancel_left]
  clear hk hle
  induction k generalizing l s with
  | zero => exact ⟨s, rfl, by simpa using h0⟩
  | succ k ih =>
    obtain ⟨t, ht, h1⟩ := hstep l s (le_refl _) (by omega) h0
    obtain ⟨s', hs', hI⟩ := @ih (l + 1) t h1
      (fun n st hn hn' => hstep n st (by omega) (by omega))
    refine ⟨s', ?_, by simpa [Nat.add_assoc, Nat.add_comm 1 k] using hI⟩
    rw [forLoopAux_succ_ok]
    exact ⟨t, ht, by simpa [Nat.cast_add] using hs'⟩

end Basics

section Basics2
variable {α : Type}

theorem index_ok_iff {xs : List α} {i : Int} {v : α} :
    index xs i = .ok v ↔ 0 ≤ i ∧ xs[i.toNat]? = some v := by
  unfold index
  by_cases h : i < 0
  · simp [h]
  · have h0 : 0 ≤ i := by omega
    cases hx : xs[i.toNat]? <;> simp [h, hx, h0]

theorem setIndex_ok_iff {xs ys : List α} {i : Int} {v : α} :
    setIndex xs i v = .ok ys ↔ 0 ≤ i ∧ i.toNat < xs.length ∧ ys = xs.set i.toNat v := by
  unfold setIndex goLen
  by_cases h : 0 ≤ i ∧ i < (xs.length : Int)
  · rw [if_pos h]
    have : i.toNat < xs.length := by omega
    simp [h.1, this, eq_comm]
  · rw [if_neg h]
    constructor
    · intro h'; cases h'
    · rintro ⟨a, b, -⟩; exact absurd ⟨a, by omega⟩ h

theorem make_ok_iff {zero : α} {n : Int} {ys : List α} :
    make zero n = .ok ys ↔ 0 ≤ n ∧ ys = List.replicate n.toNat zero := by
  unfold make
  by_cases h : n < 0
  · simp [h]
  · simp [h, eq_comm]; omega

theorem sliceTo_ok_iff {xs ys : List α} {hi : Int} :
    sliceTo xs hi = .ok ys ↔ 0 ≤ hi ∧ hi.toNat ≤ xs.length ∧ ys = xs.take hi.toNat := by
  unfold sliceTo goLen
  by_cases h : 0 ≤ hi ∧ hi ≤ (xs.length : Int)
  · rw [if_pos h]
    have : hi.toNat ≤ xs.length := by omega
    simp [h.1, this, eq_comm]
  · rw [if_neg h]
    constructor
    · intro h'; cases h'
    · rintro ⟨a, b, -⟩; exact absurd ⟨a, by omega⟩ h

theorem sliceFrom_ok_iff {xs ys : List α} {lo : Int} :
    sliceFrom xs lo = .ok ys ↔ 0 ≤ lo ∧ lo.toNat ≤ xs.length ∧ ys = xs.drop lo.toNat := by
  unfold sliceFrom goLen
  by_cases h : 0 ≤ lo ∧ lo ≤ (xs.length : Int)
  · rw [if_pos h]
    have : lo.toNat ≤ xs.length := by omega
    simp [h.1, this, eq_comm]
  · rw [if_neg h]
    constructor
    · intro h'; cases h'
    · rintro ⟨a, b, -⟩; exact absurd ⟨a, by omega⟩ h

theorem slice_ok_iff {xs ys : List α} {lo hi : Int} :
    slice xs lo hi = .ok ys ↔
      0 ≤ lo ∧ lo ≤ hi ∧ hi.toNat ≤ xs.length ∧
        ys = (xs.drop lo.toNat).take (hi.toNat - lo.toNat) := by
  unfold slice goLen
  by_cases h : 0 ≤ lo ∧ lo ≤ hi ∧ hi ≤ (xs.length : Int)
  · rw [if_pos h]
    have h1 : hi.toNat ≤ xs.length := by omega
    have h2 : (hi - lo).toNat = hi.toNat - lo.toNat := by omega
    simp [h.1, h.2.1, h1, h2, eq_comm]
  · rw [if_neg h]
    constructor
    · intro h'; cases h'
    · rintro ⟨a, b, c, -⟩; exact absurd ⟨a, b, by omega⟩ h

theorem copyFrom_ok_iff {dst src ys : List α} {off : Int} :
    copyFrom dst off src = .ok ys ↔
      0 ≤ off ∧ off.toNat ≤ dst.length ∧
        ys = dst.take off.toNat ++ copy (dst.drop off.toNat) src := by
  unfold copyFrom
  rw [bind_eq_ok]
  constructor
  · rintro ⟨t, ht, h⟩
    rw [sliceFrom_ok_iff] at ht
    obtain ⟨h0, h1, rfl⟩ := ht
    simp only [pure, Except.pure, Except.ok.injEq] at h
    exact ⟨h0, h1, h.symm⟩
  · rintro ⟨h0, h1, rfl⟩
    exact ⟨_, sliceFrom_ok_iff.2 ⟨h0, h1, rfl⟩, rfl⟩

theorem copy_length (dst src : List α) : (copy dst src).length = dst.length := by
  simp [copy]; omega

end Basics2

theorem mergeColumns_row_eq {row : List String} {sc ec : Nat} (j : String)
    (h1 : sc ≤ ec) (h2 : ec ≤ row.length) :
    (if ec < row.length then
        (((if sc ≠ 0 then
            copy (List.replicate (row.length - (ec - sc) + 1) "") (row.take sc)
          else List.replicate (row.length - (ec - sc) + 1) "").set sc j).take (sc + 1) ++
          copy (((if sc ≠ 0 then
            copy (List.replicate (row.length - (ec - sc) + 1) "") (row.take sc)
          else List.replicate (row.length - (ec - sc) + 1) "").set sc j).drop (sc + 1))
            (row.drop ec))
      else
        ((if sc ≠ 0 then
            copy (List.replicate (row.length - (ec - sc) + 1) "") (row.take sc)
          else List.replicate (row.length - (ec - sc) + 1) "").set sc j)) =
      row.take sc ++ [j] ++ row.drop ec := by
  have hr1 : (if sc ≠ 0 then
            copy (List.replicate (row.length - (ec - sc) + 1) "") (row.take sc)
          else List.replicate (row.length - (ec - sc) + 1) "") =
      row.take sc ++ List.replicate (row.length - ec + 1) "" := by
    split
    · unfold copy
      have e1 : List.take (List.replicate (row.length - (ec - sc) + 1) "").length
          (List.take sc row) = List.take sc row := by
        rw [List.take_take]; congr 1; simp; omega
      rw [e1]
      congr 1
      simp [List.length_take]
      omega
    · have : sc = 0 := by omega
      subst this; simp
  rw [hr1]
  have hlen : (row.take sc).length = sc := by simp; omega
  have hr2 : (row.take sc ++ List.replicate (row.length - ec + 1) "").set sc j =
      row.take sc ++ (j :: List.replicate (row.length - ec) "") := by
    rw [List.set_append_right _ _ (by omega)]
    simp [hlen, List.replicate_succ]
  rw [hr2]
  split
  · have t1 : (row.take sc ++ j :: List.replicate (row.length - ec) "").take (sc + 1) =
        row.take sc ++ [j] := by
      rw [List.take_append_eq_append_take]; simp [hlen]
    have t2 : (row.take sc ++ j :: List.replicate (row.length - ec) "").drop (sc + 1) =
        List.replicate (row.length - ec) "" := by
      rw [List.drop_append_eq_append_drop]; simp [hlen]
    rw [t1, t2]
    unfold copy
    simp
  · have : ec = row.length := by omega
    subst this
    simp

/-- A loop that copies rows `lo..hi` of `records` to the positions
`base..base+(hi-lo)` of `new` changes exactly those positions. -/
theorem copyLoop_ok {R : Records} {body : Int → Records → Exec Records}
    {lo hi b : Nat} {new new' : Records} (hle : lo ≤ hi)
    (hbody : ∀ (n : Nat) st st', lo ≤ n → body (n : Int) st = .ok st' →
      ∃ row, R[n]? = some row ∧ n - lo + b < st.length ∧
        st' = st.set (n - lo + b) row)
    (hrun : forLoop (lo : Int) (hi : Int) body new = .ok new') :
    new'.length = new.length ∧
      (∀ j, new'[j]? =
        if b ≤ j ∧ j < b + (hi - lo) then R[j - b + lo]? else new[j]?) ∧
      (lo < hi → b + (hi - lo) ≤ new.length) := by
  refine forLoop_inv (fun k st => st.length = new.length ∧
      (∀ j, st[j]? =
        if b ≤ j ∧ j < b + (k - lo) then R[j - b + lo]? else new[j]?) ∧
      (lo < k → b + (k - lo) ≤ new.length))
    hle ⟨rfl, fun j => by
      have : ¬ (b ≤ j ∧ j < b + (lo - lo)) := by omega
      rw [if_neg this], fun h => by omega⟩ ?_ hrun
  rintro n st st' hn hn' ⟨hlen, hpt, -⟩ hb
  obtain ⟨row, hrow, hlt, rfl⟩ := hbody n st st' hn hb
  refine ⟨by simp [hlen], fun j => ?_, fun _ => by omega⟩
  rw [List.getElem?_set, hpt j]
  by_cases hj : n - lo + b = j
  · subst hj
    have e1 : n - lo + b - b + lo = n := by omega
    have e2 : b ≤ n - lo + b ∧ n - lo + b < b + (n + 1 - lo) := by omega
    rw [if_pos rfl, if_pos (hlen ▸ hlt), if_pos e2, e1, hrow]
  · simp only [hj, if_false]
    by_cases h1 : b ≤ j ∧ j < b + (n - lo)
    · have h2 : b ≤ j ∧ j < b + (n + 1 - lo) := by omega
      simp [h1, h2]
    · have h2 : ¬ (b ≤ j ∧ j < b + (n + 1 - lo)) := by omega
      simp [h1, h2]

theorem copyRowBody_ok {records : Records} {n : Nat} {st st' : Records}
    (h : copyRowBody records (n : Int) st = .ok st') :
    ∃ row, records[n]? = some row ∧ n < st.length ∧ st' = st.set n row := by
  unfold copyRowBody at h
  rw [bind_eq_ok] at h
  obtain ⟨row, hrow, h⟩ := h
  rw [index_eq_ok] at hrow
  rw [setIndex_eq_ok] at h
  exact ⟨row, hrow, h.1, h.2⟩

/-- The loops `for n := lo; n < hi; n++ { new[n] = records[n] }`. -/
theorem copyRows_ok {records : Records} {l hi : Nat} {new new' : Records} (hle : l ≤ hi)
    (hrun : forLoop (l : Int) (hi : Int) (copyRowBody records) new = .ok new') :
    new'.length = new.length ∧
      ∀ j, new'[j]? = if l ≤ j ∧ j < hi then records[j]? else new[j]? := by
  have := copyLoop_ok (R := records) (b := l) hle (fun n st st' hn hb => by
    obtain ⟨row, h1, h2, h3⟩ := copyRowBody_ok hb
    exact ⟨row, h1, by omega, by rw [h3]; congr 1; omega⟩) hrun
  refine ⟨this.1, fun j => ?_⟩
  rw [this.2.1 j]
  by_cases h : l ≤ j ∧ j < hi
  · have h' : l ≤ j ∧ j < l + (hi - l) := by omega
    have e : j - l + l = j := by omega
    simp [h, h', e]
  · have h' : ¬ (l ≤ j ∧ j < l + (hi - l)) := by omega
    simp [h, h']

theorem mergeColumnsBody_ok {a : ProcessorMergeColumns} {records : Records} {n : Nat}
    {st st' : Records × Int} (hsc : 0 ≤ a.Start.Column)
    (h : mergeColumnsBody a records (n : Int) st = .ok st') :
    ∃ row, records[n]? = some row ∧
      a.Start.Column ≤ (if a.End.Column < 0 then (row.length : Int) else st.2) ∧
      (if a.End.Column < 0 then (row.length : Int) else st.2) ≤ row.length ∧
      n < st.1.length ∧
      st' = (st.1.set n (mergedColumns a.Start.Column.toNat
          (if a.End.Column < 0 then (row.length : Int) else st.2).toNat a.Delimiter row),
        if a.End.Column < 0 then (row.length : Int) else st.2) := by
  unfold mergeColumnsBody at h
  rw [bind_eq_ok] at h
  obtain ⟨row, hrow, h⟩ := h
  rw [index_eq_ok] at hrow
  refine ⟨row, hrow, ?_⟩
  simp only [goLen] at h
  generalize (if a.End.Column < 0 then (row.length : Int) else st.2) = E at h ⊢
  split at h
  · cases h
  rename_i hE
  simp only [bind_eq_ok] at h
  obtain ⟨r0, hr0, new1, hnew1, r1, hr1, part, hpart, r2, hr2, r3, hr3, new2, hnew2, hst⟩ := h
  rw [make_ok_iff] at hr0
  rw [setIndex_eq_ok] at hnew1
  rw [slice_ok_iff] at hpart
  rw [setIndex_ok_iff] at hr2
  obtain ⟨-, hsE, hElen, rfl⟩ := hpart
  obtain ⟨hlen0, rfl⟩ := hr0
  obtain ⟨hn, rfl⟩ := hnew1
  obtain ⟨-, -, rfl⟩ := hr2
  rw [setIndex_eq_ok] at hnew2
  obtain ⟨-, rfl⟩ := hnew2
  simp only [pure, Except.pure, Except.ok.injEq] at hst
  subst hst
  refine ⟨hsE, by omega, hn, ?_⟩
  obtain ⟨sc, hscn⟩ : ∃ sc : Nat, a.Start.Column = sc := ⟨_, (Int.toNat_of_nonneg hsc).symm⟩
  obtain ⟨ec, hecn⟩ : ∃ ec : Nat, E = ec := ⟨_, (Int.toNat_of_nonneg (by omega)).symm⟩
  subst hecn
  rw [hscn] at hr1 hr3 hsE ⊢
  simp only [Int.toNat_natCast] at hr1 hr3 hElen ⊢
  have hsE' : sc ≤ ec := by omega
  have e0 : ((row.length : Int) - ((ec : Int) - (sc : Int)) + 1).toNat =
      row.length - (ec - sc) + 1 := by omega
  rw [e0] at hr1
  have e1 : r1 = (if sc ≠ 0 then copy (List.replicate (row.length - (ec - sc) + 1) "")
      (row.take sc) else List.replicate (row.length - (ec - sc) + 1) "") := by
    split at hr1
    · rename_i hne
      rw [bind_eq_ok] at hr1
      obtain ⟨src, hsrc, h⟩ := hr1
      rw [sliceTo_ok_iff] at hsrc
      obtain ⟨-, -, rfl⟩ := hsrc
      simp only [pure, Except.pure, Except.ok.injEq, Int.toNat_natCast] at h
      have : sc ≠ 0 := by omega
      rw [if_pos this]; exact h.symm
    · rename_i hne
      simp only [pure, Except.pure, Except.ok.injEq] at hr1
      have : ¬ sc ≠ 0 := by omega
      rw [if_neg this]; exact hr1.symm
  have e3 : r3 = (if ec < row.length then (r1.set sc (stringsJoin
        ((row.drop sc).take (ec - sc)) a.Delimiter)).take (sc + 1) ++
        copy ((r1.set sc (stringsJoin ((row.drop sc).take (ec - sc)) a.Delimiter)).drop
          (sc + 1)) (row.drop ec)
      else r1.set sc (stringsJoin ((row.drop sc).take (ec - sc)) a.Delimiter)) := by
    split at hr3
    · rename_i hlt
      rw [bind_eq_ok] at hr3
      obtain ⟨src, hsrc, h⟩ := hr3
      rw [sliceFrom_ok_iff] at hsrc
      obtain ⟨-, -, rfl⟩ := hsrc
      rw [copyFrom_ok_iff] at h
      obtain ⟨-, -, h⟩ := h
      have e : ((sc : Int) + 1).toNat = sc + 1 := by omega
      simp only [Int.toNat_natCast, e] at h
      have : ec < row.length := by omega
      rw [if_pos this]; exact h
    · rename_i hlt
      simp only [pure, Except.pure, Except.ok.injEq] at hr3
      have : ¬ ec < row.length := by omega
      rw [if_neg this]; exact hr3.symm
  rw [List.set_set]
  congr 2
  rw [e3, e1]
  exact mergeColumns_row_eq _ hsE' (by omega)

/-- Rows that agree below `s` give equal prefixes. -/
theorem take_eq_of_getElem? {α : Type} {xs ys : List α} {s : Nat}
    (h : ∀ j, j < s → xs[j]? = ys[j]?) : xs.take s = ys.take s := by
  apply List.ext_getElem?
  intro j
  rw [List.getElem?_take, List.getElem?_take]
  split
  · exact h j ‹_›
  · rfl

/-- Rows that agree from `e'` (in `xs`) and `e` (in `ys`) on make the tail of `ys`
a suffix of `xs`. -/
theorem drop_suffix_of_getElem? {α : Type} {xs ys : List α} {e k : Nat}
    (h : ∀ j, xs[k + j]? = ys[e + j]?) : ys.drop e <:+ xs := by
  have : xs.drop k = ys.drop e := by
    apply List.ext_getElem?
    intro j
    rw [List.getElem?_drop, List.getElem?_drop]; exact h j
  rw [← this]; exact List.drop_suffix _ _

/-- What a successful `ProcessorMergeColumns.Execute` returns. -/
theorem mergeColumns_ok {a : ProcessorMergeColumns} {R R' : Records}
    (h : a.Execute R = .ok R') :
    0 ≤ a.Start.Row ∧ 0 ≤ a.Start.Column ∧
    a.Start.Row.toNat ≤ resolveEndRow a.End.Row R ∧ resolveEndRow a.End.Row R ≤ R.length ∧
    R'.length = R.length ∧
    (∀ j, ¬ (a.Start.Row.toNat ≤ j ∧ j < resolveEndRow a.End.Row R) → R'[j]? = R[j]?) ∧
    (∀ j row, a.Start.Row.toNat ≤ j → j < resolveEndRow a.End.Row R → R[j]? = some row →
      a.Start.Column.toNat ≤ resolveEndColumn a.End.Column row ∧
      resolveEndColumn a.End.Column row ≤ row.length ∧
      R'[j]? = some (mergedColumns a.Start.Column.toNat
        (resolveEndColumn a.End.Column row) a.Delimiter row)) := by
  unfold ProcessorMergeColumns.Execute at h
  simp only [goLen] at h
  split at h; · cases h
  split at h; · cases h
  split at h; · cases h
  split at h; · cases h
  split at h; · cases h
  rename_i g1 g2 g3 g4 g5
  simp only [bind_eq_ok] at h
  obtain ⟨new0, hnew0, new1, hl1, st, hl2, hl3⟩ := h
  have hs0 : 0 ≤ a.Start.Row := by omega
  have hc0 : 0 ≤ a.Start.Column := by omega
  obtain ⟨s, hs⟩ : ∃ s : Nat, a.Start.Row = s := ⟨_, (Int.toNat_of_nonneg hs0).symm⟩
  have he : (if a.End.Row < 0 then (R.length : Int) else a.End.Row) =
      (resolveEndRow a.End.Row R : Nat) := by
    unfold resolveEndRow; split <;> simp; omega
  have hse : s ≤ resolveEndRow a.End.Row R := by
    unfold resolveEndRow; split <;> omega
  have heR : resolveEndRow a.End.Row R ≤ R.length := by
    unfold resolveEndRow; split <;> omega
  rw [he] at hl2 hl3
  generalize resolveEndRow a.End.Row R = e at *
  rw [hs] at hl1 hl2
  simp only [hs, Int.toNat_natCast]
  rw [make_natCast] at hnew0
  simp only [Except.ok.injEq] at hnew0
  subst hnew0
  have k1 := copyRows_ok (l := 0) (by omega) (by simpa using hl1)
  have k3 := copyRows_ok heR hl3
  -- the band loop
  have k2 := forLoop_inv (s := (new1, a.End.Column)) (fun k (st : Records × Int) =>
      st.1.length = new1.length ∧ (¬ a.End.Column < 0 → st.2 = a.End.Column) ∧
      (∀ j, ¬ (s ≤ j ∧ j < k) → st.1[j]? = new1[j]?) ∧
      (∀ j row, s ≤ j → j < k → R[j]? = some row →
        a.Start.Column.toNat ≤ resolveEndColumn a.End.Column row ∧
        resolveEndColumn a.End.Column row ≤ row.length ∧
        st.1[j]? = some (mergedColumns a.Start.Column.toNat
          (resolveEndColumn a.End.Column row) a.Delimiter row)))
    hse ⟨rfl, fun _ => rfl, fun _ _ => rfl, fun j row h1 h2 => by omega⟩
    (by
      rintro n ⟨new, ec⟩ st' hn hn' ⟨ilen, iec, iout, iin⟩ hb
      obtain ⟨row, hrow, b1, b2, b3, rfl⟩ := mergeColumnsBody_ok hc0 hb
      simp only at b1 b2 b3 iec ilen iout iin ⊢
      have hE : (if a.End.Column < 0 then (row.length : Int) else ec).toNat =
          resolveEndColumn a.End.Column row := by
        unfold resolveEndColumn
        split
        · simp
        · rw [iec ‹_›]
      refine ⟨by simp [ilen], ?_, ?_, ?_⟩
      · intro hneg; rw [if_neg hneg]; exact iec hneg
      · intro j hj
        rw [List.getElem?_set_ne (by omega)]
        exact iout j (by omega)
      · intro j row' h1 h2 hrow'
        by_cases hjn : j = n
        · subst hjn
          rw [hrow] at hrow'
          cases hrow'
          rw [← hE]
          refine ⟨by omega, by omega, ?_⟩
          rw [List.getElem?_set_self b3]
        · rw [List.getElem?_set_ne (by omega)]
          exact iin j row' h1 (by omega) hrow')
    hl2
  obtain ⟨q1, -, q3, q4⟩ := k2
  refine ⟨by omega, hc0, hse, heR, ?_, ?_, ?_⟩
  · rw [k3.1, q1, k1.1]; simp
  · intro j hj
    rw [k3.2 j]
    split
    · rfl
    · rw [q3 j hj, k1.2 j]
      split
      · rfl
      · have hjR : R.length ≤ j := by omega
        rw [List.getElem?_eq_none hjR, List.getElem?_eq_none (by simpa using hjR)]
  · intro j row h1 h2 hrow
    obtain ⟨r1, r2, r3⟩ := q4 j row h1 h2 hrow
    refine ⟨r1, r2, ?_⟩
    rw [k3.2 j]
    have : ¬ (e ≤ j ∧ j < R.length) := by omega
    rw [if_neg this, r3]

theorem index2_eq_ok {α : Type} {m : List (List α)} {r c : Nat} {v : α} :
    index2 m (r : Int) (c : Int) = .ok v ↔ ∃ row, m[r]? = some row ∧ row[c]? = some v := by
  unfold index2
  rw [bind_eq_ok]
  constructor
  · rintro ⟨row, h1, h2⟩
    exact ⟨row, index_eq_ok.1 h1, index_eq_ok.1 h2⟩
  · rintro ⟨row, h1, h2⟩
    exact ⟨row, index_eq_ok.2 h1, index_eq_ok.2 h2⟩

theorem setIndex2_eq_ok {α : Type} {m m' : List (List α)} {r c : Nat} {v : α} :
    setIndex2 m (r : Int) (c : Int) v = .ok m' ↔
      ∃ row, m[r]? = some row ∧ c < row.length ∧ m' = m.set r (row.set c v) := by
  unfold setIndex2
  simp only [bind_eq_ok]
  constructor
  · rintro ⟨row, h1, row', h2, h3⟩
    rw [index_eq_ok] at h1
    rw [setIndex_eq_ok] at h2 h3
    obtain ⟨h2, rfl⟩ := h2
    exact ⟨row, h1, h2, h3.2⟩
  · rintro ⟨row, h1, h2, rfl⟩
    have hr : r < m.length := by
      rw [List.getElem?_eq_some] at h1; exact h1.1
    exact ⟨row, index_eq_ok.2 h1, _, setIndex_of_lt _ h2, setIndex_of_lt _ hr⟩

/-- A column loop that rewrites `new[s][i]` from its old value and `records[n][i]`
replaces row `s` of `new` by the cell-wise combination. -/
theorem cellLoop_ok {records : Records} {body : Int → Records → Exec Records}
    {f : String → String → String} {s n : Nat} {new new' : Records} {acc row : List String}
    (hacc : new[s]? = some acc) (hrow : records[n]? = some row)
    (hlen : acc.length = row.length)
    (hbody : ∀ (i : Nat) st st', body (i : Int) st = .ok st' →
      ∃ cur nxt, index2 st (s : Int) (i : Int) = .ok cur ∧
        index2 records (n : Int) (i : Int) = .ok nxt ∧
        setIndex2 st (s : Int) (i : Int) (f cur nxt) = .ok st')
    (hrun : forLoop 0 (row.length : Int) body new = .ok new') :
    new' = new.set s (List.zipWith f acc row) := by
  have hs : s < new.length := by
    rw [List.getElem?_eq_some] at hacc; exact hacc.1
  have key := forLoop_inv (l := 0) (u := row.length) (s := new) (f := body)
    (fun k st => st.length = new.length ∧ (∀ j, j ≠ s → st[j]? = new[j]?) ∧
      ∃ m, st[s]? = some m ∧ m.length = acc.length ∧
        ∀ i, m[i]? = if i < k then (List.zipWith f acc row)[i]? else acc[i]?)
    (Nat.zero_le _) ⟨rfl, fun _ _ => rfl, acc, hacc, rfl, fun i => by simp⟩
    (by
      rintro k st st' - hk ⟨ilen, iout, m, hm, hml, hpt⟩ hb
      obtain ⟨cur, nxt, h1, h2, h3⟩ := hbody k st st' hb
      rw [index2_eq_ok] at h1 h2
      rw [setIndex2_eq_ok] at h3
      obtain ⟨m1, hm1, hcur⟩ := h1
      obtain ⟨row1, hrow1, hnxt⟩ := h2
      obtain ⟨m2, hm2, hk2, rfl⟩ := h3
      rw [hm] at hm1 hm2; cases hm1; cases hm2
      rw [hrow] at hrow1; cases hrow1
      have hcur' : acc[k]? = some cur := by
        have := hpt k; simp at this; rw [← this]; exact hcur
      refine ⟨by simp [ilen], fun j hj => ?_, m.set k (f cur nxt), ?_, by simp [hml], ?_⟩
      · rw [List.getElem?_set_ne (Ne.symm hj)]; exact iout j hj
      · rw [List.getElem?_set_self (by omega)]
      · intro i
        rw [List.getElem?_set]
        by_cases hki : k = i
        · subst hki
          rw [if_pos rfl, if_pos hk2, if_pos (Nat.lt_succ_self _)]
          simp [List.getElem?_zipWith, hcur', hnxt]
        · rw [if_neg hki, hpt i]
          by_cases hik : i < k
          · rw [if_pos hik, if_pos (by omega)]
          · rw [if_neg hik, if_neg (by omega)])
    (by simpa using hrun)
  obtain ⟨klen, kout, m, hm, hml, hpt⟩ := key
  have hmz : m = List.zipWith f acc row := by
    apply List.ext_getElem?
    intro i
    rw [hpt i]
    split
    · rfl
    · rw [List.getElem?_eq_none (by omega), List.getElem?_eq_none (by simp; omega)]
  subst hmz
  apply List.ext_getElem?
  intro j
  rw [List.getElem?_set]
  by_cases hj : s = j
  · subst hj
    rw [if_pos rfl, if_pos hs, hm]
  · rw [if_neg hj]; exact kout j (Ne.symm hj)

theorem mergeRowsBody_ok {a : ProcessorMergeRows} {records : Records} {s n : Nat}
    {new new' : Records} (hs : a.StartRow = s)
    (h : mergeRowsBody a records (n : Int) new = .ok new') :
    ∃ acc row, new[s]? = some acc ∧ records[n]? = some row ∧ acc.length = row.length ∧
      new' = new.set s (List.zipWith (mergeCell a) acc row) := by
  unfold mergeRowsBody at h
  simp only [bind_eq_ok, hs] at h
  obtain ⟨acc, hacc, row, hrow, h⟩ := h
  rw [index_eq_ok] at hacc hrow
  split at h; · cases h
  rename_i hlen
  have hlen' : acc.length = row.length := by
    simp only [goLen, ne_eq, not_not] at hlen; exact_mod_cast hlen
  refine ⟨acc, row, hacc, hrow, hlen', ?_⟩
  split at h
  · rename_i ht
    refine cellLoop_ok hacc hrow hlen' ?_ h
    intro i st st' hb
    unfold mergeRowsTrimCell at hb
    simp only [bind_eq_ok, hs] at hb
    obtain ⟨cur, h1, nxt, h2, h3⟩ := hb
    exact ⟨cur, nxt, h1, h2, by simpa [mergeCell, ht] using h3⟩
  · rename_i ht
    refine cellLoop_ok hacc hrow hlen' ?_ h
    intro i st st' hb
    unfold mergeRowsPlainCell at hb
    simp only [bind_eq_ok, hs] at hb
    obtain ⟨cur, h1, nxt, h2, h3⟩ := hb
    exact ⟨cur, nxt, h1, h2, by simpa [mergeCell, ht] using h3⟩

theorem copy_replicate_self {α : Type} (zero : α) (xs : List α) :
    copy (List.replicate xs.length zero) xs = xs := by
  simp [copy]

theorem mergeRowsFold_length (a : ProcessorMergeRows) (first : List String)
    (rest : List (List String)) (h : ∀ row ∈ rest, row.length = first.length) :
    (mergeRowsFold a first rest).length = first.length := by
  unfold mergeRowsFold
  induction rest generalizing first with
  | nil => rfl
  | cons r rest ih =>
    simp only [List.foldl_cons]
    have hr : r.length = first.length := h r (List.mem_cons_self _ _)
    have hz : (List.zipWith (mergeCell a) first r).length = first.length := by
      simp [hr]
    rw [ih _ (fun row hrow => by rw [hz]; exact h row (List.mem_cons_of_mem _ hrow))]
    exact hz

theorem mergeRowsFold_append (a : ProcessorMergeRows) (first : List String)
    (rest : List (List String)) (row : List String) :
    mergeRowsFold a first (rest ++ [row]) =
      List.zipWith (mergeCell a) (mergeRowsFold a first rest) row := by
  simp [mergeRowsFold, List.foldl_append]

theorem take_succ_drop {α : Type} {xs : List α} {s k : Nat} {x : α}
    (h : xs[s + k]? = some x) :
    (xs.drop s).take (k + 1) = (xs.drop s).take k ++ [x] := by
  rw [List.take_succ, List.getElem?_drop, h]; rfl

/-- What a successful `ProcessorMergeRows.Execute` returns. -/
theorem mergeRows_ok {a : ProcessorMergeRows} {R R' : Records}
    (h : a.Execute R = .ok R') :
    0 ≤ a.StartRow ∧ a.StartRow.toNat ≤ resolveEndRow a.EndRow R ∧
    resolveEndRow a.EndRow R ≤ R.length ∧
    ∃ first, R[a.StartRow.toNat]? = some first ∧
      (∀ row ∈ (R.drop (a.StartRow.toNat + 1)).take
          (resolveEndRow a.EndRow R - (a.StartRow.toNat + 1)), row.length = first.length) ∧
      R' = R.take a.StartRow.toNat ++
        [mergeRowsFold a first ((R.drop (a.StartRow.toNat + 1)).take
          (resolveEndRow a.EndRow R - (a.StartRow.toNat + 1)))] ++
        R.drop (resolveEndRow a.EndRow R) := by
  unfold ProcessorMergeRows.Execute at h
  simp only [goLen] at h
  split at h; · cases h
  split at h; · cases h
  split at h; · cases h
  split at h; · cases h
  rename_i g1 g2 g4 g5
  simp only [bind_eq_ok] at h
  obtain ⟨new0, hnew0, new1, hl1, first, hfirst, merged, hmerged, new2, hnew2, new3, hnew3,
    new4, hl2, hl3⟩ := h
  have hs0 : 0 ≤ a.StartRow := by omega
  obtain ⟨s, hs⟩ : ∃ s : Nat, a.StartRow = s := ⟨_, (Int.toNat_of_nonneg hs0).symm⟩
  have he : (if a.EndRow < 0 then (R.length : Int) else a.EndRow) =
      (resolveEndRow a.EndRow R : Nat) := by
    unfold resolveEndRow; split <;> simp; omega
  have hse : s ≤ resolveEndRow a.EndRow R := by
    unfold resolveEndRow; split <;> omega
  have heR : resolveEndRow a.EndRow R ≤ R.length := by
    unfold resolveEndRow; split <;> omega
  have hL : (if a.EndRow < 0 then 1 + a.StartRow
      else (R.length : Int) - (a.EndRow - a.StartRow) + 1) =
      ((s + 1 + (R.length - resolveEndRow a.EndRow R) : Nat) : Int) := by
    unfold resolveEndRow; split <;> simp <;> omega
  rw [he] at hl2 hl3
  rw [hL] at hnew0
  generalize resolveEndRow a.EndRow R = e at *
  simp only [hs, Int.toNat_natCast] at hl1 hl2 hl3 hfirst hnew2 hnew3 ⊢
  rw [make_natCast] at hnew0
  simp only [Except.ok.injEq] at hnew0
  subst hnew0
  rw [index_eq_ok] at hfirst
  rw [make_natCast] at hmerged
  simp only [Except.ok.injEq] at hmerged
  subst hmerged
  rw [setIndex_eq_ok] at hnew2 hnew3
  obtain ⟨hs2, rfl⟩ := hnew2
  obtain ⟨-, rfl⟩ := hnew3
  rw [List.set_set, copy_replicate_self] at hl2
  have k1 := copyRows_ok (l := 0) (by omega) (by simpa using hl1)
  obtain ⟨k1len, k1pt⟩ := k1
  -- the band loop
  have k2 : new4.length = new1.length ∧ (∀ j, j ≠ s → new4[j]? = new1[j]?) ∧
      (∀ row ∈ (R.drop (s + 1)).take (e - (s + 1)), row.length = first.length) ∧
      new4[s]? = some (mergeRowsFold a first ((R.drop (s + 1)).take (e - (s + 1)))) := by
    by_cases hemp : e < s + 1
    · rw [forLoop_empty _ (by omega)] at hl2
      simp only [Except.ok.injEq] at hl2
      subst hl2
      have e0 : e - (s + 1) = 0 := by omega
      refine ⟨by simp, fun j hj => List.getElem?_set_ne (Ne.symm hj), ?_, ?_⟩
      · simp [e0]
      · rw [List.getElem?_set_self hs2, e0]; rfl
    · have hle : s + 1 ≤ e := by omega
      refine forLoop_inv (l := s + 1) (u := e) (s := new1.set s first)
        (f := mergeRowsBody a R)
        (fun k st => st.length = new1.length ∧ (∀ j, j ≠ s → st[j]? = new1[j]?) ∧
          (∀ row ∈ (R.drop (s + 1)).take (k - (s + 1)), row.length = first.length) ∧
          st[s]? = some (mergeRowsFold a first ((R.drop (s + 1)).take (k - (s + 1)))))
        hle ⟨by simp, fun j hj => List.getElem?_set_ne (Ne.symm hj), by simp, by
          rw [List.getElem?_set_self hs2]; simp [mergeRowsFold]⟩ ?_ (by exact_mod_cast hl2)
      rintro n st st' hn hn' ⟨ilen, iout, ilens, iacc⟩ hb
      obtain ⟨acc, row, hacc, hrow, hlen, rfl⟩ := mergeRowsBody_ok hs hb
      rw [iacc] at hacc; cases hacc
      have hflen := mergeRowsFold_length a first _ ilens
      have hk : n + 1 - (s + 1) = (n - (s + 1)) + 1 := by omega
      have hrow' : R[s + 1 + (n - (s + 1))]? = some row := by
        rw [← hrow]; congr 1; omega
      have hsn : s < st.length := by
        have := List.getElem?_eq_some.1 iacc; exact this.1
      rw [hk, take_succ_drop hrow']
      refine ⟨by simp [ilen], fun j hj => ?_, ?_, ?_⟩
      · rw [List.getElem?_set_ne (Ne.symm hj)]; exact iout j hj
      · intro r hr
        rw [List.mem_append] at hr
        rcases hr with hr | hr
        · exact ilens r hr
        · simp only [List.mem_singleton] at hr
          subst hr; omega
      · rw [List.getElem?_set_self hsn, mergeRowsFold_append]
  obtain ⟨k2len, k2out, k2lens, k2acc⟩ := k2
  have k3 := copyLoop_ok (R := R) (b := s + 1) heR (fun n st st' hn hb => by
    unfold mergeRowsTailBody at hb
    rw [bind_eq_ok] at hb
    obtain ⟨row, hrow, hb⟩ := hb
    rw [index_eq_ok] at hrow
    rw [setIndex_ok_iff] at hb
    have e1 : (a.StartRow + ((n : Int) - (e : Int) + 1)).toNat = n - e + (s + 1) := by omega
    rw [e1] at hb
    exact ⟨row, hrow, hb.2.1, hb.2.2⟩) hl3
  obtain ⟨k3len, k3pt, -⟩ := k3
  refine ⟨by omega, hse, heR, first, hfirst, k2lens, ?_⟩
  have hsR : s < R.length := (List.getElem?_eq_some.1 hfirst).1
  apply List.ext_getElem?
  intro j
  rw [k3pt j]
  have hts : (R.take s).length = s := by simp; omega
  by_cases hj1 : j < s
  · rw [if_neg (by omega), k2out j (by omega), k1pt j, if_pos (by omega)]
    rw [List.append_assoc, List.getElem?_append_left (by omega), List.getElem?_take,
      if_pos hj1]
  · by_cases hj2 : j = s
    · subst hj2
      rw [if_neg (by omega), k2acc]
      rw [List.getElem?_append_left (by simp; omega),
        List.getElem?_append_right (by omega), hts]
      simp
    · rw [List.getElem?_append_right (by simp; omega), List.getElem?_drop]
      have hl : (R.take s ++ [mergeRowsFold a first
          ((R.drop (s + 1)).take (e - (s + 1)))]).length = s + 1 := by simp; omega
      rw [hl]
      have e2 : e + (j - (s + 1)) = j - (s + 1) + e := by omega
      by_cases hj3 : j < s + 1 + (R.length - e)
      · rw [if_pos (by omega), e2]
      · rw [if_neg (by omega), k2out j hj2, k1pt j, if_neg (by omega)]
        rw [List.getElem?_eq_none (by simp; omega), List.getElem?_eq_none (by omega)]

/-! ## Trimming -/

theorem clean_nil : Clean [] := by
  constructor <;> intro c hc <;> simp at hc

theorem Clean.append {a b : List Char} (ha : Clean a) (hb : Clean b) : Clean (a ++ b) := by
  constructor
  · intro c hc
    rw [List.head?_append] at hc
    cases hh : a.head? with
    | none => rw [hh] at hc; exact hb.1 c hc
    | some x => rw [hh] at hc; exact ha.1 c (by rw [hh]; exact hc)
  · intro c hc
    rw [List.getLast?_append] at hc
    cases hh : b.getLast? with
    | none => rw [hh] at hc; exact ha.2 c hc
    | some x => rw [hh] at hc; exact hb.2 c (by rw [hh]; exact hc)

theorem Clean.trim_eq {l : List Char} (h : Clean l) :
    (l.dropWhile isSpace).rdropWhile isSpace = l := by
  have h1 : l.dropWhile isSpace = l := by
    cases l with
    | nil => rfl
    | cons x xs =>
      have := h.1 x (by simp)
      simp [List.dropWhile_cons, this]
  rw [h1, List.rdropWhile_eq_self_iff]
  intro hl
  have := h.2 _ (by rw [List.getLast?_eq_getLast l hl]; exact rfl)
  simp [this]

theorem clean_trim (l : List Char) : Clean ((l.dropWhile isSpace).rdropWhile isSpace) := by
  constructor
  · intro c hc
    have hpre := List.rdropWhile_prefix isSpace (l.dropWhile isSpace)
    obtain ⟨t, ht⟩ := hpre
    have hnot := List.head?_dropWhile_not isSpace l
    cases hx : (l.dropWhile isSpace).rdropWhile isSpace with
    | nil => rw [hx] at hc; simp at hc
    | cons x xs =>
      rw [hx] at hc ht
      simp only [List.head?_cons, Option.mem_def, Option.some.injEq] at hc
      subst hc
      rw [← ht] at hnot
      simpa using hnot
  · intro c hc
    by_cases hx : (l.dropWhile isSpace).rdropWhile isSpace = []
    · rw [hx] at hc; simp at hc
    · have := List.rdropWhile_last_not isSpace (l.dropWhile isSpace) hx
      rw [List.getLast?_eq_getLast _ hx] at hc
      simp only [Option.mem_def, Option.some.injEq] at hc
      subst hc
      simpa using this

theorem trimSpace_eq_self_iff (s : String) : TrimSpace s = s ↔ Clean s.data := by
  constructor
  · intro h
    have := clean_trim s.data
    have e : (TrimSpace s).data = s.data := by rw [h]
    simp only [TrimSpace] at e
    rw [e] at this; exact this
  · intro h
    unfold TrimSpace
    rw [h.trim_eq]

theorem trimSpace_clean (s : String) : Clean (TrimSpace s).data := clean_trim s.data

theorem trimSpace_idem (s : String) : TrimSpace (TrimSpace s) = TrimSpace s :=
  (trimSpace_eq_self_iff _).2 (trimSpace_clean s)

/-! ## Columns of the merged row -/

theorem stringsJoin_pair (x y d : String) : stringsJoin [x, y] d = x ++ d ++ y := rfl

theorem stringsJoin_cons (x : String) (rest : List String) (d : String) :
    stringsJoin (x :: rest) d = rest.foldl (fun b s => b ++ d ++ s) x := rfl

/-- Cell `i` of the folded row is the fold of the cells `i` of the rows. -/
theorem mergeRowsFold_getElem? (a : ProcessorMergeRows) (first : List String)
    (rest : List (List String)) (h : ∀ row ∈ rest, row.length = first.length)
    (i : Nat) (hi : i < first.length) :
    (mergeRowsFold a first rest)[i]? =
      some ((rest.map (fun row => row.getD i "")).foldl (mergeCell a) (first.getD i "")) := by
  unfold mergeRowsFold
  induction rest generalizing first with
  | nil => simp [List.getD_eq_getElem?_getD, List.getElem?_eq_getElem hi]
  | cons r rest ih =>
    have hr : r.length = first.length := h r (List.mem_cons_self _ _)
    have hz : (List.zipWith (mergeCell a) first r).length = first.length := by
      simp [hr]
    simp only [List.foldl_cons, List.map_cons]
    rw [ih _ (fun row hrow => by rw [hz]; exact h row (List.mem_cons_of_mem _ hrow))
      (by rw [hz]; exact hi)]
    congr 2
    simp [List.getD_eq_getElem?_getD, List.getElem?_zipWith, List.getElem?_eq_getElem hi,
      List.getElem?_eq_getElem (hr ▸ hi)]

/-- Without trimming the fold of a column is its `strings.Join`. -/
theorem foldl_mergeCell_plain (a : ProcessorMergeRows) (ht : a.TrimWhitespace = false)
    (x : String) (rest : List String) :
    rest.foldl (mergeCell a) x = stringsJoin (x :: rest) a.Delimiter := by
  rw [stringsJoin_cons]
  congr 1
  funext b s
  simp [mergeCell, ht, stringsJoin_pair]

theorem foldl_mergeCell_trim_clean (a : ProcessorMergeRows) (ht : a.TrimWhitespace = true)
    (hd : TrimSpace a.Delimiter = a.Delimiter) (acc : String) (hacc : TrimSpace acc = acc)
    (rest : List String) :
    rest.foldl (mergeCell a) acc =
        (rest.map TrimSpace).foldl (fun b s => b ++ a.Delimiter ++ s) acc ∧
      TrimSpace (rest.foldl (mergeCell a) acc) = rest.foldl (mergeCell a) acc := by
  induction rest generalizing acc with
  | nil => exact ⟨rfl, hacc⟩
  | cons x rest ih =>
    have hstep : mergeCell a acc x = acc ++ a.Delimiter ++ TrimSpace x := by
      simp only [mergeCell, ht, if_true, stringsJoin_pair, hacc]
      rw [trimSpace_eq_self_iff]
      simp only [String.data_append]
      exact (((trimSpace_eq_self_iff acc).1 hacc).append
        ((trimSpace_eq_self_iff _).1 hd)).append (trimSpace_clean x)
    have hclean : TrimSpace (mergeCell a acc x) = mergeCell a acc x := by
      simp only [mergeCell, ht, if_true]
      exact trimSpace_idem _
    simp only [List.foldl_cons, List.map_cons]
    rw [← hstep]
    exact ih _ hclean

/-- With trimming, a delimiter that trimming leaves alone and at least two rows, the
fold of a column is the join of its trimmed cells, and trimming leaves it alone. -/
theorem foldl_mergeCell_trim (a : ProcessorMergeRows) (ht : a.TrimWhitespace = true)
    (hd : TrimSpace a.Delimiter = a.Delimiter) (x y : String) (rest : List String) :
    (y :: rest).foldl (mergeCell a) x =
      TrimSpace (stringsJoin ((x :: y :: rest).map TrimSpace) a.Delimiter) := by
  have hstep : mergeCell a x y = TrimSpace x ++ a.Delimiter ++ TrimSpace y := by
    simp only [mergeCell, ht, if_true, stringsJoin_pair]
    rw [trimSpace_eq_self_iff]
    simp only [String.data_append]
    exact ((trimSpace_clean x).append ((trimSpace_eq_self_iff _).1 hd)).append
      (trimSpace_clean y)
  have hclean : TrimSpace (mergeCell a x y) = mergeCell a x y := by
    simp only [mergeCell, ht, if_true]
    exact trimSpace_idem _
  obtain ⟨h1, h2⟩ := foldl_mergeCell_trim_clean a ht hd _ hclean rest
  simp only [List.foldl_cons, List.map_cons, stringsJoin_cons]
  rw [← hstep, ← h1, h2]

/-! ## `FillRight` -/

theorem filledRow_empty (sc ec : Nat) (row : List String) (h : ec ≤ sc) :
    FilledRow sc ec row row :=
  ⟨rfl, fun _ _ => rfl, fun i _ h1 h2 => by omega⟩

theorem fillRightCell_ok {n i : Nat} {st st' : Records}
    (h : fillRightCell (n : Int) (i : Int) st = .ok st') :
    ∃ m v, st[n]? = some m ∧ m[i]? = some v ∧
      ((¬ (0 < i ∧ TrimSpace v = "") ∧ st' = st) ∨
       (0 < i ∧ TrimSpace v = "" ∧ ∃ prev, m[i - 1]? = some prev ∧
          st' = st.set n (m.set i prev))) := by
  unfold fillRightCell at h
  rw [bind_eq_ok] at h
  obtain ⟨v, hv, h⟩ := h
  rw [index2_eq_ok] at hv
  obtain ⟨m, hm, hv⟩ := hv
  refine ⟨m, v, hm, hv, ?_⟩
  split at h
  · rename_i hne
    simp only [Except.ok.injEq] at h
    exact Or.inl ⟨fun hh => hne hh.2, h.symm⟩
  · rename_i hne
    split at h
    · rename_i h0
      simp only [Except.ok.injEq] at h
      exact Or.inl ⟨fun hh => by omega, h.symm⟩
    · rename_i h0
      have hi : 0 < i := by omega
      rw [bind_eq_ok] at h
      obtain ⟨prev, hprev, h⟩ := h
      have e : ((i : Int) - 1) = ((i - 1 : Nat) : Int) := by omega
      rw [e, index2_eq_ok] at hprev
      rw [setIndex2_eq_ok] at h
      obtain ⟨m1, hm1, hp⟩ := hprev
      obtain ⟨m2, hm2, hlt, rfl⟩ := h
      rw [hm] at hm1 hm2; cases hm1; cases hm2
      exact Or.inr ⟨hi, not_not.1 hne, prev, hp, rfl⟩

/-- The column loop of `FillRight` on row `n`. -/
theorem fillRightCols_ok {n sc ec : Nat} {recs recs' : Records} {row : List String}
    (hrow : recs[n]? = some row) (hle : sc ≤ ec)
    (hrun : forLoop (sc : Int) (ec : Int) (fillRightCell (n : Int)) recs = .ok recs') :
    recs'.length = recs.length ∧ (∀ j, j ≠ n → recs'[j]? = recs[j]?) ∧
      ∃ m, recs'[n]? = some m ∧ FilledRow sc ec row m := by
  refine forLoop_inv (fun k st => st.length = recs.length ∧
      (∀ j, j ≠ n → st[j]? = recs[j]?) ∧ ∃ m, st[n]? = some m ∧ FilledRow sc k row m)
    hle ⟨rfl, fun _ _ => rfl, row, hrow, filledRow_empty _ _ _ (le_refl _)⟩ ?_ hrun
  rintro k st st' hk hk' ⟨ilen, iout, m, hm, hml, hout, hin⟩ hb
  obtain ⟨m1, v, hm1, hv, hcase⟩ := fillRightCell_ok hb
  rw [hm] at hm1; cases hm1
  have hvrow : row[k]? = some v := by rw [← hout k (by omega)]; exact hv
  have hn : n < st.length := (List.getElem?_eq_some.1 hm).1
  have hkm : k < m.length := (List.getElem?_eq_some.1 hv).1
  rcases hcase with ⟨hnb, rfl⟩ | ⟨h0, hb', prev, hprev, rfl⟩
  · refine ⟨ilen, iout, m, hm, hml, fun i hi => hout i (by omega), ?_⟩
    intro i w h1 h2 hw
    by_cases hik : i = k
    · subst hik
      rw [hvrow] at hw; cases hw
      exact ⟨fun hh => absurd hh hnb, fun _ => hv⟩
    · exact hin i w h1 (by omega) hw
  · refine ⟨by simp [ilen], fun j hj => ?_, m.set k prev, ?_, by simp [hml], ?_, ?_⟩
    · rw [List.getElem?_set_ne (Ne.symm hj)]; exact iout j hj
    · rw [List.getElem?_set_self hn]
    · intro i hi
      rw [List.getElem?_set_ne (by omega)]
      exact hout i (by omega)
    · intro i w h1 h2 hw
      by_cases hik : i = k
      · subst hik
        rw [hvrow] at hw; cases hw
        refine ⟨fun _ => ?_, fun hh => absurd ⟨h0, hb'⟩ hh⟩
        rw [List.getElem?_set_self hkm, List.getElem?_set_ne (by omega), hprev]
      · rw [List.getElem?_set_ne (Ne.symm hik), List.getElem?_set_ne (by omega)]
        exact hin i w h1 (by omega) hw

theorem fillRightBody_ok {a : ProcessorFillRight} {n : Nat} {st st' : Records × Int}
    (hsc : 0 ≤ a.Start.Column)
    (hec : ¬ a.End.Column < 0 → st.2 = a.End.Column)
    (h : fillRightBody a (n : Int) st = .ok st') :
    ∃ row, st.1[n]? = some row ∧ resolveEndColumn a.End.Column row ≤ row.length ∧
      (¬ a.End.Column < 0 → st'.2 = a.End.Column) ∧
      st'.1.length = st.1.length ∧ (∀ j, j ≠ n → st'.1[j]? = st.1[j]?) ∧
      ∃ m, st'.1[n]? = some m ∧
        FilledRow a.Start.Column.toNat (resolveEndColumn a.End.Column row) row m := by
  unfold fillRightBody at h
  rw [bind_eq_ok] at h
  obtain ⟨row, hrow, h⟩ := h
  rw [index_eq_ok] at hrow
  refine ⟨row, hrow, ?_⟩
  simp only [goLen] at h
  have hE : (if a.End.Column < 0 then (row.length : Int) else st.2) =
      (resolveEndColumn a.End.Column row : Nat) := by
    unfold resolveEndColumn
    split
    · rfl
    · rw [hec ‹_›]; omega
  rw [hE] at h
  split at h; · cases h
  rename_i hle
  rw [bind_eq_ok] at h
  obtain ⟨recs', hloop, h⟩ := h
  simp only [pure, Except.pure, Except.ok.injEq] at h
  subst h
  obtain ⟨sc, hscn⟩ : ∃ sc : Nat, a.Start.Column = sc := ⟨_, (Int.toNat_of_nonneg hsc).symm⟩
  rw [hscn] at hloop
  simp only [hscn, Int.toNat_natCast]
  refine ⟨by omega, fun hneg => ?_, ?_⟩
  · unfold resolveEndColumn; rw [if_neg hneg]; omega
  · by_cases hlt : resolveEndColumn a.End.Column row < sc
    · rw [forLoop_empty _ (by omega)] at hloop
      simp only [Except.ok.injEq] at hloop
      subst hloop
      exact ⟨rfl, fun _ _ => rfl, row, hrow, filledRow_empty _ _ _ (by omega)⟩
    · exact fillRightCols_ok hrow (by omega) hloop

/-- What a successful `ProcessorFillRight.Execute` returns. -/
theorem fillRight_ok {a : ProcessorFillRight} {R R' : Records}
    (h : a.Execute R = .ok R') :
    0 ≤ a.Start.Row ∧ 0 ≤ a.Start.Column ∧
    a.Start.Row.toNat ≤ resolveEndRow a.End.Row R ∧ resolveEndRow a.End.Row R ≤ R.length ∧
    R'.length = R.length ∧
    (∀ j, ¬ (a.Start.Row.toNat ≤ j ∧ j < resolveEndRow a.End.Row R) → R'[j]? = R[j]?) ∧
    (∀ j row, a.Start.Row.toNat ≤ j → j < resolveEndRow a.End.Row R → R[j]? = some row →
      resolveEndColumn a.End.Column row ≤ row.length ∧
      ∃ m, R'[j]? = some m ∧
        FilledRow a.Start.Column.toNat (resolveEndColumn a.End.Column row) row m) := by
  unfold ProcessorFillRight.Execute at h
  simp only [goLen] at h
  split at h; · cases h
  split at h; · cases h
  split at h; · cases h
  split at h; · cases h
  split at h; · cases h
  rename_i g1 g2 g3 g4 g5
  simp only [bind_eq_ok] at h
  obtain ⟨st, hl, h⟩ := h
  simp only [pure, Except.pure, Except.ok.injEq] at h
  subst h
  have hs0 : 0 ≤ a.Start.Row := by omega
  have hc0 : 0 ≤ a.Start.Column := by omega
  obtain ⟨s, hs⟩ : ∃ s : Nat, a.Start.Row = s := ⟨_, (Int.toNat_of_nonneg hs0).symm⟩
  have he : (if a.End.Row < 0 then (R.length : Int) else a.End.Row) =
      (resolveEndRow a.End.Row R : Nat) := by
    unfold resolveEndRow; split <;> simp; omega
  have hse : s ≤ resolveEndRow a.End.Row R := by
    unfold resolveEndRow; split <;> omega
  have heR : resolveEndRow a.End.Row R ≤ R.length := by
    unfold resolveEndRow; split <;> omega
  rw [he, hs] at hl
  generalize resolveEndRow a.End.Row R = e at *
  simp only [hs, Int.toNat_natCast]
  have key := forLoop_inv (s := (R, a.End.Column)) (fun k (st : Records × Int) =>
      st.1.length = R.length ∧ (¬ a.End.Column < 0 → st.2 = a.End.Column) ∧
      (∀ j, ¬ (s ≤ j ∧ j < k) → st.1[j]? = R[j]?) ∧
      (∀ j row, s ≤ j → j < k → R[j]? = some row →
        resolveEndColumn a.End.Column row ≤ row.length ∧
        ∃ m, st.1[j]? = some m ∧
          FilledRow a.Start.Column.toNat (resolveEndColumn a.End.Column row) row m))
    hse ⟨rfl, fun _ => rfl, fun _ _ => rfl, fun j row h1 h2 => by omega⟩
    (by
      rintro n st0 st1 hn hn' ⟨ilen, iec, iout, iin⟩ hb
      obtain ⟨row, hrow, b1, b2, b3, b4, m, hm, hfill⟩ := fillRightBody_ok hc0 iec hb
      rw [iout n (by omega)] at hrow
      refine ⟨by rw [b3, ilen], b2, fun j hj => ?_, ?_⟩
      · rw [b4 j (by omega)]; exact iout j (by omega)
      · intro j row' h1 h2 hrow'
        by_cases hjn : j = n
        · subst hjn
          rw [hrow] at hrow'; cases hrow'
          exact ⟨b1, m, hm, hfill⟩
        · rw [b4 j hjn]
          exact iin j row' h1 (by omega) hrow')
    hl
  obtain ⟨q1, -, q3, q4⟩ := key
  exact ⟨by omega, hc0, hse, heR, q1, q3, q4⟩

/-! ## `ReplaceCell` and `RemoveCellLeft` -/

/-- What a successful `ProcessorReplaceCell.Execute` returns. -/
theorem replaceCell_ok {a : ProcessorReplaceCell} {R R' : Records}
    (h : a.Execute R = .ok R') :
    0 ≤ a.Cell.Row ∧ 0 ≤ a.Cell.Column ∧
    ∃ row, R[a.Cell.Row.toNat]? = some row ∧ a.Cell.Column.toNat < row.length ∧
      R' = R.set a.Cell.Row.toNat (row.set a.Cell.Column.toNat a.Value) := by
  unfold ProcessorReplaceCell.Execute at h
  split at h; · cases h
  split at h; · cases h
  rename_i g1 g2
  have hr0 : 0 ≤ a.Cell.Row := by omega
  have hc0 : 0 ≤ a.Cell.Column := by omega
  obtain ⟨r, hr⟩ : ∃ r : Nat, a.Cell.Row = r := ⟨_, (Int.toNat_of_nonneg hr0).symm⟩
  obtain ⟨c, hc⟩ : ∃ c : Nat, a.Cell.Column = c := ⟨_, (Int.toNat_of_nonneg hc0).symm⟩
  rw [bind_eq_ok] at h
  obtain ⟨row, hrow, h⟩ := h
  split at h; · cases h
  rw [hr] at hrow h
  rw [hc] at h
  rw [index_eq_ok] at hrow
  rw [setIndex2_eq_ok] at h
  obtain ⟨row', hrow', hlt, rfl⟩ := h
  rw [hrow] at hrow'; cases hrow'
  simp only [hr, hc, Int.toNat_natCast]
  exact ⟨by omega, by omega, row, hrow, hlt, rfl⟩

/-- A successful `ProcessorRemoveCellLeft.Execute` replaces the target row only. -/
theorem removeCellLeft_ok {a : ProcessorRemoveCellLeft} {R R' : Records}
    (h : a.Execute R = .ok R') :
    0 ≤ a.Cell.Row ∧ a.Cell.Row.toNat < R.length ∧
      ∃ newRow, R' = R.set a.Cell.Row.toNat newRow := by
  unfold ProcessorRemoveCellLeft.Execute at h
  split at h; · cases h
  split at h; · cases h
  rename_i g1 g2
  have hr0 : 0 ≤ a.Cell.Row := by omega
  rw [bind_eq_ok] at h
  obtain ⟨row, hrow, h⟩ := h
  split at h; · cases h
  simp only [bind_eq_ok] at h
  obtain ⟨newRow, -, st, -, h⟩ := h
  rw [setIndex_ok_iff] at h
  exact ⟨hr0, h.2.1, st.1, h.2.2⟩

theorem removeCellBody_ok {a : ProcessorRemoveCellLeft} {row : List String} {i c : Nat}
    (hc : a.Cell.Column = c) (st : List String × Int)
    (hlen : st.1.length + 1 = row.length) (hi : i < st.1.length)
    (hdel : st.2 = if c < i then 1 else 0) :
    removeCellBody a row (i : Int) st =
      .ok (st.1.set i (row.getD (if c ≤ i then i + 1 else i) ""),
        if c < i + 1 then 1 else 0) := by
  unfold removeCellBody
  simp only [hc, hdel]
  by_cases h1 : c ≤ i
  · have e1 : ((i : Int) + if (i : Int) = (c : Int) then 1 else if c < i then 1 else 0) =
        ((i + 1 : Nat) : Int) := by
      split
      · simp
      · rw [if_pos (by omega)]; simp
    have e2 : (if (i : Int) = (c : Int) then (1 : Int) else if c < i then 1 else 0) = 1 := by
      split
      · rfl
      · rw [if_pos (by omega)]
    rw [e1, e2, index_of_lt (by omega : i + 1 < row.length)]
    simp only [bind, Except.bind]
    rw [setIndex_of_lt _ hi]
    simp only [pure, Except.pure, if_pos h1, if_pos (by omega : c < i + 1)]
    rw [List.getD_eq_getElem _ _ (by omega : i + 1 < row.length)]
  · have e1 : ((i : Int) + if (i : Int) = (c : Int) then 1 else if c < i then 1 else 0) =
        ((i : Nat) : Int) := by
      rw [if_neg (by omega), if_neg (by omega)]; simp
    have e2 : (if (i : Int) = (c : Int) then (1 : Int) else if c < i then 1 else 0) = 0 := by
      rw [if_neg (by omega), if_neg (by omega)]
    rw [e1, e2, index_of_lt (by omega : i < row.length)]
    simp only [bind, Except.bind]
    rw [setIndex_of_lt _ hi]
    simp only [pure, Except.pure, if_neg h1, if_neg (by omega : ¬ c < i + 1)]
    rw [List.getD_eq_getElem _ _ (by omega : i < row.length)]

/-- With the target cell inside the record array, `ProcessorRemoveCellLeft.Execute`
ends normally and erases exactly that cell. -/
theorem removeCellLeft_total {a : ProcessorRemoveCellLeft} {R : Records} {r c : Nat}
    {row : List String} (hr : a.Cell.Row = r) (hc : a.Cell.Column = c)
    (hrow : R[r]? = some row) (hlt : c < row.length) :
    a.Execute R = .ok (R.set r (row.take c ++ row.drop (c + 1))) := by
  have hrR : r < R.length := (List.getElem?_eq_some.1 hrow).1
  unfold ProcessorRemoveCellLeft.Execute
  rw [if_neg (by omega), if_neg (by simp only [goLen]; omega)]
  rw [hr, index_eq_ok.2 hrow]
  simp only [bind, Except.bind, goLen]
  rw [if_neg (by omega)]
  have e1 : ((row.length : Int) - 1) = ((row.length - 1 : Nat) : Int) := by omega
  rw [e1, make_natCast]
  simp only
  obtain ⟨st, hst, hlen, hdel, hpt⟩ := forLoop_total (l := 0) (u := row.length - 1)
    (s := (List.replicate (row.length - 1) "", (0 : Int)))
    (f := removeCellBody a row)
    (fun k st => st.1.length + 1 = row.length ∧ (st.2 = if c < k then 1 else 0) ∧
      ∀ i, i < k → st.1[i]? = some (row.getD (if c ≤ i then i + 1 else i) ""))
    (Nat.zero_le _) ⟨by simp; omega, by simp, fun i hi => by omega⟩
    (by
      rintro n st - hn ⟨ilen, idel, ipt⟩
      refine ⟨_, removeCellBody_ok hc st ilen (by omega) idel, by simp [ilen], rfl, ?_⟩
      intro i hi
      simp only
      by_cases hin : i = n
      · subst hin
        rw [List.getElem?_set_self (by omega)]
      · rw [List.getElem?_set_ne (Ne.symm hin)]
        exact ipt i (by omega))
  simp only [Nat.cast_zero] at hst
  rw [hst]
  simp only
  rw [setIndex_of_lt _ hrR]
  congr 2
  apply List.ext_getElem?
  intro i
  by_cases hi : i < row.length - 1
  · rw [hpt i hi]
    by_cases hci : c ≤ i
    · rw [if_pos hci, List.getElem?_append_right (by simp; omega)]
      simp only [List.length_take, List.getElem?_drop]
      rw [List.getD_eq_getElem _ _ (by omega : i + 1 < row.length),
        ← List.getElem?_eq_getElem]
      congr 1; omega
    · rw [if_neg hci, List.getElem?_append_left (by simp; omega), List.getElem?_take,
        if_pos (by omega), List.getD_eq_getElem _ _ (by omega : i < row.length),
        ← List.getElem?_eq_getElem]
  · rw [List.getElem?_eq_none (by omega), List.getElem?_eq_none (by simp; omega)]

/-! ## `TransposeRow` -/

/-- The column loop body in the first band row: the output line is allocated and
its first cell written. -/
theorem transposeCell_first_ok {a : ProcessorTransposeRow} {R : Records} {s e i : Nat}
    {new new' : Records} (hs : a.StartRow = s)
    (h : transposeCell a R (e : Int) (s : Int) true (i : Int) new = .ok new') :
    ∃ row v, R[s]? = some row ∧ row[i]? = some v ∧ s + i < new.length ∧ s < e ∧
      new' = new.set (s + i) ((List.replicate (e - s) "").set 0 v) := by
  unfold transposeCell at h
  simp only [bind_eq_ok, if_true, hs] at h
  obtain ⟨new1, ⟨line, hline, hset⟩, v, hv, hfin⟩ := h
  rw [make_ok_iff] at hline
  obtain ⟨hes, rfl⟩ := hline
  have e1 : ((s : Int) + (i : Int)) = ((s + i : Nat) : Int) := by omega
  have e2 : ((s : Int) - (s : Int)) = ((0 : Nat) : Int) := by omega
  have e3 : ((e : Int) - (s : Int)).toNat = e - s := by omega
  rw [e1, e3] at hset
  rw [e1, e2] at hfin
  rw [setIndex_eq_ok] at hset
  obtain ⟨hlt, rfl⟩ := hset
  rw [index2_eq_ok] at hv
  obtain ⟨row, hrow, hv⟩ := hv
  rw [setIndex2_eq_ok] at hfin
  obtain ⟨line, hline, hpos, rfl⟩ := hfin
  rw [List.getElem?_set_self hlt] at hline
  cases hline
  simp only [List.length_replicate] at hpos
  refine ⟨row, v, hrow, hv, hlt, by omega, ?_⟩
  rw [List.set_set]

/-- The column loop body in a later band row: one cell of an existing output
line is written. -/
theorem transposeCell_later_ok {a : ProcessorTransposeRow} {R : Records} {s e n i : Nat}
    {new new' : Records} (hs : a.StartRow = s) (hn : s ≤ n)
    (h : transposeCell a R (e : Int) (n : Int) false (i : Int) new = .ok new') :
    ∃ row v t, R[n]? = some row ∧ row[i]? = some v ∧ new[s + i]? = some t ∧
      n - s < t.length ∧ new' = new.set (s + i) (t.set (n - s) v) := by
  unfold transposeCell at h
  simp only [bind_eq_ok, hs] at h
  obtain ⟨new1, hnew1, v, hv, hfin⟩ := h
  simp only [Bool.false_eq_true, if_false, pure, Except.pure, Except.ok.injEq] at hnew1
  subst hnew1
  have e1 : ((s : Int) + (i : Int)) = ((s + i : Nat) : Int) := by omega
  have e2 : ((n : Int) - (s : Int)) = ((n - s : Nat) : Int) := by omega
  rw [e1, e2] at hfin
  rw [index2_eq_ok] at hv
  obtain ⟨row, hrow, hv⟩ := hv
  rw [setIndex2_eq_ok] at hfin
  obtain ⟨t, ht, hpos, rfl⟩ := hfin
  exact ⟨row, v, t, hrow, hv, ht, hpos, rfl⟩

theorem transposeCols_ok {a : ProcessorTransposeRow} {R : Records} {s e w n : Nat}
    {new new' : Records} {row : List String} (hs : a.StartRow = s) (hn : s ≤ n) (hne : n < e)
    (hrow : R[n]? = some row)
    (hinv : TransposedUpTo R s e w n 0 new)
    (hrun : forLoop 0 (w : Int) (transposeCell a R (e : Int) (n : Int) (decide (n = s)))
      new = .ok new') :
    new'.length = new.length ∧ (∀ j, ¬ (s ≤ j ∧ j < s + w) → new'[j]? = new[j]?) ∧
      TransposedUpTo R s e w n w new' := by
  have key := forLoop_inv (l := 0) (u := w) (s := new)
    (f := transposeCell a R (e : Int) (n : Int) (decide (n = s)))
    (fun c st => st.length = new.length ∧ (∀ j, ¬ (s ≤ j ∧ j < s + c) → st[j]? = new[j]?) ∧
      TransposedUpTo R s e w n c st)
    (Nat.zero_le _) ⟨rfl, fun _ _ => rfl, hinv⟩
    (by
      rintro c st st' - hc ⟨ilen, iout, iin⟩ hb
      by_cases hfirst : n = s
      · subst hfirst
        simp only [decide_True] at hb
        obtain ⟨row', v, hrow', hv, hlt, hse, rfl⟩ := transposeCell_first_ok hs hb
        rw [hrow] at hrow'; cases hrow'
        refine ⟨by simp [ilen], fun j hj => ?_, ?_⟩
        · rw [List.getElem?_set_ne (by omega)]; exact iout j (by omega)
        · intro i hi hcase
          by_cases hic : i = c
          · subst hic
            refine ⟨_, List.getElem?_set_self hlt, by simp, ?_⟩
            intro col rowc hcol hrowc
            rw [if_pos (Nat.lt_succ_self _)] at hcol
            have : col = 0 := by omega
            subst this
            rw [Nat.add_zero, hrow] at hrowc; cases hrowc
            rw [List.getElem?_set_self (by simp; omega), hv]
          · have hlt' : i < c := by omega
            obtain ⟨t, ht, htl, hcells⟩ := iin i hi (Or.inr hlt')
            refine ⟨t, ?_, htl, ?_⟩
            · rw [List.getElem?_set_ne (by omega)]; exact ht
            · intro col rowc hcol hrowc
              rw [if_pos (by omega)] at hcol
              exact hcells col rowc (by rw [if_pos hlt']; exact hcol) hrowc
      · have hsn : s < n := by omega
        simp only [hfirst, decide_False] at hb
        obtain ⟨row', v, t, hrow', hv, ht, hpos, rfl⟩ := transposeCell_later_ok hs hn hb
        rw [hrow] at hrow'; cases hrow'
        have hlt : s + c < st.length := (List.getElem?_eq_some.1 ht).1
        refine ⟨by simp [ilen], fun j hj => ?_, ?_⟩
        · rw [List.getElem?_set_ne (by omega)]; exact iout j (by omega)
        · intro i hi hcase
          by_cases hic : i = c
          · subst hic
            obtain ⟨t0, ht0, htl, hcells⟩ := iin i hi (Or.inl hsn)
            rw [ht] at ht0; cases ht0
            refine ⟨_, List.getElem?_set_self hlt, by simp [htl], ?_⟩
            intro col rowc hcol hrowc
            rw [if_pos (Nat.lt_succ_self _)] at hcol
            by_cases hcn : col = n - s
            · subst hcn
              have e1 : s + (n - s) = n := by omega
              rw [e1, hrow] at hrowc; cases hrowc
              rw [List.getElem?_set_self hpos, hv]
            · rw [List.getElem?_set_ne (Ne.symm hcn)]
              exact hcells col rowc (by rw [if_neg (Nat.lt_irrefl _)]; omega) hrowc
          · obtain ⟨t0, ht0, htl, hcells⟩ := iin i hi (Or.inl hsn)
            refine ⟨t0, ?_, htl, ?_⟩
            · rw [List.getElem?_set_ne (by omega)]; exact ht0
            · intro col rowc hcol hrowc
              by_cases hlt' : i < c
              · rw [if_pos (by omega)] at hcol
                exact hcells col rowc (by rw [if_pos hlt']; exact hcol) hrowc
              · rw [if_neg (by omega)] at hcol
                exact hcells col rowc (by rw [if_neg hlt']; exact hcol) hrowc)
    (by simpa using hrun)
  exact key

theorem transposeBody_ok {a : ProcessorTransposeRow} {R : Records} {s e w n : Nat}
    {st st' : Records × Bool} {firstRow : List String} (hs : a.StartRow = s)
    (hfirst : R[s]? = some firstRow) (hw : firstRow.length = w) (hn : s ≤ n) (hne : n < e)
    (hflag : st.2 = decide (n = s)) (hinv : TransposedUpTo R s e w n 0 st.1)
    (h : transposeBody a R (e : Int) (n : Int) st = .ok st') :
    ∃ row, R[n]? = some row ∧ row.length = w ∧ st'.2 = false ∧
      st'.1.length = st.1.length ∧
      (∀ j, ¬ (s ≤ j ∧ j < s + w) → st'.1[j]? = st.1[j]?) ∧
      TransposedUpTo R s e w n w st'.1 := by
  unfold transposeBody at h
  simp only [bind_eq_ok, hs] at h
  obtain ⟨fr, hfr, row, hrow, h⟩ := h
  rw [index_eq_ok] at hfr hrow
  rw [hfirst] at hfr; cases hfr
  split at h
  · split at h <;> cases h
  rename_i hlen
  have hlen' : row.length = w := by
    simp only [goLen, ne_eq, not_not] at hlen
    have : firstRow.length = row.length := by exact_mod_cast hlen
    omega
  rw [bind_eq_ok] at h
  obtain ⟨new', hloop, h⟩ := h
  simp only [pure, Except.pure, Except.ok.injEq] at h
  subst h
  simp only [goLen, hlen', hflag] at hloop
  obtain ⟨k1, k2, k3⟩ := transposeCols_ok hs hn hne hrow hinv hloop
  exact ⟨row, hrow, hlen', rfl, k1, k2, k3⟩

/-- What a successful `ProcessorTransposeRow.Execute` returns. -/
theorem transposeRow_ok {a : ProcessorTransposeRow} {R R' : Records}
    (h : a.Execute R = .ok R') :
    0 ≤ a.StartRow ∧ a.StartRow.toNat ≤ resolveEndRow a.EndRow R ∧
    resolveEndRow a.EndRow R ≤ R.length ∧
    ∃ firstRow, R[a.StartRow.toNat]? = some firstRow ∧
      R'.length = a.StartRow.toNat + firstRow.length +
        (R.length - resolveEndRow a.EndRow R) ∧
      (∀ j, j < a.StartRow.toNat → R'[j]? = R[j]?) ∧
      (∀ j, R'[a.StartRow.toNat + firstRow.length + j]? =
        R[resolveEndRow a.EndRow R + j]?) ∧
      (∀ j rowj, a.StartRow.toNat ≤ j → j < resolveEndRow a.EndRow R → R[j]? = some rowj →
        rowj.length = firstRow.length) ∧
      (a.StartRow.toNat < resolveEndRow a.EndRow R → ∀ i, i < firstRow.length →
        ∃ t, R'[a.StartRow.toNat + i]? = some t ∧
          t.length = resolveEndRow a.EndRow R - a.StartRow.toNat ∧
          ∀ col rowc, col < resolveEndRow a.EndRow R - a.StartRow.toNat →
            R[a.StartRow.toNat + col]? = some rowc → t[col]? = rowc[i]?) := by
  unfold ProcessorTransposeRow.Execute at h
  simp only [goLen] at h
  split at h; · cases h
  split at h; · cases h
  split at h; · cases h
  split at h; · cases h
  rename_i g1 g2 g4 g5
  simp only [bind_eq_ok] at h
  obtain ⟨firstRow, hfirst, new0, hnew0, new1, hl1, st, hl2, hl3⟩ := h
  have hs0 : 0 ≤ a.StartRow := by omega
  obtain ⟨s, hs⟩ : ∃ s : Nat, a.StartRow = s := ⟨_, (Int.toNat_of_nonneg hs0).symm⟩
  have he : (if a.EndRow < 0 then (R.length : Int) else a.EndRow) =
      (resolveEndRow a.EndRow R : Nat) := by
    unfold resolveEndRow; split <;> simp; omega
  have hse : s ≤ resolveEndRow a.EndRow R := by
    unfold resolveEndRow; split <;> omega
  have heR : resolveEndRow a.EndRow R ≤ R.length := by
    unfold resolveEndRow; split <;> omega
  have he0 : a.EndRow = 0 → resolveEndRow a.EndRow R = 0 := by
    intro h0; unfold resolveEndRow; rw [h0]; simp
  have hepos : 0 < a.EndRow → (R.length : Int) - a.EndRow =
      ((R.length - resolveEndRow a.EndRow R : Nat) : Int) := by
    intro hp; unfold resolveEndRow; rw [if_neg (by omega)]; omega
  have heneg : a.EndRow < 0 → resolveEndRow a.EndRow R = R.length := by
    intro hp; unfold resolveEndRow; rw [if_pos hp]
  rw [he] at hl2 hl3
  generalize resolveEndRow a.EndRow R = e at *
  rw [hs] at hfirst hl1 hl2 hnew0
  rw [index_eq_ok] at hfirst
  simp only [hs, Int.toNat_natCast]
  have hsR : s < R.length := (List.getElem?_eq_some.1 hfirst).1
  generalize hwdef : firstRow.length = w at *
  obtain ⟨L, hL, hLe⟩ : ∃ L : Nat, (if a.EndRow > 0 then (s : Int) + (w : Int) +
      ((R.length : Int) - a.EndRow) else (s : Int) + (w : Int)) = (L : Int) ∧
      (a.EndRow ≠ 0 → L = s + w + (R.length - e)) ∧ (a.EndRow = 0 → L = s + w) := by
    by_cases hp : a.EndRow > 0
    · refine ⟨s + w + (R.length - e), ?_, fun _ => rfl, fun h0 => by omega⟩
      rw [if_pos hp, hepos hp]; push_cast; rfl
    · refine ⟨s + w, ?_, fun hne => ?_, fun _ => rfl⟩
      · rw [if_neg hp]; push_cast; rfl
      · have := heneg (by omega); omega
  rw [hL, make_natCast] at hnew0
  simp only [Except.ok.injEq] at hnew0
  subst hnew0
  obtain ⟨k1len, k1pt⟩ := copyRows_ok (l := 0) (by omega) (by simpa using hl1)
  simp only [List.length_replicate] at k1len
  -- the band loop
  have k2 := forLoop_inv (s := (new1, true)) (fun k (st : Records × Bool) =>
      st.2 = decide (k = s) ∧ st.1.length = new1.length ∧
      (∀ j, ¬ (s ≤ j ∧ j < s + w) → st.1[j]? = new1[j]?) ∧
      TransposedUpTo R s e w k 0 st.1 ∧
      (∀ j rowj, s ≤ j → j < k → R[j]? = some rowj → rowj.length = w))
    hse ⟨by simp, rfl, fun _ _ => rfl, fun i hi hc => by omega, fun j _ h1 h2 => by omega⟩
    (by
      rintro n st0 st1 hn hn' ⟨iflag, ilen, iout, iin, ilens⟩ hb
      obtain ⟨row, hrow, hrl, b1, b2, b3, b4⟩ :=
        transposeBody_ok hs hfirst hwdef hn hn' iflag iin hb
      refine ⟨?_, by rw [b2, ilen], fun j hj => ?_, ?_, ?_⟩
      · rw [b1]; simp; omega
      · rw [b3 j hj]; exact iout j hj
      · intro i hi _
        obtain ⟨t, ht, htl, hcells⟩ := b4 i hi (Or.inr hi)
        refine ⟨t, ht, htl, fun col rowc hcol hrowc => ?_⟩
        rw [if_neg (Nat.not_lt_zero _)] at hcol
        exact hcells col rowc (by rw [if_pos hi]; omega) hrowc
      · intro j rowj h1 h2 hrowj
        by_cases hjn : j = n
        · subst hjn; rw [hrow] at hrowj; cases hrowj; exact hrl
        · exact ilens j rowj h1 (by omega) hrowj)
    hl2
  obtain ⟨-, k2len, k2out, k2in, k2lens⟩ := k2
  obtain ⟨k3len, k3pt, k3bound⟩ := copyLoop_ok (R := R) (b := s + w) heR
    (fun n st0 st1 hn hb => by
      unfold transposeTailBody at hb
      simp only [bind_eq_ok, hs] at hb
      obtain ⟨fr, hfr, row, hrow, hb⟩ := hb
      rw [index_eq_ok] at hfr hrow
      rw [hfirst] at hfr; cases hfr
      rw [setIndex_ok_iff] at hb
      have e1 : ((s : Int) + goLen firstRow + (n : Int) - (e : Int)).toNat =
          n - e + (s + w) := by
        simp only [goLen, hwdef]; omega
      rw [e1] at hb
      exact ⟨row, hrow, hb.2.1, hb.2.2⟩) hl3
  have hne0 : a.EndRow ≠ 0 := by
    intro h0
    have e0 := he0 h0
    have hb := k3bound (by omega)
    rw [k2len, k1len, hLe.2 h0] at hb
    omega
  have hLv := hLe.1 hne0
  refine ⟨by omega, hse, heR, firstRow, hfirst, ?_, ?_, ?_, ?_, ?_⟩
  · rw [k3len, k2len, k1len, hLv, hwdef]
  · intro j hj
    rw [k3pt j, if_neg (by omega), k2out j (by omega), k1pt j, if_pos (by omega)]
  · intro j
    rw [hwdef, k3pt (s + w + j)]
    by_cases hj : j < R.length - e
    · rw [if_pos (by omega)]; congr 1; omega
    · rw [if_neg (by omega), k2out _ (by omega), k1pt _, if_neg (by omega),
        List.getElem?_eq_none (by simp; omega), List.getElem?_eq_none (by omega)]
  · intro j rowj h1 h2 hrowj
    rw [hwdef]; exact k2lens j rowj h1 h2 hrowj
  · intro hlt i hi
    rw [hwdef] at hi
    obtain ⟨t, ht, htl, hcells⟩ := k2in i hi (Or.inl hlt)
    refine ⟨t, ?_, htl, fun col rowc hcol hrowc => ?_⟩
    · rw [k3pt (s + i), if_neg (by omega)]; exact ht
    · exact hcells col rowc (by rw [if_neg (Nat.not_lt_zero _)]; exact hcol) hrowc

theorem trimSpace_eq_empty_iff (s : String) : TrimSpace s = "" ↔ isBlank s = true := by
  unfold TrimSpace isBlank
  constructor
  · intro h
    have h' : (s.data.dropWhile isSpace).rdropWhile isSpace = [] := by
      have := congrArg String.data h
      simpa using this
    rw [List.rdropWhile_eq_nil_iff] at h'
    have hd : s.data.dropWhile isSpace = [] := by
      cases hm : s.data.dropWhile isSpace with
      | nil => rfl
      | cons x xs =>
        have h1 := List.head?_dropWhile_not isSpace s.data
        rw [hm] at h1 h'
        simp only [List.head?_cons] at h1
        have := h' x (List.mem_cons_self _ _)
        rw [h1] at this; cases this
    rw [List.dropWhile_eq_nil_iff] at hd
    rw [List.all_eq_true]
    exact hd
  · intro h
    rw [List.all_eq_true] at h
    have hd : s.data.dropWhile isSpace = [] := List.dropWhile_eq_nil_iff.2 h
    rw [hd]; rfl

theorem set_take_drop {α : Type} (xs : List α) (r : Nat) (v : α) :
    (xs.set r v).take r = xs.take r ∧ (xs.set r v).drop (r + 1) = xs.drop (r + 1) := by
  constructor
  · apply List.ext_getElem?
    intro j
    rw [List.getElem?_take, List.getElem?_take]
    split
    · rw [List.getElem?_set_ne (by omega)]
    · rfl
  · apply List.ext_getElem?
    intro j
    rw [List.getElem?_drop, List.getElem?_drop, List.getElem?_set_ne (by omega)]

theorem bandRows_cons {R : Records} {s e : Nat} {first : List String}
    (hfirst : R[s]? = some first) (hse : s < e) :
    bandRows R s e = first :: (R.drop (s + 1)).take (e - (s + 1)) := by
  unfold bandRows
  have e1 : e - s = (e - (s + 1)) + 1 := by omega
  rw [e1, List.drop_eq_getElem?_toList_append, hfirst]
  rfl

theorem mem_bandRows {R : Records} {s e : Nat} {row : List String}
    (h : row ∈ bandRows R s e) : ∃ j, s ≤ j ∧ j < e ∧ R[j]? = some row := by
  unfold bandRows at h
  rw [List.mem_iff_getElem?] at h
  obtain ⟨k, hk⟩ := h
  rw [List.getElem?_take] at hk
  split at hk
  · rw [List.getElem?_drop] at hk
    exact ⟨s + k, by omega, by omega, hk⟩
  · cases hk

theorem bandRows_getElem? {R : Records} {s e j : Nat} (hj : j < e - s) :
    (bandRows R s e)[j]? = R[s + j]? := by
  unfold bandRows
  rw [List.getElem?_take, if_pos hj, List.getElem?_drop]

/-! ## The guards -/

/-- A start row strictly greater than the number of rows is rejected with an error
by every processor, whatever the other fields are. -/
theorem startRow_beyond_error (p : Processor) (R : Records)
    (h : (R.length : Int) < p.startRow) : ∃ e, p.Execute R = .error (.error e) := by
  cases p with
  | mergeColumns a =>
    simp only [Processor.startRow] at h
    simp only [Processor.Execute, ProcessorMergeColumns.Execute, goLen]
    split_ifs <;> exact ⟨_, rfl⟩
  | mergeRows a =>
    simp only [Processor.startRow] at h
    simp only [Processor.Execute, ProcessorMergeRows.Execute, goLen]
    split_ifs <;> exact ⟨_, rfl⟩
  | fillRight a =>
    simp only [Processor.startRow] at h
    simp only [Processor.Execute, ProcessorFillRight.Execute, goLen]
    split_ifs <;> exact ⟨_, rfl⟩
  | replaceCell a =>
    simp only [Processor.startRow] at h
    simp only [Processor.Execute, ProcessorReplaceCell.Execute, goLen]
    split_ifs <;> exact ⟨_, rfl⟩
  | transposeRow a =>
    simp only [Processor.startRow] at h
    simp only [Processor.Execute, ProcessorTransposeRow.Execute, goLen]
    split_ifs <;> exact ⟨_, rfl⟩
  | removeCellLeft a =>
    simp only [Processor.startRow] at h
    simp only [Processor.Execute, ProcessorRemoveCellLeft.Execute, goLen]
    split_ifs <;> exact ⟨_, rfl⟩

/-- A target column strictly greater than the length of an existing target row is
rejected with an error by both cell processors. -/
theorem cellColumn_beyond_error (cell : Cell) (value : String) (R : Records)
    (row : List String) (hr : 0 ≤ cell.Row) (hrow : R[cell.Row.toNat]? = some row)
    (h : (row.length : Int) < cell.Column) :
    ProcessorReplaceCell.Execute { Cell := cell, Value := value } R =
        .error (.error .cellColumnBeyondRow) ∧
      ProcessorRemoveCellLeft.Execute { Cell := cell } R =
        .error (.error .cellColumnBeyondRow) := by
  have hrR : cell.Row.toNat < R.length := (List.getElem?_eq_some.1 hrow).1
  obtain ⟨r, hrn⟩ : ∃ r : Nat, cell.Row = r := ⟨_, (Int.toNat_of_nonneg hr).symm⟩
  rw [hrn] at hrow hrR
  simp only [Int.toNat_natCast] at hrow hrR
  have hidx : index R (r : Int) = .ok row := index_eq_ok.2 hrow
  constructor
  · unfold ProcessorReplaceCell.Execute
    simp only [goLen, hrn]
    rw [if_neg (by omega), if_neg (by omega), hidx]
    simp only [bind, Except.bind]
    rw [if_pos (by omega)]
  · unfold ProcessorRemoveCellLeft.Execute
    simp only [goLen, hrn]
    rw [if_neg (by omega), if_neg (by omega), hidx]
    simp only [bind, Except.bind]
    rw [if_pos (by omega)]

/-! ## Facts about the extractor primitives -/

theorem replaceSpaces_idem (s : String) : replaceSpaces (replaceSpaces s) = replaceSpaces s := by
  unfold replaceSpaces
  congr 1
  simp only [List.map_map]
  apply List.map_congr_left
  intro c _
  by_cases h : c = ' '
  · subst h; decide
  · simp [h]

theorem map_replaceSpaces_idem (l : List String) :
    (l.map replaceSpaces).map replaceSpaces = l.map replaceSpaces := by
  simp [List.map_map, Function.comp_def, replaceSpaces_idem]

theorem wrapErr_eq_ok {α : Type} {ctx : String} {x : Exec α} {v : α} :
    wrapErr ctx x = .ok v ↔ x = .ok v := by
  rcases x with (_ | e) | a <;> simp [wrapErr]

theorem wrapErr_ok {α : Type} (ctx : String) (v : α) : wrapErr ctx (.ok v : Exec α) = .ok v := rfl

theorem mapGet_mapSet {β : Type} (m : List (String × β)) (k k' : String) (v : β) :
    mapGet (mapSet m k v) k' = if k = k' then some v else mapGet m k' := by
  induction m with
  | nil => simp [mapSet, mapGet]
  | cons p rest ih =>
    obtain ⟨a, b⟩ := p
    simp only [mapSet]
    by_cases h : a = k
    · subst h
      simp only [if_true, mapGet]
      split_ifs <;> rfl
    · simp only [h, if_false, mapGet, ih]
      by_cases h2 : a = k'
      · subst h2
        simp [Ne.symm h]
      · simp [h2]

theorem keys_mapSet {β : Type} (m : List (String × β)) (k : String) (v : β) :
    (mapSet m k v).map Prod.fst =
      if k ∈ m.map Prod.fst then m.map Prod.fst else m.map Prod.fst ++ [k] := by
  induction m with
  | nil => simp [mapSet]
  | cons p rest ih =>
    obtain ⟨a, b⟩ := p
    simp only [mapSet]
    by_cases h : a = k
    · subst h; simp
    · simp only [h, if_false, List.map_cons, ih, List.mem_cons, Ne.symm h, false_or]
      split_ifs <;> simp

theorem nodup_keys_mapSet {β : Type} {m : List (String × β)} (k : String) (v : β)
    (h : (m.map Prod.fst).Nodup) : ((mapSet m k v).map Prod.fst).Nodup := by
  rw [keys_mapSet]
  split_ifs with hk
  · exact h
  · exact List.Nodup.append h (List.nodup_singleton k) (by simpa using hk)

theorem mapGet_eq_none_iff {β : Type} (m : List (String × β)) (k : String) :
    mapGet m k = none ↔ k ∉ m.map Prod.fst := by
  induction m with
  | nil => simp [mapGet]
  | cons p rest ih =>
    obtain ⟨a, b⟩ := p
    simp only [mapGet, List.map_cons, List.mem_cons, not_or]
    by_cases h : a = k
    · subst h; simp
    · simp [h, ih, Ne.symm h]

/-- A cell that exists is found. -/
theorem findValue_of_getElem? {R : Records} {r c : Nat} {row : List String} {v : String}
    (hr : R[r]? = some row) (hc : row[c]? = some v) :
    findValue ⟨r, c⟩ R = .ok v := by
  have hrl : r < R.length := by
    by_contra h
    rw [List.getElem?_eq_none (by omega)] at hr
    cases hr
  have hcl : c < row.length := by
    by_contra h
    rw [List.getElem?_eq_none (by omega)] at hc
    cases hc
  unfold findValue
  simp only [goLen]
  rw [if_neg (by omega)]
  rw [index_eq_ok.2 hr]
  simp only [bind, Except.bind, goLen]
  rw [if_neg (by omega)]
  exact index_eq_ok.2 hc

/-- One iteration of the column loop of `parseTableData`, once its four lookups
are known. -/
theorem tableCellBody_eq {std : StdLib} {t : TableLocation} {tableDims : tableDimensions}
    {records : Records} {headers : List String} {row column : Int}
    {rowData : List (String × Value)} {header rawData : String} {dataType : DataType}
    {data : Value}
    (hh : index headers (column - tableDims.startColumn) = .ok header)
    (hv : findValue ⟨row, column⟩ records = .ok rawData)
    (ht : (if t.AutoColumnDataTypes then pure DataTypeAuto
      else index t.ColumnDataTypes (column - tableDims.startColumn)) = .ok dataType)
    (hd : dataType.Read std rawData = .ok data) :
    tableCellBody std t tableDims records headers row column rowData =
      .ok (if data = .null ∧ t.SkipBlankData then rowData
        else mapSet rowData
          (if dataType = DataTypeSplit then header ++ "_" ++ typeName data else header) data) := by
  unfold tableCellBody
  simp only [hh, hv, ht, hd, wrapErr_ok, bind, Except.bind]
  split_ifs <;> rfl

theorem read_blank (std : StdLib) (dataType : DataType)
    (h : dataType = DataTypeAuto ∨ dataType = DataTypeSplit ∨ dataType = DataTypeBool) :
    dataType.Read std "" = .ok .null := by
  rcases h with h | h | h <;> subst h <;> rfl

theorem foldlM_error_of_mem {σ α : Type} (step : σ → α → Exec σ) (l : List α) (x : α)
    (hx : x ∈ l) (hstep : ∀ s, ∃ f, step s x = .error f) :
    ∀ s, ∃ f, l.foldlM step s = .error f := by
  induction l with
  | nil => cases hx
  | cons y ys ih =>
    intro s
    rw [List.foldlM_cons]
    cases hy : step s y with
    | error f => exact ⟨f, rfl⟩
    | ok s' =>
      rcases List.mem_cons.1 hx with rfl | hmem
      · obtain ⟨f, hf⟩ := hstep s
        rw [hf] at hy; cases hy
      · exact ih hmem s'

/-- A fold whose step skips every element that fails `p` runs the step on the
first element that satisfies `p`. -/
theorem foldlM_skip_until {σ α : Type} (step : σ → α → Exec σ) (p : α → Bool)
    (hskip : ∀ s x, p x = false → step s x = .ok s) :
    ∀ (l : List α) (x : α) (s : σ), (l.filter p).head? = some x →
      ∃ rest : List α, l.foldlM step s = (step s x >>= fun s' => rest.foldlM step s') ∧
        rest.filter p = (l.filter p).tail := by
  intro l
  induction l with
  | nil => intro x s h; simp at h
  | cons y ys ih =>
    intro x s h
    by_cases hy : p y = true
    · rw [List.filter_cons_of_pos hy] at h ⊢
      simp only [List.head?_cons, Option.some.injEq] at h
      subst h
      exact ⟨ys, by rw [List.foldlM_cons], rfl⟩
    · have hy' : p y = false := by simpa using hy
      rw [List.filter_cons_of_neg hy] at h ⊢
      obtain ⟨rest, hrest, hf⟩ := ih x s h
      refine ⟨rest, ?_, hf⟩
      rw [List.foldlM_cons, hskip s y hy']
      exact hrest

theorem foldlM_skip_all {σ α : Type} (step : σ → α → Exec σ) (p : α → Bool)
    (hskip : ∀ s x, p x = false → step s x = .ok s) :
    ∀ (l : List α) (s : σ), l.filter p = [] → l.foldlM step s = .ok s := by
  intro l
  induction l with
  | nil => intro s _; rfl
  | cons y ys ih =>
    intro s h
    by_cases hy : p y = true
    · rw [List.filter_cons_of_pos hy] at h; cases h
    · have hy' : p y = false := by simpa using hy
      rw [List.filter_cons_of_neg hy] at h
      rw [List.foldlM_cons, hskip s y hy']
      exact ih s h

theorem separatedStep_skip (std : StdLib) (c : Csv) (baseData : Doc)
    (st : List Doc × Records) (x : TableLocation) (h : x.ParseSeparated = false) :
    separatedStep std c baseData st x = .ok st := by
  unfold separatedStep
  simp [h]
  rfl

theorem separatedStep_invalid (std : StdLib) (c : Csv) (baseData : Doc)
    (st : List Doc × Records) (t : TableLocation) (hsep : t.ParseSeparated = true)
    (hmode : t.ParseAsArray = true ∨ t.ParseSingleRow = true) :
    separatedStep std c baseData st t = .error (.error (.invalidOptions t.Name)) := by
  unfold separatedStep
  simp [hsep, hmode]

/-! ## Row-oriented tables are well-formed maps -/

theorem forLoopAux_preserves {σ : Type} {body : Int → σ → Exec σ} (P : σ → Prop)
    (hstep : ∀ n st st', P st → body n st = .ok st' → P st') :
    ∀ (k : Nat) (n : Int) (s s' : σ), P s → forLoopAux body k n s = .ok s' → P s' := by
  intro k
  induction k with
  | zero =>
    intro n s s' hs h
    simp only [forLoopAux, Except.ok.injEq] at h
    exact h ▸ hs
  | succ k ih =>
    intro n s s' hs h
    rw [forLoopAux_succ_ok] at h
    obtain ⟨t, ht, hrest⟩ := h
    exact ih (n + 1) t s' (hstep n s t hs ht) hrest

/-- An invariant that every normal iteration preserves holds after the loop,
whatever its bounds. -/
theorem forLoop_preserves {σ : Type} {body : Int → σ → Exec σ} (P : σ → Prop)
    (hstep : ∀ n st st', P st → body n st = .ok st' → P st')
    {lo hi : Int} {s s' : σ} (hs : P s) (h : forLoop lo hi body s = .ok s') : P s' :=
  forLoopAux_preserves P hstep _ lo s s' hs h

theorem tableCellBody_ok_cases {std : StdLib} {t : TableLocation}
    {tableDims : tableDimensions} {records : Records} {headers : List String}
    {row column : Int} {rowData rowData' : List (String × Value)}
    (h : tableCellBody std t tableDims records headers row column rowData = .ok rowData') :
    rowData' = rowData ∨ ∃ k v, rowData' = mapSet rowData k v := by
  unfold tableCellBody at h
  simp only [bind_eq_ok] at h
  obtain ⟨header, -, rawData, -, dataType, -, data, -, h⟩ := h
  split_ifs at h
  · left; cases h; rfl
  · right; cases h; exact ⟨_, _, rfl⟩
  · right; cases h; exact ⟨_, _, rfl⟩

theorem parseTableData_nodup {std : StdLib} {t : TableLocation}
    {tableDims : tableDimensions} {records : Records} {headers : List String}
    {rows : List (List (String × Value))}
    (h : t.parseTableData std tableDims records headers = .ok rows) :
    ∀ row ∈ rows, (row.map Prod.fst).Nodup := by
  unfold TableLocation.parseTableData at h
  rw [bind_eq_ok] at h
  obtain ⟨tableData, hmake, hloop⟩ := h
  refine forLoop_preserves (fun st => ∀ row ∈ st, (row.map Prod.fst).Nodup) ?_ ?_ hloop
  · intro n st st' hst hbody
    unfold tableRowBody at hbody
    rw [bind_eq_ok] at hbody
    obtain ⟨rowData, hinner, hset⟩ := hbody
    have hrow : (rowData.map Prod.fst).Nodup := by
      refine forLoop_preserves (fun m => (m.map Prod.fst).Nodup) ?_ ?_ hinner
      · intro j m m' hm hcell
        rcases tableCellBody_ok_cases hcell with rfl | ⟨k, v, rfl⟩
        · exact hm
        · exact nodup_keys_mapSet k v hm
      · simp
    rw [setIndex_ok_iff] at hset
    obtain ⟨-, -, rfl⟩ := hset
    intro row hmem
    rcases List.mem_or_eq_of_mem_set hmem with h1 | h1
    · exact hst row h1
    · exact h1 ▸ hrow
  · rw [make_ok_iff] at hmake
    obtain ⟨-, rfl⟩ := hmake
    intro row hmem
    rw [List.eq_of_mem_replicate hmem]
    simp

theorem parse_rows_inv {std : StdLib} {t : TableLocation} {R : Records} {ks : Bool}
    {rows : List (List (String × Value))}
    (h : (t.Parse std R ks).data = .ok (.rows rows)) :
    t.ParseAsArray = false ∧ t.ParseSingleRow = false ∧
      ∃ hd, t.parseTableHeader R ks = .ok hd ∧
        t.parseTableData std hd.tableDims hd.records hd.headers = .ok rows := by
  unfold TableLocation.Parse at h
  cases hh : t.parseTableHeader R ks with
  | error f =>
    rw [hh] at h
    cases f <;> simp [wrapErr] at h
  | ok hd =>
    rw [hh] at h
    simp only [wrapErr_eq_ok] at h
    by_cases ha : t.ParseAsArray = true
    · rw [if_pos ha] at h
      cases hx : t.parseTableDataArray std hd.tableDims hd.records hd.headers <;>
        rw [hx] at h <;> simp [Except.map] at h
    · rw [if_neg ha] at h
      by_cases hs : t.ParseSingleRow = true
      · rw [if_pos hs] at h
        cases hx : t.parseTableSingleRow std hd.tableDims hd.records hd.headers <;>
          rw [hx] at h <;> simp [Except.map] at h
      · rw [if_neg hs] at h
        refine ⟨by simpa using ha, by simpa using hs, hd, rfl, ?_⟩
        cases hx : t.parseTableData std hd.tableDims hd.records hd.headers with
        | error f => rw [hx] at h; simp [Except.map] at h
        | ok rows' =>
          rw [hx] at h
          simp only [Except.map, Except.ok.injEq, TableData.rows.injEq] at h
          rw [h]

/-- The rows `Parse` returns have distinct keys. -/
theorem parse_rows_nodup {std : StdLib} {t : TableLocation} {R : Records} {ks : Bool}
    {rows : List (List (String × Value))}
    (h : (t.Parse std R ks).data = .ok (.rows rows)) :
    ∀ row ∈ rows, (row.map Prod.fst).Nodup := by
  obtain ⟨-, -, hd, -, hdata⟩ := parse_rows_inv h
  exact parseTableData_nodup hdata

/-- The document built from a row when nesting is ignored: the fields of the
row, then the fields of `baseData` under the other keys. -/
theorem mapGet_foldl_mapSet (row : List (String × Value)) :
    ∀ (baseData : Doc) (k : String), (row.map Prod.fst).Nodup →
      mapGet (row.foldl (fun inst kv => mapSet inst kv.1 (DocValue.scalar kv.2)) baseData) k =
        match mapGet row k with
        | some v => some (.scalar v)
        | none => mapGet baseData k := by
  induction row with
  | nil => intro baseData k _; rfl
  | cons p rest ih =>
    obtain ⟨a, b⟩ := p
    intro baseData k hnd
    simp only [List.map_cons, List.nodup_cons] at hnd
    rw [List.foldl_cons, ih _ k hnd.2, mapGet_mapSet]
    simp only [mapGet]
    by_cases hak : a = k
    · subst hak
      rw [(mapGet_eq_none_iff rest a).2 hnd.1]
      simp
    · simp [hak]

/-! ## `parseTableHeader` in parts -/

theorem parseTableHeader_eq (t : TableLocation) (records : Records) (keepSpaces : Bool) :
    t.parseTableHeader records keepSpaces =
      (headerTableName t records keepSpaces >>= fun tableName =>
        headerEndColumn t records >>= fun endColumn =>
          headerRest t records keepSpaces tableName endColumn) := rfl

theorem parse_of_header_error {std : StdLib} {t : TableLocation} {records : Records}
    {keepSpaces : Bool} {f : Fault} (h : t.parseTableHeader records keepSpaces = .error f) :
    t.Parse std records keepSpaces =
      ⟨"", wrapErr "error parsing table header: %w" (.error f), records, t.HeaderNames⟩ := by
  unfold TableLocation.Parse
  rw [h]

theorem parse_of_header_ok {std : StdLib} {t : TableLocation} {records : Records}
    {keepSpaces : Bool} {h : TableHeader} (hh : t.parseTableHeader records keepSpaces = .ok h) :
    t.Parse std records keepSpaces =
      ⟨h.tableName, wrapErr "error parsing table %s: %w" (tableDataOf std t h), h.records,
        h.headerNames⟩ := by
  unfold TableLocation.Parse
  rw [hh]
  rfl

theorem tableDataOf_headerNames (std : StdLib) (t : TableLocation) (names : List String)
    (h : TableHeader) :
    tableDataOf std { t with HeaderNames := names } h = tableDataOf std t h := rfl

/-! ## Renaming the header row in place -/

theorem findValue_ok_iff {cell : Cell} {R : Records} {v : String} :
    findValue cell R = .ok v ↔
      0 ≤ cell.Row ∧ 0 ≤ cell.Column ∧
        ∃ row, R[cell.Row.toNat]? = some row ∧ row[cell.Column.toNat]? = some v := by
  unfold findValue
  by_cases h1 : cell.Row ≥ goLen R
  · rw [if_pos h1]
    constructor
    · intro h; cases h
    · rintro ⟨h0, -, row, hrow, -⟩
      exfalso
      have hlt : cell.Row.toNat < R.length := by
        by_contra hc
        rw [List.getElem?_eq_none (by omega)] at hrow
        cases hrow
      unfold goLen at h1
      omega
  · rw [if_neg h1, bind_eq_ok]
    constructor
    · rintro ⟨row, hrow, h⟩
      rw [index_ok_iff] at hrow
      by_cases h2 : cell.Column ≥ goLen row
      · rw [if_pos h2] at h; cases h
      · rw [if_neg h2, index_ok_iff] at h
        exact ⟨hrow.1, h.1, row, hrow.2, h.2⟩
    · rintro ⟨h0, hc0, row, hrow, hv⟩
      refine ⟨row, index_ok_iff.2 ⟨h0, hrow⟩, ?_⟩
      have hlt : cell.Column.toNat < row.length := by
        by_contra hc
        rw [List.getElem?_eq_none (by omega)] at hv
        cases hv
      have h2 : ¬ cell.Column ≥ goLen row := by unfold goLen; omega
      rw [if_neg h2]
      exact index_ok_iff.2 ⟨hc0, hv⟩

section WriteSlice
variable {α : Type}

theorem writeSlice_map_length (f : α → α) (xs : List α) {lo hi : Nat}
    (h1 : lo ≤ hi) (h2 : hi ≤ xs.length) :
    (writeSlice xs (lo : Int) (((xs.drop lo).take (hi - lo)).map f)).length = xs.length := by
  simp only [writeSlice, Int.toNat_ofNat, List.length_append, List.length_take,
    List.length_map, List.length_drop]
  omega

theorem writeSlice_map_getElem? (f : α → α) (xs : List α) {lo hi : Nat}
    (h1 : lo ≤ hi) (h2 : hi ≤ xs.length) (j : Nat) :
    (writeSlice xs (lo : Int) (((xs.drop lo).take (hi - lo)).map f))[j]? =
      if lo ≤ j ∧ j < hi then xs[j]?.map f else xs[j]? := by
  simp only [writeSlice, Int.toNat_ofNat, List.length_map, List.length_take, List.length_drop]
  have hlen : min (hi - lo) (xs.length - lo) = hi - lo := by omega
  rw [hlen]
  have hlo : lo + (hi - lo) = hi := by omega
  rw [hlo]
  by_cases hj1 : j < lo
  · rw [List.append_assoc, List.getElem?_append_left (by simp; omega)]
    rw [if_neg (by omega), List.getElem?_take_of_lt hj1]
  · by_cases hj2 : j < hi
    · rw [List.getElem?_append_left (by simp; omega),
        List.getElem?_append_right (by simp; omega)]
      simp only [List.length_take, List.getElem?_map]
      have hm : min lo xs.length = lo := by omega
      rw [hm, if_pos ⟨by omega, hj2⟩, List.getElem?_take_of_lt (by omega), List.getElem?_drop]
      congr 2
      omega
    · rw [if_neg (by omega), List.getElem?_append_right (by simp; omega)]
      simp only [List.length_append, List.length_take, List.length_map, List.length_drop,
        List.getElem?_drop]
      congr 1
      omega

theorem slice_writeSlice_map (f : α → α) (xs : List α) {lo hi : Nat}
    (h1 : lo ≤ hi) (h2 : hi ≤ xs.length) :
    ((writeSlice xs (lo : Int) (((xs.drop lo).take (hi - lo)).map f)).drop lo).take (hi - lo) =
      ((xs.drop lo).take (hi - lo)).map f := by
  apply List.ext_getElem?
  intro j
  by_cases hj : j < hi - lo
  · rw [List.getElem?_take_of_lt hj, List.getElem?_drop, writeSlice_map_getElem? f xs h1 h2,
      if_pos ⟨by omega, by omega⟩, List.getElem?_map, List.getElem?_take_of_lt hj,
      List.getElem?_drop]
  · rw [List.getElem?_eq_none (by simp; omega), List.getElem?_eq_none (by simp; omega)]

theorem writeSlice_map_idem (f : α → α) (hf : ∀ x, f (f x) = f x) (xs : List α) {lo hi : Nat}
    (h1 : lo ≤ hi) (h2 : hi ≤ xs.length) :
    writeSlice (writeSlice xs (lo : Int) (((xs.drop lo).take (hi - lo)).map f)) (lo : Int)
        ((((xs.drop lo).take (hi - lo)).map f).map f) =
      writeSlice xs (lo : Int) (((xs.drop lo).take (hi - lo)).map f) := by
  have hlen := writeSlice_map_length f xs h1 h2
  have key := writeSlice_map_getElem? f
    (writeSlice xs (lo : Int) (((xs.drop lo).take (hi - lo)).map f)) h1 (by rw [hlen]; exact h2)
  rw [slice_writeSlice_map f xs h1 h2] at key
  apply List.ext_getElem?
  intro j
  rw [key j, writeSlice_map_getElem? f xs h1 h2]
  split_ifs with hj
  · cases xs[j]? <;> simp [hf]
  · rfl

end WriteSlice

/-! ## A second `parseTableHeader` on what the first one left -/

theorem getElem?_set_row {R : Records} {sr : Nat} {row row' : List String}
    (hrow : R[sr]? = some row) (x : Nat) :
    (R.set sr row')[x]? = if x = sr then some row' else R[x]? := by
  have hlt : sr < R.length := by
    by_contra hc
    rw [List.getElem?_eq_none (by omega)] at hrow
    cases hrow
  rw [List.getElem?_set]
  by_cases hx : sr = x
  · subst hx; simp [hlt]
  · simp [hx, Ne.symm hx]

theorem headerTableName_set {t : TableLocation} {R : Records} {n : String} {sr : Nat}
    {row : List String} (row' : List String) (hrow : R[sr]? = some row)
    (hcell : ∀ (j : Nat) v, row[j]? = some v →
      ∃ v', row'[j]? = some v' ∧ replaceSpaces v' = replaceSpaces v)
    (hn : headerTableName t R false = .ok n) :
    headerTableName t (R.set sr row') false = .ok n := by
  unfold headerTableName at hn ⊢
  by_cases hname : t.Name = ""
  · rw [if_pos hname] at hn ⊢
    rw [bind_eq_ok] at hn
    obtain ⟨found, hfound, hn⟩ := hn
    rw [wrapErr_eq_ok, findValue_ok_iff] at hfound
    obtain ⟨h0, hc0, row0, hrow0, hv⟩ := hfound
    simp only [Bool.false_eq_true, if_false, pure, Except.pure, Except.ok.injEq] at hn
    by_cases hx : t.NameLocation.Row.toNat = sr
    · rw [hx, hrow] at hrow0
      cases hrow0
      obtain ⟨v', hv', hrs⟩ := hcell _ _ hv
      have : findValue t.NameLocation (R.set sr row') = .ok v' :=
        findValue_ok_iff.2 ⟨h0, hc0, row', by rw [getElem?_set_row hrow, if_pos hx], hv'⟩
      rw [this]
      simp only [wrapErr_ok, bind, Except.bind, Bool.false_eq_true, if_false, pure, Except.pure]
      rw [hrs, hn]
    · have : findValue t.NameLocation (R.set sr row') = .ok found :=
        findValue_ok_iff.2 ⟨h0, hc0, row0, by rw [getElem?_set_row hrow, if_neg hx]; exact hrow0,
          hv⟩
      rw [this]
      simp only [wrapErr_ok, bind, Except.bind, Bool.false_eq_true, if_false, pure, Except.pure]
      rw [hn]
  · rw [if_neg hname] at hn ⊢
    exact hn

theorem headerEndColumn_set {t : TableLocation} {R : Records} {e : Int} {sr : Nat}
    {row : List String} (row' : List String) (hrow : R[sr]? = some row)
    (hlen : row'.length = row.length)
    (he : headerEndColumn t R = .ok e) :
    headerEndColumn t (R.set sr row') = .ok e := by
  unfold headerEndColumn at he ⊢
  have hgl : goLen (R.set sr row') = goLen R := by simp [goLen]
  rw [hgl]
  by_cases h1 : t.EndCell.Column > 0
  · rw [if_pos h1] at he ⊢; exact he
  · rw [if_neg h1] at he ⊢
    by_cases h2 : goLen R ≤ t.StartCell.Row
    · rw [if_pos h2] at he; cases he
    · rw [if_neg h2] at he ⊢
      rw [bind_eq_ok] at he ⊢
      obtain ⟨row0, hrow0, he⟩ := he
      rw [index_ok_iff] at hrow0
      by_cases hx : t.StartCell.Row.toNat = sr
      · rw [hx, hrow] at hrow0
        cases hrow0.2
        refine ⟨row', index_ok_iff.2 ⟨hrow0.1, by rw [getElem?_set_row hrow, if_pos hx]⟩, ?_⟩
        simp only [goLen, hlen] at he ⊢
        exact he
      · exact ⟨row0, index_ok_iff.2 ⟨hrow0.1, by
          rw [getElem?_set_row hrow, if_neg hx]; exact hrow0.2⟩, he⟩

theorem headerEndRow_set (t : TableLocation) (R : Records) (sr : Nat) (row' : List String) :
    headerEndRow t (R.set sr row') = headerEndRow t R := by
  simp [headerEndRow, goLen]

theorem with_headerNames_self (t : TableLocation) :
    ({ t with HeaderNames := t.HeaderNames } : TableLocation) = t := rfl

/-- What a successful `parseTableHeader` leaves behind is a fixed point: a second
call on it returns the same header. -/
theorem parseTableHeader_idem {t : TableLocation} {R : Records} {ks : Bool}
    {h : TableHeader} (hh : t.parseTableHeader R ks = .ok h) :
    TableLocation.parseTableHeader { t with HeaderNames := h.headerNames } h.records ks =
      .ok h := by
  have hh0 := hh
  rw [parseTableHeader_eq, bind_eq_ok] at hh
  obtain ⟨n, hn, hh⟩ := hh
  rw [bind_eq_ok] at hh
  obtain ⟨e, he, hrest⟩ := hh
  unfold headerRest at hrest
  by_cases hhdr : t.TableHasHeader = true
  · rw [if_pos hhdr, bind_eq_ok] at hrest
    obtain ⟨row, hrow, hrest⟩ := hrest
    rw [bind_eq_ok] at hrest
    obtain ⟨headers, hslice, hrest⟩ := hrest
    cases ks with
    | true =>
      simp only [if_true, pure, Except.pure, Except.ok.injEq] at hrest
      subst hrest
      exact hh0
    | false =>
      simp only [Bool.false_eq_true, if_false] at hrest
      rw [bind_eq_ok] at hrest
      obtain ⟨R', hset, hrest⟩ := hrest
      simp only [pure, Except.pure, Except.ok.injEq] at hrest
      subst hrest
      simp only [with_headerNames_self]
      rw [index_ok_iff] at hrow
      obtain ⟨hsr0, hrow⟩ := hrow
      rw [slice_ok_iff] at hslice
      obtain ⟨hsc0, hle, hhi, hheaders⟩ := hslice
      rw [setIndex_ok_iff] at hset
      obtain ⟨-, hsrlt, hR'⟩ := hset
      -- the bounds as natural numbers
      obtain ⟨lo, hlo⟩ : ∃ lo : Nat, t.StartCell.Column = (lo : Int) :=
        ⟨t.StartCell.Column.toNat, by omega⟩
      have hlo' : t.StartCell.Column.toNat = lo := by omega
      set hi := (e + 1).toNat with hhi_def
      have h1 : lo ≤ hi := by omega
      rw [hlo'] at hheaders
      rw [hlo] at hR'
      subst hheaders
      have hlen := writeSlice_map_length replaceSpaces row h1 hhi
      have hcell : ∀ (j : Nat) v, row[j]? = some v →
          ∃ v', (writeSlice row (lo : Int)
            (((row.drop lo).take (hi - lo)).map replaceSpaces))[j]? = some v' ∧
            replaceSpaces v' = replaceSpaces v := by
        intro j v hv
        rw [writeSlice_map_getElem? replaceSpaces row h1 hhi, hv]
        split_ifs
        · exact ⟨replaceSpaces v, rfl, replaceSpaces_idem v⟩
        · exact ⟨v, rfl, rfl⟩
      have hn' := headerTableName_set (writeSlice row (lo : Int)
        (((row.drop lo).take (hi - lo)).map replaceSpaces)) hrow hcell hn
      have he' := headerEndColumn_set (writeSlice row (lo : Int)
        (((row.drop lo).take (hi - lo)).map replaceSpaces)) hrow hlen he
      rw [← hR'] at hn' he'
      rw [parseTableHeader_eq, hn', he']
      simp only [bind, Except.bind]
      unfold headerRest
      rw [if_pos hhdr]
      have hrow' : index R' t.StartCell.Row = .ok (writeSlice row (lo : Int)
          (((row.drop lo).take (hi - lo)).map replaceSpaces)) := by
        rw [index_ok_iff]
        refine ⟨hsr0, ?_⟩
        rw [hR', getElem?_set_row hrow, if_pos rfl]
      have hslice' : slice (writeSlice row (lo : Int)
          (((row.drop lo).take (hi - lo)).map replaceSpaces)) t.StartCell.Column (e + 1) =
          .ok (((row.drop lo).take (hi - lo)).map replaceSpaces) := by
        rw [slice_ok_iff]
        refine ⟨hsc0, hle, by rw [hlen]; exact hhi, ?_⟩
        rw [hlo', slice_writeSlice_map replaceSpaces row h1 hhi]
      simp only [hrow', hslice', bind, Except.bind, Bool.false_eq_true, if_false,
        map_replaceSpaces_idem]
      have hset' : setIndex R' t.StartCell.Row (writeSlice (writeSlice row (lo : Int)
          (((row.drop lo).take (hi - lo)).map replaceSpaces)) t.StartCell.Column
          (((row.drop lo).take (hi - lo)).map replaceSpaces)) = .ok R' := by
        rw [setIndex_ok_iff]
        refine ⟨hsr0, by rw [hR']; simpa using hsrlt, ?_⟩
        have hidem := writeSlice_map_idem replaceSpaces replaceSpaces_idem row h1 hhi
        rw [map_replaceSpaces_idem] at hidem
        rw [hlo, hidem, hR', List.set_set]
      rw [hset']
      simp only [pure, Except.pure, Except.ok.injEq, TableHeader.mk.injEq, true_and, and_true]
      rw [hR', headerEndRow_set]
  · rw [if_neg hhdr] at hrest
    cases ks with
    | true =>
      simp only [if_true, pure, Except.pure, Except.ok.injEq] at hrest
      subst hrest
      exact hh0
    | false =>
      simp only [Bool.false_eq_true, if_false, pure, Except.pure, Except.ok.injEq] at hrest
      subst hrest
      rw [parseTableHeader_eq]
      have hn' : headerTableName { t with HeaderNames := t.HeaderNames.map replaceSpaces } R
          false = .ok n := hn
      have he' : headerEndColumn { t with HeaderNames := t.HeaderNames.map replaceSpaces } R =
          .ok e := he
      simp only [hn', he', bind, Except.bind]
      unfold headerRest
      simp only [hhdr, Bool.false_eq_true, if_false, map_replaceSpaces_idem]
      rfl

/-! ## The row-oriented data phase -/

theorem cellText_of_getElem? {R : Records} {r c : Nat} {row : List String}
    (hr : R[r]? = some row) (hc : c < row.length) :
    row[c]? = some (cellText R r c) := by
  simp [cellText, List.getD_eq_getElem?_getD, hr, List.getElem?_eq_getElem hc]

theorem readValue_of_ok {std : StdLib} {dataType : DataType} {text : String} {v : Value}
    (h : dataType.Read std text = .ok v) : readValue std dataType text = v := by
  unfold readValue
  rw [h]

/-- The column loop of `parseTableData` on the `k`-th data row builds the row
mapping of the specification. -/
theorem tableColumns_total {std : StdLib} {t : TableLocation} {R R' : Records}
    {keepSpaces : Bool} {headers : List String} {tableDims : tableDimensions}
    {sr s w k : Nat}
    (hstart : t.StartCell = ⟨(sr : Int), (s : Int)⟩)
    (hsc : tableDims.startColumn = (s : Int))
    (hheaders : ∀ j < w, headers[j]? = some (t.headerAt R keepSpaces j))
    (hrec : R'[sr + 1 + k]? = R[sr + 1 + k]?)
    (hcells : ∀ j < w, ∃ row, R[sr + 1 + k]? = some row ∧ s + j < row.length)
    (htypes : t.AutoColumnDataTypes = false → w ≤ t.ColumnDataTypes.length)
    (hread : ∀ j < w, ∃ v, (t.columnType j).Read std (cellText R (sr + 1 + k) (s + j)) = .ok v) :
    forLoop (s : Int) ((s + w : Nat) : Int)
      (tableCellBody std t tableDims R' headers ((sr + 1 + k : Nat) : Int)) [] =
      .ok (t.rowMapping std R keepSpaces w k) := by
  have hsr : t.StartCell.Row.toNat = sr := by rw [hstart]; simp
  have hs : t.StartCell.Column.toNat = s := by rw [hstart]; simp
  obtain ⟨st, hst, hI⟩ := forLoop_total
    (f := tableCellBody std t tableDims R' headers ((sr + 1 + k : Nat) : Int))
    (fun n st => st = (List.range (n - s)).foldl (t.rowEntry std R keepSpaces k) [])
    (l := s) (u := s + w) (s := []) (by omega) (by simp)
    (by
      intro n st hn1 hn2 hst
      obtain ⟨j, rfl⟩ : ∃ j, n = s + j := ⟨n - s, by omega⟩
      have hj : j < w := by omega
      obtain ⟨row, hrow, hlen⟩ := hcells j hj
      obtain ⟨v, hv⟩ := hread j hj
      have h1 : index headers (((s + j : Nat) : Int) - tableDims.startColumn) =
          .ok (t.headerAt R keepSpaces j) := by
        have : ((s + j : Nat) : Int) - tableDims.startColumn = (j : Int) := by
          rw [hsc]; push_cast; omega
        rw [this]
        exact index_eq_ok.2 (hheaders j hj)
      have h2 : findValue ⟨((sr + 1 + k : Nat) : Int), ((s + j : Nat) : Int)⟩ R' =
          .ok (cellText R (sr + 1 + k) (s + j)) :=
        findValue_of_getElem? (hrec.trans hrow) (cellText_of_getElem? hrow hlen)
      have h3 : (if t.AutoColumnDataTypes then pure DataTypeAuto
          else index t.ColumnDataTypes (((s + j : Nat) : Int) - tableDims.startColumn)) =
          .ok (t.columnType j) := by
        have : ((s + j : Nat) : Int) - tableDims.startColumn = (j : Int) := by
          rw [hsc]; push_cast; omega
        rw [this]
        unfold TableLocation.columnType
        by_cases ha : t.AutoColumnDataTypes = true
        · rw [if_pos ha, if_pos ha]; rfl
        · rw [if_neg ha, if_neg ha]
          have hlt : j < t.ColumnDataTypes.length := by
            have := htypes (by simpa using ha)
            omega
          rw [index_of_lt hlt, List.getD_eq_getElem?_getD, List.getElem?_eq_getElem hlt,
            Option.getD_some]
      refine ⟨_, tableCellBody_eq h1 h2 h3 hv, ?_⟩
      have hrange : s + j + 1 - s = j + 1 := by omega
      have hrange0 : s + j - s = j := by omega
      show _ = List.foldl _ [] (List.range (s + j + 1 - s))
      rw [hrange, List.range_succ, List.foldl_append, List.foldl_cons, List.foldl_nil]
      rw [hrange0] at hst
      rw [← hst]
      unfold TableLocation.rowEntry TableLocation.entryKey TableLocation.cellValue
      rw [hsr, hs, readValue_of_ok hv])
  have hw : s + w - s = w := by omega
  simp only [hw] at hI
  rw [hst, hI]
  rfl

/-- The method `parseTableData` on a table of `m` data rows and `w` columns whose
cells exist and whose coercions succeed. -/
theorem parseTableData_total {std : StdLib} {t : TableLocation} {R R' : Records}
    {keepSpaces : Bool} {headers : List String} {tableDims : tableDimensions}
    {sr s w m : Nat}
    (hstart : t.StartCell = ⟨(sr : Int), (s : Int)⟩)
    (hdims : tableDims = ⟨((sr + 1 : Nat) : Int), ((sr + m : Nat) : Int), (s : Int),
      ((s + w : Nat) : Int) - 1⟩)
    (hheaders : ∀ j < w, headers[j]? = some (t.headerAt R keepSpaces j))
    (hrec : ∀ k < m, R'[sr + 1 + k]? = R[sr + 1 + k]?)
    (hcells : ∀ k < m, ∀ j < w, ∃ row, R[sr + 1 + k]? = some row ∧ s + j < row.length)
    (htypes : t.AutoColumnDataTypes = false → w ≤ t.ColumnDataTypes.length)
    (hread : ∀ k < m, ∀ j < w,
      ∃ v, (t.columnType j).Read std (cellText R (sr + 1 + k) (s + j)) = .ok v) :
    t.parseTableData std tableDims R' headers =
      .ok ((List.range m).map (t.rowMapping std R keepSpaces w)) := by
  unfold TableLocation.parseTableData
  have hsc : tableDims.startColumn = (s : Int) := by rw [hdims]
  have hec : tableDims.endColumn + 1 = ((s + w : Nat) : Int) := by rw [hdims]; simp
  have hsrow : tableDims.startRow = ((sr + 1 : Nat) : Int) := by rw [hdims]
  have herow : tableDims.endRow + 1 = ((sr + 1 + m : Nat) : Int) := by
    rw [hdims]; push_cast; omega
  have hmake : tableDims.endRow - tableDims.startRow + 1 = (m : Int) := by
    rw [hdims]; push_cast; omega
  rw [hmake, make_natCast]
  simp only [bind, Except.bind]
  rw [hsrow, herow]
  obtain ⟨st, hst, hlen, hI⟩ := forLoop_total
    (f := tableRowBody std t tableDims R' headers)
    (fun n st => st.length = m ∧
      ∀ i < n - (sr + 1), st[i]? = some (t.rowMapping std R keepSpaces w i))
    (l := sr + 1) (u := sr + 1 + m) (s := List.replicate m []) (by omega)
    (by simp)
    (by
      intro n st hn1 hn2 ⟨hlen, hI⟩
      obtain ⟨k, rfl⟩ : ∃ k, n = sr + 1 + k := ⟨n - (sr + 1), by omega⟩
      have hk : k < m := by omega
      unfold tableRowBody
      rw [hsc, hec, tableColumns_total hstart hsc hheaders (hrec k hk) (hcells k hk) htypes
        (hread k hk)]
      simp only [bind, Except.bind]
      have hidx : ((sr + 1 + k : Nat) : Int) - tableDims.startRow = (k : Int) := by
        rw [hsrow]; push_cast; omega
      rw [hidx, setIndex_of_lt _ (by omega)]
      refine ⟨_, rfl, by simpa using hlen, ?_⟩
      intro i hi
      have hi' : i < k + 1 := by omega
      rw [List.getElem?_set]
      by_cases hik : k = i
      · subst hik
        simp [hlen, hk]
      · rw [if_neg hik]
        exact hI i (by omega))
  rw [hst]
  congr 1
  apply List.ext_getElem?
  intro i
  by_cases hi : i < m
  · rw [hI i (by omega), List.getElem?_map, List.getElem?_range hi]
    rfl
  · rw [List.getElem?_eq_none (by omega), List.getElem?_eq_none (by simp; omega)]

/-! ## The header of a table with an in-band header -/

theorem parseTableHeader_inband {t : TableLocation} {R : Records} (ks : Bool)
    {sr s w m : Nat} {hrow : List String}
    (hheader : t.TableHasHeader = true)
    (hstart : t.StartCell = ⟨(sr : Int), (s : Int)⟩)
    (hcols : t.resolvedEndColumn R + 1 = ((s + w : Nat) : Int))
    (hrows : t.resolvedEndRow R = ((sr + m : Nat) : Int))
    (hname : t.Name = "" → ∃ v, findValue t.NameLocation R = .ok v)
    (hhead : R[sr]? = some hrow) (hw : s + w ≤ hrow.length) :
    ∃ h, t.parseTableHeader R ks = .ok h ∧
      h.tableDims = ⟨((sr + 1 : Nat) : Int), ((sr + m : Nat) : Int), (s : Int),
        ((s + w : Nat) : Int) - 1⟩ ∧
      (∀ j < w, h.headers[j]? = some (t.headerAt R ks j)) ∧
      (∀ x, x ≠ sr → h.records[x]? = R[x]?) := by
  have hsr : t.StartCell.Row = (sr : Int) := by rw [hstart]
  have hs : t.StartCell.Column = (s : Int) := by rw [hstart]
  have hsrlt : sr < R.length := by
    by_contra hc
    rw [List.getElem?_eq_none (by omega)] at hhead
    cases hhead
  -- the name
  obtain ⟨n, hn⟩ : ∃ n, headerTableName t R ks = .ok n := by
    unfold headerTableName
    by_cases h0 : t.Name = ""
    · obtain ⟨v, hv⟩ := hname h0
      rw [if_pos h0, hv]
      exact ⟨_, rfl⟩
    · rw [if_neg h0]
      exact ⟨_, rfl⟩
  -- the end column
  have he : headerEndColumn t R = .ok (((s + w : Nat) : Int) - 1) := by
    unfold headerEndColumn
    unfold TableLocation.resolvedEndColumn at hcols
    by_cases h1 : t.EndCell.Column > 0
    · rw [if_pos h1] at hcols ⊢
      simp only [pure, Except.pure, Except.ok.injEq]
      omega
    · rw [if_neg h1] at hcols ⊢
      have h2 : ¬ goLen R ≤ t.StartCell.Row := by
        rw [hsr]; unfold goLen; omega
      rw [if_neg h2, hsr, index_eq_ok.2 hhead]
      simp only [bind, Except.bind, pure, Except.pure, Except.ok.injEq, goLen]
      rw [hsr, Int.toNat_ofNat, List.getD_eq_getElem?_getD, hhead, Option.getD_some] at hcols
      omega
  have hrowsEq : headerEndRow t R = ((sr + m : Nat) : Int) := hrows
  have hslice : slice hrow t.StartCell.Column (((s + w : Nat) : Int) - 1 + 1) =
      .ok ((hrow.drop s).take w) := by
    rw [slice_ok_iff, hs]
    refine ⟨by omega, by push_cast; omega, ?_, ?_⟩
    · have : (((s + w : Nat) : Int) - 1 + 1).toNat = s + w := by omega
      rw [this]; exact hw
    · have h1 : (((s + w : Nat) : Int) - 1 + 1).toNat = s + w := by omega
      rw [h1, Int.toNat_ofNat, Nat.add_sub_cancel_left]
  have hcell : ∀ j < w, ((hrow.drop s).take w)[j]? = some (cellText R sr (s + j)) := by
    intro j hj
    rw [List.getElem?_take_of_lt hj, List.getElem?_drop]
    exact cellText_of_getElem? hhead (by omega)
  have hat : ∀ j, t.headerAt R ks j =
      if ks then cellText R sr (s + j) else replaceSpaces (cellText R sr (s + j)) := by
    intro j
    unfold TableLocation.headerAt
    rw [hsr, hs, Int.toNat_ofNat, Int.toNat_ofNat]
  rw [parseTableHeader_eq, hn, he]
  simp only [bind, Except.bind]
  unfold headerRest
  rw [if_pos hheader, hsr, index_eq_ok.2 hhead]
  simp only [bind, Except.bind]
  rw [← hsr, hslice, hrowsEq]
  cases ks with
  | true =>
    refine ⟨_, rfl, ?_, ?_, ?_⟩
    · simp only [hsr, hs]; push_cast; rfl
    · intro j hj
      rw [hat j]
      exact hcell j hj
    · intro x _; rfl
  | false =>
    simp only [Bool.false_eq_true, if_false]
    rw [hsr, setIndex_of_lt _ hsrlt]
    refine ⟨_, rfl, ?_, ?_, ?_⟩
    · simp only [hsr, hs]; push_cast; rfl
    · intro j hj
      rw [hat j]
      simp only [Bool.false_eq_true, if_false, List.getElem?_map, hcell j hj, Option.map_some']
    · intro x hx
      rw [getElem?_set_row hhead, if_neg hx]

/-! ## The row mapping by key -/

theorem rowMapping_succ (std : StdLib) (t : TableLocation) (R : Records) (keepSpaces : Bool)
    (n k : Nat) :
    t.rowMapping std R keepSpaces (n + 1) k =
      t.rowEntry std R keepSpaces k (t.rowMapping std R keepSpaces n k) n := by
  unfold TableLocation.rowMapping
  rw [List.range_succ, List.foldl_append, List.foldl_cons, List.foldl_nil]

/-- A key that no column of the row produces is absent from the row mapping. -/
theorem mapGet_rowMapping_none (std : StdLib) (t : TableLocation) (R : Records)
    (keepSpaces : Bool) (k : Nat) (key : String) :
    ∀ w, (∀ j < w, t.entryKey std R keepSpaces k j ≠ key) →
      mapGet (t.rowMapping std R keepSpaces w k) key = none := by
  intro w
  induction w with
  | zero => intro _; rfl
  | succ n ih =>
    intro h
    rw [rowMapping_succ]
    unfold TableLocation.rowEntry
    split_ifs
    · exact ih (fun j hj => h j (by omega))
    · rw [mapGet_mapSet, if_neg (h n (by omega))]
      exact ih (fun j hj => h j (by omega))

/-- Under a key that only column `j` produces, the row mapping holds the value of
column `j`, or nothing when the value is null and `SkipBlankData` is set. -/
theorem mapGet_rowMapping (std : StdLib) (t : TableLocation) (R : Records)
    (keepSpaces : Bool) (k j : Nat) :
    ∀ w, j < w →
      (∀ i < w, i ≠ j → t.entryKey std R keepSpaces k i ≠ t.entryKey std R keepSpaces k j) →
      mapGet (t.rowMapping std R keepSpaces w k) (t.entryKey std R keepSpaces k j) =
        if t.cellValue std R k j = .null ∧ t.SkipBlankData then none
        else some (t.cellValue std R k j) := by
  intro w
  induction w with
  | zero => intro hj; omega
  | succ n ih =>
    intro hj hdist
    rw [rowMapping_succ]
    by_cases hjn : j = n
    · subst hjn
      have hnone := mapGet_rowMapping_none std t R keepSpaces k
        (t.entryKey std R keepSpaces k j) j (fun i hi => hdist i (by omega) (by omega))
      unfold TableLocation.rowEntry
      by_cases hskip : t.cellValue std R k j = .null ∧ t.SkipBlankData
      · simp only [if_pos hskip]
        exact hnone
      · simp only [if_neg hskip]
        rw [mapGet_mapSet, if_pos rfl]
    · have hne := hdist n (by omega) (Ne.symm hjn)
      have hrec := ih (by omega) (fun i hi hij => hdist i (by omega) hij)
      unfold TableLocation.rowEntry
      by_cases hskip : t.cellValue std R k n = .null ∧ t.SkipBlankData
      · rw [if_pos hskip]
        exact hrec
      · rw [if_neg hskip, mapGet_mapSet, if_neg hne]
        exact hrec

/-! ## The separated tables of `ParseRecords` -/

theorem separatedStep_ok_inv {std : StdLib} {c : Csv} {baseData : Doc}
    {st st' : List Doc × Records} {t : TableLocation} (hsep : t.ParseSeparated = true)
    (h : separatedStep std c baseData st t = .ok st') :
    ∃ rows, (t.Parse std st.2 c.KeepSpaces).data = .ok (.rows rows) ∧
      st' = (st.1 ++ rows.map (rowInstance t baseData),
        (t.Parse std st.2 c.KeepSpaces).records) := by
  unfold separatedStep at h
  simp only [hsep, not_true_eq_false, if_false] at h
  by_cases hmode : t.ParseAsArray = true ∨ t.ParseSingleRow = true
  · rw [if_pos hmode] at h
    cases h
  · rw [if_neg hmode] at h
    cases hd : (t.Parse std st.2 c.KeepSpaces).data with
    | error f =>
      rw [hd] at h
      cases f <;> simp [wrapErr] at h
    | ok tableData =>
      rw [hd] at h
      simp only [wrapErr_ok] at h
      by_cases hdup : c.FaultOnDuplicate = true ∧
          (mapGet baseData (t.Parse std st.2 c.KeepSpaces).name).isSome = true
      · rw [if_pos hdup] at h
        cases h
      · rw [if_neg hdup] at h
        cases tableData with
        | rows data =>
          simp only [pure, Except.pure, Except.ok.injEq] at h
          exact ⟨data, rfl, h.symm⟩
        | columns data => cases h
        | single data => cases h

/-- The separated loop adds one document for every data row of every separated
table. -/
theorem separatedFold_length (std : StdLib) (c : Csv) (baseData : Doc) :
    ∀ (l : List TableLocation) (st st' : List Doc × Records),
      l.foldlM (separatedStep std c baseData) st = .ok st' →
      st'.1.length = st.1.length + (separatedRowCounts std c.KeepSpaces l st.2).sum := by
  intro l
  induction l with
  | nil =>
    intro st st' h
    simp only [List.foldlM_nil, pure, Except.pure, Except.ok.injEq] at h
    subst h
    simp [separatedRowCounts]
  | cons t ts ih =>
    intro st st' h
    rw [List.foldlM_cons, bind_eq_ok] at h
    obtain ⟨s1, hstep, hrest⟩ := h
    by_cases hsep : t.ParseSeparated = true
    · obtain ⟨rows, hrows, hs1⟩ := separatedStep_ok_inv hsep hstep
      have := ih s1 st' hrest
      rw [this, hs1]
      simp only [separatedRowCounts, hsep, if_true, hrows, List.sum_cons, List.length_append,
        List.length_map]
      omega
    · have hsep' : t.ParseSeparated = false := by simpa using hsep
      rw [separatedStep_skip std c baseData st t hsep'] at hstep
      cases hstep
      have := ih st st' hrest
      rw [this]
      simp [separatedRowCounts, hsep']

/-! ## File names -/

theorem replaceBackslashes_idem (s : String) :
    replaceBackslashes (replaceBackslashes s) = replaceBackslashes s := by
  unfold replaceBackslashes
  congr 1
  simp only [List.map_map]
  apply List.map_congr_left
  intro c _
  by_cases h : c = '\\'
  · subst h; decide
  · simp [h]

theorem replaceBackslashes_free (s : String) : '\\' ∉ (replaceBackslashes s).data := by
  unfold replaceBackslashes
  simp only [List.mem_map, not_exists, not_and]
  intro c _
  by_cases h : c = '\\'
  · subst h; decide
  · simp [h]

/-! ## Letter case -/

theorem char_eq_of_toNat {c d : Char} (h : c.toNat = d.toNat) : c = d := by
  apply Char.ext
  apply UInt32.ext
  exact h

theorem upper_toNat {c : Char} (h : 'A' ≤ c ∧ c ≤ 'Z') : 65 ≤ c.toNat ∧ c.toNat ≤ 90 :=
  ⟨h.1, h.2⟩

theorem toLowerRune_eq_o (c : Char) : toLowerRune c = 'o' ↔ c = 'o' ∨ c = 'O' := by
  constructor
  · intro h
    unfold toLowerRune at h
    split_ifs at h with h1 h2 h3
    · right
      obtain ⟨ha, hb⟩ := upper_toNat h1
      apply char_eq_of_toNat
      have hc : (Char.ofNat (c.toNat + 32)).toNat = 'o'.toNat := by rw [h]
      generalize c.toNat = n at ha hb hc ⊢
      interval_cases n <;> first | rfl | (exfalso; revert hc; decide)
    · exact absurd h (by decide)
    · exact absurd h (by decide)
    · left; exact h
  · rintro (rfl | rfl) <;> decide

theorem toLowerRune_eq_n (c : Char) : toLowerRune c = 'n' ↔ c = 'n' ∨ c = 'N' := by
  constructor
  · intro h
    unfold toLowerRune at h
    split_ifs at h with h1 h2 h3
    · right
      obtain ⟨ha, hb⟩ := upper_toNat h1
      apply char_eq_of_toNat
      have hc : (Char.ofNat (c.toNat + 32)).toNat = 'n'.toNat := by rw [h]
      generalize c.toNat = n at ha hb hc ⊢
      interval_cases n <;> first | rfl | (exfalso; revert hc; decide)
    · exact absurd h (by decide)
    · exact absurd h (by decide)
    · left; exact h
  · rintro (rfl | rfl) <;> decide

theorem toLowerRune_eq_g (c : Char) : toLowerRune c = 'g' ↔ c = 'g' ∨ c = 'G' := by
  constructor
  · intro h
    unfold toLowerRune at h
    split_ifs at h with h1 h2 h3
    · right
      obtain ⟨ha, hb⟩ := upper_toNat h1
      apply char_eq_of_toNat
      have hc : (Char.ofNat (c.toNat + 32)).toNat = 'g'.toNat := by rw [h]
      generalize c.toNat = n at ha hb hc ⊢
      interval_cases n <;> first | rfl | (exfalso; revert hc; decide)
    · exact absurd h (by decide)
    · exact absurd h (by decide)
    · left; exact h
  · rintro (rfl | rfl) <;> decide

theorem toLowerRune_eq_k (c : Char) :
    toLowerRune c = 'k' ↔ c = 'k' ∨ c = 'K' ∨ c = '\u212A' := by
  constructor
  · intro h
    unfold toLowerRune at h
    split_ifs at h with h1 h2 h3
    · right; left
      obtain ⟨ha, hb⟩ := upper_toNat h1
      apply char_eq_of_toNat
      have hc : (Char.ofNat (c.toNat + 32)).toNat = 'k'.toNat := by rw [h]
      generalize c.toNat = n at ha hb hc ⊢
      interval_cases n <;> first | rfl | (exfalso; revert hc; decide)
    · right; right
      exact char_eq_of_toNat h2
    · exact absurd h (by decide)
    · left; exact h
  · rintro (rfl | rfl | rfl) <;> decide

theorem map_eq_pair {α β : Type} (f : α → β) (l : List α) (a b : β) :
    l.map f = [a, b] ↔ ∃ x y, l = [x, y] ∧ f x = a ∧ f y = b := by
  constructor
  · intro h
    match l, h with
    | [x, y], h =>
      simp only [List.map_cons, List.map_nil, List.cons.injEq, and_true] at h
      exact ⟨x, y, rfl, h.1, h.2⟩
  · rintro ⟨x, y, rfl, rfl, rfl⟩
    rfl

theorem toLower_eq_ok (s : String) : ToLower s = "ok" ↔ s ∈ okSpellings := by
  have h1 : ToLower s = "ok" ↔ s.data.map toLowerRune = ['o', 'k'] := by
    unfold ToLower
    constructor
    · intro h; exact congrArg String.data h
    · intro h; rw [h]
  rw [h1, map_eq_pair]
  constructor
  · rintro ⟨x, y, hs, hx, hy⟩
    have hs' : s = ⟨[x, y]⟩ := String.ext hs
    rw [toLowerRune_eq_o] at hx
    rw [toLowerRune_eq_k] at hy
    subst hs'
    rcases hx with rfl | rfl <;> rcases hy with rfl | rfl | rfl <;> decide
  · intro h
    simp only [okSpellings, List.mem_cons, List.mem_singleton, List.not_mem_nil, or_false] at h
    rcases h with rfl | rfl | rfl | rfl | rfl | rfl <;> exact ⟨_, _, rfl, by decide, by decide⟩

theorem toLower_eq_ng (s : String) : ToLower s = "ng" ↔ s ∈ ngSpellings := by
  have h1 : ToLower s = "ng" ↔ s.data.map toLowerRune = ['n', 'g'] := by
    unfold ToLower
    constructor
    · intro h; exact congrArg String.data h
    · intro h; rw [h]
  rw [h1, map_eq_pair]
  constructor
  · rintro ⟨x, y, hs, hx, hy⟩
    have hs' : s = ⟨[x, y]⟩ := String.ext hs
    rw [toLowerRune_eq_n] at hx
    rw [toLowerRune_eq_g] at hy
    subst hs'
    rcases hx with rfl | rfl <;> rcases hy with rfl | rfl <;> decide
  · intro h
    simp only [ngSpellings, List.mem_cons, List.mem_singleton, List.not_mem_nil, or_false] at h
    rcases h with rfl | rfl | rfl | rfl <;> exact ⟨_, _, rfl, by decide, by decide⟩

theorem parseBool_eq_true (s : String) : ParseBool s = some true ↔ s ∈ trueLiterals := by
  unfold ParseBool trueLiterals
  simp only [List.mem_cons, List.mem_singleton, List.not_mem_nil, or_false]
  split_ifs with h1 h2
  · simp [h1]
  · simp only [Option.some.injEq, Bool.false_eq_true, false_iff]; exact h1
  · simp only [false_iff]; exact h1

theorem parseBool_eq_false (s : String) :
    ParseBool s = some false ↔ s ∉ trueLiterals ∧ s ∈ falseLiterals := by
  unfold ParseBool trueLiterals falseLiterals
  simp only [List.mem_cons, List.mem_singleton, List.not_mem_nil, or_false]
  split_ifs with h1 h2
  · simp only [Option.some.injEq, Bool.true_eq_false, false_iff, not_and]
    exact fun h => absurd h1 h
  · simp only [true_iff]; exact ⟨h1, h2⟩
  · simp only [false_iff, not_and]; exact fun _ => h2

/-! ## Identifiers (`idField.go`) -/

theorem getParameterStep_of_some {current v : Any} {param : PathParam}
    (h : resolveStep current param = some v) : getParameterStep current param = .ok v := by
  cases current with
  | scalar x => simp [resolveStep] at h
  | map entries =>
    cases param with
    | key k =>
      simp only [resolveStep] at h
      have hne : goLen entries ≠ 0 := by
        cases entries with
        | nil => simp [mapGet] at h
        | cons a rest => simp [goLen]; omega
      simp [getParameterStep, hne, h]
    | index j => simp [resolveStep] at h
    | other => simp [resolveStep] at h
  | seq items =>
    cases param with
    | key k => simp [resolveStep] at h
    | index j =>
      simp only [resolveStep] at h
      by_cases hj : 0 ≤ j
      · rw [if_pos hj] at h
        have hlt : j.toNat < items.length := by
          by_contra hge
          rw [List.getElem?_eq_none (by omega)] at h
          cases h
        have hcond : ¬ (j < 0 ∨ j ≥ goLen items) := by
          unfold goLen; omega
        simp only [getParameterStep, if_neg hcond]
        exact index_ok_iff.2 ⟨hj, h⟩
      · rw [if_neg hj] at h; cases h
    | other => simp [resolveStep] at h

theorem getParameterStep_of_none {current : Any} {param : PathParam}
    (h : resolveStep current param = none) :
    ∃ e, getParameterStep current param = .error (.error e) := by
  cases current with
  | scalar x => exact ⟨_, rfl⟩
  | map entries =>
    by_cases hne : goLen entries = 0
    · exact ⟨.emptyMap, by simp [getParameterStep, hne]⟩
    · cases param with
      | key k =>
        simp only [resolveStep] at h
        exact ⟨.keyNotFound k, by simp [getParameterStep, hne, h]⟩
      | index j => exact ⟨.keyKindMismatch, by simp [getParameterStep, hne]⟩
      | other => exact ⟨.keyKindMismatch, by simp [getParameterStep, hne]⟩
  | seq items =>
    cases param with
    | key k => exact ⟨.indexKindMismatch, rfl⟩
    | index j =>
      simp only [resolveStep] at h
      have hcond : j < 0 ∨ j ≥ goLen items := by
        by_cases hj : 0 ≤ j
        · rw [if_pos hj] at h
          have := List.getElem?_eq_none_iff.1 h
          right; unfold goLen; omega
        · left; omega
      exact ⟨.indexOutOfBounds j, by simp only [getParameterStep, if_pos hcond]⟩
    | other => exact ⟨.indexKindMismatch, rfl⟩

theorem getParameterFold_of_some (path : List PathParam) :
    ∀ (current v : Any), path.foldlM resolveStep current = some v →
      path.foldlM getParameterStep current = .ok v := by
  induction path with
  | nil =>
    intro current v h
    simp only [List.foldlM_nil, pure, Option.some.injEq] at h
    subst h; rfl
  | cons p rest ih =>
    intro current v h
    simp only [List.foldlM_cons] at h ⊢
    cases hstep : resolveStep current p with
    | none => rw [hstep] at h; cases h
    | some w =>
      rw [hstep] at h
      rw [getParameterStep_of_some hstep]
      exact ih w v h

theorem getParameterFold_of_none (path : List PathParam) :
    ∀ (current : Any), path.foldlM resolveStep current = none →
      ∃ e, path.foldlM getParameterStep current = .error (.error e) := by
  induction path with
  | nil =>
    intro current h
    simp [List.foldlM_nil, pure] at h
  | cons p rest ih =>
    intro current h
    simp only [List.foldlM_cons] at h ⊢
    cases hstep : resolveStep current p with
    | none =>
      obtain ⟨e, he⟩ := getParameterStep_of_none hstep
      exact ⟨e, by rw [he]; rfl⟩
    | some w =>
      rw [hstep] at h
      rw [getParameterStep_of_some hstep]
      exact ih w h

theorem getParameter_of_some (Sprint : Any → String) {doc : List (String × Any)}
    {path : List PathParam} {v : Any} (h : resolvePath doc path = some v) :
    getParameter Sprint doc path = .ok (Sprint v) := by
  unfold getParameter
  rw [getParameterFold_of_some path _ v h]; rfl

theorem getParameter_of_none (Sprint : Any → String) {doc : List (String × Any)}
    {path : List PathParam} (h : resolvePath doc path = none) :
    ∃ e, getParameter Sprint doc path = .error (.error e) := by
  unfold getParameter
  obtain ⟨e, he⟩ := getParameterFold_of_none path _ h
  exact ⟨e, by rw [he]; rfl⟩

theorem mapM_option_cons {α β : Type} (f : α → Option β) (a : α) (l : List α) :
    (a :: l).mapM f = (f a).bind (fun b => (l.mapM f).map (fun bs => b :: bs)) := by
  rw [List.mapM_cons]
  cases f a with
  | none => rfl
  | some b => cases l.mapM f <;> rfl

theorem mapM_option_isSome {α β : Type} (f : α → Option β) (l : List α) :
    (l.mapM f).isSome = true ↔ ∀ a ∈ l, (f a).isSome = true := by
  induction l with
  | nil =>
    rw [List.mapM_nil]
    exact ⟨fun _ a ha => (by cases ha), fun _ => rfl⟩
  | cons a rest ih =>
    rw [mapM_option_cons]
    cases ha : f a with
    | none => simp [ha]
    | some b =>
      cases hr : rest.mapM f with
      | none =>
        rw [hr] at ih
        simp only [Option.isSome_none, Bool.false_eq_true, false_iff] at ih
        simp [ha, ih]
      | some bs =>
        rw [hr] at ih
        simp only [Option.isSome_some, true_iff] at ih
        simp [ha]
        simpa using ih

/-- The builder after the values `vs` were written from the state `st`. -/
theorem idFieldFold_of_some (Sprint : Any → String) (i : IdField)
    (doc : List (String × Any)) (ps : List IdFieldParameter) :
    ∀ (values : List Any) (st : String × Bool),
      ps.mapM (fun p => resolvePath doc p.Mapping) = some values →
      ps.foldlM (idFieldStep Sprint i doc) st =
        .ok (values.foldl
          (fun b v => ((if b.2 then b.1 else b.1 ++ i.Delimiter) ++ Sprint v, false)) st) := by
  induction ps with
  | nil =>
    intro values st h
    simp only [List.mapM_nil, pure, Option.some.injEq] at h
    subst h; rfl
  | cons p rest ih =>
    intro values st h
    rw [mapM_option_cons] at h
    cases hp : resolvePath doc p.Mapping with
    | none => rw [hp] at h; cases h
    | some v =>
      rw [hp] at h
      cases hr : rest.mapM (fun p => resolvePath doc p.Mapping) with
      | none => rw [hr] at h; cases h
      | some vs =>
        rw [hr] at h
        simp only [Option.some_bind, Option.map_some', Option.some.injEq] at h
        subst h
        simp only [List.foldlM_cons, List.foldl_cons]
        have hstep : idFieldStep Sprint i doc st p =
            .ok ((if st.2 then st.1 else st.1 ++ i.Delimiter) ++ Sprint v, false) := by
          unfold idFieldStep
          rw [getParameter_of_some Sprint hp]; rfl
        rw [hstep]
        exact ih vs _ hr

theorem idFieldFold_of_none (Sprint : Any → String) (i : IdField)
    (doc : List (String × Any)) (ps : List IdFieldParameter) :
    ∀ (st : String × Bool),
      ps.mapM (fun p => resolvePath doc p.Mapping) = none →
      ∃ e, ps.foldlM (idFieldStep Sprint i doc) st = .error (.error e) := by
  induction ps with
  | nil =>
    intro st h
    rw [List.mapM_nil] at h
    cases h
  | cons p rest ih =>
    intro st h
    rw [mapM_option_cons] at h
    simp only [List.foldlM_cons]
    cases hp : resolvePath doc p.Mapping with
    | none =>
      obtain ⟨e, he⟩ := getParameter_of_none Sprint hp
      refine ⟨.wrapped "error finding result for mapping %s: %w" e, ?_⟩
      have hstep : idFieldStep Sprint i doc st p =
          .error (.error (.wrapped "error finding result for mapping %s: %w" e)) := by
        unfold idFieldStep
        rw [he]; rfl
      rw [hstep]; rfl
    | some v =>
      rw [hp] at h
      have hr : rest.mapM (fun p => resolvePath doc p.Mapping) = none := by
        cases hr : rest.mapM (fun p => resolvePath doc p.Mapping) with
        | none => rfl
        | some vs => rw [hr] at h; cases h
      have hstep : idFieldStep Sprint i doc st p =
          .ok ((if st.2 then st.1 else st.1 ++ i.Delimiter) ++ Sprint v, false) := by
        unfold idFieldStep
        rw [getParameter_of_some Sprint hp]; rfl
      rw [hstep]
      exact ih _ hr

theorem builderFold_join (d : String) (texts : List String) (b : String) :
    (texts.foldl (fun (st : String × Bool) s =>
      ((if st.2 then st.1 else st.1 ++ d) ++ s, false)) (b, false)).1 =
      texts.foldl (fun b s => b ++ d ++ s) b := by
  induction texts generalizing b with
  | nil => rfl
  | cons s rest ih =>
    simp only [List.foldl_cons, Bool.false_eq_true, if_false]
    exact ih _

theorem builder_eq_join (Sprint : Any → String) (d : String) (values : List Any) :
    (values.foldl (fun (b : String × Bool) v =>
      ((if b.2 then b.1 else b.1 ++ d) ++ Sprint v, false)) ("", true)).1 =
      stringsJoin (values.map Sprint) d := by
  cases values with
  | nil => rfl
  | cons v rest =>
    simp only [List.foldl_cons, if_true, List.map_cons, stringsJoin_cons]
    have h0 : ("" : String) ++ Sprint v = Sprint v := String.empty_append _
    rw [h0, ← builderFold_join d (rest.map Sprint) (Sprint v), List.foldl_map]

theorem idFieldBody_of_some (Sprint : Any → String) (i : IdField)
    (data : List (List (String × Any))) (n : Nat) (ids : List String)
    (doc : List (String × Any)) (id : String)
    (hdoc : data[n]? = some doc) (hlen : ids.length = data.length)
    (hid : idOf Sprint i doc = some id) :
    idFieldBody Sprint i data (n : Int) ids = .ok (ids.set n id) := by
  unfold idOf at hid
  cases hm : i.Parameters.mapM (fun p => resolvePath doc p.Mapping) with
  | none => rw [hm] at hid; cases hid
  | some values =>
    rw [hm] at hid
    simp only [Option.map_some', Option.some.injEq] at hid
    have hn : n < ids.length := by
      rw [hlen]
      by_contra hge
      rw [List.getElem?_eq_none (by omega)] at hdoc
      cases hdoc
    unfold idFieldBody
    rw [index_eq_ok.2 hdoc]
    simp only [bind, Except.bind]
    rw [idFieldFold_of_some Sprint i doc i.Parameters values _ hm]
    simp only [builder_eq_join, hid]
    exact setIndex_of_lt id hn

theorem idFieldBody_of_none (Sprint : Any → String) (i : IdField)
    (data : List (List (String × Any))) (n : Nat) (ids : List String)
    (doc : List (String × Any))
    (hdoc : data[n]? = some doc) (hid : idOf Sprint i doc = none) :
    ∃ e, idFieldBody Sprint i data (n : Int) ids = .error (.error e) := by
  unfold idOf at hid
  have hm : i.Parameters.mapM (fun p => resolvePath doc p.Mapping) = none := by
    cases hm : i.Parameters.mapM (fun p => resolvePath doc p.Mapping) with
    | none => rfl
    | some values => rw [hm] at hid; cases hid
  obtain ⟨e, he⟩ := idFieldFold_of_none Sprint i doc i.Parameters ("", true) hm
  refine ⟨e, ?_⟩
  unfold idFieldBody
  rw [index_eq_ok.2 hdoc]
  simp only [bind, Except.bind]
  rw [he]

theorem idOf_isSome (Sprint : Any → String) (i : IdField) (doc : List (String × Any)) :
    (idOf Sprint i doc).isSome = true ↔
      ∀ p ∈ i.Parameters, (resolvePath doc p.Mapping).isSome = true := by
  unfold idOf
  rw [Option.isSome_map', mapM_option_isSome]

/-- A loop an iteration of which returns an error under the invariant returns an
error, when the iterations before it end normally or return an error. -/
theorem forLoop_error {σ : Type} {f : Int → σ → Exec σ} (I : Nat → σ → Prop) {l u : Nat}
    {s : σ} (h0 : I l s)
    (hstep : ∀ n st, l ≤ n → n < u → I n st →
      (∃ st', f (n : Int) st = .ok st' ∧ I (n + 1) st') ∨
        ∃ e, f (n : Int) st = .error (.error e))
    (m : Nat) (hlm : l ≤ m) (hmu : m < u)
    (hfail : ∀ st, I m st → ∃ e, f (m : Int) st = .error (.error e)) :
    ∃ e, forLoop (l : Int) (u : Int) f s = .error (.error e) := by
  unfold forLoop
  have hk : ((u : Int) - (l : Int)).toNat = u - l := by omega
  rw [hk]
  obtain ⟨k, rfl⟩ : ∃ k, u = l + k := ⟨u - l, by omega⟩
  simp only [Nat.add_sub_cancel_left]
  clear hk
  induction k generalizing l s with
  | zero => omega
  | succ k ih =>
    rcases hstep l s (le_refl _) (by omega) h0 with ⟨t, ht, h1⟩ | ⟨e, he⟩
    · have hne : m ≠ l := by
        rintro rfl
        obtain ⟨e, he⟩ := hfail s h0
        rw [he] at ht; cases ht
      obtain ⟨e, he⟩ := @ih (l + 1) t h1 (by omega)
        (fun n st hn hn' => hstep n st (by omega) (by omega)) (by omega)
      refine ⟨e, ?_⟩
      simp only [forLoopAux, ht]
      simpa [Nat.cast_add] using he
    · exact ⟨e, by simp only [forLoopAux, he]⟩

theorem idFieldProcess_of_all (Sprint : Any → String) (i : IdField)
    (D : List (List (String × Any))) (hD : D ≠ []) (hP : i.Parameters ≠ [])
    (hall : ∀ d ∈ D, (idOf Sprint i d).isSome = true) :
    ∃ ids, i.Process Sprint D = .ok ids ∧ ids.length = D.length ∧
      ∀ (n : Nat) (d : List (String × Any)), D[n]? = some d → ids[n]? = idOf Sprint i d := by
  have hD0 : goLen D ≠ 0 := by
    cases D with
    | nil => exact absurd rfl hD
    | cons a rest => simp [goLen]; omega
  have hP0 : goLen i.Parameters ≠ 0 := by
    cases hp : i.Parameters with
    | nil => exact absurd hp hP
    | cons a rest => simp [goLen]; omega
  unfold IdField.Process
  rw [if_neg hD0, if_neg hP0]
  unfold goLen
  rw [make_natCast]
  simp only [bind, Except.bind]
  obtain ⟨ids, hrun, hlen, hids⟩ := forLoop_total
    (fun (n : Nat) (ids : List String) => ids.length = D.length ∧
      ∀ (m : Nat) (d : List (String × Any)), m < n → D[m]? = some d →
        ids[m]? = idOf Sprint i d)
    (Nat.zero_le D.length)
    (show (List.replicate D.length "").length = D.length ∧ _ from
      ⟨List.length_replicate _ _, fun m d hm => absurd hm (Nat.not_lt_zero m)⟩)
    (f := idFieldBody Sprint i D)
    (fun n st _ hn hI => by
      obtain ⟨hlen, hprev⟩ := hI
      have hdoc : D[n]? = some D[n] := List.getElem?_eq_getElem hn
      obtain ⟨id, hid⟩ := Option.isSome_iff_exists.1 (hall D[n] (List.getElem_mem hn))
      refine ⟨st.set n id, idFieldBody_of_some Sprint i D n st D[n] id hdoc hlen hid, ?_, ?_⟩
      · rw [List.length_set]; exact hlen
      · intro m d hm hd
        by_cases hmn : m = n
        · subst hmn
          rw [hdoc] at hd
          cases hd
          rw [List.getElem?_set_self (by omega), hid]
        · rw [List.getElem?_set_ne (fun h => hmn h.symm)]
          exact hprev m d (by omega) hd)
  refine ⟨ids, by simpa using hrun, hlen, fun n d hd => hids n d ?_ hd⟩
  by_contra hge
  rw [List.getElem?_eq_none (by omega)] at hd
  cases hd

theorem idFieldProcess_of_fail (Sprint : Any → String) (i : IdField)
    (D : List (List (String × Any))) (d : List (String × Any)) (hd : d ∈ D)
    (hnone : idOf Sprint i d = none) :
    ∃ e, i.Process Sprint D = .error (.error e) := by
  unfold IdField.Process
  by_cases hD0 : goLen D = 0
  · exact ⟨_, by rw [if_pos hD0]⟩
  rw [if_neg hD0]
  by_cases hP0 : goLen i.Parameters = 0
  · exact ⟨_, by rw [if_pos hP0]⟩
  rw [if_neg hP0]
  unfold goLen
  rw [make_natCast]
  simp only [bind, Except.bind]
  obtain ⟨m, hm, hdm⟩ := List.getElem_of_mem hd
  have hdoc : D[m]? = some d := by rw [List.getElem?_eq_getElem hm, hdm]
  exact forLoop_error
    (fun (_ : Nat) (ids : List String) => ids.length = D.length)
    (List.length_replicate _ _)
    (fun n st _ hn hI => by
      have hdocn : D[n]? = some D[n] := List.getElem?_eq_getElem hn
      cases hid : idOf Sprint i D[n] with
      | none => exact Or.inr (idFieldBody_of_none Sprint i D n st D[n] hdocn hid)
      | some id =>
        refine Or.inl ⟨st.set n id, idFieldBody_of_some Sprint i D n st D[n] id hdocn hI hid, ?_⟩
        show (st.set n id).length = D.length
        rw [List.length_set]; exact hI)
    m (Nat.zero_le m) hm
    (fun st _ => idFieldBody_of_none Sprint i D m st d hdoc hnone)

/-! ## Cells -/

theorem cellAt_eq_some {R : Records} {cell : Cell} {v : String} :
    cellAt R cell = some v ↔
      ∃ row, R[cell.Row.toNat]? = some row ∧ row[cell.Column.toNat]? = some v := by
  unfold cellAt
  cases R[cell.Row.toNat]? <;> simp

theorem findValue_of_cellAt {R : Records} {cell : Cell} {v : String}
    (h0 : 0 ≤ cell.Row ∧ 0 ≤ cell.Column) (h : cellAt R cell = some v) :
    findValue cell R = .ok v :=
  findValue_ok_iff.2 ⟨h0.1, h0.2, cellAt_eq_some.1 h⟩

theorem cellAt_of_findValue {R : Records} {cell : Cell} {v : String}
    (h : findValue cell R = .ok v) : cellAt R cell = some v :=
  cellAt_eq_some.2 (findValue_ok_iff.1 h).2.2

/-- With non-negative coordinates `findValue` does not panic. -/
theorem findValue_error_of_cellAt {R : Records} {cell : Cell}
    (h0 : 0 ≤ cell.Row ∧ 0 ≤ cell.Column) (h : cellAt R cell = none) :
    ∃ e, findValue cell R = .error (.error e) := by
  unfold findValue
  by_cases h1 : cell.Row ≥ goLen R
  · exact ⟨_, by rw [if_pos h1]⟩
  · rw [if_neg h1]
    have hlt : cell.Row.toNat < R.length := by unfold goLen at h1; omega
    have hrow : index R cell.Row = .ok R[cell.Row.toNat] :=
      index_ok_iff.2 ⟨h0.1, List.getElem?_eq_getElem hlt⟩
    rw [hrow]
    simp only [bind, Except.bind]
    by_cases h2 : cell.Column ≥ goLen R[cell.Row.toNat]
    · exact ⟨_, by rw [if_pos h2]⟩
    · exfalso
      have hc : cell.Column.toNat < R[cell.Row.toNat].length := by unfold goLen at h2; omega
      unfold cellAt at h
      rw [List.getElem?_eq_getElem hlt] at h
      simp only [Option.some_bind] at h
      rw [List.getElem?_eq_getElem hc] at h
      cases h

theorem readDate_ne_panic (std : StdLib) (dt : DataType) (value : String) :
    DataType.readDate std dt value ≠ .error .panic := by
  unfold DataType.readDate
  cases std.ParseInLocation (dataTypeString dt) value <;> simp

/-- The method `Read` returns a value or an error. -/
theorem read_ne_panic (std : StdLib) (dt : DataType) (value : String) :
    dt.Read std value ≠ .error .panic := by
  unfold DataType.Read
  split_ifs <;>
    first
      | exact readDate_ne_panic std dt value
      | (simp; done)
      | (split <;> simp)

theorem read_ok_or_error (std : StdLib) (dt : DataType) (value : String) :
    (∃ v, dt.Read std value = .ok v) ∨ ∃ e, dt.Read std value = .error (.error e) := by
  cases h : dt.Read std value with
  | ok v => exact Or.inl ⟨v, rfl⟩
  | error f =>
    cases f with
    | error e => exact Or.inr ⟨e, rfl⟩
    | panic => exact absurd h (read_ne_panic std dt value)

/-! ## A concat-cell of one cell -/

theorem mapM_singleton_exec {α β : Type} (f : α → Exec β) (a : α) :
    [a].mapM f = (f a >>= fun b => pure [b]) := by
  rw [List.mapM_cons, List.mapM_nil]
  cases f a <;> rfl

/-! ## Configurations whose separated tables have no rows -/

theorem foldlM_filter_skip {σ α : Type} (step : σ → α → Exec σ) (p : α → Bool)
    (hskip : ∀ s x, p x = false → step s x = .ok s) :
    ∀ (l : List α) (s : σ), (l.filter p).foldlM step s = l.foldlM step s := by
  intro l
  induction l with
  | nil => intro s; rfl
  | cons y ys ih =>
    intro s
    by_cases hy : p y = true
    · rw [List.filter_cons_of_pos hy, List.foldlM_cons, List.foldlM_cons]
      cases step s y with
      | error f => rfl
      | ok s' => exact ih s'
    · have hy' : p y = false := by simpa using hy
      rw [List.filter_cons_of_neg hy, List.foldlM_cons, hskip s y hy']
      exact ih s

theorem tableStep_skip (std : StdLib) (c : Csv) (st : Doc × Records) (x : TableLocation)
    (h : x.ParseSeparated = true) : tableStep std c st x = .ok st := by
  unfold tableStep
  rw [if_pos h]
  rfl

theorem parseBase_withoutSeparated (std : StdLib) (c : Csv) (records : Records) :
    c.withoutSeparated.parseBase std records = c.parseBase std records := by
  have hcell : cellStep std c.withoutSeparated records = cellStep std c records := rfl
  have hconcat : concatCellStep std c.withoutSeparated records =
      concatCellStep std c records := rfl
  have htable : tableStep std c.withoutSeparated = tableStep std c := rfl
  have htime : timeFieldStep std c.withoutSeparated = timeFieldStep std c := rfl
  have hfold : ∀ s, (c.TableLocations.filter (fun t => !t.ParseSeparated)).foldlM
      (tableStep std c) s = c.TableLocations.foldlM (tableStep std c) s :=
    foldlM_filter_skip (tableStep std c) (fun t => !t.ParseSeparated)
      (fun s x hx => tableStep_skip std c s x (by simpa using hx)) c.TableLocations
  show (c.CellLocations.foldlM (cellStep std c.withoutSeparated records) ([] : Doc) >>=
      fun baseData =>
        c.ConcatCellLocations.foldlM (concatCellStep std c.withoutSeparated records) baseData >>=
          fun baseData =>
            (c.TableLocations.filter (fun t => !t.ParseSeparated)).foldlM
              (tableStep std c.withoutSeparated) (baseData, records) >>= fun st =>
              c.TimeFields.foldlM (timeFieldStep std c.withoutSeparated st.2) st.1 >>=
                fun baseData => pure (baseData, st.2)) = _
  rw [hcell, hconcat, htable, htime]
  simp only [hfold]
  rfl

theorem separatedFold_withoutSeparated (std : StdLib) (c : Csv) (baseData : Doc)
    (st : List Doc × Records) :
    c.withoutSeparated.TableLocations.foldlM (separatedStep std c.withoutSeparated baseData) st =
      .ok st := by
  have hstep : separatedStep std c.withoutSeparated baseData = separatedStep std c baseData :=
    rfl
  rw [hstep]
  apply foldlM_skip_all (separatedStep std c baseData) (fun x => x.ParseSeparated)
    (fun s x hx => separatedStep_skip std c baseData s x hx)
  show (c.TableLocations.filter (fun t => !t.ParseSeparated)).filter
    (fun x => x.ParseSeparated) = []
  rw [List.filter_filter]
  apply List.filter_eq_nil_iff.2
  intro a _
  cases a.ParseSeparated <;> simp

theorem separatedStep_empty (std : StdLib) (c : Csv) (baseData : Doc)
    (st : List Doc × Records) (t : TableLocation) (hsep : t.ParseSeparated = true)
    (hrows : (t.Parse std st.2 c.KeepSpaces).data = .ok (.rows []))
    (hfresh : c.FaultOnDuplicate = true →
      (mapGet baseData (t.Parse std st.2 c.KeepSpaces).name).isNone = true) :
    separatedStep std c baseData st t =
      .ok (st.1, (t.Parse std st.2 c.KeepSpaces).records) := by
  obtain ⟨harr, hsingle, -⟩ := parse_rows_inv hrows
  unfold separatedStep
  have hmode : ¬ (t.ParseAsArray = true ∨ t.ParseSingleRow = true) := by
    rw [harr, hsingle]; simp
  have hdup : ¬ (c.FaultOnDuplicate = true ∧
      (mapGet baseData (t.Parse std st.2 c.KeepSpaces).name).isSome = true) := by
    rintro ⟨h1, h2⟩
    have := hfresh h1
    rw [Option.isNone_iff_eq_none] at this
    rw [this] at h2
    cases h2
  simp only [hsep, not_true_eq_false, if_false, if_neg hmode, hrows, wrapErr, if_neg hdup,
    List.map_nil, List.append_nil]
  rfl

theorem separatedFold_empty (std : StdLib) (c : Csv) (baseData : Doc) :
    ∀ (l : List TableLocation) (st : List Doc × Records),
      separatedAllEmpty std c.KeepSpaces l st.2 = true →
      (c.FaultOnDuplicate = true →
        separatedNamesFresh std c.KeepSpaces baseData l st.2 = true) →
      ∃ records', l.foldlM (separatedStep std c baseData) st = .ok (st.1, records') := by
  intro l
  induction l with
  | nil => intro st _ _; exact ⟨st.2, rfl⟩
  | cons t ts ih =>
    intro st hempty hfresh
    rw [List.foldlM_cons]
    by_cases hsep : t.ParseSeparated = true
    · simp only [separatedAllEmpty, hsep, if_true, Bool.and_eq_true, decide_eq_true_eq]
        at hempty
      have hfresh' : c.FaultOnDuplicate = true →
          (mapGet baseData (t.Parse std st.2 c.KeepSpaces).name).isNone = true ∧
          separatedNamesFresh std c.KeepSpaces baseData ts
            (t.Parse std st.2 c.KeepSpaces).records = true := by
        intro hf
        have := hfresh hf
        simpa only [separatedNamesFresh, hsep, if_true, Bool.and_eq_true] using this
      rw [separatedStep_empty std c baseData st t hsep hempty.1 (fun hf => (hfresh' hf).1)]
      exact ih (st.1, (t.Parse std st.2 c.KeepSpaces).records) hempty.2
        (fun hf => (hfresh' hf).2)
    · have hsep' : t.ParseSeparated = false := by simpa using hsep
      simp only [separatedAllEmpty, hsep', Bool.false_eq_true, if_false] at hempty
      have hfresh' : c.FaultOnDuplicate = true →
          separatedNamesFresh std c.KeepSpaces baseData ts st.2 = true := by
        intro hf
        have := hfresh hf
        simpa only [separatedNamesFresh, hsep', Bool.false_eq_true, if_false] using this
      rw [separatedStep_skip std c baseData st t hsep']
      exact ih st hempty hfresh'

/-! ## The array mode and `SkipBlankData` -/

theorem forLoopAux_congr {σ : Type} {f g : Int → σ → Exec σ} (I : Int → σ → Prop)
    {lo hi : Int}
    (hstep : ∀ n st, lo ≤ n → n < hi → I n st →
      f n st = g n st ∧ ∀ st', f n st = .ok st' → I (n + 1) st') :
    ∀ (k : Nat) (n : Int) (s : σ), lo ≤ n → n + k ≤ hi → I n s →
      forLoopAux f k n s = forLoopAux g k n s := by
  intro k
  induction k with
  | zero => intro n s _ _ _; rfl
  | succ k ih =>
    intro n s hn hk hI
    obtain ⟨heq, hnext⟩ := hstep n s hn (by push_cast at hk; omega) hI
    simp only [forLoopAux]
    rw [← heq]
    cases hf : f n s with
    | error e => rfl
    | ok s' =>
      exact ih (n + 1) s' (by omega) (by push_cast at hk; omega) (hnext s' hf)

/-- Two loop bodies that agree under an invariant give the same loop. -/
theorem forLoop_congr {σ : Type} {f g : Int → σ → Exec σ} (I : Int → σ → Prop)
    {lo hi : Int} {s : σ} (h0 : I lo s)
    (hstep : ∀ n st, lo ≤ n → n < hi → I n st →
      f n st = g n st ∧ ∀ st', f n st = .ok st' → I (n + 1) st') :
    forLoop lo hi f s = forLoop lo hi g s := by
  unfold forLoop
  by_cases hle : lo ≤ hi
  · exact forLoopAux_congr I hstep _ lo s (le_refl _) (by rw [Int.toNat_of_nonneg] <;> omega) h0
  · have : (hi - lo).toNat = 0 := by omega
    rw [this]
    rfl

theorem forLoopAux_inv_int {σ : Type} {f : Int → σ → Exec σ} (I : Int → σ → Prop)
    {lo hi : Int}
    (hstep : ∀ n st st', lo ≤ n → n < hi → I n st → f n st = .ok st' → I (n + 1) st') :
    ∀ (k : Nat) (n : Int) (s s' : σ), lo ≤ n → n + k ≤ hi → I n s →
      forLoopAux f k n s = .ok s' → I (n + k) s' := by
  intro k
  induction k with
  | zero =>
    intro n s s' _ _ hI h
    simp only [forLoopAux, Except.ok.injEq] at h
    subst h
    simpa using hI
  | succ k ih =>
    intro n s s' hn hk hI h
    rw [forLoopAux_succ_ok] at h
    obtain ⟨t, ht, hrest⟩ := h
    have := ih (n + 1) t s' (by omega) (by push_cast at hk; omega)
      (hstep n s t hn (by push_cast at hk; omega) hI ht) hrest
    have e : n + ((k + 1 : Nat) : Int) = n + 1 + (k : Int) := by push_cast; omega
    rw [e]
    exact this

/-- Hoare rule for a loop with integer bounds that ended normally. -/
theorem forLoop_inv_int {σ : Type} {f : Int → σ → Exec σ} (I : Int → σ → Prop)
    {lo hi : Int} {s s' : σ} (hle : lo ≤ hi) (h0 : I lo s)
    (hstep : ∀ n st st', lo ≤ n → n < hi → I n st → f n st = .ok st' → I (n + 1) st')
    (hrun : forLoop lo hi f s = .ok s') : I hi s' := by
  unfold forLoop at hrun
  have := forLoopAux_inv_int I hstep _ lo s s' (le_refl _)
    (by rw [Int.toNat_of_nonneg] <;> omega) h0 hrun
  rw [Int.toNat_of_nonneg (by omega)] at this
  have e : lo + (hi - lo) = hi := by omega
  rw [e] at this
  exact this

theorem set_eq_self_of_getElem? {α : Type} {xs : List α} {k : Nat} {v : α}
    (h : xs[k]? = some v) : xs.set k v = xs := by
  apply List.ext_getElem?
  intro j
  by_cases hj : k = j
  · subst hj
    rw [List.getElem?_set_self (List.getElem?_eq_some.1 h).1, h]
  · rw [List.getElem?_set_ne hj]

/-- The row loop of the array mode does not depend on `SkipBlankData`: a skipped
slot holds the null it was made with. -/
theorem arrayRows_skip (std : StdLib) (t : TableLocation) (b : Bool)
    (tableDims : tableDimensions) (records : Records) (headers : List String)
    (dataType : DataType) (column : Int) :
    forLoop tableDims.startRow (tableDims.endRow + 1)
        (arrayCellBody std { t with SkipBlankData := b } tableDims records headers dataType
          column)
        (List.replicate (tableDims.endRow - tableDims.startRow + 1).toNat Value.null) =
      forLoop tableDims.startRow (tableDims.endRow + 1)
        (arrayCellBody std { t with SkipBlankData := false } tableDims records headers
          dataType column)
        (List.replicate (tableDims.endRow - tableDims.startRow + 1).toNat Value.null) := by
  apply forLoop_congr (fun n st =>
    st.length = (tableDims.endRow - tableDims.startRow + 1).toNat ∧
    ∀ k : Nat, n - tableDims.startRow ≤ (k : Int) → k < st.length → st[k]? = some Value.null)
  · refine ⟨List.length_replicate _ _, fun k _ hk => ?_⟩
    rw [List.length_replicate] at hk
    rw [List.getElem?_replicate, if_pos hk]
  · rintro n st hlo hhi ⟨hlen, hnull⟩
    have hk : (n - tableDims.startRow).toNat < st.length := by omega
    have hidx : setIndex st (n - tableDims.startRow) Value.null = .ok st := by
      rw [setIndex_ok_iff]
      refine ⟨by omega, hk, ?_⟩
      exact (set_eq_self_of_getElem? (hnull _ (by omega) hk)).symm
    constructor
    · unfold arrayCellBody
      cases index2 records n column with
      | error f => rfl
      | ok cell =>
        simp only [bind, Except.bind]
        cases dataType.Read std cell with
        | error f => rfl
        | ok data =>
          cases b with
          | false => rfl
          | true =>
            by_cases hd : data = Value.null
            · subst hd
              simp only [and_self, if_true, Bool.false_eq_true, and_false, if_false, hidx]
              rfl
            · simp only [hd, false_and, if_false, Bool.false_eq_true, and_false]
    · intro st' hst'
      unfold arrayCellBody at hst'
      cases hc : index2 records n column with
      | error f => rw [hc] at hst'; cases hst'
      | ok cell =>
        rw [hc] at hst'
        simp only [bind, Except.bind] at hst'
        cases hr : dataType.Read std cell with
        | error f =>
          rw [hr] at hst'
          simp only [bind, Except.bind] at hst'
          cases hh : index headers column with
          | error g => rw [hh] at hst'; cases hst'
          | ok hd => rw [hh] at hst'; cases f <;> cases hst'
        | ok data =>
          rw [hr] at hst'
          simp only at hst'
          have hcase : st' = st ∨ st' = st.set (n - tableDims.startRow).toNat data := by
            split_ifs at hst'
            · left; cases hst'; rfl
            · right; exact (setIndex_ok_iff.1 hst').2.2
          rcases hcase with rfl | rfl
          · exact ⟨hlen, fun k hk1 hk2 => hnull k (by omega) hk2⟩
          · refine ⟨by rw [List.length_set]; exact hlen, fun k hk1 hk2 => ?_⟩
            rw [List.length_set] at hk2
            rw [List.getElem?_set_ne (by omega)]
            exact hnull k (by omega) hk2

theorem arrayColumnBody_skip (std : StdLib) (t : TableLocation) (b : Bool)
    (tableDims : tableDimensions) (records : Records) (headers : List String) :
    arrayColumnBody std { t with SkipBlankData := b } tableDims records headers =
      arrayColumnBody std { t with SkipBlankData := false } tableDims records headers := by
  funext column tableData
  unfold arrayColumnBody
  by_cases hneg : tableDims.endRow - tableDims.startRow + 1 < 0
  · simp only [make, if_pos hneg]
    rfl
  · simp only [make, if_neg hneg, bind, Except.bind]
    cases (if t.AutoColumnDataTypes = true then (pure DataTypeAuto : Exec DataType)
        else index t.ColumnDataTypes column) with
    | error f => rfl
    | ok dataType =>
      simp only
      rw [arrayRows_skip std t b tableDims records headers dataType column]

theorem parse_array_skip (std : StdLib) (t : TableLocation) (b : Bool) (records : Records)
    (keepSpaces : Bool) (hmode : t.ParseAsArray = true) :
    TableLocation.Parse std { t with SkipBlankData := b } records keepSpaces =
      TableLocation.Parse std { t with SkipBlankData := false } records keepSpaces := by
  have hh : ∀ c : Bool, TableLocation.parseTableHeader { t with SkipBlankData := c } records
      keepSpaces = t.parseTableHeader records keepSpaces := fun _ => rfl
  unfold TableLocation.Parse
  rw [hh b, hh false]
  cases t.parseTableHeader records keepSpaces with
  | error f => rfl
  | ok h =>
    have hm : ∀ c : Bool,
        TableLocation.ParseAsArray { t with SkipBlankData := c } = true := fun _ => hmode
    simp only
    rw [if_pos (hm b), if_pos (hm false)]
    unfold TableLocation.parseTableDataArray
    rw [arrayColumnBody_skip std t b]

theorem mem_mapSet {β : Type} {m : List (String × β)} {k : String} {v : β}
    {kv : String × β} (h : kv ∈ mapSet m k v) : kv ∈ m ∨ kv = (k, v) := by
  induction m with
  | nil =>
    simp only [mapSet, List.mem_singleton] at h
    exact Or.inr h
  | cons p rest ih =>
    obtain ⟨a, b⟩ := p
    simp only [mapSet] at h
    by_cases hk : a = k
    · rw [if_pos hk] at h
      rcases List.mem_cons.1 h with h | h
      · exact Or.inr h
      · exact Or.inl (List.mem_cons_of_mem _ h)
    · rw [if_neg hk] at h
      rcases List.mem_cons.1 h with h | h
      · exact Or.inl (h ▸ List.mem_cons_self _ _)
      · rcases ih h with h | h
        · exact Or.inl (List.mem_cons_of_mem _ h)
        · exact Or.inr h

theorem arrayRows_slots (std : StdLib) (t : TableLocation) (hskip : t.SkipBlankData = false)
    (tableDims : tableDimensions) (records : Records) (headers : List String)
    (dataType : DataType) (column : Int) (st' : List Value)
    (hle : 0 ≤ tableDims.endRow - tableDims.startRow + 1)
    (hrun : forLoop tableDims.startRow (tableDims.endRow + 1)
        (arrayCellBody std t tableDims records headers dataType column)
        (List.replicate (tableDims.endRow - tableDims.startRow + 1).toNat Value.null) =
      .ok st') :
    st'.length = (tableDims.endRow - tableDims.startRow + 1).toNat ∧
    ∀ k : Nat, (k : Int) < tableDims.endRow - tableDims.startRow + 1 →
      ∃ text v, index2 records (tableDims.startRow + k) column = .ok text ∧
        dataType.Read std text = .ok v ∧ st'[k]? = some v := by
  have := forLoop_inv_int (fun n st =>
      st.length = (tableDims.endRow - tableDims.startRow + 1).toNat ∧
      ∀ k : Nat, (k : Int) < n - tableDims.startRow →
        ∃ text v, index2 records (tableDims.startRow + k) column = .ok text ∧
          dataType.Read std text = .ok v ∧ st[k]? = some v)
    (by omega) ⟨List.length_replicate _ _, fun k hk => by omega⟩ ?_ hrun
  · obtain ⟨h1, h2⟩ := this
    exact ⟨h1, fun k hk => h2 k (by omega)⟩
  · rintro n st st1 hlo hhi ⟨hlen, hslots⟩ hbody
    unfold arrayCellBody at hbody
    cases hc : index2 records n column with
    | error f => rw [hc] at hbody; cases hbody
    | ok cell =>
      rw [hc] at hbody
      simp only [bind, Except.bind] at hbody
      cases hr : dataType.Read std cell with
      | error f =>
        rw [hr] at hbody
        simp only [bind, Except.bind] at hbody
        cases hh : index headers column with
        | error g => rw [hh] at hbody; cases hbody
        | ok hd => rw [hh] at hbody; cases f <;> cases hbody
      | ok data =>
        rw [hr] at hbody
        simp only [hskip, Bool.false_eq_true, and_false, if_false] at hbody
        obtain ⟨h0, hk, rfl⟩ := setIndex_ok_iff.1 hbody
        refine ⟨by rw [List.length_set]; exact hlen, fun k hkn => ?_⟩
        by_cases hkk : k = (n - tableDims.startRow).toNat
        · refine ⟨cell, data, ?_, hr, ?_⟩
          · have : tableDims.startRow + (k : Int) = n := by omega
            rw [this]; exact hc
          · rw [hkk, List.getElem?_set_self hk]
        · obtain ⟨text, v, h1, h2, h3⟩ := hslots k (by omega)
          exact ⟨text, v, h1, h2, by rw [List.getElem?_set_ne (fun h => hkk h.symm)]; exact h3⟩

theorem arrayColumnBody_slots (std : StdLib) (t : TableLocation)
    (hskip : t.SkipBlankData = false) (tableDims : tableDimensions) (records : Records)
    (headers : List String) (column : Int) (tableData tableData' : List (String × List Value))
    (hall : ∀ kv ∈ tableData, ColumnSlots std tableDims records kv.2)
    (hrun : arrayColumnBody std t tableDims records headers column tableData = .ok tableData') :
    ∀ kv ∈ tableData', ColumnSlots std tableDims records kv.2 := by
  unfold arrayColumnBody at hrun
  rw [bind_eq_ok] at hrun
  obtain ⟨columnData, hmake, hrun⟩ := hrun
  obtain ⟨hle, rfl⟩ := make_ok_iff.1 hmake
  rw [bind_eq_ok] at hrun
  obtain ⟨dataType, -, hrun⟩ := hrun
  rw [bind_eq_ok] at hrun
  obtain ⟨vector, hloop, hrun⟩ := hrun
  rw [bind_eq_ok] at hrun
  obtain ⟨header, -, hrun⟩ := hrun
  simp only [pure, Except.pure, Except.ok.injEq] at hrun
  subst hrun
  obtain ⟨hlen, hslots⟩ := arrayRows_slots std t hskip tableDims records headers dataType
    column vector hle hloop
  intro kv hkv
  rcases mem_mapSet hkv with h | h
  · exact hall kv h
  · subst h
    refine ⟨?_, column, dataType, fun k hk => hslots k hk⟩
    show (vector.length : Int) = tableDims.endRow - tableDims.startRow + 1
    rw [hlen]
    omega

theorem parseTableDataArray_slots (std : StdLib) (t : TableLocation)
    (hskip : t.SkipBlankData = false) (tableDims : tableDimensions) (records : Records)
    (headers : List String) (cols : List (String × List Value))
    (hrun : t.parseTableDataArray std tableDims records headers = .ok cols) :
    ∀ kv ∈ cols, ColumnSlots std tableDims records kv.2 := by
  unfold TableLocation.parseTableDataArray at hrun
  exact forLoop_preserves (fun tableData => ∀ kv ∈ tableData,
      ColumnSlots std tableDims records kv.2)
    (fun n st st' hst hbody =>
      arrayColumnBody_slots std t hskip tableDims records headers n st st' hst hbody)
    (fun kv hkv => by cases hkv) hrun

/-! ## `FillRight` a second time -/

theorem filledRow_idem {sc ec : Nat} {row m m' : List String}
    (h1 : FilledRow sc ec row m) (h2 : FilledRow sc ec m m') : m' = m := by
  obtain ⟨hl1, ho1, hi1⟩ := h1
  obtain ⟨hl2, ho2, hi2⟩ := h2
  apply List.ext_getElem?
  intro i
  induction i using Nat.strong_induction_on with
  | _ i ih =>
    by_cases hin : sc ≤ i ∧ i < ec
    · cases hm : m[i]? with
      | none =>
        have : m.length ≤ i := List.getElem?_eq_none_iff.1 hm
        exact List.getElem?_eq_none (by omega)
      | some v =>
        have hlt : i < m.length := (List.getElem?_eq_some.1 hm).1
        obtain ⟨a2, b2⟩ := hi2 i v hin.1 hin.2 hm
        by_cases hb : 0 < i ∧ TrimSpace v = ""
        · rw [a2 hb, ih (i - 1) (by omega)]
          have hrl : i < row.length := by omega
          have hrow : row[i]? = some row[i] := List.getElem?_eq_getElem hrl
          obtain ⟨a1, b1⟩ := hi1 i _ hin.1 hin.2 hrow
          by_cases hb1 : 0 < i ∧ TrimSpace row[i] = ""
          · rw [← a1 hb1, hm]
          · have := b1 hb1
            rw [hm] at this
            cases this
            exact absurd hb hb1
        · exact b2 hb
    · exact ho2 i hin

theorem map_length_set_row {recs : Records} {n : Nat} {row row' : List String}
    (hrow : recs[n]? = some row) (hlen : row'.length = row.length) :
    (recs.set n row').map List.length = recs.map List.length := by
  rw [List.map_set]
  apply set_eq_self_of_getElem?
  rw [List.getElem?_map, hrow, hlen]
  rfl

theorem getElem?_of_map_length {st R : Records} (h : st.map List.length = R.map List.length)
    {n : Nat} {row : List String} (hrow : R[n]? = some row) :
    ∃ row', st[n]? = some row' ∧ row'.length = row.length := by
  have := congrArg (fun l => l[n]?) h
  simp only [List.getElem?_map, hrow, Option.map_some'] at this
  cases hs : st[n]? with
  | none => rw [hs] at this; cases this
  | some row' =>
    rw [hs] at this
    simp only [Option.map_some', Option.some.injEq] at this
    exact ⟨row', rfl, this⟩

theorem fillRightCell_total {n i : Nat} {recs : Records} {row : List String}
    (hrow : recs[n]? = some row) (hi : i < row.length) :
    ∃ recs', fillRightCell (n : Int) (i : Int) recs = .ok recs' ∧
      recs'.map List.length = recs.map List.length := by
  unfold fillRightCell
  have hv : index2 recs (n : Int) (i : Int) = .ok row[i] :=
    index2_eq_ok.2 ⟨row, hrow, List.getElem?_eq_getElem hi⟩
  rw [hv]
  simp only [bind, Except.bind]
  by_cases hb : TrimSpace row[i] ≠ ""
  · rw [if_pos hb]; exact ⟨recs, rfl, rfl⟩
  · rw [if_neg hb]
    by_cases h0 : (i : Int) = 0
    · rw [if_pos h0]; exact ⟨recs, rfl, rfl⟩
    · rw [if_neg h0]
      have hi1 : i - 1 < row.length := by omega
      have e : ((i : Int) - 1) = ((i - 1 : Nat) : Int) := by omega
      have hp : index2 recs (n : Int) ((i : Int) - 1) = .ok row[i - 1] := by
        rw [e]
        exact index2_eq_ok.2 ⟨row, hrow, List.getElem?_eq_getElem hi1⟩
      rw [hp]
      simp only
      refine ⟨recs.set n (row.set i row[i - 1]),
        setIndex2_eq_ok.2 ⟨row, hrow, hi, rfl⟩, ?_⟩
      exact map_length_set_row hrow (List.length_set _ _ _)

theorem fillRightCols_total {n ec : Nat} (sc : Nat) {recs : Records} {row : List String}
    (hrow : recs[n]? = some row) (hec : ec ≤ row.length) :
    ∃ recs', forLoop (sc : Int) (ec : Int) (fillRightCell (n : Int)) recs = .ok recs' ∧
      recs'.map List.length = recs.map List.length := by
  by_cases hle : sc ≤ ec
  · exact forLoop_total (fun (_ : Nat) (st : Records) =>
        st.map List.length = recs.map List.length) hle rfl
      (fun i st _ hi hI => by
        obtain ⟨row', hrow', hlen⟩ := getElem?_of_map_length hI hrow
        obtain ⟨st', hst', hmap⟩ := fillRightCell_total hrow' (by omega : i < row'.length)
        exact ⟨st', hst', hmap.trans hI⟩)
  · exact ⟨recs, forLoop_empty recs (by omega), rfl⟩

theorem fillRightBody_total {a : ProcessorFillRight} {n : Nat} {st : Records × Int}
    {row : List String} (hsc : 0 ≤ a.Start.Column)
    (hec : ¬ a.End.Column < 0 → st.2 = a.End.Column)
    (hrow : st.1[n]? = some row)
    (hfit : resolveEndColumn a.End.Column row ≤ row.length) :
    ∃ st', fillRightBody a (n : Int) st = .ok st' ∧
      st'.1.map List.length = st.1.map List.length ∧
      (¬ a.End.Column < 0 → st'.2 = a.End.Column) := by
  unfold fillRightBody
  rw [index_eq_ok.2 hrow]
  simp only [bind, Except.bind, goLen]
  have hE : (if a.End.Column < 0 then (row.length : Int) else st.2) =
      (resolveEndColumn a.End.Column row : Nat) := by
    unfold resolveEndColumn
    split
    · rfl
    · rw [hec ‹_›]; omega
  rw [hE]
  have hle : ¬ ((resolveEndColumn a.End.Column row : Nat) : Int) > (row.length : Int) := by
    omega
  rw [if_neg hle]
  obtain ⟨sc, hscn⟩ : ∃ sc : Nat, a.Start.Column = sc := ⟨_, (Int.toNat_of_nonneg hsc).symm⟩
  rw [hscn]
  obtain ⟨recs', hloop, hmap⟩ := fillRightCols_total sc hrow hfit
  rw [hloop]
  refine ⟨(recs', _), rfl, hmap, fun hneg => ?_⟩
  show ((resolveEndColumn a.End.Column row : Nat) : Int) = a.End.Column
  unfold resolveEndColumn
  rw [if_neg hneg]
  omega

/-- The guards of `FillRight` depend on the record array through its number of
rows only, and the loops run to their end when every row of the band is as long
as the end column asks. -/
theorem fillRight_total {a : ProcessorFillRight} {R : Records}
    (h1 : ¬ (a.Start.Row < 0 ∨ a.Start.Column < 0))
    (h2 : ¬ (a.End.Row < a.Start.Row ∧ ¬ a.End.Row < 0))
    (h3 : ¬ (a.End.Column < a.Start.Column ∧ ¬ a.End.Column < 0))
    (h4 : ¬ a.Start.Row > goLen R) (h5 : ¬ a.End.Row > goLen R)
    (hrows : ∀ j row, a.Start.Row.toNat ≤ j → j < resolveEndRow a.End.Row R →
      R[j]? = some row → resolveEndColumn a.End.Column row ≤ row.length) :
    ∃ R', a.Execute R = .ok R' := by
  unfold ProcessorFillRight.Execute
  rw [if_neg h1, if_neg h2, if_neg h3, if_neg h4, if_neg h5]
  simp only [goLen] at h4 h5 ⊢
  have hs0 : 0 ≤ a.Start.Row := by omega
  have hc0 : 0 ≤ a.Start.Column := by omega
  obtain ⟨s, hs⟩ : ∃ s : Nat, a.Start.Row = s := ⟨_, (Int.toNat_of_nonneg hs0).symm⟩
  have he : (if a.End.Row < 0 then (R.length : Int) else a.End.Row) =
      (resolveEndRow a.End.Row R : Nat) := by
    unfold resolveEndRow; split <;> simp; omega
  have hse : s ≤ resolveEndRow a.End.Row R := by
    unfold resolveEndRow; split <;> omega
  have heR : resolveEndRow a.End.Row R ≤ R.length := by
    unfold resolveEndRow; split <;> omega
  rw [he, hs]
  obtain ⟨st, hst, -⟩ := forLoop_total
    (fun (_ : Nat) (st : Records × Int) => st.1.map List.length = R.map List.length ∧
      (¬ a.End.Column < 0 → st.2 = a.End.Column))
    hse (show (R, a.End.Column).1.map List.length = R.map List.length ∧ _ from
      ⟨rfl, fun _ => rfl⟩)
    (f := fillRightBody a)
    (fun n st hn hn' hI => by
      obtain ⟨hmap, hec⟩ := hI
      have hR : R[n]? = some R[n] := List.getElem?_eq_getElem (by omega)
      obtain ⟨row', hrow', hlen⟩ := getElem?_of_map_length hmap hR
      have hfit : resolveEndColumn a.End.Column row' ≤ row'.length := by
        have := hrows n R[n] (by rw [hs]; simpa using hn) hn' hR
        unfold resolveEndColumn at this ⊢
        rw [hlen]
        exact this
      obtain ⟨st', hst', hmap', hec'⟩ := fillRightBody_total hc0 hec hrow' hfit
      exact ⟨st', hst', hmap'.trans hmap, hec'⟩)
  rw [hst]
  exact ⟨st.1, rfl⟩

theorem fillRight_guards {a : ProcessorFillRight} {R R' : Records}
    (h : a.Execute R = .ok R') :
    ¬ (a.Start.Row < 0 ∨ a.Start.Column < 0) ∧
    ¬ (a.End.Row < a.Start.Row ∧ ¬ a.End.Row < 0) ∧
    ¬ (a.End.Column < a.Start.Column ∧ ¬ a.End.Column < 0) ∧
    ¬ a.Start.Row > goLen R ∧ ¬ a.End.Row > goLen R := by
  unfold ProcessorFillRight.Execute at h
  split at h; · cases h
  split at h; · cases h
  split at h; · cases h
  split at h; · cases h
  split at h; · cases h
  rename_i g1 g2 g3 g4 g5
  exact ⟨g1, g2, g3, g4, g5⟩

theorem fillRight_idem {a : ProcessorFillRight} {R R' : Records}
    (h : a.Execute R = .ok R') : a.Execute R' = .ok R' := by
  obtain ⟨g1, g2, g3, g4, g5⟩ := fillRight_guards h
  obtain ⟨-, -, -, heR, hlen, hout, hin⟩ := fillRight_ok h
  have hres : resolveEndRow a.End.Row R' = resolveEndRow a.End.Row R := by
    unfold resolveEndRow; rw [hlen]
  have hband : ∀ j m, a.Start.Row.toNat ≤ j → j < resolveEndRow a.End.Row R →
      R'[j]? = some m → ∃ row, R[j]? = some row ∧
        resolveEndColumn a.End.Column m = resolveEndColumn a.End.Column row ∧
        resolveEndColumn a.End.Column row ≤ row.length ∧ m.length = row.length ∧
        FilledRow a.Start.Column.toNat (resolveEndColumn a.End.Column row) row m := by
    intro j m hj1 hj2 hm
    have hR : R[j]? = some R[j] := List.getElem?_eq_getElem (by omega)
    obtain ⟨hfit, m', hm', hfilled⟩ := hin j R[j] hj1 hj2 hR
    rw [hm] at hm'
    cases hm'
    refine ⟨R[j], hR, ?_, hfit, hfilled.1, hfilled⟩
    unfold resolveEndColumn
    rw [hfilled.1]
  obtain ⟨R'', hrun⟩ := fillRight_total (a := a) (R := R') g1 g2 g3
    (by unfold goLen at g4 ⊢; rw [hlen]; exact g4)
    (by unfold goLen at g5 ⊢; rw [hlen]; exact g5)
    (fun j m hj1 hj2 hm => by
      rw [hres] at hj2
      obtain ⟨row, -, he, hfit, hl, -⟩ := hband j m hj1 hj2 hm
      rw [he, hl]; exact hfit)
  obtain ⟨-, -, -, -, hlen2, hout2, hin2⟩ := fillRight_ok hrun
  rw [hrun]
  congr 1
  apply List.ext_getElem?
  intro j
  by_cases hj : a.Start.Row.toNat ≤ j ∧ j < resolveEndRow a.End.Row R
  · have hR' : R'[j]? = some R'[j] := List.getElem?_eq_getElem (by omega)
    obtain ⟨row, -, he, -, -, hfilled⟩ := hband j _ hj.1 hj.2 hR'
    obtain ⟨-, m'', hm'', hfilled2⟩ := hin2 j _ hj.1 (by rw [hres]; exact hj.2) hR'
    rw [he] at hfilled2
    rw [hm'', hR', filledRow_idem hfilled hfilled2]
  · exact hout2 j (by rw [hres]; exact hj)

/-! ## `TransposeRow` always returns on a regular band -/

theorem transposeCell_first_total {a : ProcessorTransposeRow} {R : Records} {s e i : Nat}
    {new : Records} {row : List String} (hs : a.StartRow = s) (hse : s < e)
    (hrow : R[s]? = some row) (hi : i < row.length) (hlt : s + i < new.length) :
    transposeCell a R (e : Int) (s : Int) true (i : Int) new =
      .ok (new.set (s + i) ((List.replicate (e - s) "").set 0 row[i])) := by
  unfold transposeCell
  have e1 : ((s : Int) + (i : Int)) = ((s + i : Nat) : Int) := by omega
  have e2 : ((s : Int) - (s : Int)) = ((0 : Nat) : Int) := by omega
  have e3 : ((e : Int) - (s : Int)) = ((e - s : Nat) : Int) := by omega
  simp only [if_true, hs, e1, e2, e3, make_natCast, bind, Except.bind]
  rw [setIndex_of_lt _ hlt]
  simp only
  rw [index2_eq_ok.2 ⟨row, hrow, List.getElem?_eq_getElem hi⟩]
  simp only
  rw [setIndex2_eq_ok]
  refine ⟨List.replicate (e - s) "", List.getElem?_set_self hlt, ?_, ?_⟩
  · rw [List.length_replicate]; omega
  · rw [List.set_set]

theorem transposeCell_later_total {a : ProcessorTransposeRow} {R : Records} {s e n i : Nat}
    {new : Records} {row t : List String} (hs : a.StartRow = s) (hn : s ≤ n)
    (hrow : R[n]? = some row) (hi : i < row.length) (ht : new[s + i]? = some t)
    (hpos : n - s < t.length) :
    transposeCell a R (e : Int) (n : Int) false (i : Int) new =
      .ok (new.set (s + i) (t.set (n - s) row[i])) := by
  unfold transposeCell
  have e1 : ((s : Int) + (i : Int)) = ((s + i : Nat) : Int) := by omega
  have e2 : ((n : Int) - (s : Int)) = ((n - s : Nat) : Int) := by omega
  simp only [Bool.false_eq_true, if_false, hs, e1, e2, bind, Except.bind, pure, Except.pure]
  rw [index2_eq_ok.2 ⟨row, hrow, List.getElem?_eq_getElem hi⟩]
  simp only
  rw [setIndex2_eq_ok]
  exact ⟨t, ht, hpos, rfl⟩

theorem transposeCols_total {a : ProcessorTransposeRow} {R : Records} {s e w n L : Nat}
    {new : Records} {row : List String} (hs : a.StartRow = s) (hn : s ≤ n) (hne : n < e)
    (hrow : R[n]? = some row) (hw : row.length = w) (hlen : new.length = L)
    (hL : s + w ≤ L)
    (hlines : s < n → ∀ i, i < w → ∃ t, new[s + i]? = some t ∧ t.length = e - s) :
    ∃ new', forLoop 0 (w : Int) (transposeCell a R (e : Int) (n : Int) (decide (n = s)))
        new = .ok new' ∧ new'.length = L ∧
      ∀ i, i < w → ∃ t, new'[s + i]? = some t ∧ t.length = e - s := by
  obtain ⟨new', hrun, hlen', hl'⟩ := forLoop_total
    (fun (i : Nat) (x : Records) => x.length = L ∧
      ∀ j, j < w → (s < n ∨ j < i) → ∃ t, x[s + j]? = some t ∧ t.length = e - s)
    (Nat.zero_le w)
    (show new.length = L ∧ _ from ⟨hlen, fun j hj hc => by
      rcases hc with hc | hc
      · exact hlines hc j hj
      · omega⟩)
    (f := transposeCell a R (e : Int) (n : Int) (decide (n = s)))
    (fun i x _ hi hI => by
      obtain ⟨hxl, hxlines⟩ := hI
      by_cases hns : n = s
      · subst hns
        have hd : decide (n = n) = true := by simp
        rw [hd]
        refine ⟨_, transposeCell_first_total hs hne hrow (by omega) (by omega),
          by rw [List.length_set]; exact hxl, fun j hj hc => ?_⟩
        by_cases hji : j = i
        · subst hji
          refine ⟨_, List.getElem?_set_self (by omega), ?_⟩
          rw [List.length_set, List.length_replicate]
        · rw [List.getElem?_set_ne (by omega)]
          exact hxlines j hj (by omega)
      · have hd : decide (n = s) = false := by simp [hns]
        rw [hd]
        have hsn : s < n := by omega
        obtain ⟨t, ht, htl⟩ := hxlines i hi (Or.inl hsn)
        refine ⟨_, transposeCell_later_total hs hn hrow (by omega) ht (by omega),
          by rw [List.length_set]; exact hxl, fun j hj _ => ?_⟩
        by_cases hji : j = i
        · subst hji
          refine ⟨_, List.getElem?_set_self (by omega), ?_⟩
          rw [List.length_set]; exact htl
        · rw [List.getElem?_set_ne (by omega)]
          exact hxlines j hj (Or.inl hsn))
  refine ⟨new', by simpa using hrun, hlen', fun i hi => hl' i hi (Or.inr hi)⟩

theorem transposeBody_total {a : ProcessorTransposeRow} {R : Records} {s e w n L : Nat}
    {st : Records × Bool} {firstRow row : List String} (hs : a.StartRow = s)
    (hfirst : R[s]? = some firstRow) (hfw : firstRow.length = w) (hn : s ≤ n) (hne : n < e)
    (hrow : R[n]? = some row) (hw : row.length = w) (hflag : st.2 = decide (n = s))
    (hlen : st.1.length = L) (hL : s + w ≤ L)
    (hlines : s < n → ∀ i, i < w → ∃ t, st.1[s + i]? = some t ∧ t.length = e - s) :
    ∃ st', transposeBody a R (e : Int) (n : Int) st = .ok st' ∧ st'.2 = false ∧
      st'.1.length = L ∧ ∀ i, i < w → ∃ t, st'.1[s + i]? = some t ∧ t.length = e - s := by
  unfold transposeBody
  rw [hs, index_eq_ok.2 hfirst, index_eq_ok.2 hrow]
  simp only [bind, Except.bind, goLen, hfw, hw, ne_eq, not_true_eq_false, if_false, hflag]
  obtain ⟨new', hrun, hlen', hl'⟩ := transposeCols_total hs hn hne hrow hw hlen hL hlines
  rw [hrun]
  exact ⟨(new', false), rfl, rfl, hlen', hl'⟩

theorem transposeRow_total {a : ProcessorTransposeRow} {R : Records} {s w : Nat}
    (hs : a.StartRow = s) (hse : s < resolveEndRow a.EndRow R)
    (heR : resolveEndRow a.EndRow R ≤ R.length)
    (hw : ∀ j row, s ≤ j → j < resolveEndRow a.EndRow R → R[j]? = some row →
      row.length = w) :
    ∃ R', a.Execute R = .ok R' := by
  have hfirst : R[s]? = some R[s] := List.getElem?_eq_getElem (by omega)
  have hfw : R[s].length = w := hw s _ (le_refl _) hse hfirst
  have he : (if a.EndRow < 0 then (R.length : Int) else a.EndRow) =
      (resolveEndRow a.EndRow R : Nat) := by
    unfold resolveEndRow at hse ⊢; split <;> simp; omega
  have hpos : ¬ a.EndRow < 0 → a.EndRow = (resolveEndRow a.EndRow R : Nat) := by
    intro h; rw [← he, if_neg h]
  have hneg : a.EndRow < 0 → resolveEndRow a.EndRow R = R.length := by
    intro h; unfold resolveEndRow; rw [if_pos h]
  have hL : (if a.EndRow > 0 then (s : Int) + (w : Int) + ((R.length : Int) - a.EndRow)
      else (s : Int) + (w : Int)) =
      ((s + w + (R.length - resolveEndRow a.EndRow R) : Nat) : Int) := by
    by_cases h : a.EndRow < 0
    · have := hneg h
      rw [if_neg (by omega)]
      omega
    · have := hpos h
      rw [if_pos (by omega)]
      omega
  generalize resolveEndRow a.EndRow R = e at *
  unfold ProcessorTransposeRow.Execute
  have g1 : ¬ a.StartRow < 0 := by omega
  have g2 : ¬ (a.EndRow < a.StartRow ∧ ¬ a.EndRow < 0) := by
    rintro ⟨h1, h2⟩
    have := hpos h2
    omega
  have g4 : ¬ a.StartRow > goLen R := by unfold goLen; omega
  have g5 : ¬ a.EndRow > goLen R := by
    unfold goLen
    by_cases h : a.EndRow < 0
    · omega
    · have := hpos h
      omega
  rw [if_neg g1, if_neg g2, if_neg g4, if_neg g5]
  simp only [goLen, he, hs, index_eq_ok.2 hfirst, bind, Except.bind, hfw, hL, make_natCast]
  -- the rows before the band
  obtain ⟨new1, hcopy, hlen1⟩ := forLoop_total
    (fun (_ : Nat) (x : Records) => x.length = s + w + (R.length - e))
    (Nat.zero_le s)
    (show (List.replicate (s + w + (R.length - e)) ([] : List String)).length = _ from
      List.length_replicate _ _)
    (f := copyRowBody R)
    (fun n x _ hn hx => by
      refine ⟨x.set n R[n], ?_, (List.length_set _ _ _).trans hx⟩
      unfold copyRowBody
      rw [index_eq_ok.2 (List.getElem?_eq_getElem (by omega))]
      exact setIndex_of_lt _ (by omega))
  have hcopy' : forLoop 0 (s : Int) (copyRowBody R)
      (List.replicate (s + w + (R.length - e)) ([] : List String)) = .ok new1 := by
    simpa using hcopy
  rw [hcopy']
  simp only
  -- the band
  obtain ⟨st, hband, hlen2, -⟩ := forLoop_total
    (fun (n : Nat) (x : Records × Bool) => x.1.length = s + w + (R.length - e) ∧
      x.2 = decide (n = s) ∧
      (s < n → ∀ i, i < w → ∃ t, x.1[s + i]? = some t ∧ t.length = e - s))
    (le_of_lt hse)
    (show (new1, true).1.length = s + w + (R.length - e) ∧ _ from
      ⟨hlen1, by simp, fun h => absurd h (lt_irrefl s)⟩)
    (f := transposeBody a R (e : Int))
    (fun n x hn hn' hx => by
      obtain ⟨hxl, hxf, hxlines⟩ := hx
      have hrow : R[n]? = some R[n] := List.getElem?_eq_getElem (by omega)
      obtain ⟨x', hx', hf', hl', hlines'⟩ := transposeBody_total hs hfirst hfw hn hn' hrow
        (hw n _ hn hn' hrow) hxf hxl (by omega) hxlines
      refine ⟨x', hx', hl', ?_, fun _ => hlines'⟩
      rw [hf']
      have : ¬ n + 1 = s := by omega
      simp [this])
  rw [hband]
  simp only
  -- the rows after the band
  obtain ⟨R', htail, -⟩ := forLoop_total
    (fun (_ : Nat) (x : Records) => x.length = s + w + (R.length - e))
    heR hlen2
    (f := transposeTailBody a R (e : Int))
    (fun n x hn hn' hx => by
      refine ⟨x.set (s + w + n - e) R[n], ?_, (List.length_set _ _ _).trans hx⟩
      unfold transposeTailBody
      rw [hs, index_eq_ok.2 hfirst, index_eq_ok.2 (List.getElem?_eq_getElem hn')]
      simp only [bind, Except.bind, goLen, hfw]
      have e1 : (s : Int) + (w : Int) + (n : Int) - (e : Int) = ((s + w + n - e : Nat) : Int) := by
        omega
      rw [e1]
      exact setIndex_of_lt _ (by omega))
  exact ⟨R', htail⟩

/-- Transposing a regular band and then the band it produced gives the record
array back. -/
theorem transposeRow_back {R : Records} {s w : Nat} {endRow : Int}
    (hse : s < resolveEndRow endRow R) (heR : resolveEndRow endRow R ≤ R.length)
    (hw : ∀ j row, s ≤ j → j < resolveEndRow endRow R → R[j]? = some row → row.length = w)
    (hw1 : 1 ≤ w) :
    ∃ R', ProcessorTransposeRow.Execute { StartRow := s, EndRow := endRow } R = .ok R' ∧
      ProcessorTransposeRow.Execute { StartRow := s, EndRow := (s : Int) + (w : Int) } R' =
        .ok R := by
  obtain ⟨R', h1⟩ := transposeRow_total
    (a := { StartRow := s, EndRow := endRow }) (s := s) (w := w) rfl hse heR hw
  refine ⟨R', h1, ?_⟩
  obtain ⟨-, -, -, firstRow, hfirst, P1, P2, P3, -, P4⟩ := transposeRow_ok h1
  simp only [Int.toNat_natCast] at hfirst P1 P2 P3 P4
  have hfw : firstRow.length = w := hw s firstRow (le_refl _) hse hfirst
  rw [hfw] at P1 P3 P4
  have P4' := P4 hse
  generalize resolveEndRow endRow R = e at *
  have hres : resolveEndRow ((s : Int) + (w : Int)) R' = s + w := by
    unfold resolveEndRow
    rw [if_neg (by omega)]
    omega
  have hw2 : ∀ j row, s ≤ j → j < resolveEndRow ((s : Int) + (w : Int)) R' →
      R'[j]? = some row → row.length = e - s := by
    intro j row hj1 hj2 hrow
    rw [hres] at hj2
    obtain ⟨t, ht, htl, -⟩ := P4' (j - s) (by omega)
    have : s + (j - s) = j := by omega
    rw [this, hrow] at ht
    cases ht
    exact htl
  obtain ⟨R'', h2⟩ := transposeRow_total
    (a := { StartRow := s, EndRow := (s : Int) + (w : Int) }) (s := s) (w := e - s) rfl
    (by rw [hres]; omega) (by rw [hres, P1]; omega) hw2
  rw [h2]
  congr 1
  obtain ⟨-, -, -, firstRow2, hfirst2, Q1, Q2, Q3, -, Q4⟩ := transposeRow_ok h2
  simp only [Int.toNat_natCast, hres] at hfirst2 Q1 Q2 Q3 Q4
  have hfw2 : firstRow2.length = e - s :=
    hw2 s firstRow2 (le_refl _) (by rw [hres]; omega) hfirst2
  rw [hfw2] at Q1 Q3 Q4
  have Q4' := Q4 (by omega)
  apply List.ext_getElem?
  intro j
  by_cases hj1 : j < s
  · rw [Q2 j hj1, P2 j hj1]
  · by_cases hj2 : j < e
    · obtain ⟨t', ht', htl', hcells⟩ := Q4' (j - s) (by omega)
      have ej : s + (j - s) = j := by omega
      rw [ej] at ht'
      have hRj : R[j]? = some R[j] := List.getElem?_eq_getElem (by omega)
      have hRl : R[j].length = w := hw j _ (by omega) hj2 hRj
      rw [ht', hRj]
      congr 1
      apply List.ext_getElem?
      intro col
      by_cases hcol : col < w
      · obtain ⟨t, ht, -, htc⟩ := P4' col hcol
        rw [hcells col t (by omega) ht]
        have := htc (j - s) R[j] (by omega) (by rw [ej]; exact hRj)
        rw [this]
      · rw [List.getElem?_eq_none (by omega), List.getElem?_eq_none (by omega)]
    · have ej : s + (e - s) + (j - e) = j := by omega
      have := Q3 (j - e)
      rw [ej] at this
      rw [this, P3 (j - e)]
      congr 1
      omega

/-! ## Supporting facts for the skipped cells and the invalid options -/

/-- With `SkipBlankData` set, the iteration of the column loop of
`parseTableData` for a blank cell whose column type is `Auto`, `Split` or `Bool`
ends normally and leaves the mapping of the row as it was: `Read` returns nil
for the empty text with these three types. -/
theorem tableCellBody_blank_skipped (std : StdLib) (t : TableLocation)
    (tableDims : tableDimensions) (records : Records) (headers : List String)
    (row column : Int) (rowData : List (String × Value)) (header : String)
    (dataType : DataType)
    (hskip : t.SkipBlankData = true)
    (hheader : index headers (column - tableDims.startColumn) = .ok header)
    (hblank : findValue ⟨row, column⟩ records = .ok "")
    (htype : (if t.AutoColumnDataTypes then pure DataTypeAuto
      else index t.ColumnDataTypes (column - tableDims.startColumn)) = .ok dataType)
    (hkind : dataType = DataTypeAuto ∨ dataType = DataTypeSplit ∨ dataType = DataTypeBool) :
    tableCellBody std t tableDims records headers row column rowData = .ok rowData := by
  rw [tableCellBody_eq hheader hblank htype (read_blank std dataType hkind)]
  simp [hskip]

/-- A configuration that contains a table with `ParseSeparated` set together
with `ParseAsArray` or `ParseSingleRow` never makes `ParseRecords` return
documents; when the scalar part returns and the table is the first separated
table, `ParseRecords` returns the invalid-options error. -/
theorem parseRecords_invalid_options (std : StdLib) (c : Csv) (records : Records)
    (t : TableLocation) (hmem : t ∈ c.TableLocations) (hsep : t.ParseSeparated = true)
    (hmode : t.ParseAsArray = true ∨ t.ParseSingleRow = true) :
    (∀ out, c.ParseRecords std records ≠ .ok out) ∧
    (c.ParseRecords std records ≠ .error .panic →
      ∃ e, c.ParseRecords std records = .error (.error e)) ∧
    (∀ base, c.parseBase std records = .ok base →
      (c.TableLocations.filter (fun x => x.ParseSeparated)).head? = some t →
      c.ParseRecords std records = .error (.error (.invalidOptions t.Name))) := by
  have hfail : ∃ f, c.ParseRecords std records = .error f := by
    unfold Csv.ParseRecords
    cases hb : c.parseBase std records with
    | error f => exact ⟨f, rfl⟩
    | ok base =>
      obtain ⟨f, hf⟩ := foldlM_error_of_mem (separatedStep std c base.1) c.TableLocations t
        hmem (fun s => ⟨_, separatedStep_invalid std c base.1 s t hsep hmode⟩)
        (([] : List Doc), base.2)
      exact ⟨f, by simp only [bind, Except.bind, hf]⟩
  obtain ⟨f, hf⟩ := hfail
  refine ⟨?_, ?_, ?_⟩
  · intro out hout
    rw [hf] at hout
    cases hout
  · intro hnp
    cases f with
    | error e => exact ⟨e, hf⟩
    | panic => exact absurd hf hnp
  · intro base hb hhead
    unfold Csv.ParseRecords
    obtain ⟨rest, hrest, -⟩ := foldlM_skip_until (separatedStep std c base.1)
      (fun x => x.ParseSeparated)
      (fun s x hx => separatedStep_skip std c base.1 s x hx)
      c.TableLocations t (([] : List Doc), base.2) hhead
    simp only [hb, bind, Except.bind] at hrest ⊢
    rw [hrest, separatedStep_invalid std c base.1 _ t hsep hmode]

/-! ## The claims -/

/-- C1. For each of the six processors and every record array `R`, if `Execute`
succeeds then the rows before the band keep their index and content, and the rows
from the band's end on are, in order, the last rows of the result. -/
theorem C1_rows_outside_band_unchanged (p : Processor) (R R' : Records)
    (h : p.Execute R = .ok R') :
    R'.take p.bandStart = R.take p.bandStart ∧ R.drop (p.bandEnd R) <:+ R' := by
  cases p with
  | mergeColumns a =>
    obtain ⟨-, -, -, -, -, hout, -⟩ := mergeColumns_ok h
    exact ⟨take_eq_of_getElem? (fun j hj => hout j (by
        simp only [Processor.bandStart] at hj; omega)),
      drop_suffix_of_getElem? (k := resolveEndRow a.End.Row R)
        (fun j => hout _ (by omega))⟩
  | mergeRows a =>
    obtain ⟨-, hse, heR, first, -, -, rfl⟩ := mergeRows_ok h
    refine ⟨?_, ?_⟩
    · simp only [Processor.bandStart]
      rw [List.append_assoc, List.take_append_of_le_length (by simp; omega), List.take_take]
      simp
    · exact List.suffix_append _ _
  | fillRight a =>
    obtain ⟨-, -, -, -, -, hout, -⟩ := fillRight_ok h
    exact ⟨take_eq_of_getElem? (fun j hj => hout j (by
        simp only [Processor.bandStart] at hj; omega)),
      drop_suffix_of_getElem? (k := resolveEndRow a.End.Row R)
        (fun j => hout _ (by omega))⟩
  | replaceCell a =>
    obtain ⟨-, -, row, -, -, rfl⟩ := replaceCell_ok h
    obtain ⟨h1, h2⟩ := set_take_drop R a.Cell.Row.toNat (row.set a.Cell.Column.toNat a.Value)
    refine ⟨h1, ?_⟩
    simp only [Processor.bandEnd]
    rw [← h2]; exact List.drop_suffix _ _
  | transposeRow a =>
    obtain ⟨-, -, -, firstRow, -, -, hpre, hpost, -, -⟩ := transposeRow_ok h
    exact ⟨take_eq_of_getElem? hpre,
      drop_suffix_of_getElem? (k := a.StartRow.toNat + firstRow.length) hpost⟩
  | removeCellLeft a =>
    obtain ⟨-, -, newRow, rfl⟩ := removeCellLeft_ok h
    obtain ⟨h1, h2⟩ := set_take_drop R a.Cell.Row.toNat newRow
    refine ⟨h1, ?_⟩
    simp only [Processor.bandEnd]
    rw [← h2]; exact List.drop_suffix _ _

/-- C1, at `TransposeRow{2, 3}` on four rows: rows 0 and 1 stay, row 3 is the last
row of the result. -/
theorem C1_rows_outside_band_unchanged_witness :
    (Processor.transposeRow { StartRow := 2, EndRow := 3 }).Execute
        [["a"], ["b", "c"], ["d", "e"], ["f"]] =
      .ok [["a"], ["b", "c"], ["d"], ["e"], ["f"]] ∧
    List.take 2 [["a"], ["b", "c"], ["d"], ["e"], ["f"]] =
      List.take 2 [["a"], ["b", "c"], ["d", "e"], ["f"]] ∧
    List.drop 3 [["a"], ["b", "c"], ["d", "e"], ["f"]] <:+
      [["a"], ["b", "c"], ["d"], ["e"], ["f"]] :=
  ⟨by decide,
    C1_rows_outside_band_unchanged (.transposeRow { StartRow := 2, EndRow := 3 })
      [["a"], ["b", "c"], ["d", "e"], ["f"]] [["a"], ["b", "c"], ["d"], ["e"], ["f"]]
      (by decide)⟩

/-- C2. When `MergeColumns.Execute` succeeds the result has as many rows as `R`, and
every band row `r` becomes the cells before `start.column`, then the join of the
cells `[start.column, endCol_r)`, then the cells from `endCol_r` on, the end column
being resolved against that row. -/
theorem C2_mergeColumns_row (a : ProcessorMergeColumns) (R R' : Records)
    (h : a.Execute R = .ok R') :
    R'.length = R.length ∧
    ∀ r row, a.Start.Row.toNat ≤ r → r < resolveEndRow a.End.Row R → R[r]? = some row →
      a.Start.Column.toNat ≤ resolveEndColumn a.End.Column row ∧
      resolveEndColumn a.End.Column row ≤ row.length ∧
      R'[r]? = some (row.take a.Start.Column.toNat ++
        [stringsJoin ((row.drop a.Start.Column.toNat).take
          (resolveEndColumn a.End.Column row - a.Start.Column.toNat)) a.Delimiter] ++
        row.drop (resolveEndColumn a.End.Column row)) := by
  obtain ⟨-, -, -, -, hlen, -, hin⟩ := mergeColumns_ok h
  exact ⟨hlen, hin⟩

/-- C2, at the documented example of `ProcessorMergeColumns` cut down to one band
row: row 1 becomes the join of its first two cells followed by its third cell. -/
theorem C2_mergeColumns_row_witness :
    ProcessorMergeColumns.Execute { Start := ⟨1, 0⟩, End := ⟨2, 2⟩ }
        [["r0c0", "r0c1"], ["r2c0", "r2c1", "r2c2"], ["r4c0"]] =
      .ok [["r0c0", "r0c1"], ["r2c0r2c1", "r2c2"], ["r4c0"]] ∧
    ([["r0c0", "r0c1"], ["r2c0r2c1", "r2c2"], ["r4c0"]] : Records)[1]? =
      some ([] ++ [stringsJoin ["r2c0", "r2c1"] ""] ++ ["r2c2"]) :=
  ⟨by decide,
    ((C2_mergeColumns_row { Start := ⟨1, 0⟩, End := ⟨2, 2⟩ }
      [["r0c0", "r0c1"], ["r2c0", "r2c1", "r2c2"], ["r4c0"]]
      [["r0c0", "r0c1"], ["r2c0r2c1", "r2c2"], ["r4c0"]] (by decide)).2 1
      ["r2c0", "r2c1", "r2c2"] (by decide) (by decide) (by decide)).2.2⟩

/-- C3. For `MergeRows` without trimming and a non-empty band, a successful
`Execute` returns the rows before the band, one merged row, and the rows from the
band's end on; cell `i` of the merged row is the delimiter-join of the cells `i` of
the band rows (which all have the merged row's length), and the result has
`|R| - (endRow - startRow) + 1` rows. -/
theorem C3_mergeRows_plain (a : ProcessorMergeRows) (R R' : Records)
    (ht : a.TrimWhitespace = false) (h : a.Execute R = .ok R')
    (hband : a.StartRow.toNat < resolveEndRow a.EndRow R) :
    ∃ m, R' = R.take a.StartRow.toNat ++ [m] ++ R.drop (resolveEndRow a.EndRow R) ∧
      (∀ row ∈ bandRows R a.StartRow.toNat (resolveEndRow a.EndRow R),
        row.length = m.length) ∧
      (∀ i, i < m.length → m[i]? = some (stringsJoin
        ((bandRows R a.StartRow.toNat (resolveEndRow a.EndRow R)).map
          (fun row => row.getD i "")) a.Delimiter)) ∧
      (R'.length : Int) =
        (R.length : Int) - ((resolveEndRow a.EndRow R : Int) - a.StartRow) + 1 := by
  obtain ⟨hs0, hse, heR, first, hfirst, hlens, rfl⟩ := mergeRows_ok h
  have hflen := mergeRowsFold_length a first _ hlens
  have hsR : a.StartRow.toNat < R.length := (List.getElem?_eq_some.1 hfirst).1
  refine ⟨_, rfl, ?_, ?_, ?_⟩
  · intro row hrow
    rw [bandRows_cons hfirst hband, List.mem_cons] at hrow
    rw [hflen]
    rcases hrow with rfl | hrow
    · rfl
    · exact hlens row hrow
  · intro i hi
    rw [hflen] at hi
    rw [mergeRowsFold_getElem? a first _ hlens i hi, bandRows_cons hfirst hband,
      List.map_cons, foldl_mergeCell_plain a ht]
  · simp only [List.length_append, List.length_take, List.length_drop, List.length_cons,
      List.length_nil]
    omega

/-- C3, at the documented example of `ProcessorMergeRows`. -/
theorem C3_mergeRows_plain_witness :
    ProcessorMergeRows.Execute { StartRow := 1, EndRow := 3 }
        [["r1c0", "r1c1", "r1c2", "r1c3"], ["r2c0", "r2c1"], ["r3c0", "r3c1"], ["r4c0"]] =
      .ok [["r1c0", "r1c1", "r1c2", "r1c3"], ["r2c0r3c0", "r2c1r3c1"], ["r4c0"]] ∧
    ∃ m, ([["r1c0", "r1c1", "r1c2", "r1c3"], ["r2c0r3c0", "r2c1r3c1"], ["r4c0"]] : Records) =
        [["r1c0", "r1c1", "r1c2", "r1c3"]] ++ [m] ++ [["r4c0"]] :=
  ⟨by decide, by
    obtain ⟨m, hm, -⟩ := C3_mergeRows_plain { StartRow := 1, EndRow := 3 }
      [["r1c0", "r1c1", "r1c2", "r1c3"], ["r2c0", "r2c1"], ["r3c0", "r3c1"], ["r4c0"]]
      [["r1c0", "r1c1", "r1c2", "r1c3"], ["r2c0r3c0", "r2c1r3c1"], ["r4c0"]]
      rfl (by decide) (by decide)
    exact ⟨m, hm⟩⟩

/-- C4 fails as stated: a band of one row is not trimmed at all, and with a
delimiter made of white space the intermediate results are trimmed again, so an
empty cell in the middle loses its delimiter. -/
theorem C4_counterexample :
    (ProcessorMergeRows.Execute { StartRow := 0, EndRow := 1, TrimWhitespace := true }
        [[" a "]] = .ok [[" a "]] ∧
      TrimSpace (stringsJoin [TrimSpace " a "] "") = "a") ∧
    (ProcessorMergeRows.Execute
        { StartRow := 0, EndRow := 3, Delimiter := " ", TrimWhitespace := true }
        [["a"], [""], ["c"]] = .ok [["a c"]] ∧
      TrimSpace (stringsJoin [TrimSpace "a", TrimSpace "", TrimSpace "c"] " ") = "a  c") := by
  decide

/-- C4, amended. For `MergeRows` with trimming, a band of at least two rows and a
delimiter that neither starts nor ends with white space (`TrimSpace` leaves it
alone), cell `i` of the merged row is the trimmed join of the trimmed cells `i` of
the band rows. -/
theorem C4_mergeRows_trim (a : ProcessorMergeRows) (R R' : Records)
    (ht : a.TrimWhitespace = true) (hd : TrimSpace a.Delimiter = a.Delimiter)
    (h : a.Execute R = .ok R')
    (hband : a.StartRow.toNat + 2 ≤ resolveEndRow a.EndRow R) :
    ∃ m, R' = R.take a.StartRow.toNat ++ [m] ++ R.drop (resolveEndRow a.EndRow R) ∧
      (∀ row ∈ bandRows R a.StartRow.toNat (resolveEndRow a.EndRow R),
        row.length = m.length) ∧
      ∀ i, i < m.length → m[i]? = some (TrimSpace (stringsJoin
        ((bandRows R a.StartRow.toNat (resolveEndRow a.EndRow R)).map
          (fun row => TrimSpace (row.getD i ""))) a.Delimiter)) := by
  obtain ⟨hs0, hse, heR, first, hfirst, hlens, rfl⟩ := mergeRows_ok h
  have hflen := mergeRowsFold_length a first _ hlens
  have hsR : a.StartRow.toNat < R.length := (List.getElem?_eq_some.1 hfirst).1
  have hband' : a.StartRow.toNat < resolveEndRow a.EndRow R := by omega
  refine ⟨_, rfl, ?_, ?_⟩
  · intro row hrow
    rw [bandRows_cons hfirst hband', List.mem_cons] at hrow
    rw [hflen]
    rcases hrow with rfl | hrow
    · rfl
    · exact hlens row hrow
  · intro i hi
    rw [hflen] at hi
    rw [mergeRowsFold_getElem? a first _ hlens i hi, bandRows_cons hfirst hband']
    obtain ⟨second, rest, hrest⟩ : ∃ second rest,
        (R.drop (a.StartRow.toNat + 1)).take
          (resolveEndRow a.EndRow R - (a.StartRow.toNat + 1)) = second :: rest := by
      cases hl : (R.drop (a.StartRow.toNat + 1)).take
          (resolveEndRow a.EndRow R - (a.StartRow.toNat + 1)) with
      | nil =>
        have := congrArg List.length hl
        simp only [List.length_take, List.length_drop, List.length_nil] at this
        omega
      | cons x xs => exact ⟨x, xs, rfl⟩
    rw [hrest]
    simp only [List.map_cons]
    rw [foldl_mergeCell_trim a ht hd]
    simp only [List.map_cons, List.map_map]
    rfl

/-- C4 amended, at test 7 of `TestProcessorMergeRows` cut down to two columns. -/
theorem C4_mergeRows_trim_witness :
    ProcessorMergeRows.Execute
        { StartRow := 0, EndRow := -1, Delimiter := ",", TrimWhitespace := true }
        [["r2c1 ", " "], ["r3c1 ", "r3c2"]] = .ok [["r2c1,r3c1", ",r3c2"]] ∧
    ∃ m, ([["r2c1,r3c1", ",r3c2"]] : Records) = [] ++ [m] ++ [] :=
  ⟨by decide, by
    obtain ⟨m, hm, -⟩ := C4_mergeRows_trim
      { StartRow := 0, EndRow := -1, Delimiter := ",", TrimWhitespace := true }
      [["r2c1 ", " "], ["r3c1 ", "r3c2"]] [["r2c1,r3c1", ",r3c2"]]
      rfl (by decide) (by decide) (by decide)
    exact ⟨m, hm⟩⟩

/-- C5. When `FillRight.Execute` succeeds the result has the rows of `R`, each with
its length; in a band row a cell at column `i` of `[start.column, endCol_r)` that is
blank with `i > 0` takes the result's cell `i - 1`, any other cell of that range
keeps its text, and every cell outside the band is unchanged. -/
theorem C5_fillRight_cells (a : ProcessorFillRight) (R R' : Records)
    (h : a.Execute R = .ok R') :
    R'.length = R.length ∧
    (∀ r, ¬ (a.Start.Row.toNat ≤ r ∧ r < resolveEndRow a.End.Row R) → R'[r]? = R[r]?) ∧
    ∀ r row, a.Start.Row.toNat ≤ r → r < resolveEndRow a.End.Row R → R[r]? = some row →
      ∃ m, R'[r]? = some m ∧ m.length = row.length ∧
        (∀ i, ¬ (a.Start.Column.toNat ≤ i ∧ i < resolveEndColumn a.End.Column row) →
          m[i]? = row[i]?) ∧
        ∀ i v, a.Start.Column.toNat ≤ i → i < resolveEndColumn a.End.Column row →
          row[i]? = some v →
            (0 < i ∧ isBlank v = true → m[i]? = m[i - 1]?) ∧
            (¬ (0 < i ∧ isBlank v = true) → m[i]? = some v) := by
  obtain ⟨-, -, -, -, hlen, hout, hin⟩ := fillRight_ok h
  refine ⟨hlen, hout, fun r row h1 h2 hrow => ?_⟩
  obtain ⟨-, m, hm, hml, hmout, hmin⟩ := hin r row h1 h2 hrow
  refine ⟨m, hm, hml, hmout, fun i v hi1 hi2 hv => ?_⟩
  rw [← trimSpace_eq_empty_iff]
  exact hmin i v hi1 hi2 hv

/-- C5, at the scenario of the specification: `["a", "", "c"]` becomes
`["a", "a", "c"]`. -/
theorem C5_fillRight_cells_witness :
    ProcessorFillRight.Execute { Start := ⟨0, 0⟩, End := ⟨-1, -1⟩ } [["a", "", "c"]] =
      .ok [["a", "a", "c"]] ∧
    ([["a", "a", "c"]] : Records).length = ([["a", "", "c"]] : Records).length :=
  ⟨by decide,
    (C5_fillRight_cells { Start := ⟨0, 0⟩, End := ⟨-1, -1⟩ } [["a", "", "c"]]
      [["a", "a", "c"]] (by decide)).1⟩

/-- C6. For `TransposeRow` with a non-empty band whose rows all have length `w`, a
successful `Execute` returns the rows before the band, then `w` rows of length
`endRow - startRow` with `T[i][j] = R[startRow + j][i]`, then the rows from the
band's end on. -/
theorem C6_transposeRow_band (a : ProcessorTransposeRow) (R R' : Records) (w : Nat)
    (h : a.Execute R = .ok R')
    (hband : a.StartRow.toNat < resolveEndRow a.EndRow R)
    (hw : ∀ row ∈ bandRows R a.StartRow.toNat (resolveEndRow a.EndRow R), row.length = w) :
    ∃ T : Records,
      R' = R.take a.StartRow.toNat ++ T ++ R.drop (resolveEndRow a.EndRow R) ∧
      T.length = w ∧
      (∀ t ∈ T, t.length = resolveEndRow a.EndRow R - a.StartRow.toNat) ∧
      ∀ i j, i < w → j < resolveEndRow a.EndRow R - a.StartRow.toNat →
        ∃ v, T[i]?.bind (fun t => t[j]?) = some v ∧
          R[a.StartRow.toNat + j]?.bind (fun row => row[i]?) = some v := by
  obtain ⟨-, hse, heR, firstRow, hfirst, hlen, hpre, hpost, hlens, hin⟩ := transposeRow_ok h
  generalize resolveEndRow a.EndRow R = e at *
  generalize a.StartRow.toNat = s at *
  have hfw : firstRow.length = w := hw firstRow (by
    rw [bandRows_cons hfirst hband]; exact List.mem_cons_self _ _)
  rw [hfw] at hlen hpost hlens hin
  have hin' := hin hband
  have hT : ∀ i, i < w → ((R'.drop s).take w)[i]? = R'[s + i]? := fun i hi => by
    rw [List.getElem?_take, if_pos hi, List.getElem?_drop]
  refine ⟨(R'.drop s).take w, ?_, ?_, ?_, ?_⟩
  · have e1 : R'.take s = R.take s := take_eq_of_getElem? hpre
    have e2 : R'.drop (s + w) = R.drop e := by
      apply List.ext_getElem?
      intro j
      rw [List.getElem?_drop, List.getElem?_drop]; exact hpost j
    rw [← e1, ← e2, ← List.drop_drop, List.append_assoc, List.take_append_drop,
      List.take_append_drop]
  · simp only [List.length_take, List.length_drop]; omega
  · intro t ht
    rw [List.mem_iff_getElem?] at ht
    obtain ⟨i, hi⟩ := ht
    have hiw : i < w := by
      rw [List.getElem?_take] at hi
      split at hi
      · assumption
      · cases hi
    rw [hT i hiw] at hi
    obtain ⟨t', ht', htl, -⟩ := hin' i hiw
    rw [hi] at ht'; cases ht'; exact htl
  · intro i j hi hj
    obtain ⟨t, ht, htl, hcells⟩ := hin' i hi
    have hsj : s + j < R.length := by omega
    have hrow : R[s + j]? = some R[s + j] := List.getElem?_eq_getElem hsj
    have hrl : (R[s + j]).length = w := hlens (s + j) _ (by omega) (by omega) hrow
    have hcell := hcells j _ hj hrow
    refine ⟨(R[s + j])[i], ?_, ?_⟩
    · rw [hT i hi, ht]
      simp only [Option.some_bind]
      rw [hcell, List.getElem?_eq_getElem]
    · rw [hrow]
      simp only [Option.some_bind]
      rw [List.getElem?_eq_getElem]

/-- C6, at test 0 of `TestProcessorTransposeRow` cut down to four rows. -/
theorem C6_transposeRow_band_witness :
    ProcessorTransposeRow.Execute { StartRow := 1, EndRow := 3 }
        [["r1c0"], ["r2c0", "r2c1", "r2c2"], ["r3c0", "r3c1", "r3c2"], ["r4c0"]] =
      .ok [["r1c0"], ["r2c0", "r3c0"], ["r2c1", "r3c1"], ["r2c2", "r3c2"], ["r4c0"]] ∧
    ∃ T : Records,
      ([["r1c0"], ["r2c0", "r3c0"], ["r2c1", "r3c1"], ["r2c2", "r3c2"], ["r4c0"]] : Records) =
        [["r1c0"]] ++ T ++ [["r4c0"]] ∧ T.length = 3 :=
  ⟨by decide, by
    obtain ⟨T, hT, hl, -⟩ := C6_transposeRow_band { StartRow := 1, EndRow := 3 }
      [["r1c0"], ["r2c0", "r2c1", "r2c2"], ["r3c0", "r3c1", "r3c2"], ["r4c0"]]
      [["r1c0"], ["r2c0", "r3c0"], ["r2c1", "r3c1"], ["r2c2", "r3c2"], ["r4c0"]] 3
      (by decide) (by decide) (by decide)
    exact ⟨T, hT, hl⟩⟩

/-- C7. With the target cell `(r, c)` inside the record array,
`RemoveCellLeft.Execute` succeeds; the result has as many rows, row `r` is
`R[r][0..c) ++ R[r][c+1..)` and every other row is the row of `R`. -/
theorem C7_removeCellLeft (a : ProcessorRemoveCellLeft) (R : Records) (r c : Nat)
    (row : List String) (hr : a.Cell.Row = r) (hc : a.Cell.Column = c)
    (hrow : R[r]? = some row) (hlt : c < row.length) :
    ∃ R', a.Execute R = .ok R' ∧ R'.length = R.length ∧
      R'[r]? = some (row.take c ++ row.drop (c + 1)) ∧
      (row.take c ++ row.drop (c + 1)).length + 1 = row.length ∧
      ∀ j, j ≠ r → R'[j]? = R[j]? := by
  have hrR : r < R.length := (List.getElem?_eq_some.1 hrow).1
  refine ⟨_, removeCellLeft_total hr hc hrow hlt, by simp, List.getElem?_set_self hrR, ?_,
    fun j hj => List.getElem?_set_ne (Ne.symm hj)⟩
  simp only [List.length_append, List.length_take, List.length_drop]
  omega

/-- C7, at test 0 of `TestProcessorRemoveCellLeft` cut down to two rows. -/
theorem C7_removeCellLeft_witness :
    (([["r0c0", "r0c1", "r0c2"], ["r1c0"]] : Records)[0]? = some ["r0c0", "r0c1", "r0c2"] ∧
      0 < ["r0c0", "r0c1", "r0c2"].length) ∧
    ∃ R', ProcessorRemoveCellLeft.Execute { Cell := ⟨0, 0⟩ }
        [["r0c0", "r0c1", "r0c2"], ["r1c0"]] = .ok R' ∧
      R'[0]? = some ["r0c1", "r0c2"] :=
  ⟨⟨by decide, by decide⟩, by
    obtain ⟨R', h1, -, h2, -⟩ := C7_removeCellLeft { Cell := ⟨0, 0⟩ }
      [["r0c0", "r0c1", "r0c2"], ["r1c0"]] 0 0 ["r0c0", "r0c1", "r0c2"] rfl rfl
      (by decide) (by decide)
    exact ⟨R', h1, h2⟩⟩

/-- C8 fails on the code: for the column just past the end of the row
(`c = |R[r]|`) the guard `a.Cell.Column > len(records[a.Cell.Row])` lets the call
through; `RemoveCellLeft` then succeeds and drops the last cell of the row, and
`ReplaceCell` panics with an index out of range.  For a larger column both return
an error. -/
theorem C8_column_past_end :
    ProcessorRemoveCellLeft.Execute { Cell := ⟨0, 2⟩ } [["a", "b"]] = .ok [["a"]] ∧
    ProcessorReplaceCell.Execute { Cell := ⟨0, 2⟩, Value := "x" } [["a", "b"]] =
      .error .panic ∧
    ProcessorRemoveCellLeft.Execute { Cell := ⟨0, 3⟩ } [["a", "b"]] =
      .error (.error .cellColumnBeyondRow) ∧
    ProcessorReplaceCell.Execute { Cell := ⟨0, 3⟩, Value := "x" } [["a", "b"]] =
      .error (.error .cellColumnBeyondRow) := by
  decide

/-- C9 fails on the code: for a start row equal to the number of rows the guard
`start row > len(records)` lets the call through; `MergeRows`, `ReplaceCell`,
`TransposeRow` and `RemoveCellLeft` then panic with an index out of range, while
`MergeColumns` and `FillRight` succeed without changing anything. -/
theorem C9_start_row_at_length :
    ProcessorMergeRows.Execute { StartRow := 1, EndRow := -1 } [["a"]] = .error .panic ∧
    ProcessorReplaceCell.Execute { Cell := ⟨1, 0⟩, Value := "x" } [["a"]] = .error .panic ∧
    ProcessorTransposeRow.Execute { StartRow := 1, EndRow := -1 } [["a"]] = .error .panic ∧
    ProcessorRemoveCellLeft.Execute { Cell := ⟨1, 0⟩ } [["a"]] = .error .panic ∧
    ProcessorMergeColumns.Execute { Start := ⟨1, 0⟩, End := ⟨-1, -1⟩ } [["a"]] =
      .ok [["a"]] ∧
    ProcessorFillRight.Execute { Start := ⟨1, 0⟩, End := ⟨-1, -1⟩ } [["a"]] =
      .ok [["a"]] := by
  decide

/-- C10 fails on the code: with the negative end-column sentinel the start column
is never compared with the row's length; on a band row shorter than
`start.column`, `MergeColumns` panics with slice bounds out of range and `FillRight`
succeeds leaving the row as it was.  With a concrete end column both return an
error. -/
theorem C10_start_column_past_row :
    ProcessorMergeColumns.Execute { Start := ⟨0, 2⟩, End := ⟨-1, -1⟩ } [["a"]] =
      .error .panic ∧
    ProcessorFillRight.Execute { Start := ⟨0, 2⟩, End := ⟨-1, -1⟩ } [["a"]] = .ok [["a"]] ∧
    ProcessorMergeColumns.Execute { Start := ⟨0, 2⟩, End := ⟨-1, 2⟩ } [["a"]] =
      .error (.error (.endColumnBeyondRow 0)) ∧
    ProcessorFillRight.Execute { Start := ⟨0, 2⟩, End := ⟨-1, 2⟩ } [["a"]] =
      .error (.error (.endColumnBeyondRow 0)) := by
  decide

/-- C11 fails on the code: when a band row differs in length from the first band
row, `TransposeRow` builds its error text from `len(new[a.StartRow])`; with an
empty first band row and no row after the band `new` has only `StartRow` slots
and the call panics with an index out of range instead of returning the error.
`MergeRows` returns the error on the same input, and so does `TransposeRow` when
the first band row is not empty.  An empty row is what `RemoveCellLeft` leaves
of a row of one cell. -/
theorem C11_transpose_mismatch_panics :
    ProcessorTransposeRow.Execute { StartRow := 0, EndRow := -1 } [[], ["a"]] =
      .error .panic ∧
    ProcessorMergeRows.Execute { StartRow := 0, EndRow := -1 } [[], ["a"]] =
      .error (.error (.rowLengthMismatch 1)) ∧
    ProcessorTransposeRow.Execute { StartRow := 0, EndRow := -1 } [["b"], []] =
      .error (.error (.rowLengthMismatch 1)) ∧
    ProcessorRemoveCellLeft.Execute { Cell := ⟨0, 0⟩ } [["x"], ["a"]] = .ok [[], ["a"]] := by
  decide

/-- C12: for a table in the row-oriented mode with an in-band header, start cell
`(sr, s)`, at least one column, resolved end column `e = s + w - 1` and resolved
end row `E = sr + m`, on records in which the header row covers the columns of
the range, every data cell exists, a column type exists for every column when
the types are not automatic, the name resolves and every coercion succeeds,
`Parse` returns exactly `m = E - sr` mappings in record order.  The `k`-th is
built from record row `sr + 1 + k` by storing, for `j = 0 .. w - 1` in column
order, `Read(type_j, cell text)` under `header_j`, under `header_j` followed by
`_` and the type name of the value for a `Split` column, and nothing for a null
value when `SkipBlankData` is set: under a key that only column `j` produces it
holds the value of column `j`, and it holds nothing under a key that no column
produces.  The data rows are rows of the record array, so the list `Parse`
allocates is shorter than the record array. -/
theorem C12_row_oriented_parse (std : StdLib) (t : TableLocation) (R : Records)
    (keepSpaces : Bool) (sr s w m : Nat) (headerRow : List String)
    (hw : 0 < w)
    (harray : t.ParseAsArray = false) (hsingle : t.ParseSingleRow = false)
    (hheader : t.TableHasHeader = true)
    (hstart : t.StartCell = ⟨(sr : Int), (s : Int)⟩)
    (hcols : t.resolvedEndColumn R + 1 = (s : Int) + (w : Int))
    (hrows : t.resolvedEndRow R = (sr : Int) + (m : Int))
    (hname : t.Name = "" → ∃ v, findValue t.NameLocation R = .ok v)
    (hhead : R[sr]? = some headerRow) (hwidth : s + w ≤ headerRow.length)
    (hcells : ∀ k < m, ∀ j < w, ∃ row, R[sr + 1 + k]? = some row ∧ s + j < row.length)
    (htypes : t.AutoColumnDataTypes = false → w ≤ t.ColumnDataTypes.length)
    (hread : ∀ k < m, ∀ j < w,
      ∃ v, (t.columnType j).Read std (cellText R (sr + 1 + k) (s + j)) = .ok v) :
    (t.Parse std R keepSpaces).data =
        .ok (.rows ((List.range m).map (t.rowMapping std R keepSpaces w))) ∧
      ((List.range m).map (t.rowMapping std R keepSpaces w)).length = m ∧
      (∀ k j, j < w →
        (∀ i < w, i ≠ j →
          t.entryKey std R keepSpaces k i ≠ t.entryKey std R keepSpaces k j) →
        mapGet (t.rowMapping std R keepSpaces w k) (t.entryKey std R keepSpaces k j) =
          if t.cellValue std R k j = .null ∧ t.SkipBlankData then none
          else some (t.cellValue std R k j)) ∧
      (∀ k key, (∀ j < w, t.entryKey std R keepSpaces k j ≠ key) →
        mapGet (t.rowMapping std R keepSpaces w k) key = none) ∧
      sr + 1 + m ≤ R.length := by
  have hbound : sr + 1 + m ≤ R.length := by
    cases m with
    | zero =>
      have := (List.getElem?_eq_some.1 hhead).1
      omega
    | succ n =>
      obtain ⟨row, hrow, -⟩ := hcells n (by omega) 0 hw
      have := (List.getElem?_eq_some.1 hrow).1
      omega
  refine ⟨?_, by simp, fun k j hj hd => mapGet_rowMapping std t R keepSpaces k j w hj hd,
    fun k key h => mapGet_rowMapping_none std t R keepSpaces k key w h, hbound⟩
  obtain ⟨h, hh, hdims, hheaders, hrec⟩ := parseTableHeader_inband keepSpaces
    hheader hstart (by rw [hcols]; push_cast; rfl) (by rw [hrows]; push_cast; rfl)
    hname hhead hwidth
  rw [parse_of_header_ok hh]
  unfold tableDataOf
  simp only [harray, hsingle, Bool.false_eq_true, if_false]
  rw [parseTableData_total hstart hdims hheaders (fun k _ => hrec _ (by omega)) hcells htypes
    hread]
  rfl

/-- C12, at a table of two columns and two data rows that starts at column 1,
with a `Split` column and a blank cell. -/
theorem C12_row_oriented_parse_witness :
    (TableLocation.Parse rejectingLib
      { Name := "t", StartCell := ⟨0, 1⟩, EndCell := ⟨-1, -1⟩, TableHasHeader := true,
        ColumnDataTypes := [DataTypeString, DataTypeSplit], SkipBlankData := true }
      [["x", "a b", "c"], ["0", "1", ""], ["3", "4", "true"]] false).data =
      .ok (.rows [[("a_b", .string "1")],
                  [("a_b", .string "4"), ("c_bool", .bool true)]]) :=
  (C12_row_oriented_parse rejectingLib
    { Name := "t", StartCell := ⟨0, 1⟩, EndCell := ⟨-1, -1⟩, TableHasHeader := true,
      ColumnDataTypes := [DataTypeString, DataTypeSplit], SkipBlankData := true }
    [["x", "a b", "c"], ["0", "1", ""], ["3", "4", "true"]] false 0 1 2 2 ["x", "a b", "c"]
    (by decide)
    rfl rfl rfl rfl rfl rfl (fun h => absurd h (by decide)) rfl (by decide)
    (by
      intro k hk j hj
      interval_cases k <;> interval_cases j <;> exact ⟨_, rfl, by decide⟩)
    (fun _ => by decide)
    (by
      intro k hk j hj
      interval_cases k <;> interval_cases j <;> exact ⟨_, rfl⟩)).1

/-- C13 fails on the code: `parseTableDataArray` reads `headers[column]` with the
absolute column although `headers` starts at the start column; for a table with
an in-band header that starts at column 1 the call panics with an index out of
range, where the row-oriented parse of the same range (which uses the position
`n` within the range) returns the two columns under `h1` and `h2`.  With the
supplied header names `a`, `b`, `c` the columns 1 and 2 are stored under `b` and
`c`. -/
theorem C13_array_mode_start_column (std : StdLib) :
    (TableLocation.Parse std
      { Name := "t", StartCell := ⟨0, 1⟩, EndCell := ⟨1, 2⟩, TableHasHeader := true,
        ParseAsArray := true,
        ColumnDataTypes := [DataTypeString, DataTypeString, DataTypeString] }
      [["x", "h1", "h2"], ["0", "1", "2"]] true).data = .error .panic ∧
    (TableLocation.Parse std
      { Name := "t", StartCell := ⟨0, 1⟩, EndCell := ⟨1, 2⟩, TableHasHeader := true,
        ColumnDataTypes := [DataTypeString, DataTypeString, DataTypeString] }
      [["x", "h1", "h2"], ["0", "1", "2"]] true).data =
      .ok (.rows [[("h1", .string "1"), ("h2", .string "2")]]) ∧
    (TableLocation.Parse std
      { Name := "t", StartCell := ⟨0, 1⟩, EndCell := ⟨1, 2⟩,
        HeaderNames := ["a", "b", "c"], ParseAsArray := true,
        ColumnDataTypes := [DataTypeString, DataTypeString, DataTypeString] }
      [["0", "1", "2"], ["3", "4", "5"]] true).data =
      .ok (.columns [("b", [.string "1", .string "4"]), ("c", [.string "2", .string "5"])]) :=
  ⟨rfl, rfl, rfl⟩

/-- C14 fails on the code: `parseTableSingleRow` reads `headers[column]` and
`ColumnDataTypes[column]` with the absolute column and never appends the type
name for a `Split` column.  For a table that starts at column 1 the row-oriented
parse succeeds with one data row while the single-row parse panics; for a
`Split` column at column 0 the row-oriented key is `h_<nil>` and the single-row
key is `h`. -/
theorem C14_single_row_differs (std : StdLib) :
    (TableLocation.Parse std
      { Name := "t", StartCell := ⟨0, 1⟩, EndCell := ⟨1, 2⟩, TableHasHeader := true,
        ColumnDataTypes := [DataTypeString, DataTypeString, DataTypeString] }
      [["x", "h1", "h2"], ["0", "1", "2"]] true).data =
      .ok (.rows [[("h1", .string "1"), ("h2", .string "2")]]) ∧
    (TableLocation.Parse std
      { Name := "t", StartCell := ⟨0, 1⟩, EndCell := ⟨1, 2⟩, TableHasHeader := true,
        ParseSingleRow := true,
        ColumnDataTypes := [DataTypeString, DataTypeString, DataTypeString] }
      [["x", "h1", "h2"], ["0", "1", "2"]] true).data = .error .panic ∧
    (TableLocation.Parse std
      { Name := "t", StartCell := ⟨0, 0⟩, EndCell := ⟨-1, -1⟩, TableHasHeader := true,
        ColumnDataTypes := [DataTypeSplit] }
      [["h"], [""]] true).data = .ok (.rows [[("h_<nil>", .null)]]) ∧
    (TableLocation.Parse std
      { Name := "t", StartCell := ⟨0, 0⟩, EndCell := ⟨-1, -1⟩, TableHasHeader := true,
        ParseSingleRow := true, ColumnDataTypes := [DataTypeSplit] }
      [["h"], [""]] true).data = .ok (.single [("h", .null)]) :=
  ⟨rfl, rfl, rfl, rfl⟩

/-- C15 fails on the code, which does not do what the comment of the field
`SkipBlankData` says (skips returning data for a cell if the cell is blank): the
test is on the coerced value, `data == nil`, not on the text of the cell.  With
`SkipBlankData` set, a blank cell of a `String` column is returned as the empty
string and a blank cell of an `Int64` column makes `Parse` fail; a blank cell
of a `Bool` column is skipped. -/
theorem C15_blank_cell_not_skipped (std : StdLib) :
    (TableLocation.Parse std
      { Name := "t", StartCell := ⟨0, 0⟩, EndCell := ⟨-1, -1⟩, TableHasHeader := true,
        SkipBlankData := true, ColumnDataTypes := [DataTypeString] }
      [["h"], [""]] true).data = .ok (.rows [[("h", .string "")]]) ∧
    (TableLocation.Parse std
      { Name := "t", StartCell := ⟨0, 0⟩, EndCell := ⟨-1, -1⟩, TableHasHeader := true,
        SkipBlankData := true, ColumnDataTypes := [DataTypeInt64] }
      [["h"], [""]] true).data =
      .error (.error (.wrapped "error parsing table %s: %w"
        (.wrapped "error parsing data for cell (%d, %d) with header (%v): %w"
          (.parseInt "")))) ∧
    (TableLocation.Parse std
      { Name := "t", StartCell := ⟨0, 0⟩, EndCell := ⟨-1, -1⟩, TableHasHeader := true,
        SkipBlankData := true, ColumnDataTypes := [DataTypeBool] }
      [["h"], [""]] true).data = .ok (.rows [[]]) :=
  ⟨rfl, rfl, rfl⟩

/-- C16 fails on the code: with an in-band header and `keepSpaces` false the
renaming loop of `parseTableHeader` assigns to `headers[n]`, a slice of the
header row of `records`; after `Parse` has returned, the header cell `a b` of
the record array reads `a_b`. -/
theorem C16_header_cells_rewritten (std : StdLib) :
    (TableLocation.Parse std
      { Name := "t", StartCell := ⟨0, 0⟩, EndCell := ⟨-1, -1⟩, TableHasHeader := true,
        ColumnDataTypes := [DataTypeString, DataTypeString] }
      [["a b", "c"], ["1", "2"]] false).data =
      .ok (.rows [[("a_b", .string "1"), ("c", .string "2")]]) ∧
    (TableLocation.Parse std
      { Name := "t", StartCell := ⟨0, 0⟩, EndCell := ⟨-1, -1⟩, TableHasHeader := true,
        ColumnDataTypes := [DataTypeString, DataTypeString] }
      [["a b", "c"], ["1", "2"]] false).records = [["a_b", "c"], ["1", "2"]] :=
  ⟨rfl, rfl⟩

/-- C17: for every `TableLocation`, record array and `keepSpaces` flag, a second
`Parse` on what the first call left behind (the record array, whose header row
the first call may have renamed, and the table with the `HeaderNames` the first
call may have renamed) returns the same table name, the same data or the same
failure, and leaves the same records and header names. -/
theorem C17_parse_twice (std : StdLib) (t : TableLocation) (records : Records)
    (keepSpaces : Bool) :
    TableLocation.Parse std
        { t with HeaderNames := (t.Parse std records keepSpaces).headerNames }
        (t.Parse std records keepSpaces).records keepSpaces =
      t.Parse std records keepSpaces := by
  cases hh : t.parseTableHeader records keepSpaces with
  | error f =>
    rw [parse_of_header_error hh]
    exact parse_of_header_error hh
  | ok h =>
    rw [parse_of_header_ok hh]
    dsimp only
    rw [parse_of_header_ok (parseTableHeader_idem hh), tableDataOf_headerNames]

/-- C18 fails on the code where an extractor that runs before the check panics.
The configuration holds the separated table `b` in array mode, so the claim
asks for an error.  Its other table `a`, in array mode and not separated, is
read first and indexes `records[1][1]` on the ragged records below:
`ParseRecords` panics.  With `a` in the row-oriented mode, which reads the cell
through `findValue`, and without `a`, `ParseRecords` returns an error. -/
theorem C18_panic_before_check (std : StdLib) :
    Csv.ParseRecords std
      { TableLocations :=
          [{ Name := "a", StartCell := ⟨0, 0⟩, EndCell := ⟨-1, -1⟩, TableHasHeader := true,
             ParseAsArray := true, ColumnDataTypes := [DataTypeString, DataTypeString] },
           { Name := "b", StartCell := ⟨0, 0⟩, EndCell := ⟨-1, -1⟩, TableHasHeader := true,
             ParseAsArray := true, ParseSeparated := true,
             ColumnDataTypes := [DataTypeString, DataTypeString] }] }
      [["h1", "h2"], ["1"]] = .error .panic ∧
    Csv.ParseRecords std
      { TableLocations :=
          [{ Name := "a", StartCell := ⟨0, 0⟩, EndCell := ⟨-1, -1⟩, TableHasHeader := true,
             ColumnDataTypes := [DataTypeString, DataTypeString] },
           { Name := "b", StartCell := ⟨0, 0⟩, EndCell := ⟨-1, -1⟩, TableHasHeader := true,
             ParseAsArray := true, ParseSeparated := true,
             ColumnDataTypes := [DataTypeString, DataTypeString] }] }
      [["h1", "h2"], ["1"]] =
      .error (.error (.wrapped "error parsing table (%s): %w"
        (.wrapped "error parsing table %s: %w"
          (.wrapped "error finding value for cell (%d, %d) with header (%v): %w"
            (.columnOutOfBounds 1 1))))) ∧
    Csv.ParseRecords std
      { TableLocations :=
          [{ Name := "b", StartCell := ⟨0, 0⟩, EndCell := ⟨-1, -1⟩, TableHasHeader := true,
             ParseAsArray := true, ParseSeparated := true,
             ColumnDataTypes := [DataTypeString, DataTypeString] }] }
      [["h1", "h2"], ["1"]] = .error (.error (.invalidOptions "b")) :=
  ⟨rfl, rfl, rfl⟩

/-- C19 fails where `ParseRecords` stops before the documents are built.  Under
`FaultOnDuplicate`: the separated table `t` uses `IgnoreNesting` and its `Parse`
yields one row, but its name is also the key of a cell, so `ParseRecords`
returns the duplicate error.  When a scalar extractor fails: the cell at row 5
does not exist, so `ParseRecords` returns its error. -/
theorem C19_counterexample :
    (∀ std : StdLib, (TableLocation.Parse std
      { Name := "t", StartCell := ⟨1, 0⟩, EndCell := ⟨-1, -1⟩, TableHasHeader := true,
        ParseSeparated := true, IgnoreNesting := true, ColumnDataTypes := [DataTypeString] }
      [["v"], ["h"], ["x"]] false).data = .ok (.rows [[("h", .string "x")]])) ∧
    (∀ std : StdLib, Csv.ParseRecords std
      { CellLocations := [{ Location := ⟨0, 0⟩, DataType := DataTypeString, Name := "t" }],
        TableLocations :=
          [{ Name := "t", StartCell := ⟨1, 0⟩, EndCell := ⟨-1, -1⟩, TableHasHeader := true,
             ParseSeparated := true, IgnoreNesting := true,
             ColumnDataTypes := [DataTypeString] }],
        FaultOnDuplicate := true }
      [["v"], ["h"], ["x"]] = .error (.error (.duplicateTable "t"))) ∧
    (∀ std : StdLib, Csv.ParseRecords std
      { CellLocations := [{ Location := ⟨5, 0⟩, DataType := DataTypeString, Name := "c" }],
        TableLocations :=
          [{ Name := "t", StartCell := ⟨1, 0⟩, EndCell := ⟨-1, -1⟩, TableHasHeader := true,
             ParseSeparated := true, IgnoreNesting := true,
             ColumnDataTypes := [DataTypeString] }] }
      [["v"], ["h"], ["x"]] =
      .error (.error (.wrapped "error finding value for cell: %w" (.rowOutOfBounds 3 5)))) :=
  ⟨fun _ => rfl, fun _ => rfl, fun _ => rfl⟩

/-- C19, amended by what the code also requires: for every configuration with
exactly one `ParseSeparated` table, which uses `IgnoreNesting`, whose scalar
part extracts (giving `baseData`), whose `Parse`, as `ParseRecords` calls it,
yields the rows `R_0 .. R_{n-1}` with `n >= 1`, and whose resolved name is not
a key of `baseData` when `FaultOnDuplicate` is set,
`ParseRecords` returns a list of exactly `n` documents in row order; document
`i` holds every field of `R_i` and, under every other key, what `baseData`
holds, and nothing else. -/
theorem C19_separated_ignore_nesting (std : StdLib) (c : Csv) (records : Records)
    (t : TableLocation) (baseData : Doc) (records' : Records)
    (rows : List (List (String × Value)))
    (hbase : c.parseBase std records = .ok (baseData, records'))
    (hone : c.TableLocations.filter (fun x => x.ParseSeparated) = [t])
    (hnest : t.IgnoreNesting = true)
    (hrows : (t.Parse std records' c.KeepSpaces).data = .ok (.rows rows))
    (hn : rows ≠ [])
    (hdup : c.FaultOnDuplicate = true →
      mapGet baseData (t.Parse std records' c.KeepSpaces).name = none) :
    ∃ docs, c.ParseRecords std records = .ok (.documents docs) ∧
      docs.length = rows.length ∧
      ∀ (i : Nat) row, rows[i]? = some row → ∃ doc, docs[i]? = some doc ∧
        ∀ k, mapGet doc k =
          match mapGet row k with
          | some v => some (.scalar v)
          | none => mapGet baseData k := by
  obtain ⟨harr, hsingle, -⟩ := parse_rows_inv hrows
  have hsep : t.ParseSeparated = true := by
    have : t ∈ c.TableLocations.filter (fun x => x.ParseSeparated) := by
      rw [hone]; exact List.mem_singleton.2 rfl
    exact (List.mem_filter.1 this).2
  have hskip : ∀ (s : List Doc × Records) (x : TableLocation),
      (fun x : TableLocation => x.ParseSeparated) x = false →
      separatedStep std c baseData s x = .ok s :=
    fun s x hx => separatedStep_skip std c baseData s x hx
  obtain ⟨rest, hrest, hfilter⟩ := foldlM_skip_until (separatedStep std c baseData)
    (fun x => x.ParseSeparated) hskip c.TableLocations t (([] : List Doc), records')
    (by rw [hone]; rfl)
  rw [hone] at hfilter
  have hstep : separatedStep std c baseData (([] : List Doc), records') t =
      .ok (rows.map (rowInstance t baseData), (t.Parse std records' c.KeepSpaces).records) := by
    unfold separatedStep
    have hd : ¬ (c.FaultOnDuplicate = true ∧
        (mapGet baseData (t.Parse std records' c.KeepSpaces).name).isSome = true) := by
      rintro ⟨h1, h2⟩
      rw [hdup h1] at h2
      cases h2
    simp only [hsep, harr, hsingle, hrows, wrapErr_ok, not_true_eq_false, if_false,
      Bool.false_eq_true, or_self, hd, List.nil_append]
    rfl
  refine ⟨rows.map (rowInstance t baseData), ?_, by simp, ?_⟩
  · unfold Csv.ParseRecords
    simp only [hbase, bind, Except.bind] at hrest ⊢
    rw [hrest, hstep]
    simp only [foldlM_skip_all (separatedStep std c baseData) (fun x => x.ParseSeparated)
      hskip rest _ hfilter]
    have hlen : ¬ goLen (rows.map (rowInstance t baseData)) = 0 := by
      cases rows with
      | nil => exact absurd rfl hn
      | cons r rs => simp only [goLen, List.map_cons, List.length_cons]; omega
    rw [if_neg hlen]
    rfl
  · intro i row hi
    refine ⟨rowInstance t baseData row, by simp [hi], ?_⟩
    intro k
    have hmem : row ∈ rows := List.mem_iff_getElem?.2 ⟨i, hi⟩
    unfold rowInstance
    rw [if_pos hnest]
    exact mapGet_foldl_mapSet row baseData k (parse_rows_nodup hrows row hmem)

/-- C19 amended, at one cell and a separated table of two data rows. -/
theorem C19_separated_ignore_nesting_witness :
    ∃ docs, Csv.ParseRecords rejectingLib
      { CellLocations := [{ Location := ⟨0, 0⟩, DataType := DataTypeString, Name := "c" }],
        TableLocations :=
          [{ Name := "t", StartCell := ⟨1, 0⟩, EndCell := ⟨-1, -1⟩, TableHasHeader := true,
             ParseSeparated := true, IgnoreNesting := true,
             ColumnDataTypes := [DataTypeString] }] }
      [["v"], ["h"], ["x"], ["y"]] = .ok (.documents docs) ∧
      docs.length = [[("h", Value.string "x")], [("h", Value.string "y")]].length ∧
      ∀ (i : Nat) row, [[("h", Value.string "x")], [("h", Value.string "y")]][i]? = some row →
        ∃ doc, docs[i]? = some doc ∧
        ∀ k, mapGet doc k =
          match mapGet row k with
          | some v => some (.scalar v)
          | none => mapGet [("c", DocValue.scalar (.string "v"))] k :=
  C19_separated_ignore_nesting rejectingLib
    { CellLocations := [{ Location := ⟨0, 0⟩, DataType := DataTypeString, Name := "c" }],
      TableLocations :=
        [{ Name := "t", StartCell := ⟨1, 0⟩, EndCell := ⟨-1, -1⟩, TableHasHeader := true,
           ParseSeparated := true, IgnoreNesting := true,
           ColumnDataTypes := [DataTypeString] }] }
    [["v"], ["h"], ["x"], ["y"]]
    { Name := "t", StartCell := ⟨1, 0⟩, EndCell := ⟨-1, -1⟩, TableHasHeader := true,
      ParseSeparated := true, IgnoreNesting := true, ColumnDataTypes := [DataTypeString] }
    [("c", DocValue.scalar (.string "v"))] [["v"], ["h"], ["x"], ["y"]]
    [[("h", Value.string "x")], [("h", Value.string "y")]]
    rfl rfl rfl rfl (by simp) (fun h => by cases h)

/-- C20 fails on the code: the nested branch of `ParseRecords` stores the row
under `tableLocation.Name`, the literal name, not under the `tableName` that
`Parse` resolved.  For a separated table named through `NameLocation` every
document holds its row under the empty key, where the same table, not
separated, is stored under the resolved name `orders`. -/
theorem C20_nested_key_is_literal_name (std : StdLib) :
    Csv.ParseRecords std
      { TableLocations :=
          [{ NameLocation := ⟨0, 0⟩, StartCell := ⟨1, 0⟩, EndCell := ⟨-1, -1⟩,
             TableHasHeader := true, ParseSeparated := true,
             ColumnDataTypes := [DataTypeString] }] }
      [["orders"], ["h"], ["x"], ["y"]] =
      .ok (.documents [[("", .table (.single [("h", .string "x")]))],
                       [("", .table (.single [("h", .string "y")]))]]) ∧
    Csv.ParseRecords std
      { TableLocations :=
          [{ NameLocation := ⟨0, 0⟩, StartCell := ⟨1, 0⟩, EndCell := ⟨-1, -1⟩,
             TableHasHeader := true, ColumnDataTypes := [DataTypeString] }] }
      [["orders"], ["h"], ["x"], ["y"]] =
      .ok (.document [("orders", .table (.rows [[("h", .string "x")], [("h", .string "y")]]))]) :=
  ⟨rfl, rfl⟩

/-- C21 fails on the code: `csvData` is appended to for every row of every
separated table.  With a first separated table of one data row and a last one
of two data rows, `ParseRecords` returns three documents, not two. -/
theorem C21_counterexample :
    (∀ std : StdLib, (TableLocation.Parse std
      { Name := "b", StartCell := ⟨0, 0⟩, EndCell := ⟨-1, -1⟩, TableHasHeader := true,
        ParseSeparated := true, IgnoreNesting := true, ColumnDataTypes := [DataTypeString] }
      [["h"], ["x"], ["y"]] false).data =
      .ok (.rows [[("h", .string "x")], [("h", .string "y")]])) ∧
    (∀ std : StdLib, Csv.ParseRecords std
      { TableLocations :=
          [{ Name := "a", StartCell := ⟨0, 0⟩, EndCell := ⟨1, 0⟩, TableHasHeader := true,
             ParseSeparated := true, IgnoreNesting := true,
             ColumnDataTypes := [DataTypeString] },
           { Name := "b", StartCell := ⟨0, 0⟩, EndCell := ⟨-1, -1⟩, TableHasHeader := true,
             ParseSeparated := true, IgnoreNesting := true,
             ColumnDataTypes := [DataTypeString] }] }
      [["h"], ["x"], ["y"]] =
      .ok (.documents [[("h", .scalar (.string "x"))], [("h", .scalar (.string "x"))],
        [("h", .scalar (.string "y"))]])) :=
  ⟨fun _ => rfl, fun _ => rfl⟩

/-- C21, amended to what the code does: when `ParseRecords` succeeds, the number
of documents it returns is the total number of data rows of all the separated
tables of the configuration, each table being parsed on the records its
predecessors left; when that total is zero it returns the single scalar
document. -/
theorem C21_documents_count (std : StdLib) (c : Csv) (records : Records) (out : Output)
    (hout : c.ParseRecords std records = .ok out) :
    ∃ baseData records', c.parseBase std records = .ok (baseData, records') ∧
      ((separatedRowCounts std c.KeepSpaces c.TableLocations records').sum = 0 →
        out = .document baseData) ∧
      (0 < (separatedRowCounts std c.KeepSpaces c.TableLocations records').sum →
        ∃ docs, out = .documents docs ∧
          docs.length = (separatedRowCounts std c.KeepSpaces c.TableLocations records').sum) := by
  unfold Csv.ParseRecords at hout
  rw [bind_eq_ok] at hout
  obtain ⟨base, hbase, hout⟩ := hout
  rw [bind_eq_ok] at hout
  obtain ⟨st, hfold, hout⟩ := hout
  have hlen := separatedFold_length std c base.1 c.TableLocations _ st hfold
  simp only [List.length_nil, Nat.zero_add] at hlen
  refine ⟨base.1, base.2, hbase, ?_, ?_⟩
  · intro h0
    rw [h0] at hlen
    have : goLen st.1 = 0 := by simp [goLen, hlen]
    rw [if_pos this] at hout
    cases hout
    rfl
  · intro hpos
    have : ¬ goLen st.1 = 0 := by simp only [goLen]; omega
    rw [if_neg this] at hout
    cases hout
    exact ⟨st.1, rfl, hlen⟩

/-- C21 amended, at two separated tables of one and of two data rows. -/
theorem C21_documents_count_witness :
    ∃ baseData records', Csv.parseBase rejectingLib
      { TableLocations :=
          [{ Name := "a", StartCell := ⟨0, 0⟩, EndCell := ⟨1, 0⟩, TableHasHeader := true,
             ParseSeparated := true, IgnoreNesting := true,
             ColumnDataTypes := [DataTypeString] },
           { Name := "b", StartCell := ⟨0, 0⟩, EndCell := ⟨-1, -1⟩, TableHasHeader := true,
             ParseSeparated := true, IgnoreNesting := true,
             ColumnDataTypes := [DataTypeString] }] }
      [["h"], ["x"], ["y"]] = .ok (baseData, records') ∧
      ((separatedRowCounts rejectingLib false
          [{ Name := "a", StartCell := ⟨0, 0⟩, EndCell := ⟨1, 0⟩, TableHasHeader := true,
             ParseSeparated := true, IgnoreNesting := true,
             ColumnDataTypes := [DataTypeString] },
           { Name := "b", StartCell := ⟨0, 0⟩, EndCell := ⟨-1, -1⟩, TableHasHeader := true,
             ParseSeparated := true, IgnoreNesting := true,
             ColumnDataTypes := [DataTypeString] }] records').sum = 0 →
        Output.documents [[("h", .scalar (.string "x"))], [("h", .scalar (.string "x"))],
          [("h", .scalar (.string "y"))]] = .document baseData) ∧
      (0 < (separatedRowCounts rejectingLib false
          [{ Name := "a", StartCell := ⟨0, 0⟩, EndCell := ⟨1, 0⟩, TableHasHeader := true,
             ParseSeparated := true, IgnoreNesting := true,
             ColumnDataTypes := [DataTypeString] },
           { Name := "b", StartCell := ⟨0, 0⟩, EndCell := ⟨-1, -1⟩, TableHasHeader := true,
             ParseSeparated := true, IgnoreNesting := true,
             ColumnDataTypes := [DataTypeString] }] records').sum →
        ∃ docs, Output.documents [[("h", .scalar (.string "x"))],
          [("h", .scalar (.string "x"))], [("h", .scalar (.string "y"))]] = .documents docs ∧
          docs.length = (separatedRowCounts rejectingLib false
          [{ Name := "a", StartCell := ⟨0, 0⟩, EndCell := ⟨1, 0⟩, TableHasHeader := true,
             ParseSeparated := true, IgnoreNesting := true,
             ColumnDataTypes := [DataTypeString] },
           { Name := "b", StartCell := ⟨0, 0⟩, EndCell := ⟨-1, -1⟩, TableHasHeader := true,
             ParseSeparated := true, IgnoreNesting := true,
             ColumnDataTypes := [DataTypeString] }] records').sum) :=
  C21_documents_count rejectingLib
    { TableLocations :=
        [{ Name := "a", StartCell := ⟨0, 0⟩, EndCell := ⟨1, 0⟩, TableHasHeader := true,
           ParseSeparated := true, IgnoreNesting := true,
           ColumnDataTypes := [DataTypeString] },
         { Name := "b", StartCell := ⟨0, 0⟩, EndCell := ⟨-1, -1⟩, TableHasHeader := true,
           ParseSeparated := true, IgnoreNesting := true,
           ColumnDataTypes := [DataTypeString] }] }
    [["h"], ["x"], ["y"]]
    (.documents [[("h", .scalar (.string "x"))], [("h", .scalar (.string "x"))],
      [("h", .scalar (.string "y"))]]) rfl

/-- C22 fails on the code: the loop that copies the fields of a row of an
`IgnoreNesting` separated table into the document has no `FaultOnDuplicate`
test.  With `FaultOnDuplicate` set, the cell `h` and the column `h` of the
separated table meet under the key `h`; `ParseRecords` returns the documents,
in which the value of the cell is overwritten.  Two cells of the same name do
make it fail. -/
theorem C22_row_field_overwrites_scalar (std : StdLib) :
    Csv.ParseRecords std
      { CellLocations := [{ Location := ⟨0, 0⟩, DataType := DataTypeString, Name := "h" }],
        TableLocations :=
          [{ Name := "t", StartCell := ⟨1, 0⟩, EndCell := ⟨-1, -1⟩, TableHasHeader := true,
             ParseSeparated := true, IgnoreNesting := true,
             ColumnDataTypes := [DataTypeString] }],
        FaultOnDuplicate := true }
      [["v"], ["h"], ["x"]] = .ok (.documents [[("h", .scalar (.string "x"))]]) ∧
    Csv.ParseRecords std
      { CellLocations := [{ Location := ⟨0, 0⟩, DataType := DataTypeString, Name := "h" },
                          { Location := ⟨2, 0⟩, DataType := DataTypeString, Name := "h" }],
        FaultOnDuplicate := true }
      [["v"], ["h"], ["x"]] = .error (.error (.duplicateCell "h")) :=
  ⟨rfl, rfl⟩

/-- C23 fails on the code: the loop over the time fields starts with
`if !timeField.IsBlank() { continue }`, the test inverted.  A time field with a
layout and a cell is skipped and the document has no time stamp; a blank time
field is parsed, and `ParseRecords` fails when the library rejects the empty
text for the empty layout and stores the formatted time under the name of the
field otherwise. -/
theorem C23_time_fields_inverted (std : StdLib) :
    Csv.ParseRecords std
      { TimeFields := [{ Cells := [⟨0, 0⟩], Layout := "2006", Name := "@timestamp" }] }
      [["2024"]] = .ok (.document []) ∧
    (std.ParseInLocation "" "" = none →
      Csv.ParseRecords std { TimeFields := [{ Cells := [], Layout := "", Name := "@timestamp" }] }
        [["2024"]] =
        .error (.error (.wrapped
          "error converting value (%s) to the specified layout (%s): %w"
          (.parseTime "" "")))) ∧
    (∀ tm, std.ParseInLocation "" "" = some tm →
      Csv.ParseRecords std { TimeFields := [{ Cells := [], Layout := "", Name := "@timestamp" }] }
        [["2024"]] =
        .ok (.document [("@timestamp", .scalar (.string (std.FormatRFC3339 tm)))])) := by
  have hparse : TimeField.Parse std { Cells := [], Layout := "", Name := "@timestamp" }
      [["2024"]] =
      match std.ParseInLocation "" "" with
      | none =>
        .error (.error (.wrapped
          "error converting value (%s) to the specified layout (%s): %w"
          (.parseTime "" "")))
      | some timestamp => .ok timestamp := rfl
  have hblank : TimeField.IsBlank { Cells := [], Layout := "", Name := "@timestamp" } = true :=
    rfl
  refine ⟨rfl, ?_, ?_⟩
  · intro h
    simp only [Csv.ParseRecords, Csv.parseBase, List.foldlM_cons, List.foldlM_nil,
      timeFieldStep, hblank, hparse, h, bind, Except.bind, pure, Except.pure, not_true_eq_false,
      if_false]
  · intro tm h
    simp only [Csv.ParseRecords, Csv.parseBase, List.foldlM_cons, List.foldlM_nil,
      timeFieldStep, hblank, hparse, h, bind, Except.bind, pure, Except.pure, not_true_eq_false,
      if_false]
    rfl

/-- C24 fails on the code: `readAuto` calls `readNumber(value, true)`, and with
`defaultToFloat` set `readNumber` does not try `strconv.ParseInt`.  The text `1`
is a decimal integer literal, but `Read(Auto, "1")` is never an `Int64`. -/
theorem C24_counterexample :
    ParseInt "1" = some 1 ∧
    (∀ std : StdLib, ∀ n, DataType.Read std DataTypeAuto "1" ≠ .ok (.int64 n)) ∧
    (∀ std : StdLib, ∀ f, std.ParseFloat "1" = some f →
      DataType.Read std DataTypeAuto "1" = .ok (.float64 f)) := by
  refine ⟨by decide, ?_, ?_⟩
  · intro std n
    show Except.ok (DataType.readAuto std "1") ≠ _
    unfold DataType.readAuto DataType.readNumber
    have hb : ParseBool "1" = some true := by decide
    cases h : std.ParseFloat "1" <;> simp [h, hb]
  · intro std f h
    show Except.ok (DataType.readAuto std "1") = _
    unfold DataType.readAuto DataType.readNumber
    simp [h]

/-- C24, amended to what the code does: for every string `s`, `Read(Auto, s)`
never fails and returns null when `s` is empty, otherwise a `Float64` value when
`strconv.ParseFloat` accepts `s` (also for a decimal integer literal), otherwise
a `Bool` when `s` is a boolean literal, otherwise the string `s` itself; it
never returns an `Int64`. -/
theorem C24_auto_inference (std : StdLib) (s : String) :
    DataType.Read std DataTypeAuto s =
        .ok (if s = "" then .null
          else match std.ParseFloat s with
            | some f => .float64 f
            | none =>
              match ParseBool s with
              | some b => .bool b
              | none => .string s) ∧
      (∀ n, DataType.Read std DataTypeAuto s ≠ .ok (.int64 n)) := by
  have key : DataType.Read std DataTypeAuto s =
      .ok (if s = "" then .null
        else match std.ParseFloat s with
          | some f => .float64 f
          | none =>
            match ParseBool s with
            | some b => .bool b
            | none => .string s) := by
    show Except.ok (DataType.readAuto std s) = _
    unfold DataType.readAuto DataType.readNumber
    congr 1
    by_cases hs : s = ""
    · simp [hs]
    · simp only [hs, if_false, if_true]
      cases std.ParseFloat s <;> rfl
  refine ⟨key, ?_⟩
  intro n
  rw [key]
  by_cases hs : s = ""
  · simp [hs]
  · simp only [hs, if_false]
    cases std.ParseFloat s with
    | some f => simp
    | none => cases ParseBool s <;> simp

/-- C25: `Read(Bool, s)` never fails: for every string `s` it returns true when
`s` is a true-literal of `strconv.ParseBool` or is `ok` in any letter case,
false when `s` is a false-literal or is `ng` in any letter case, and null, with
no error, for every other input. -/
theorem C25_read_bool (std : StdLib) (s : String) :
    DataType.Read std DataTypeBool s =
      .ok (if s ∈ trueLiterals ∨ s ∈ okSpellings then .bool true
        else if s ∈ falseLiterals ∨ s ∈ ngSpellings then .bool false
        else .null) := by
  have hread : DataType.Read std DataTypeBool s =
      match ParseBool s with
      | some data => .ok (.bool data)
      | none =>
        if ToLower s = "ok" then .ok (.bool true)
        else if ToLower s = "ng" then .ok (.bool false)
        else .ok .null := rfl
  rw [hread]
  have hdisj1 : s ∈ falseLiterals → s ∉ okSpellings := by
    intro h
    simp only [falseLiterals, List.mem_cons, List.mem_singleton, List.not_mem_nil,
      or_false] at h
    rcases h with rfl | rfl | rfl | rfl | rfl | rfl <;> decide
  have hdisj2 : s ∈ ngSpellings → s ∉ okSpellings := by
    intro h
    simp only [ngSpellings, List.mem_cons, List.mem_singleton, List.not_mem_nil,
      or_false] at h
    rcases h with rfl | rfl | rfl | rfl <;> decide
  cases hb : ParseBool s with
  | some b =>
    cases b with
    | true =>
      have := (parseBool_eq_true s).1 hb
      simp [this]
    | false =>
      obtain ⟨h1, h2⟩ := (parseBool_eq_false s).1 hb
      simp [h1, h2, hdisj1 h2]
  | none =>
    have h1 : s ∉ trueLiterals := fun h => by
      rw [(parseBool_eq_true s).2 h] at hb; cases hb
    have h2 : s ∉ falseLiterals := fun h => by
      rw [(parseBool_eq_false s).2 ⟨h1, h⟩] at hb; cases hb
    simp only [toLower_eq_ok, toLower_eq_ng, h1, h2, false_or]
    by_cases hok : s ∈ okSpellings
    · simp [hok]
    · by_cases hng : s ∈ ngSpellings
      · simp [hok, hng]
      · simp [hok, hng]

/-- C26: for every `Float64` value `f`, `MarshalJSON` succeeds and its output
contains a decimal point: it is the fixed-notation text of `f` (what
`strconv.FormatFloat` returns) when that text contains a point, and that text
followed by `.0` otherwise; so the texts `0`, `10` and `10.513` of the examples
are encoded as `0.0`, `10.0` and `10.513`. -/
theorem C26_marshal_has_point (FormatFloat : Float64 → String) (f : Float64) :
    ∃ out, f.MarshalJSON FormatFloat = .ok out ∧ '.' ∈ out.data ∧
      out = (if '.' ∈ (FormatFloat f).data then FormatFloat f else FormatFloat f ++ ".0") ∧
      (FormatFloat f = "0" → out = "0.0") ∧ (FormatFloat f = "10" → out = "10.0") ∧
      (FormatFloat f = "10.513" → out = "10.513") := by
  unfold Float64.MarshalJSON
  by_cases h : '.' ∈ (FormatFloat f).data
  · refine ⟨FormatFloat f, by simp [h], h, by simp [h], ?_, ?_, ?_⟩
    · intro h0; rw [h0] at h; exact absurd h (by decide)
    · intro h0; rw [h0] at h; exact absurd h (by decide)
    · intro h0; exact h0
  · refine ⟨FormatFloat f ++ ".0", by simp [h], by simp, by simp [h], ?_, ?_, ?_⟩
    · intro h0; rw [h0]; rfl
    · intro h0; rw [h0]; rfl
    · intro h0; rw [h0] at h; exact absurd (by decide) h

/-- C27: for every tag `v` from 0 to 5, `getProcessor(v, {})` succeeds (an empty
object decodes into any processor and leaves it as it is) and returns a variant
whose `GetType()` is `v`; for every other tag, negative, 6 or larger,
`getProcessor` fails with an error, whatever the data. -/
theorem C27_processor_type_closure (Unmarshal : String → Processor → Option Processor)
    (hempty : ∀ p, Unmarshal "{}" p = some p) (v : Int) :
    (0 ≤ v ∧ v ≤ 5 →
      ∃ p, getProcessor Unmarshal v "{}" = .ok p ∧ p.GetType.code = v) ∧
    (v < 0 ∨ 6 ≤ v →
      ∀ data, getProcessor Unmarshal v data = .error (.error (.invalidType v))) := by
  constructor
  · rintro ⟨h0, h5⟩
    unfold getProcessor
    interval_cases v <;>
      simp [ProcessorType.code, hempty, bind, Except.bind, pure, Except.pure,
        Processor.GetType]
  · intro h data
    unfold getProcessor
    have h0 : v ≠ 0 := by omega
    have h1 : v ≠ 1 := by omega
    have h2 : v ≠ 2 := by omega
    have h3 : v ≠ 3 := by omega
    have h4 : v ≠ 4 := by omega
    have h5 : v ≠ 5 := by omega
    simp [ProcessorType.code, h0, h1, h2, h3, h4, h5, bind, Except.bind]

/-- C27, at the tag 4 of `TransposeRow` and a decoder that accepts the empty
object only. -/
theorem C27_processor_type_closure_witness :
    ∃ p, getProcessor (fun data p => if data = "{}" then some p else none) 4 "{}" = .ok p ∧
      p.GetType.code = 4 :=
  (C27_processor_type_closure (fun data p => if data = "{}" then some p else none)
    (fun _ => rfl) 4).1 ⟨by decide, by decide⟩

/-- C28: for a non-empty document list `D` and a non-empty parameter list every
path of which resolves in every document (string keys descend into mappings,
integer indices into sequences), `IdField.Process` returns exactly `|D|` ids,
and `ids[n]` is the delimiter-join, in parameter order, of the formatted values
of the parameter paths resolved in `D[n]`; in every other case, that is when `D`
is empty, the parameter list is empty, or some path in some document hits a
missing key, a negative or out-of-range index, or a key or container of the
wrong kind, it returns an error and no ids. -/
theorem C28_id_field_process (Sprint : Any → String) (i : IdField)
    (D : List (List (String × Any))) :
    ((D ≠ [] ∧ i.Parameters ≠ [] ∧
        ∀ d ∈ D, ∀ p ∈ i.Parameters, (resolvePath d p.Mapping).isSome = true) →
      ∃ ids, i.Process Sprint D = .ok ids ∧ ids.length = D.length ∧
        ∀ (n : Nat) (d : List (String × Any)), D[n]? = some d →
          ids[n]? = idOf Sprint i d ∧
          ∃ values, i.Parameters.mapM (fun p => resolvePath d p.Mapping) = some values ∧
            ids[n]? = some (stringsJoin (values.map Sprint) i.Delimiter)) ∧
    (¬ (D ≠ [] ∧ i.Parameters ≠ [] ∧
        ∀ d ∈ D, ∀ p ∈ i.Parameters, (resolvePath d p.Mapping).isSome = true) →
      ∃ e, i.Process Sprint D = .error (.error e)) := by
  constructor
  · rintro ⟨hD, hP, hall⟩
    obtain ⟨ids, hrun, hlen, hids⟩ := idFieldProcess_of_all Sprint i D hD hP
      (fun d hd => (idOf_isSome Sprint i d).2 (hall d hd))
    refine ⟨ids, hrun, hlen, fun n d hd => ⟨hids n d hd, ?_⟩⟩
    have hmem : d ∈ D := List.mem_iff_getElem?.2 ⟨n, hd⟩
    obtain ⟨values, hv⟩ := Option.isSome_iff_exists.1
      ((mapM_option_isSome (fun p => resolvePath d p.Mapping) i.Parameters).2 (hall d hmem))
    refine ⟨values, hv, ?_⟩
    rw [hids n d hd, idOf, hv]; rfl
  · intro hnot
    by_cases hD : D = []
    · subst hD; exact ⟨.dataEmpty, rfl⟩
    by_cases hP : i.Parameters = []
    · refine ⟨.parametersEmpty, ?_⟩
      have hD0 : goLen D ≠ 0 := by
        cases D with
        | nil => exact absurd rfl hD
        | cons a rest => simp [goLen]; omega
      unfold IdField.Process
      rw [if_neg hD0, hP]; rfl
    have hex : ∃ d ∈ D, ∃ p ∈ i.Parameters, ¬ (resolvePath d p.Mapping).isSome = true := by
      by_contra hno
      apply hnot
      refine ⟨hD, hP, fun d hd p hp => ?_⟩
      by_contra hsome
      exact hno ⟨d, hd, p, hp, hsome⟩
    obtain ⟨d, hd, p, hp, hsome⟩ := hex
    have hnone : idOf Sprint i d = none := by
      cases hid : idOf Sprint i d with
      | none => rfl
      | some id =>
        have := (idOf_isSome Sprint i d).1 (by rw [hid]; rfl) p hp
        exact absurd this hsome
    exact idFieldProcess_of_fail Sprint i D d hd hnone

/-- C28, at a document of the tests, with the paths `test2` and
`test3`, 1, `internalTest` joined by `_`, and at a path with a missing key. -/
theorem C28_id_field_process_witness :
    (∃ ids,
      IdField.Process stringsOnly
          { Parameters := [⟨[.key "test2"]⟩, ⟨[.key "test3", .index 1, .key "internalTest"]⟩],
            Delimiter := "_" }
          [[("test2", .scalar (.string "hello")),
            ("test3", .seq [.scalar (.string "test"),
              .map [("internalTest", .scalar (.string "success1"))]])]] = .ok ids ∧
        ids.length = 1 ∧ ids[0]? = some "hello_success1") ∧
    IdField.Process stringsOnly { Parameters := [⟨[.key "test100"]⟩] }
        [[("test2", .scalar (.string "hello"))]] =
      .error (.error (.wrapped "error finding result for mapping %s: %w"
        (.keyNotFound "test100"))) := by
  refine ⟨?_, rfl⟩
  obtain ⟨ids, hrun, hlen, hids⟩ := (C28_id_field_process stringsOnly
    { Parameters := [⟨[.key "test2"]⟩, ⟨[.key "test3", .index 1, .key "internalTest"]⟩],
      Delimiter := "_" }
    [[("test2", .scalar (.string "hello")),
      ("test3", .seq [.scalar (.string "test"),
        .map [("internalTest", .scalar (.string "success1"))]])]]).1
    ⟨List.cons_ne_nil _ _, List.cons_ne_nil _ _, by decide⟩
  exact ⟨ids, hrun, hlen, (hids 0 _ rfl).1.trans (by decide)⟩

/-- C29 fails on the code: the guard is `len(filePath) <= int(f.EndLocation)`, so
a path whose length equals `EndLocation` is refused although the substring
exists; a path one byte longer gives the substring. -/
theorem C29_path_of_length_end (re : RegexpLib) :
    FilePathData.Parse re { Name := "n", StartLocation := 0, EndLocation := 3 } "abc" =
      .error (.error (.pathTooShort 3 3)) ∧
    FilePathData.Parse re { Name := "n", StartLocation := 0, EndLocation := 3 } "abcd" =
      .ok [("n", "abc")] ∧
    stringSlice "abc" 0 3 = .ok "abc" :=
  ⟨rfl, rfl, rfl⟩

/-- C30: `ParseFileNames` works on the path with every backslash replaced by a
forward slash: for every configuration and path `p` it returns for `p` what it
returns for the normalised path, and the normalised path, the only text the
substrings and the capture matches are taken from, contains no backslash. -/
theorem C30_normalised_path (re : RegexpLib) (c : Csv) (p : String) :
    c.ParseFileNames re p = c.ParseFileNames re (replaceBackslashes p) ∧
      '\\' ∉ (replaceBackslashes p).data := by
  refine ⟨?_, replaceBackslashes_free p⟩
  unfold Csv.ParseFileNames
  rw [replaceBackslashes_idem]

/-- C31: for a `CellLocation` with non-negative coordinates, `Parse` returns
`(n, v)` exactly when `n` is `Name`, or the text of the record array at
`NameCell` when `Name` is empty, and `v` is `Read(DataType, text)` for the text
at `Location`; otherwise it returns an error (it does not panic), which happens
exactly when a consulted cell is out of range or the coercion fails; and
`NameCell` has no influence when `Name` is not empty. -/
theorem C31_cell_parse (std : StdLib) (c : CellLocation) (records : Records)
    (hloc : 0 ≤ c.Location.Row ∧ 0 ≤ c.Location.Column)
    (hname : 0 ≤ c.NameCell.Row ∧ 0 ≤ c.NameCell.Column) :
    (∀ n v, c.Parse std records = .ok (n, v) ↔
      (if c.Name = "" then cellAt records c.NameCell = some n else n = c.Name) ∧
        ∃ text, cellAt records c.Location = some text ∧ c.DataType.Read std text = .ok v) ∧
    ((∃ e, c.Parse std records = .error (.error e)) ↔
      (c.Name = "" ∧ cellAt records c.NameCell = none) ∨
        cellAt records c.Location = none ∨
        ∃ text, cellAt records c.Location = some text ∧
          ∃ e, c.DataType.Read std text = .error (.error e)) ∧
    c.Parse std records ≠ .error .panic ∧
    (c.Name ≠ "" → ∀ cell : Cell,
      CellLocation.Parse std { c with NameCell := cell } records = c.Parse std records) := by
  have hparse : c.Parse std records =
      ((if c.Name = "" then
          wrapErr "error finding name for cell: %w" (findValue c.NameCell records)
        else pure c.Name) >>= fun cellName =>
        wrapErr "error finding value for cell: %w" (findValue c.Location records) >>=
          fun value =>
          wrapErr "error converting value to data type: %w" (c.DataType.Read std value) >>=
            fun cellData => pure (cellName, cellData)) := rfl
  -- the three steps, each a value or an error
  have hN : (∃ n, (if c.Name = "" then cellAt records c.NameCell = some n else n = c.Name) ∧
        (if c.Name = "" then
          wrapErr "error finding name for cell: %w" (findValue c.NameCell records)
        else pure c.Name) = .ok n) ∨
      ((c.Name = "" ∧ cellAt records c.NameCell = none) ∧
        ∃ e, (if c.Name = "" then
          wrapErr "error finding name for cell: %w" (findValue c.NameCell records)
        else (pure c.Name : Exec String)) = .error (.error e)) := by
    by_cases hn : c.Name = ""
    · simp only [if_pos hn]
      cases hc : cellAt records c.NameCell with
      | none =>
        obtain ⟨e, he⟩ := findValue_error_of_cellAt hname hc
        exact Or.inr ⟨⟨hn, rfl⟩, _, by rw [he]; rfl⟩
      | some n =>
        exact Or.inl ⟨n, rfl, by rw [findValue_of_cellAt hname hc]; rfl⟩
    · simp only [if_neg hn]
      exact Or.inl ⟨c.Name, rfl, rfl⟩
  have hV : (∃ text, cellAt records c.Location = some text ∧
        wrapErr "error finding value for cell: %w" (findValue c.Location records) =
          .ok text) ∨
      (cellAt records c.Location = none ∧
        ∃ e, wrapErr "error finding value for cell: %w" (findValue c.Location records) =
          .error (.error e)) := by
    cases hc : cellAt records c.Location with
    | none =>
      obtain ⟨e, he⟩ := findValue_error_of_cellAt hloc hc
      exact Or.inr ⟨rfl, _, by rw [he]; rfl⟩
    | some text =>
      exact Or.inl ⟨text, rfl, by rw [findValue_of_cellAt hloc hc]; rfl⟩
  refine ⟨?_, ?_, ?_, ?_⟩
  · intro n v
    rw [hparse]
    rcases hN with ⟨n0, hn0, hrun⟩ | ⟨⟨hn, hnone⟩, e, hrun⟩
    · rw [hrun]
      rcases hV with ⟨text, htext, hrunv⟩ | ⟨hnone, e, hrunv⟩
      · rw [hrunv]
        simp only [bind, Except.bind]
        have hn_iff : (if c.Name = "" then cellAt records c.NameCell = some n
            else n = c.Name) ↔ n = n0 := by
          by_cases hn : c.Name = ""
          · rw [if_pos hn] at hn0 ⊢
            rw [hn0]
            exact ⟨fun h => (Option.some.inj h).symm, fun h => by rw [h]⟩
          · rw [if_neg hn] at hn0 ⊢
            rw [hn0]
        rw [hn_iff]
        rcases read_ok_or_error std c.DataType text with ⟨v0, hv0⟩ | ⟨e, he⟩
        · rw [hv0]
          simp only [wrapErr, pure, Except.pure, Except.ok.injEq, Prod.mk.injEq]
          constructor
          · rintro ⟨h1, h2⟩
            exact ⟨h1.symm, text, htext, by rw [← h2]; exact hv0⟩
          · rintro ⟨h1, text', htext', hv⟩
            rw [htext] at htext'
            cases htext'
            rw [hv0] at hv
            exact ⟨h1.symm, Except.ok.inj hv⟩
        · rw [he]
          simp only [wrapErr]
          constructor
          · intro h; cases h
          · rintro ⟨-, text', htext', hv⟩
            rw [htext] at htext'
            cases htext'
            rw [he] at hv
            cases hv
      · rw [hrunv]
        simp only [bind, Except.bind]
        constructor
        · intro h; cases h
        · rintro ⟨-, text, htext, -⟩
          rw [hnone] at htext
          cases htext
    · rw [hrun]
      simp only [bind, Except.bind]
      constructor
      · intro h; cases h
      · rintro ⟨h1, -⟩
        rw [if_pos hn, hnone] at h1
        cases h1
  · rw [hparse]
    rcases hN with ⟨n0, hn0, hrun⟩ | ⟨⟨hn, hnone⟩, e, hrun⟩
    · rw [hrun]
      have hfirst : ¬ (c.Name = "" ∧ cellAt records c.NameCell = none) := by
        rintro ⟨hn, hnone⟩
        rw [if_pos hn, hnone] at hn0
        cases hn0
      rcases hV with ⟨text, htext, hrunv⟩ | ⟨hnone, e, hrunv⟩
      · rw [hrunv]
        simp only [bind, Except.bind]
        rcases read_ok_or_error std c.DataType text with ⟨v0, hv0⟩ | ⟨e, he⟩
        · rw [hv0]
          simp only [wrapErr, pure, Except.pure]
          constructor
          · rintro ⟨e, h⟩; cases h
          · rintro (h | h | ⟨text', htext', e, he⟩)
            · exact absurd h hfirst
            · rw [htext] at h; cases h
            · rw [htext] at htext'
              cases htext'
              rw [hv0] at he
              cases he
        · rw [he]
          simp only [wrapErr]
          exact ⟨fun _ => Or.inr (Or.inr ⟨text, htext, e, he⟩), fun _ => ⟨_, rfl⟩⟩
      · rw [hrunv]
        simp only [bind, Except.bind]
        exact ⟨fun _ => Or.inr (Or.inl hnone), fun _ => ⟨_, rfl⟩⟩
    · rw [hrun]
      simp only [bind, Except.bind]
      exact ⟨fun _ => Or.inl ⟨hn, hnone⟩, fun _ => ⟨_, rfl⟩⟩
  · rw [hparse]
    rcases hN with ⟨n0, hn0, hrun⟩ | ⟨-, e, hrun⟩
    · rw [hrun]
      rcases hV with ⟨text, htext, hrunv⟩ | ⟨-, e, hrunv⟩
      · rw [hrunv]
        simp only [bind, Except.bind]
        rcases read_ok_or_error std c.DataType text with ⟨v0, hv0⟩ | ⟨e, he⟩
        · rw [hv0]
          simp [wrapErr, pure, Except.pure]
        · rw [he]
          simp [wrapErr]
      · rw [hrunv]
        simp [bind, Except.bind]
    · rw [hrun]
      simp [bind, Except.bind]
  · intro hn cell
    unfold CellLocation.Parse
    simp only [if_neg hn]

/-- C31, at the example of the specification: the name is read at `(0, 0)` and
the value at `(1, 0)`. -/
theorem C31_cell_parse_witness :
    CellLocation.Parse rejectingLib
      { Location := ⟨1, 0⟩, DataType := DataTypeInt64, NameCell := ⟨0, 0⟩ }
      [["A", "B"], ["1", "2"]] = .ok ("A", .int64 1) :=
  ((C31_cell_parse rejectingLib
    { Location := ⟨1, 0⟩, DataType := DataTypeInt64, NameCell := ⟨0, 0⟩ }
    [["A", "B"], ["1", "2"]] ⟨by decide, by decide⟩ ⟨by decide, by decide⟩).1 "A"
      (.int64 1)).2 ⟨rfl, "1", rfl, rfl⟩

/-- C32 fails on the code: `NewCellLocation` tests only whether both are absent.
With the name `a` and the name cell `(2, 2)` both present it returns the
`CellLocation`, which holds both. -/
theorem C32_counterexample :
    ∃ c, NewCellLocation ⟨1, 0⟩ DataTypeString "a" ⟨2, 2⟩ = .ok c ∧
      c.Name ≠ "" ∧ c.NameCell ≠ ⟨0, 0⟩ :=
  ⟨{ Location := ⟨1, 0⟩, DataType := DataTypeString, Name := "a", NameCell := ⟨2, 2⟩ },
    rfl, by decide, by decide⟩

/-- C32, amended to what the code tests: every `CellLocation` that
`NewCellLocation` returns has a name or a name cell (at least one of a non-empty
name and a non-zero name cell), and holds the four arguments; `NewCellLocation`
fails exactly for the argument lists in which neither is present, and returns
when both are. -/
theorem C32_new_cell_location (location nameCell : Cell) (dataType : DataType)
    (name : String) :
    (∀ c, NewCellLocation location dataType name nameCell = .ok c →
      (c.Name ≠ "" ∨ c.NameCell ≠ ⟨0, 0⟩) ∧
        c = { Location := location, DataType := dataType, Name := name,
              NameCell := nameCell }) ∧
    ((∃ e, NewCellLocation location dataType name nameCell = .error (.error e)) ↔
      name = "" ∧ nameCell = ⟨0, 0⟩) ∧
    ((∃ c, NewCellLocation location dataType name nameCell = .ok c) ↔
      name ≠ "" ∨ nameCell ≠ ⟨0, 0⟩) := by
  unfold NewCellLocation
  by_cases h : name = "" ∧ nameCell = ⟨0, 0⟩
  · rw [if_pos h]
    refine ⟨fun c hc => (by cases hc), ⟨fun _ => h, fun _ => ⟨_, rfl⟩⟩, ?_⟩
    constructor
    · rintro ⟨c, hc⟩; cases hc
    · rintro (h1 | h1)
      · exact absurd h.1 h1
      · exact absurd h.2 h1
  · rw [if_neg h]
    have h' : name ≠ "" ∨ nameCell ≠ ⟨0, 0⟩ := by
      by_contra hc
      push_neg at hc
      exact h hc
    refine ⟨fun c hc => ?_, ⟨?_, fun hh => absurd hh h⟩, fun _ => h', fun _ => ⟨_, rfl⟩⟩
    · cases hc
      exact ⟨h', rfl⟩
    · rintro ⟨e, he⟩
      cases he

/-- C33 fails on the code: `NewTableLocation` compares the number of header
names with `endCell.Column - startCell.Column`, one less than the number of
columns `Parse` reads.  For the two columns 0 and 1 it returns a table with one
header name, on which `Parse` panics at the second column of a record array that
covers the range, and it refuses two header names.  Whenever it returns with
header names, their number is `endCell.Column - startCell.Column`. -/
theorem C33_header_names_one_short :
    NewTableLocation "t" ⟨0, 0⟩ ⟨0, 0⟩ ⟨1, 1⟩ false ["a"] false [DataTypeString] false =
      .ok { Name := "t", StartCell := ⟨0, 0⟩, EndCell := ⟨1, 1⟩, HeaderNames := ["a"],
            ColumnDataTypes := [DataTypeString] } ∧
    (∀ std : StdLib, (TableLocation.Parse std
      { Name := "t", StartCell := ⟨0, 0⟩, EndCell := ⟨1, 1⟩, HeaderNames := ["a"],
        ColumnDataTypes := [DataTypeString] }
      [["x", "y"], ["z", "w"]] true).data = .error .panic) ∧
    NewTableLocation "t" ⟨0, 0⟩ ⟨0, 0⟩ ⟨1, 1⟩ false ["a", "b"] false
        [DataTypeString, DataTypeString] false =
      .error (.error (.invalidArgument
        "headerRowNames should have the same number of columns as the table")) ∧
    (∀ (name : String) (nameLocation startCell endCell : Cell) (tableHasHeader : Bool)
      (headerNames : List String) (autoColumnDataTypes : Bool)
      (columnDataTypes : List DataType) (skipBlankData : Bool) (t : TableLocation),
      NewTableLocation name nameLocation startCell endCell tableHasHeader headerNames
        autoColumnDataTypes columnDataTypes skipBlankData = .ok t →
      t.HeaderNames ≠ [] →
      (t.HeaderNames.length : Int) = t.EndCell.Column - t.StartCell.Column) := by
  refine ⟨by decide, fun _ => rfl, by decide, ?_⟩
  intro name nameLocation startCell endCell tableHasHeader headerNames autoColumnDataTypes
    columnDataTypes skipBlankData t ht hne
  unfold NewTableLocation at ht
  split at ht; · cases ht
  split at ht; · cases ht
  split at ht; · cases ht
  split at ht; · cases ht
  split at ht; · cases ht
  split at ht; · cases ht
  rename_i hcount
  split at ht; · cases ht
  split at ht; · cases ht
  split at ht; · cases ht
  simp only [Except.ok.injEq] at ht
  subst ht
  simp only at hne ⊢
  have hpos : goLen headerNames > 0 := by
    cases headerNames with
    | nil => exact absurd rfl hne
    | cons a rest => simp [goLen]
  by_contra hc
  exact hcount ⟨hpos, fun h => hc (by unfold goLen at h; omega)⟩

/-- C34 fails on the code: on the input of the example documented on
`ProcessorFillRight`, with the action of the example, `Execute` fills both cells
of the run of two blanks in the rows 2 and 3 (the second blank takes the cell
just filled), where the documented output leaves the second one blank. -/
theorem C34_documented_example_differs :
    ProcessorFillRight.Execute { Start := ⟨2, 0⟩, End := ⟨4, 4⟩ }
        [["r0c0", "r0c1", "r0c2"],
         ["r1c0", "r1c1", "r1c2", "r1c3"],
         ["r2c0", "r2c1", "", "", "r2c2"],
         ["r3c0", "r3c1", "", "", "r3c2"],
         ["r4c0", "r4c1", "", "", "r4c2"]] =
      .ok [["r0c0", "r0c1", "r0c2"],
           ["r1c0", "r1c1", "r1c2", "r1c3"],
           ["r2c0", "r2c1", "r2c1", "r2c1", "r2c2"],
           ["r3c0", "r3c1", "r3c1", "r3c1", "r3c2"],
           ["r4c0", "r4c1", "", "", "r4c2"]] ∧
    ProcessorFillRight.Execute { Start := ⟨2, 0⟩, End := ⟨4, 4⟩ }
        [["r0c0", "r0c1", "r0c2"],
         ["r1c0", "r1c1", "r1c2", "r1c3"],
         ["r2c0", "r2c1", "", "", "r2c2"],
         ["r3c0", "r3c1", "", "", "r3c2"],
         ["r4c0", "r4c1", "", "", "r4c2"]] ≠
      .ok [["r0c0", "r0c1", "r0c2"],
           ["r1c0", "r1c1", "r1c2", "r1c3"],
           ["r2c0", "r2c1", "r2c1", "", "r2c2"],
           ["r3c0", "r3c1", "r3c1", "", "r3c2"],
           ["r4c0", "r4c1", "", "", "r4c2"]] := by
  constructor <;> decide

/-- C35: `FillRight` is idempotent: when `Execute` succeeds on a record array,
executing the same action on the result succeeds and returns the result
unchanged. -/
theorem C35_fillRight_idempotent (a : ProcessorFillRight) (R R' : Records)
    (h : a.Execute R = .ok R') : a.Execute R' = .ok R' :=
  fillRight_idem h

/-- C35, at a row with a run of two blank cells. -/
theorem C35_fillRight_idempotent_witness :
    ProcessorFillRight.Execute { Start := ⟨0, 0⟩, End := ⟨-1, -1⟩ } [["a", "", " ", "c"]] =
      .ok [["a", "a", "a", "c"]] ∧
    ProcessorFillRight.Execute { Start := ⟨0, 0⟩, End := ⟨-1, -1⟩ } [["a", "a", "a", "c"]] =
      .ok [["a", "a", "a", "c"]] :=
  ⟨by decide,
    C35_fillRight_idempotent { Start := ⟨0, 0⟩, End := ⟨-1, -1⟩ } [["a", "", " ", "c"]]
      [["a", "a", "a", "c"]] (by decide)⟩

/-- C36: `TransposeRow` is undone by transposing the band it produced: for a
record array `R` and a band `[s, e)` inside `R` with `e > s` (`e` being `|R|`
for a negative `endRow`) whose rows all have the length `w >= 1`,
`TransposeRow{s, endRow}` succeeds and `TransposeRow{s, s + w}` on its result
succeeds and returns `R`. -/
theorem C36_transpose_back (R : Records) (s w : Nat) (endRow : Int)
    (hband : s < resolveEndRow endRow R) (hend : resolveEndRow endRow R ≤ R.length)
    (hw : ∀ row ∈ bandRows R s (resolveEndRow endRow R), row.length = w)
    (hw1 : 1 ≤ w) :
    ∃ R', ProcessorTransposeRow.Execute { StartRow := s, EndRow := endRow } R = .ok R' ∧
      ProcessorTransposeRow.Execute { StartRow := s, EndRow := (s : Int) + (w : Int) } R' =
        .ok R :=
  transposeRow_back hband hend
    (fun j row hj1 hj2 hrow => hw row (by
      rw [List.mem_iff_getElem?]
      refine ⟨j - s, ?_⟩
      rw [bandRows_getElem? (by omega)]
      have : s + (j - s) = j := by omega
      rw [this]
      exact hrow))
    hw1

/-- C36, at the example documented on the processor: two rows of three cells. -/
theorem C36_transpose_back_witness :
    ∃ R', ProcessorTransposeRow.Execute { StartRow := 0, EndRow := -1 }
        [["r0c0", "r0c1", "r0c2"], ["r1c0", "r1c1", "r1c2"]] = .ok R' ∧
      ProcessorTransposeRow.Execute { StartRow := 0, EndRow := 3 } R' =
        .ok [["r0c0", "r0c1", "r0c2"], ["r1c0", "r1c1", "r1c2"]] :=
  C36_transpose_back [["r0c0", "r0c1", "r0c2"], ["r1c0", "r1c1", "r1c2"]] 0 3 (-1)
    (by decide) (by decide) (by decide) (by decide)

/-- C37 fails on the code: with `FaultOnDuplicate` set, a separated table whose
`Parse` yields no row but whose name is the key of a cell makes `ParseRecords`
fail, while the configuration without the separated table returns the scalar
document. -/
theorem C37_counterexample :
    (∀ std : StdLib, (TableLocation.Parse std
      { Name := "t", StartCell := ⟨0, 0⟩, EndCell := ⟨-1, -1⟩, TableHasHeader := true,
        ParseSeparated := true, ColumnDataTypes := [DataTypeString] }
      [["h"]] false).data = .ok (.rows [])) ∧
    (∀ std : StdLib, Csv.ParseRecords std
      { CellLocations := [{ Location := ⟨0, 0⟩, DataType := DataTypeString, Name := "t" }],
        TableLocations :=
          [{ Name := "t", StartCell := ⟨0, 0⟩, EndCell := ⟨-1, -1⟩, TableHasHeader := true,
             ParseSeparated := true, ColumnDataTypes := [DataTypeString] }],
        FaultOnDuplicate := true }
      [["h"]] = .error (.error (.duplicateTable "t"))) ∧
    (∀ std : StdLib, Csv.ParseRecords std
      { CellLocations := [{ Location := ⟨0, 0⟩, DataType := DataTypeString, Name := "t" }],
        TableLocations := [],
        FaultOnDuplicate := true }
      [["h"]] = .ok (.document [("t", .scalar (.string "h"))])) :=
  ⟨fun _ => rfl, fun _ => rfl, fun _ => rfl⟩

/-- C37, amended by the duplicate test: when every separated table of a
configuration, parsed on the records its predecessors left, yields no data row
and, with `FaultOnDuplicate` set, none of their resolved names is a key of the
scalar document, `ParseRecords` returns what it returns for the configuration
without the separated tables: the single scalar document when the scalar part
extracts, and never a document list. -/
theorem C37_empty_separated_tables (std : StdLib) (c : Csv) (records : Records)
    (h : ∀ baseData records', c.parseBase std records = .ok (baseData, records') →
      separatedAllEmpty std c.KeepSpaces c.TableLocations records' = true ∧
      (c.FaultOnDuplicate = true →
        separatedNamesFresh std c.KeepSpaces baseData c.TableLocations records' = true)) :
    c.ParseRecords std records = c.withoutSeparated.ParseRecords std records ∧
    (∀ baseData records', c.parseBase std records = .ok (baseData, records') →
      c.ParseRecords std records = .ok (.document baseData)) ∧
    (∀ docs, c.ParseRecords std records ≠ .ok (.documents docs)) := by
  have hwithout : c.withoutSeparated.ParseRecords std records =
      (c.parseBase std records >>= fun base => pure (.document base.1)) := by
    unfold Csv.ParseRecords
    rw [parseBase_withoutSeparated]
    cases c.parseBase std records with
    | error f => rfl
    | ok base =>
      simp only [bind, Except.bind]
      rw [separatedFold_withoutSeparated]
      rfl
  have hwith : c.ParseRecords std records =
      (c.parseBase std records >>= fun base => pure (.document base.1)) := by
    unfold Csv.ParseRecords
    cases hb : c.parseBase std records with
    | error f => rfl
    | ok base =>
      obtain ⟨hempty, hfresh⟩ := h base.1 base.2 hb
      obtain ⟨records', hfold⟩ := separatedFold_empty std c base.1 c.TableLocations
        (([] : List Doc), base.2) hempty hfresh
      simp only [bind, Except.bind]
      rw [hfold]
      rfl
  refine ⟨by rw [hwith, hwithout], ?_, ?_⟩
  · intro baseData records' hb
    rw [hwith, hb]
    rfl
  · intro docs hdocs
    rw [hwith] at hdocs
    cases hb : c.parseBase std records with
    | error f => rw [hb] at hdocs; cases hdocs
    | ok base => rw [hb] at hdocs; cases hdocs

/-- C37 amended, at a cell and a separated table that has a header row and no
data row. -/
theorem C37_empty_separated_tables_witness :
    Csv.ParseRecords rejectingLib
      { CellLocations := [{ Location := ⟨0, 0⟩, DataType := DataTypeString, Name := "c" }],
        TableLocations :=
          [{ Name := "t", StartCell := ⟨0, 0⟩, EndCell := ⟨-1, -1⟩, TableHasHeader := true,
             ParseSeparated := true, ColumnDataTypes := [DataTypeString] }],
        FaultOnDuplicate := true }
      [["h"]] = .ok (.document [("c", .scalar (.string "h"))]) :=
  (C37_empty_separated_tables rejectingLib
    { CellLocations := [{ Location := ⟨0, 0⟩, DataType := DataTypeString, Name := "c" }],
      TableLocations :=
        [{ Name := "t", StartCell := ⟨0, 0⟩, EndCell := ⟨-1, -1⟩, TableHasHeader := true,
           ParseSeparated := true, ColumnDataTypes := [DataTypeString] }],
      FaultOnDuplicate := true }
    [["h"]]
    (fun baseData records' hb => by
      have hb' : (Except.ok (([("c", DocValue.scalar (.string "h"))] : Doc),
          ([["h"]] : Records)) : Exec (Doc × Records)) = .ok (baseData, records') := hb
      cases hb'
      exact ⟨rfl, fun _ => rfl⟩)).2.1 _ _ rfl

/-- C38: in the array mode the result of `Parse` does not depend on
`SkipBlankData`: for every table with `ParseAsArray` and every record array,
`Parse` with `SkipBlankData` set and unset return the same name, data or
failure, and records; and every column vector of a result has one slot per data
row, slot `k` holding what `Read` returns for the cell of data row `k`, null
included. -/
theorem C38_array_skip_blank (std : StdLib) (t : TableLocation) (records : Records)
    (keepSpaces : Bool) (hmode : t.ParseAsArray = true) :
    TableLocation.Parse std { t with SkipBlankData := true } records keepSpaces =
      TableLocation.Parse std { t with SkipBlankData := false } records keepSpaces ∧
    ∀ h cols, t.parseTableHeader records keepSpaces = .ok h →
      (t.Parse std records keepSpaces).data = .ok (.columns cols) →
      ∀ kv ∈ cols, (kv.2.length : Int) = h.tableDims.dataRows ∧
        ∃ (column : Int) (dataType : DataType), ∀ k : Nat, (k : Int) < h.tableDims.dataRows →
          ∃ text v, index2 h.records (h.tableDims.startRow + k) column = .ok text ∧
            dataType.Read std text = .ok v ∧ kv.2[k]? = some v := by
  refine ⟨parse_array_skip std t true records keepSpaces hmode, ?_⟩
  intro h cols hh hdata
  have heta : t.Parse std records keepSpaces =
      TableLocation.Parse std { t with SkipBlankData := t.SkipBlankData } records keepSpaces :=
    rfl
  rw [heta, parse_array_skip std t t.SkipBlankData records keepSpaces hmode] at hdata
  have hh0 : TableLocation.parseTableHeader { t with SkipBlankData := false } records
      keepSpaces = .ok h := hh
  rw [parse_of_header_ok hh0] at hdata
  have hm : TableLocation.ParseAsArray { t with SkipBlankData := false } = true := hmode
  simp only [tableDataOf] at hdata
  rw [if_pos hm] at hdata
  cases hrun : TableLocation.parseTableDataArray std { t with SkipBlankData := false }
      h.tableDims h.records h.headers with
  | error f =>
    rw [hrun] at hdata
    cases f <;> cases hdata
  | ok cols' =>
    rw [hrun] at hdata
    have : cols' = cols := by
      simp only [Except.map, wrapErr, Except.ok.injEq, TableData.columns.injEq] at hdata
      exact hdata
    subst this
    exact parseTableDataArray_slots std _ rfl h.tableDims h.records h.headers cols' hrun

/-- C38, at a column with a blank cell read as `Auto`: its slot is null with and
without `SkipBlankData`. -/
theorem C38_array_skip_blank_witness :
    (TableLocation.Parse rejectingLib
      { Name := "t", StartCell := ⟨0, 0⟩, EndCell := ⟨-1, -1⟩, TableHasHeader := true,
        AutoColumnDataTypes := true, ParseAsArray := true, SkipBlankData := true }
      [["h"], [""], ["x"]] true).data = .ok (.columns [("h", [.null, .string "x"])]) ∧
    TableLocation.Parse rejectingLib
      { Name := "t", StartCell := ⟨0, 0⟩, EndCell := ⟨-1, -1⟩, TableHasHeader := true,
        AutoColumnDataTypes := true, ParseAsArray := true, SkipBlankData := true }
      [["h"], [""], ["x"]] true =
    TableLocation.Parse rejectingLib
      { Name := "t", StartCell := ⟨0, 0⟩, EndCell := ⟨-1, -1⟩, TableHasHeader := true,
        AutoColumnDataTypes := true, ParseAsArray := true, SkipBlankData := false }
      [["h"], [""], ["x"]] true :=
  ⟨by decide,
    (C38_array_skip_blank rejectingLib
      { Name := "t", StartCell := ⟨0, 0⟩, EndCell := ⟨-1, -1⟩, TableHasHeader := true,
        AutoColumnDataTypes := true, ParseAsArray := true }
      [["h"], [""], ["x"]] true rfl).1⟩

/-- C39: a `ConcatCellLocation` with exactly one cell returns `(name, value)` on
a record array exactly when the `CellLocation` with the same location, data
type, name and name cell returns it, whatever the delimiter; the two calls also
fail together, with an error or with a panic (the texts of the errors differ). -/
theorem C39_concat_single_cell (std : StdLib) (records : Records) (location nameCell : Cell)
    (delimiter name : String) (dataType : DataType) :
    (∀ r, ConcatCellLocation.Parse std
        { Cells := [location], Delimiter := delimiter, Name := name, NameCell := nameCell,
          DataType := dataType } records = .ok r ↔
      CellLocation.Parse std
        { Location := location, DataType := dataType, Name := name, NameCell := nameCell }
        records = .ok r) ∧
    ((∃ e, ConcatCellLocation.Parse std
        { Cells := [location], Delimiter := delimiter, Name := name, NameCell := nameCell,
          DataType := dataType } records = .error (.error e)) ↔
      ∃ e, CellLocation.Parse std
        { Location := location, DataType := dataType, Name := name, NameCell := nameCell }
        records = .error (.error e)) ∧
    (ConcatCellLocation.Parse std
        { Cells := [location], Delimiter := delimiter, Name := name, NameCell := nameCell,
          DataType := dataType } records = .error .panic ↔
      CellLocation.Parse std
        { Location := location, DataType := dataType, Name := name, NameCell := nameCell }
        records = .error .panic) := by
  have hjoin : ∀ v : String, stringsJoin [v] delimiter = v := fun _ => rfl
  unfold ConcatCellLocation.Parse CellLocation.Parse
  simp only [mapM_singleton_exec]
  generalize (if name = "" then
      wrapErr "error finding name for cell: %w" (findValue nameCell records)
    else (pure name : Exec String)) = nameStep
  cases nameStep with
  | error f =>
    cases f with
    | error e => simp [bind, Except.bind]
    | panic => simp [bind, Except.bind]
  | ok n =>
    cases hv : findValue location records with
    | error f =>
      cases f with
      | error e => simp [bind, Except.bind, wrapErr]
      | panic => simp [bind, Except.bind, wrapErr]
    | ok text =>
      simp only [bind, Except.bind, wrapErr, pure, Except.pure, hjoin]
      cases hr : dataType.Read std text with
      | error f =>
        cases f with
        | error e => simp
        | panic => simp
      | ok v => simp

/-- C40 fails on the code: only the row-oriented mode reads the cells through
`findValue`.  On a record array whose data row is shorter than the header row,
the array mode and the single-row mode index `records[row][column]` and panic,
where the row-oriented mode returns an error.  The row-oriented mode panics too:
on a header row shorter than the column range (the slice expression), with
fewer column types than columns, and with a start row beyond the records and
supplied header names (`make` with a negative length). -/
theorem C40_parse_panics_on_ragged_input (std : StdLib) :
    (TableLocation.Parse std
      { Name := "t", StartCell := ⟨0, 0⟩, EndCell := ⟨-1, -1⟩, TableHasHeader := true,
        ParseAsArray := true, ColumnDataTypes := [DataTypeString, DataTypeString] }
      [["a", "b"], ["1"]] true).data = .error .panic ∧
    (TableLocation.Parse std
      { Name := "t", StartCell := ⟨0, 0⟩, EndCell := ⟨-1, -1⟩, TableHasHeader := true,
        ParseSingleRow := true, ColumnDataTypes := [DataTypeString, DataTypeString] }
      [["a", "b"], ["1"]] true).data = .error .panic ∧
    (TableLocation.Parse std
      { Name := "t", StartCell := ⟨0, 0⟩, EndCell := ⟨-1, -1⟩, TableHasHeader := true,
        ColumnDataTypes := [DataTypeString, DataTypeString] }
      [["a", "b"], ["1"]] true).data =
      .error (.error (.wrapped "error parsing table %s: %w"
        (.wrapped "error finding value for cell (%d, %d) with header (%v): %w"
          (.columnOutOfBounds 1 1)))) ∧
    (TableLocation.Parse std
      { Name := "t", StartCell := ⟨0, 0⟩, EndCell := ⟨1, 2⟩, TableHasHeader := true,
        ColumnDataTypes := [DataTypeString, DataTypeString, DataTypeString] }
      [["a", "b"], ["1", "2"]] true).data = .error .panic ∧
    (TableLocation.Parse std
      { Name := "t", StartCell := ⟨0, 0⟩, EndCell := ⟨-1, -1⟩, TableHasHeader := true,
        ColumnDataTypes := [DataTypeString] }
      [["a", "b"], ["1", "2"]] true).data = .error .panic ∧
    (TableLocation.Parse std
      { Name := "t", StartCell := ⟨3, 0⟩, EndCell := ⟨0, 1⟩, HeaderNames := ["a", "b"],
        ColumnDataTypes := [DataTypeString, DataTypeString] }
      [["1", "2"]] true).data = .error .panic :=
  ⟨rfl, rfl, rfl, rfl, rfl, rfl⟩

end CsvParse
